import Mathlib

/-!
# Sinister-file parser, team loader, battle engine and controller (shared.c, team.c, controller.c)

A shallow embedding of the rulebook ("sinister file") parser of `shared.c`,
of the team side of `team.c` (`get_effectiveness`, the team-file loader,
the battle engine and the message loop of simulation mode) and of the rounds
of `controller.c` (`connect_team`, `get_grouped_teams`, `send_battle_messages`,
`read_donefighting_messages`, `process_wherenow_messages`).

Conventions of the embedding.

* A C string is the list of its characters before the terminating NUL.
* A `FILE *` opened for reading is the list of characters still to be read;
  what is written to a stream is the list of characters written so far.
* A `Type *` is the index of the type in `game->types`, an `Attack *` the
  index of the attack in `game->attacks`, an `Agent *` the index of the agent
  in `game->agents`: the arrays only ever grow at the end, so an index names
  the same object for the rest of the run.
* A circular list (the attacks of a member, the directions of a team) is the
  list of its nodes from the first one, with a cursor that is an index into
  it; following `next` adds one to the cursor modulo the length.
* `malloc`/`realloc` never fail.  The functions named as in the C code take
  a line as the string that `read_line` stores at index 0 of the buffer of
  its caller, and read a string that starts behind the end of the line as
  empty; a `NULL` token takes the failure exit of its caller.  This is what
  the C code does on a line of fewer than `buffer - 1` characters as long as
  it reads inside the line.  The definitions with the suffix `_buffer` take
  the bytes of the buffer, old bytes behind the NUL of the line included, and
  those with the suffix `_checked` return `none` where the outcome depends on
  such bytes or on the pointer that `read_line` has reallocated.
* Functions that mutate `game` and return an `int` status return the pair of
  the status and the mutated game.
* A function of `team.c` that can end the program or the thread returns an
  `Except Stop`: `Stop` says how the run ended.  `atoi` is that of glibc on
  an LP64 machine.
* What `controller.c` names as `team.c` does is in `Controller.`.  A `Team *`
  of the controller is the index of the team in `sim->teams`; a function that
  changes the simulation returns the new simulation, also when it ends the
  controller.  The field `log` of a simulation records the calls of `read_msg`
  on the streams of the teams.
-/

namespace Sinister

set_option maxRecDepth 100000

/-! ## Data model and operations -/

/-- Number of possible attacks per agent (`LEGAL_ATTACKS`). -/
def LEGAL_ATTACKS : Nat := 3

/-- The `enum Effectiveness` of shared.h. -/
inductive Effectiveness where
  | LOW
  | NORMAL
  | HIGH
  deriving DecidableEq, Repr

/-- Numeric value of an effectiveness level: `HIGH = 3, NORMAL = 2, LOW = 1`. -/
def Effectiveness.val : Effectiveness → Nat
  | .HIGH => 3
  | .NORMAL => 2
  | .LOW => 1

/-- The array `char *effectiveness[3]` of `struct Type`: `e0`, `e1`, `e2` are
the slots at index 0, 1 and 2; a slot is `none` while it holds no string. -/
structure EffArray where
  e0 : Option (List Char)
  e1 : Option (List Char)
  e2 : Option (List Char)
  deriving DecidableEq, Repr

/-- Read of `effectiveness[i]`. -/
def EffArray.get (e : EffArray) : Nat → Option (List Char)
  | 0 => e.e0
  | 1 => e.e1
  | 2 => e.e2
  | _ => none

/-- Write of `effectiveness[i]`. -/
def EffArray.set (e : EffArray) (i : Nat) (v : Option (List Char)) : EffArray :=
  match i with
  | 0 => { e with e0 := v }
  | 1 => { e with e1 := v }
  | 2 => { e with e2 := v }
  | _ => e

/-- The `struct Type` of shared.h.  `lower` and `higher` are the arrays of
type pointers; `numLower`/`numHigher` are the lengths of the lists. -/
structure TypeRec where
  name : List Char
  effectiveness : EffArray
  lower : List Nat
  higher : List Nat
  deriving DecidableEq, Repr

/-- The `Attack` struct of shared.h. -/
structure Attack where
  name : List Char
  type : Nat
  deriving DecidableEq, Repr

/-- The `Agent` struct of shared.h. -/
structure Agent where
  name : List Char
  type : Nat
  legalAttacks : List Nat
  deriving DecidableEq, Repr

/-- The rulebook part of the `Game` struct of shared.h. -/
structure Game where
  types : List TypeRec
  agents : List Agent
  attacks : List Attack
  deriving DecidableEq, Repr

instance : Inhabited TypeRec := ⟨⟨[], ⟨none, none, none⟩, [], []⟩⟩

instance : Inhabited Attack := ⟨⟨[], 0⟩⟩

/-- Dereference of a `Type *`. -/
def Game.typeAt (game : Game) (i : Nat) : TypeRec := game.types.getD i default

/-- Dereference of an `Attack *`. -/
def Game.attackAt (game : Game) (i : Nat) : Attack := game.attacks.getD i default

/-- Function `new_game`: no types, agents or attacks. -/
def new_game : Game := ⟨[], [], []⟩

/-- Function `new_type`: no relations, `effectiveness[0] = NULL` (the two other slots,
left uninitialised by the C code, are empty as well). -/
def new_type (name : List Char) : TypeRec := ⟨name, ⟨none, none, none⟩, [], []⟩

/-- The search loop shared by `get_type`, `get_attack` and `get_agent`: index
of the first entry whose name compares equal (`strcmp(...) == 0`). -/
def find_name : List (List Char) → List Char → Option Nat
  | [], _ => none
  | x :: xs, n => if x = n then some 0 else (find_name xs n).map (· + 1)

/-- Function `get_type`: the first type with the given name, `none` for `NULL`. -/
def get_type (game : Game) (typeName : List Char) : Option Nat :=
  find_name (game.types.map (·.name)) typeName

/-- Function `get_attack`: the first attack with the given name. -/
def get_attack (game : Game) (name : List Char) : Option Nat :=
  find_name (game.attacks.map (·.name)) name

/-- Function `get_agent`: the first agent with the given name. -/
def get_agent (game : Game) (name : List Char) : Option Nat :=
  find_name (game.agents.map (·.name)) name

/-- Function `get_token`: the part of `message` before the first `delimiter`, the whole
message when there is none. -/
def get_token (message : List Char) (delimiter : Char) : List Char :=
  message.takeWhile (fun c => decide (c ≠ delimiter))

/-- Function `get_token_update_pos`: `NULL` when `pos` is not within the string, else
the token from `line[pos]` up to the delimiter, with `pos` moved past the
delimiter.  Returns the token and the new value of `*pos`. -/
def get_token_update_pos (line : List Char) (delimiter : Char) (pos : Nat) :
    Option (List Char) × Nat :=
  if pos ≥ line.length then (none, pos)
  else
    let token := get_token (line.drop pos) delimiter
    (some token, pos + (token.length + 1))

/-- Function `read_line`: the characters up to the next newline (which is consumed) or
the end of the stream; as a C string the result stops at the first NUL.
Returns the line and the rest of the stream.  The line is the string at index
0 of the buffer of the caller as long as it has fewer than `buffer - 1`
characters; `read_line_buffer` gives the bytes of the buffer and says when
the pointer of the caller is lost. -/
def read_line (file : List Char) : List Char × List Char :=
  (get_token (get_token file '\n') '\x00',
    (file.dropWhile (fun c => decide (c ≠ '\n'))).tail)

/-- Function `read_type_name`: a line without a space is a new type. -/
def read_type_name (game : Game) (line : List Char) : Int × Game :=
  let name := line
  let token := get_token name ' '
  if name ≠ token ∨ name.length = 0 then (-1, game)
  else (0, { game with types := game.types ++ [new_type name] })

/-- The `while (pos < strlen(line))` loop of `read_relation_strings`, acting
on the type record `t` that `type` points to.  `fuel` bounds the number of
iterations; every iteration moves `pos` forward, so `strlen(line)` is enough.
Returns the status, the mutated record and `pos`. -/
def read_relation_loop (game : Game) (line : List Char) :
    Nat → Nat → TypeRec → Int × TypeRec × Nat
  | 0, pos, t => (if pos < line.length then -1 else 0, t, pos)
  | fuel + 1, pos, t =>
    if pos < line.length then
      match get_token_update_pos line ' ' pos with
      | (none, pos1) => (-1, t, pos1)
      | (some relation, pos1) =>
        if relation.length < 2 then (-1, t, pos1)
        else
          match get_type game (relation.drop 1) with
          | none => (-1, t, pos1)
          | some related =>
            match relation.head? with
            | some '+' =>
              read_relation_loop game line fuel pos1
                { t with higher := t.higher ++ [related] }
            | some '-' =>
              read_relation_loop game line fuel pos1
                { t with lower := t.lower ++ [related] }
            | some '=' => read_relation_loop game line fuel pos1 t
            | _ => (-1, t, pos1)
    else (0, t, pos)

/-- Function `read_relation_strings`.  The type record is read once and written
back after the loop; `get_type` only reads names, which the loop does not
change.  A `NULL` type name (empty line, never passed by
`read_section`) is reported as the invalid-type failure. -/
def read_relation_strings (game : Game) (line : List Char) : Int × Game :=
  match get_token_update_pos line ' ' 0 with
  | (none, _) => (-1, game)
  | (some typeName, pos) =>
    match get_type game typeName with
    | none => (-1, game)
    | some type =>
      let t := game.typeAt type
      if t.lower.length > 0 ∨ t.higher.length > 0 then (-1, game)
      else
        let res := read_relation_loop game line line.length pos t
        let game1 := { game with types := game.types.set type res.2.1 }
        if res.1 ≠ 0 then (res.1, game1)
        else if line.getLast? = some ' ' then (-1, game1)
        else (0, game1)

/-- The `for (int i = 2; i >= 0; i--)` loop of `read_effectiveness_strings`;
the first argument is `i + 1`. -/
def read_effectiveness_loop (line : List Char) :
    Nat → Nat → TypeRec → Int × TypeRec × Nat
  | 0, pos, t => (0, t, pos)
  | i + 1, pos, t =>
    if pos ≥ line.length then (-1, t, pos)
    else
      match get_token_update_pos line ' ' pos with
      | (token, pos1) =>
        let t1 := { t with effectiveness := t.effectiveness.set i token }
        if (token.getD []).length = 0 then (-1, t1, pos1)
        else read_effectiveness_loop line i pos1 t1

/-- Function `read_effectiveness_strings`.  A `NULL` type name (empty line,
never passed by `read_section`) is reported as the invalid-type failure. -/
def read_effectiveness_strings (game : Game) (line : List Char) : Int × Game :=
  match get_token_update_pos line ' ' 0 with
  | (none, _) => (-1, game)
  | (some typeName, pos) =>
    match get_type game typeName with
    | none => (-1, game)
    | some type =>
      let t := game.typeAt type
      if (t.effectiveness.get 0).isSome then (-1, game)
      else
        match read_effectiveness_loop line 3 pos t with
        | (r, t1, pos1) =>
          let game1 := { game with types := game.types.set type t1 }
          if r ≠ 0 then (r, game1)
          else if pos1 < line.length ∨ line.getLast? = some ' ' then (-1, game1)
          else (0, game1)

/-- Function `read_attack`.  `&line[strlen(attackName) + 1]` past the end of the line
is read as the empty string; `read_attack_checked` marks the lines on which
the C code reads old bytes of the buffer there. -/
def read_attack (game : Game) (line : List Char) : Int × Game :=
  let attackName := get_token line ' '
  let typeName := get_token (line.drop (attackName.length + 1)) '\x00'
  if (get_attack game attackName).isSome ∨ attackName.length = 0 ∨
      typeName.length = 0 then (-1, game)
  else
    match get_type game typeName with
    | none => (-1, game)
    | some type =>
      (0, { game with attacks := game.attacks ++ [⟨attackName, type⟩] })

/-- The `for (int i = 0; i < LEGAL_ATTACKS; i++)` loop of `read_agent`; the
first argument is the number of attacks still to read, `legal` the attacks
stored so far.  Returns `none` on the two `return -1` exits. -/
def read_agent_loop (game : Game) (line : List Char) :
    Nat → Nat → List Nat → Option (List Nat × Nat)
  | 0, pos, legal => some (legal, pos)
  | n + 1, pos, legal =>
    if pos ≥ line.length then none
    else
      match get_token_update_pos line ' ' pos with
      | (none, _) => none
      | (some attackName, pos1) =>
        match get_attack game attackName with
        | none => none
        | some attack => read_agent_loop game line n pos1 (legal ++ [attack])

/-- Function `read_agent`.  A `NULL` name (empty line) takes the first `return -1`. -/
def read_agent (game : Game) (line : List Char) : Int × Game :=
  match get_token_update_pos line ' ' 0 with
  | (none, _) => (-1, game)
  | (some name, pos) =>
    if pos ≥ line.length ∨ name.length = 0 ∨ (get_agent game name).isSome then
      (-1, game)
    else
      match get_token_update_pos line ' ' pos with
      | (none, _) => (-1, game)
      | (some typeName, pos1) =>
        match get_type game typeName with
        | none => (-1, game)
        | some type =>
          match read_agent_loop game line LEGAL_ATTACKS pos1 [] with
          | none => (-1, game)
          | some (legal, pos2) =>
            if line.getLast? = some ' ' ∨ pos2 < line.length then (-1, game)
            else (0, { game with agents := game.agents ++ [⟨name, type, legal⟩] })

/-- The `while (true)` loop of `read_section`.  Every iteration that continues
has read a non-empty line, so `fuel` larger than the length of the stream is
never used up.  Returns the status, the game and the rest of the stream. -/
def read_section_loop (processLine : Game → List Char → Int × Game) :
    Nat → Game → List Char → Int × Game × List Char
  | 0, game, file => (-1, game, file)
  | fuel + 1, game, file =>
    match read_line file with
    | (line, rest) =>
      if line.length = 0 then (-1, game, rest)
      else if line = ['.'] then (0, game, rest)
      else if line.head? = some '#' then
        read_section_loop processLine fuel game rest
      else
        let result := processLine game line
        if result.1 ≠ 0 then (result.1, result.2, rest)
        else read_section_loop processLine fuel result.2 rest

/-- Function `read_section`: the loop started with enough fuel for the whole
stream. -/
def read_section (game : Game) (file : List Char)
    (processLine : Game → List Char → Int × Game) : Int × Game × List Char :=
  read_section_loop processLine (file.length + 1) game file

/-- Function `read_sinister_file`: the five sections in order, then the checks that
every category has data and that every type has `effectiveness[0]` set. -/
def read_sinister_file (game : Game) (file : List Char) : Int × Game × List Char :=
  let s1 := read_section game file read_type_name
  if s1.1 ≠ 0 then (-1, s1.2.1, s1.2.2)
  else
    let s2 := read_section s1.2.1 s1.2.2 read_effectiveness_strings
    if s2.1 ≠ 0 then (-1, s2.2.1, s2.2.2)
    else
      let s3 := read_section s2.2.1 s2.2.2 read_relation_strings
      if s3.1 ≠ 0 then (-1, s3.2.1, s3.2.2)
      else
        let s4 := read_section s3.2.1 s3.2.2 read_attack
        if s4.1 ≠ 0 then (-1, s4.2.1, s4.2.2)
        else
          let s5 := read_section s4.2.1 s4.2.2 read_agent
          if s5.1 ≠ 0 then (-1, s5.2.1, s5.2.2)
          else if s5.2.1.types.length ≤ 0 ∨ s5.2.1.agents.length ≤ 0 ∨
              s5.2.1.attacks.length ≤ 0 then (-1, s5.2.1, s5.2.2)
          else if s5.2.1.types.any
              (fun type => (type.effectiveness.get 0).isNone) then (-1, s5.2.1, s5.2.2)
          else (0, s5.2.1, s5.2.2)

/-- Function `get_effectiveness` of team.c: `LOW` when the opponent's type name is the
name of a type in the attack type's `lower` array, else `HIGH` when it is the
name of one in its `higher` array, else `NORMAL`. -/
def get_effectiveness (game : Game) (attack : Attack) (opponent : Agent) :
    Effectiveness :=
  let atype := game.typeAt attack.type
  let oname := (game.typeAt opponent.type).name
  if atype.lower.any (fun i => decide ((game.typeAt i).name = oname)) then .LOW
  else if atype.higher.any (fun i => decide ((game.typeAt i).name = oname)) then .HIGH
  else .NORMAL

/-- The rulebook of the "rulebook golden" scenario. -/
def goldenText : List Char :=
  ("fire\nwater\ngrass\n.\n" ++
   "fire weak normal super\nwater weak normal super\ngrass weak normal super\n.\n" ++
   "water +fire\nfire +grass\ngrass +water\n.\n" ++
   "splash water\nember fire\nvine grass\n.\n" ++
   "A water splash splash splash\nB fire ember ember ember\nC grass vine vine vine\n.\n").toList

/-- A game with one type and one attack, and no agent yet. -/
def agentGame : Game :=
  ⟨[⟨"water".toList, ⟨some "c".toList, some "b".toList, some "a".toList⟩, [], []⟩], [],
    [⟨"splash".toList, 0⟩]⟩

/-- A game with the single type `fire`, which has no strings yet. -/
def effGame : Game := ⟨[new_type "fire".toList], [], []⟩

/-- The line made of the given tokens separated by single spaces. -/
def spaced : List (List Char) → List Char
  | [] => []
  | [r] => r
  | r :: r' :: rs => r ++ ' ' :: spaced (r' :: rs)

/-- The `X` of the items `cX` (`c` one of `+`, `-`, `=`) among the items of a
relation line, in line order. -/
def relation_targets (c : Char) (items : List (List Char)) : List (List Char) :=
  (items.filter (fun r => decide (r.head? = some c))).map (List.drop 1)

/-- The body of the loop of `read_relation_strings`, item by item. -/
def apply_relations (game : Game) : List (List Char) → TypeRec → Int × TypeRec
  | [], t => (0, t)
  | relation :: rs, t =>
    if relation.length < 2 then (-1, t)
    else
      match get_type game (relation.drop 1) with
      | none => (-1, t)
      | some related =>
        match relation.head? with
        | some '+' => apply_relations game rs { t with higher := t.higher ++ [related] }
        | some '-' => apply_relations game rs { t with lower := t.lower ++ [related] }
        | some '=' => apply_relations game rs t
        | _ => (-1, t)

/-- A game with the two types `a` and `b`, neither with relations yet. -/
def relGame : Game := ⟨[new_type "a".toList, new_type "b".toList], [], []⟩

/-- The lines of a text: the pieces between newline characters, each cut at
its first NUL as a C string is. -/
def file_lines (f : List Char) : List (List Char) :=
  (f.splitOn '\n').map (fun l => get_token l '\x00')

/-- The lines of a text that come before its first blank line, or all its
lines when none is blank (the end of the text counts as a blank line). -/
def lines_before_blank (f : List Char) : List (List Char) :=
  (file_lines f).takeWhile (fun l => decide (l ≠ []))

/-- The text `f'` is the text `f`, possibly with one comment line `#c`
inserted at the start of a line. -/
def comment_inserted (f f' : List Char) : Prop :=
  f' = f ∨ ∃ pre post c : List Char, (pre = [] ∨ pre.getLast? = some '\n') ∧ '\n' ∉ c ∧
    f = pre ++ post ∧ f' = pre ++ ('#' :: c ++ '\n' :: post)

/-- The array of types is well formed: names are non-empty and space-free; a
type whose `effectiveness[0]` is set has three non-empty strings; of two types
with the same name the later one has no strings; relation lists point into
the array. -/
def TypesOK (ts : List TypeRec) : Prop :=
  (∀ t ∈ ts, t.name ≠ [] ∧ ' ' ∉ t.name) ∧
  (∀ t ∈ ts, t.effectiveness.get 0 ≠ none →
    ∃ a b c, t.effectiveness = ⟨some a, some b, some c⟩ ∧ a ≠ [] ∧ b ≠ [] ∧ c ≠ []) ∧
  (∀ a b, a < b → b < ts.length → (ts.getD a default).name = (ts.getD b default).name →
    (ts.getD b default).effectiveness.get 0 = none) ∧
  (∀ t ∈ ts, (∀ j ∈ t.lower, j < ts.length) ∧ (∀ j ∈ t.higher, j < ts.length))

/-- The array of attacks is well formed, for `n` types: names are non-empty,
space-free and pairwise distinct, and every attack's type is one of the `n`. -/
def AttacksOK (n : Nat) (attacks : List Attack) : Prop :=
  (∀ a ∈ attacks, a.name ≠ [] ∧ ' ' ∉ a.name ∧ a.type < n) ∧
  (attacks.map (·.name)).Nodup

/-- The array of agents is well formed, for `n` types and `m` attacks. -/
def AgentsOK (n m : Nat) (agents : List Agent) : Prop :=
  (∀ o ∈ agents, o.name ≠ [] ∧ ' ' ∉ o.name ∧ o.type < n ∧ o.legalAttacks.length = 3 ∧
    ∀ x ∈ o.legalAttacks, x < m) ∧
  (agents.map (·.name)).Nodup

/-- The invariant of the game that every accepted line preserves. -/
def WellFormed (g : Game) : Prop :=
  TypesOK g.types ∧ AttacksOK g.types.length g.attacks ∧
    AgentsOK g.types.length g.attacks.length g.agents

/-- Two types of the game have the same name. -/
def HasDuplicateType (g : Game) : Prop := ¬ (g.types.map (·.name)).Nodup

/-- A rulebook whose Types section declares `fire` twice. -/
def duplicateTypeText : List Char :=
  ("fire\nwater\nfire\n.\nfire a b c\nwater a b c\n.\nfire\n.\n" ++
   "ember fire\n.\nA fire ember ember ember\n.\n").toList

/-- The effectiveness of the attack named `attackName` against the agent named
`agentName`, both looked up with `get_attack` and `get_agent`. -/
def effectiveness_by_name (game : Game) (attackName agentName : List Char) :
    Option Effectiveness :=
  match get_attack game attackName, get_agent game agentName with
  | some a, some o =>
    match game.attacks[a]?, game.agents[o]? with
    | some attack, some opponent => some (get_effectiveness game attack opponent)
    | _, _ => none
  | _, _ => none

/-- A rulebook with two types `a`, `b` and the single relation `a +b`. -/
def oneRelationText : List Char :=
  ("a\nb\n.\na x y z\nb x y z\n.\na +b\n.\nhit a\nkick b\n.\n" ++
   "X a hit hit hit\nY b kick kick kick\n.\n").toList

/-- A rulebook whose Relations section has two lines for `fire`. -/
def duplicateRelationText : List Char :=
  ("fire\nwater\n.\nfire a b c\nwater a b c\n.\nfire\nfire +water\n.\n" ++
   "ember fire\n.\nA fire ember ember ember\n.\n").toList

/-! ## Team file (team.c) -/

/-- Number of members of a team (`MAX_TEAM_PLAYERS`). -/
def MAX_TEAM_PLAYERS : Nat := 4

/-- Health of a freshly selected member (`MAX_HEALTH`). -/
def MAX_HEALTH : Int := 10

/-- Size of the line buffers (`BUFFER`). -/
def BUFFER : Nat := 80

/-- Exit status `EXIT_TEAM_FILE_CONTENTS` of team.c. -/
def EXIT_TEAM_FILE_CONTENTS : Nat := 5

/-- Exit status `EXIT_CONTROLLER_DISCO` of team.c. -/
def EXIT_CONTROLLER_DISCO : Nat := 9

/-- Exit status `EXIT_TEAM_DISCO` of team.c. -/
def EXIT_TEAM_DISCO : Nat := 10

/-- Exit status `EXIT_BAD_MESSAGE` of team.c. -/
def EXIT_BAD_MESSAGE : Nat := 19

/-- The ways in which a function of team.c ends without returning.
`exit_game status` is the call `exit_game(status)`: the message of the status
on stderr, then `exit(status)`.  `exit status` is a bare `exit(status)`.
`disco` is the end of `read_team_msg` in simulation mode: `disco` is written
to the controller and the thread exits.  `undefined` stands for undefined
behaviour of the C code: a `NULL` or uninitialised pointer is dereferenced.
`out_of_fuel` belongs to the embedding only: a loop used up its fuel. -/
inductive Stop where
  | exit_game (status : Nat)
  | exit (status : Nat)
  | disco
  | undefined
  | out_of_fuel
  deriving DecidableEq, Repr

deriving instance DecidableEq for Except

/-- The message that `exit_game` prints for a status (without the newline). -/
def exit_message (status : Nat) : List Char :=
  if status = 1 then
    ("Usage: 2310team controllerport teamfile\n   " ++
      "or: 2310team wait teamfile sinisterfile\n   " ++
      "or: 2310team challenge teamfile sinisterfile targetport").toList
  else if status = 4 then "Unable to access team file".toList
  else if status = 5 then "Error reading team file".toList
  else if status = 2 then "Unable to access sinister file".toList
  else if status = 3 then "Error reading sinister file".toList
  else if status = 6 then "Invalid port number".toList
  else if status = 7 then "Unable to connect to controller".toList
  else if status = 8 then "Unable to connect to team".toList
  else if status = 9 then "Unexpected loss of controller".toList
  else if status = 10 then "Unexpected loss of team".toList
  else if status = 19 then "Protocol error".toList
  else if status = 20 then "System error".toList
  else "Well, this is awkward.".toList

/-- The `Coords` struct of shared.h. -/
structure Coords where
  x : Int
  y : Int
  deriving DecidableEq, Repr

/-- The `Member` struct of shared.h.  The circular list of attack nodes is the
list `attacks` of the attacks of its nodes, from `firstAttack` on; `nextAttack`
is the position in that list of the node `nextAttack` points to, and the
`next` of the node at position `k` is the node at position
`(k + 1) % attacks.length`. -/
structure Member where
  agent : Nat
  attacks : List Nat
  nextAttack : Nat
  health : Int
  deriving DecidableEq, Repr

/-- The `Team` struct of shared.h, without its streams.  The circular list of
directions is the list `directions` with the position `nextMove` in it, like
the attacks of a member. -/
structure Team where
  name : List Char
  members : List Member
  port : Int
  pos : Coords
  directions : List Char
  nextMove : Nat
  deriving DecidableEq, Repr

instance : Inhabited Agent := ⟨⟨[], 0, []⟩⟩

instance : Inhabited Member := ⟨⟨0, [], 0, 0⟩⟩

/-- Dereference of an `Agent *`. -/
def Game.agentAt (game : Game) (i : Nat) : Agent := game.agents.getD i default

/-- Function `legal_attack`: whether one of the agent's legal attacks has the name of
the attack. -/
def legal_attack (game : Game) (agent : Agent) (attack : Attack) : Bool :=
  agent.legalAttacks.any (fun i => decide ((game.attackAt i).name = attack.name))

/-- The C library's `isdigit`. -/
def isdigit (c : Char) : Bool := decide ('0' ≤ c ∧ c ≤ '9')

/-- The C library's `atoi` on a string of digits: its decimal value when that
fits an `int`; beyond, what glibc computes on LP64 (`strtol` saturates at
`LONG_MAX`, the conversion to `int` keeps the low 32 bits). -/
def atoi (string : List Char) : Int :=
  let value : Nat := string.foldl (fun v c => 10 * v + (c.toNat - '0'.toNat)) 0
  let long : Int := min value (2 ^ 63 - 1)
  (long + 2 ^ 31) % 2 ^ 32 - 2 ^ 31

/-- Function `number`: -1 when a character is not a digit, else `atoi`.  A `NULL`
string is passed to `strlen`: undefined. -/
def number (string : Option (List Char)) : Except Stop Int :=
  match string with
  | none => .error .undefined
  | some s => if s.all isdigit then .ok (atoi s) else .ok (-1)

/-- Function `get_coords`: the tokens up to a space and up to `end`, as numbers.
Returns the coordinates and the new value of `*pos`. -/
def get_coords (line : List Char) (endChar : Char) (pos : Nat) : Except Stop (Coords × Nat) :=
  let x := get_token_update_pos line ' ' pos
  let y := get_token_update_pos line endChar x.2
  match number x.1 with
  | .error e => .error e
  | .ok xv =>
    match number y.1 with
    | .error e => .error e
    | .ok yv => .ok (⟨xv, yv⟩, y.2)

/-- The C library's `fgets(s, n, file)`: at most `n - 1` characters, up to and
including the first newline; `NULL` at the end of the stream.  Returns the
string (cut at its first NUL, as a C string is) and the rest of the stream. -/
def fgets (n : Nat) (file : List Char) : Option (List Char) × List Char :=
  if file = [] then (none, file)
  else
    let limited := file.take (n - 1)
    let upto := get_token limited '\n'
    if upto.length < limited.length then
      (some (get_token (upto ++ ['\n']) '\x00'), file.drop (upto.length + 1))
    else (some (get_token limited '\x00'), file.drop limited.length)

/-- Function `new_team`: port 0 and no direction (`nextMove = NULL`); members and
position are not set yet. -/
def new_team (name : List Char) : Team := ⟨name, [], 0, ⟨0, 0⟩, [], 0⟩

/-- The `while (pos < strlen(line))` loop of `read_team_attacks`; `ring` holds the
attacks of the nodes linked so far. -/
def read_team_attacks_loop (game : Game) (agent : Agent) (line : List Char) :
    Nat → Nat → List Nat → Except Stop (List Nat)
  | 0, pos, ring => if pos < line.length then .error .out_of_fuel else .ok ring
  | fuel + 1, pos, ring =>
    if pos < line.length then
      match get_token_update_pos line ' ' pos with
      | (none, _) => .error .undefined
      | (some attackName, pos1) =>
        match get_attack game attackName with
        | none => .error (.exit_game EXIT_TEAM_FILE_CONTENTS)
        | some attack =>
          if legal_attack game agent (game.attackAt attack) then
            read_team_attacks_loop game agent line fuel pos1 (ring ++ [attack])
          else .error (.exit_game EXIT_TEAM_FILE_CONTENTS)
    else .ok ring

/-- Function `read_team_attacks`: the attacks of the line become the member's
circular list, `nextAttack` at its first node. -/
def read_team_attacks (line : List Char) (game : Game) (member : Member) :
    Except Stop Member :=
  if 0 ≥ line.length then .error (.exit_game EXIT_TEAM_FILE_CONTENTS)
  else
    match read_team_attacks_loop game (game.agentAt member.agent) line line.length 0
        member.attacks with
    | .error e => .error e
    | .ok ring => .ok { member with attacks := ring, nextAttack := 0 }

/-- The `for` loop of `read_agents`; the first argument is the number of
members still to read.  The member's `health` is not set by the C code and
never read; it is 0 here.  `&line[pos]` past the end of the line is read as
the empty string; `read_agents_loop_buffer` reads the bytes that the buffer
holds there.  Returns the members and the rest of the stream. -/
def read_agents_loop (game : Game) :
    Nat → List Char → List Member → Except Stop (List Member × List Char)
  | 0, file, members => .ok (members, file)
  | n + 1, file, members =>
    let line := (read_line file).1
    if line.length = 0 then .error (.exit_game EXIT_TEAM_FILE_CONTENTS)
    else
      match get_agent game (get_token line ' ') with
      | none => .error (.exit_game EXIT_TEAM_FILE_CONTENTS)
      | some agent =>
        let pos := (game.agentAt agent).name.length + 1
        match read_team_attacks (line.drop pos) game ⟨agent, [], 0, 0⟩ with
        | .error e => .error e
        | .ok member => read_agents_loop game n (read_line file).2 (members ++ [member])

/-- Function `read_agents`. -/
def read_agents (file : List Char) (game : Game) : Except Stop (List Member × List Char) :=
  read_agents_loop game MAX_TEAM_PLAYERS file []

/-- Function `read_directions`: letters of `NSEW`, each followed by a space, a newline
or the end of the stream.  When the stream holds no direction at all, `tail`
is still uninitialised at `tail->next = team->nextMove`: undefined.  Returns
the directions and the rest of the stream (empty). -/
def read_directions : List Char → List Char → Except Stop (List Char × List Char)
  | [], ring => if ring = [] then .error .undefined else .ok (ring, [])
  | [c], ring =>
    if c = 'N' ∨ c = 'S' ∨ c = 'E' ∨ c = 'W' then .ok (ring ++ [c], [])
    else .error (.exit_game EXIT_TEAM_FILE_CONTENTS)
  | c :: c2 :: rest, ring =>
    if c = 'N' ∨ c = 'S' ∨ c = 'E' ∨ c = 'W' then
      if c2 ≠ ' ' ∧ c2 ≠ '\n' then .error (.exit_game EXIT_TEAM_FILE_CONTENTS)
      else read_directions rest (ring ++ [c])
    else .error (.exit_game EXIT_TEAM_FILE_CONTENTS)

/-- Function `read_team_file`, on the contents of the opened file. -/
def read_team_file (game : Game) (file : List Char) : Except Stop Team :=
  let name := (read_line file).1
  if name.length = 0 then .error (.exit_game EXIT_TEAM_FILE_CONTENTS)
  else
    match read_agents (read_line file).2 game with
    | .error e => .error e
    | .ok (members, f1) =>
      match fgets BUFFER f1 with
      | (none, _) => .error (.exit_game EXIT_TEAM_FILE_CONTENTS)
      | (some coords, f2) =>
        match get_coords coords '\n' 0 with
        | .error e => .error e
        | .ok (pos, _) =>
          if pos.x < 0 ∨ pos.y < 0 then .error (.exit_game EXIT_TEAM_FILE_CONTENTS)
          else
            match read_directions f2 [] with
            | .error e => .error e
            | .ok (directions, f3) =>
              if f3 ≠ [] then .error (.exit_game EXIT_TEAM_FILE_CONTENTS)
              else .ok { new_team name with
                members := members, pos := pos, directions := directions, nextMove := 0 }

/-- The Definitions of the golden rulebook. -/
def goldenGame : Game := (read_sinister_file new_game goldenText).2.1

/-- The body of the loop of `read_agents` on one line of the team file, with
`&line[pos]` past the end of the line read as the empty string;
`read_member_line_buffer` reads the bytes that the buffer holds there. -/
def read_member_line (game : Game) (line : List Char) : Except Stop Member :=
  if line.length = 0 then .error (.exit_game EXIT_TEAM_FILE_CONTENTS)
  else
    match get_agent game (get_token line ' ') with
    | none => .error (.exit_game EXIT_TEAM_FILE_CONTENTS)
    | some agent =>
      read_team_attacks (line.drop ((game.agentAt agent).name.length + 1)) game
        ⟨agent, [], 0, 0⟩

/-- A team file for the golden rulebook. -/
def goldenTeamText : List Char :=
  "Alpha\nA splash\nA splash splash\nA splash\nA splash\n3 4\nN E\nS\n".toList

/-- A team file whose second member lists an attack that is not legal for
its agent. -/
def illegalAttackTeamText : List Char :=
  "Alpha\nA splash\nA splash ember\nA splash\nA splash\n3 4\nN E\nS\n".toList

/-- A team file that ends right after its coordinate line. -/
def noDirectionsTeamText : List Char :=
  "Alpha\nA splash\nA splash\nA splash\nA splash\n3 4\n".toList

/-- A team file whose coordinate line has an empty x. -/
def emptyXTeamText : List Char :=
  "Alpha\nA splash\nA splash\nA splash\nA splash\n 5\nN\n".toList

/-- A team file whose coordinate line has an empty y. -/
def emptyYTeamText : List Char :=
  "Alpha\nA splash\nA splash\nA splash\nA splash\n3 \nN\n".toList

/-! ## Battle (team.c) -/

/-- The `enum TeamMessages` of team.c: the messages that another team can send. -/
inductive TeamMsgs where
  | FIGHTMEIRL
  | HAVEATYOU
  | ISELECTYOU
  | ATTACK
  | END
  deriving DecidableEq, Repr

/-- The state that one battle acts on: `name` is `opposing->name`, `read` the
characters still to come on `opposing->read`, `write` the characters written
to `opposing->write` so far, and `narrative` the string `*narrative`. -/
structure BattleState where
  name : List Char
  read : List Char
  write : List Char
  narrative : List Char
  deriving DecidableEq, Repr

/-- The loop of `append_string` over the formatted segment: every underscore
becomes a space. -/
def replace_underscores (segment : List Char) : List Char :=
  segment.map (fun c => if c = '_' then ' ' else c)

/-- Function `append_string`: `segment` is the formatted string; it is appended to the
narrative with every underscore replaced by a space. -/
def append_string (narrative segment : List Char) : List Char :=
  narrative ++ replace_underscores segment

/-- Function `read_team_msg`: the type of the next line of `file`, with the line.  An empty
line (or the end of the stream) is a disconnection: in simulation mode the
thread writes `disco` to the controller and exits (`Stop.disco`), otherwise
the program exits with `EXIT_TEAM_DISCO`.  The caller advances the stream by
`(read_line file).2`. -/
def read_team_msg (simulation : Bool) (file : List Char) : Except Stop (TeamMsgs × List Char) :=
  let line := (read_line file).1
  if line.length = 0 then
    if simulation then .error .disco else .error (.exit_game EXIT_TEAM_DISCO)
  else
    let type := get_token line ' '
    if type = "fightmeirl".toList then .ok (.FIGHTMEIRL, line)
    else if type = "haveatyou".toList then .ok (.HAVEATYOU, line)
    else if type = "iselectyou".toList then .ok (.ISELECTYOU, line)
    else if type = "attack".toList then .ok (.ATTACK, line)
    else .error (.exit_game EXIT_BAD_MESSAGE)

/-- Function `get_selected_opponent`: reads an `iselectyou` message and returns a record
of the selected opposing member, with full health.  The agent name is what
follows the first `strlen("iselectyou ")` characters of the message (nothing,
when the message is shorter).  The record has no attack ring. -/
def get_selected_opponent (game : Game) (simulation : Bool) (st : BattleState) :
    Except Stop Member × BattleState :=
  let st1 := { st with read := (read_line st.read).2 }
  match read_team_msg simulation st.read with
  | .error e => (.error e, st1)
  | .ok msg =>
    if msg.1 ≠ .ISELECTYOU then (.error (.exit_game EXIT_BAD_MESSAGE), st1)
    else
      let agentName := get_token (msg.2.drop "iselectyou ".toList.length) '\x00'
      match get_agent game agentName with
      | none => (.error (.exit_game EXIT_BAD_MESSAGE), st1)
      | some agent =>
        (.ok ⟨agent, [], 0, MAX_HEALTH⟩,
          { st1 with narrative := (append_string st1.narrative
              (st1.name ++ " chooses ".toList ++ (game.agentAt agent).name ++ ['\n'])) })

/-- Function `select_member`: a copy of the member with full health and its attack
cursor on the first attack of the ring; the opposition is told, and the
narrative extended. -/
def select_member (game : Game) (teamName : List Char) (member : Member) (st : BattleState) :
    Member × BattleState :=
  let copy : Member := ⟨member.agent, member.attacks, 0, MAX_HEALTH⟩
  (copy, { st with
    write := st.write ++ ("iselectyou ".toList ++ (game.agentAt copy.agent).name ++ ['\n']),
    narrative := (append_string st.narrative
      (teamName ++ " chooses ".toList ++ (game.agentAt member.agent).name ++ ['\n'])) })

/-- The string `attack->type->effectiveness[effectiveness - 1]` as `%s` prints
it; a slot without a string prints as `(null)`. -/
def effectiveness_string (game : Game) (attack : Attack) (effectiveness : Nat) : List Char :=
  ((game.typeAt attack.type).effectiveness.get (effectiveness - 1)).getD "(null)".toList

/-- The three `append_string` calls that `attack` and `get_attacked` make for
one attack: `target` is the attacked member after the damage. -/
def narrate_attack (game : Game) (narrative : List Char) (attacker : Agent) (attack : Attack)
    (effectiveness : Nat) (target : Member) : List Char :=
  let n1 := append_string narrative
    (attacker.name ++ " uses ".toList ++ attack.name ++ ": ".toList ++
      effectiveness_string game attack effectiveness)
  let n2 :=
    if target.health ≤ 0 then
      append_string n1
        (" - ".toList ++ (game.agentAt target.agent).name ++ " was eliminated.".toList)
    else n1
  append_string n2 ['\n']

/-- Function `attack`: sends the member's next attack to the opposition, takes its
effectiveness off the opponent's health, extends the narrative and moves the
cursor to the next attack of the ring.  Returns the member and the opponent.
A member without attacks has a null cursor. -/
def attack (game : Game) (member opponent : Member) (st : BattleState) :
    Except Stop (Member × Member) × BattleState :=
  if member.attacks = [] then (.error .undefined, st)
  else
    let attack := game.attackAt (member.attacks.getD member.nextAttack 0)
    let agent := game.agentAt member.agent
    let st1 := { st with
      write := st.write ++ ("attack ".toList ++ agent.name ++ [' '] ++ attack.name ++ ['\n']) }
    let effectiveness := (get_effectiveness game attack (game.agentAt opponent.agent)).val
    let opponent1 := { opponent with health := opponent.health - effectiveness }
    (.ok ({ member with nextAttack := (member.nextAttack + 1) % member.attacks.length },
        opponent1),
      { st1 with
        narrative := narrate_attack game st1.narrative agent attack effectiveness opponent1 })

/-- Function `get_attacked`: reads an `attack` message of the opposing team and applies
it to the member.  The agent name is the token after `strlen("attack ")`
characters; the attack name is what follows the first
`strlen("attack  ") + strlen(opponent->agent->name)` characters (nothing,
when the message is shorter; `get_attacked_buffer` reads the bytes that the
buffer holds there). -/
def get_attacked (game : Game) (simulation : Bool) (member opponent : Member)
    (st : BattleState) : Except Stop Member × BattleState :=
  let st1 := { st with read := (read_line st.read).2 }
  match read_team_msg simulation st.read with
  | .error e => (.error e, st1)
  | .ok msg =>
    if msg.1 ≠ .ATTACK then (.error (.exit_game EXIT_BAD_MESSAGE), st1)
    else
      let agent := game.agentAt opponent.agent
      let agentName := get_token (msg.2.drop "attack ".toList.length) ' '
      match get_attack game (msg.2.drop ("attack  ".toList.length + agent.name.length)) with
      | none => (.error (.exit_game EXIT_BAD_MESSAGE), st1)
      | some a =>
        if legal_attack game agent (game.attackAt a) = false ∨ agentName ≠ agent.name then
          (.error (.exit_game EXIT_BAD_MESSAGE), st1)
        else
          let attack := game.attackAt a
          let effectiveness := (get_effectiveness game attack (game.agentAt member.agent)).val
          let member1 := { member with health := member.health - effectiveness }
          (.ok member1,
            { st1 with
              narrative := narrate_attack game st1.narrative agent attack effectiveness member1 })

/-- The `while (member->health > 0)` loop of `battle`.  `j` counts the
eliminated opposing members and `loser` is true once `loser = opposing` was
executed.  Returns `j`, `loser`, the member and the opponent as they are when
the loop is left.  `fuel` bounds the number of iterations. -/
def fight (game : Game) (simulation : Bool) :
    Nat → Nat → Bool → Member → Member → BattleState →
      Except Stop (Nat × Bool × Member × Member) × BattleState
  | 0, j, loser, member, opponent, st =>
    if member.health > 0 then (.error .out_of_fuel, st)
    else (.ok (j, loser, member, opponent), st)
  | fuel + 1, j, loser, member, opponent, st =>
    if member.health > 0 then
      match attack game member opponent st with
      | (.error e, st1) => (.error e, st1)
      | (.ok (member1, opponent1), st1) =>
        if opponent1.health ≤ 0 then
          if j + 1 = MAX_TEAM_PLAYERS then (.ok (j + 1, true, member1, opponent1), st1)
          else
            match get_selected_opponent game simulation st1 with
            | (.error e, st2) => (.error e, st2)
            | (.ok opponent2, st2) =>
              match get_attacked game simulation member1 opponent2 st2 with
              | (.error e, st3) => (.error e, st3)
              | (.ok member2, st3) =>
                fight game simulation fuel (j + 1) loser member2 opponent2 st3
        else
          match get_attacked game simulation member1 opponent1 st1 with
          | (.error e, st3) => (.error e, st3)
          | (.ok member2, st3) => fight game simulation fuel j loser member2 opponent1 st3
    else (.ok (j, loser, member, opponent), st)

/-- The `if (i == 0)` block of the `for` loop of `battle`: in the first round
the team that does not go first takes an attack, and the team that goes first
reads the selection of the opposing team.  Returns the member and the
opponent. -/
def first_round (game : Game) (simulation goFirst : Bool) (i : Nat) (member opponent : Member)
    (st : BattleState) : Except Stop (Member × Member) × BattleState :=
  if i = 0 then
    if goFirst = false then
      match get_attacked game simulation member opponent st with
      | (.error e, st2) => (.error e, st2)
      | (.ok member1, st2) => (.ok (member1, opponent), st2)
    else
      match get_selected_opponent game simulation st with
      | (.error e, st2) => (.error e, st2)
      | (.ok opponent1, st2) => (.ok (member, opponent1), st2)
  else (.ok (member, opponent), st)

/-- The `for` loop of `battle`, from the values `i` and `j` on.  `freed`
collects the member copies as they are when the loop frees them.  Until the
first round assigns it, `opponent` is not initialised when the team goes
first.  `fuel` bounds the number of rounds. -/
def battle_loop (game : Game) (team : Team) (simulation goFirst : Bool) :
    Nat → Nat → Nat → Bool → Member → List Member → BattleState →
      Except Stop (Nat × Bool × List Member) × BattleState
  | 0, i, j, loser, _, freed, st =>
    if i < MAX_TEAM_PLAYERS ∧ j < MAX_TEAM_PLAYERS then (.error .out_of_fuel, st)
    else (.ok (j, loser, freed), st)
  | fuel + 1, i, j, loser, opponent, freed, st =>
    if i < MAX_TEAM_PLAYERS ∧ j < MAX_TEAM_PLAYERS then
      let sel := select_member game team.name (team.members.getD i default) st
      match first_round game simulation goFirst i sel.1 opponent sel.2 with
      | (.error e, st2) => (.error e, st2)
      | (.ok (member, opponent1), st2) =>
        match fight game simulation MAX_HEALTH.toNat j loser member opponent1 st2 with
        | (.error e, st3) => (.error e, st3)
        | (.ok (j1, loser1, member1, opponent2), st3) =>
          battle_loop game team simulation goFirst fuel (i + 1) j1 loser1 opponent2
            (freed ++ [member1]) st3
    else (.ok (j, loser, freed), st)

/-- Function `battle`: the battle of `team` (the team of the game) against the opposing
team of the state.  Returns the number of eliminated opposing members, whether
the loser is the opposing team, and the member copies as they were freed; the
narrative of the final state is the one handed to `add_narrative`. -/
def battle (game : Game) (team : Team) (simulation goFirst : Bool) (st : BattleState) :
    Except Stop (Nat × Bool × List Member) × BattleState :=
  let start : Except Stop Member × BattleState :=
    if goFirst = false then get_selected_opponent game simulation st else (.ok default, st)
  match start with
  | (.error e, st1) => (.error e, st1)
  | (.ok opponent, st1) =>
    match battle_loop game team simulation goFirst MAX_TEAM_PLAYERS 0 0 false opponent [] st1 with
    | (.error e, st2) => (.error e, st2)
    | (.ok res, st2) =>
      (.ok res, { st2 with
        narrative := (append_string st2.narrative
          ("Team ".toList ++ (if res.2.1 then st2.name else team.name) ++
            " was eliminated.\n".toList)) })

/-- The team Alpha of the golden battle. -/
def alphaTeam : Team :=
  ⟨"Alpha".toList, [⟨0, [0], 0, 0⟩, ⟨0, [0], 0, 0⟩, ⟨0, [0], 0, 0⟩, ⟨0, [0], 0, 0⟩],
    0, ⟨3, 4⟩, ['N'], 0⟩

/-- The team Beta of the golden battle. -/
def betaTeam : Team :=
  ⟨"Beta".toList, [⟨0, [0], 0, 0⟩, ⟨0, [0], 0, 0⟩, ⟨0, [0], 0, 0⟩, ⟨0, [0], 0, 0⟩],
    0, ⟨3, 4⟩, ['N'], 0⟩

/-- The team file of Alpha. -/
def alphaTeamText : List Char :=
  "Alpha\nA splash\nA splash\nA splash\nA splash\n3 4\nN\n".toList

/-- The team file of Beta. -/
def betaTeamText : List Char :=
  "Beta\nA splash\nA splash\nA splash\nA splash\n3 4\nN\n".toList

/-- What one member `A` of the golden battle sends: its selection, then `n`
splash attacks. -/
def splashes (n : Nat) : List Char :=
  "iselectyou A\n".toList ++ (List.replicate n "attack A splash\n".toList).flatten

/-- What Alpha sends to Beta in the golden battle. -/
def alphaSends : List Char := splashes 5 ++ splashes 5 ++ splashes 5 ++ splashes 5

/-- What Beta sends to Alpha in the golden battle. -/
def betaSends : List Char := splashes 4 ++ splashes 5 ++ splashes 5 ++ splashes 5

/-- The `attack` message that a member with the given agent and attack ring
sends as its message number `k` (from 0) after being selected, when its cursor
goes round the ring: `attacks[k mod m]`. -/
def attack_message (game : Game) (agent : Nat) (attacks : List Nat) (k : Nat) : List Char :=
  "attack ".toList ++ (game.agentAt agent).name ++ [' '] ++
    (game.attackAt (attacks.getD (k % attacks.length) 0)).name ++ ['\n']

/-- The `attack` messages number `k`, `k + 1`, ..., `k + n - 1`. -/
def attack_messages (game : Game) (agent : Nat) (attacks : List Nat) : Nat → Nat → List Char
  | _, 0 => []
  | k, n + 1 =>
    attack_message game agent attacks k ++ attack_messages game agent attacks (k + 1) n

/-- What a selected member sends when it makes `n` attacks: its selection,
then the `attack` messages number 0 to `n - 1`. -/
def member_messages (game : Game) (member : Member) (n : Nat) : List Char :=
  "iselectyou ".toList ++ (game.agentAt member.agent).name ++ ['\n'] ++
    attack_messages game member.agent member.attacks 0 n

/-- What the members send when member number `i` makes `counts[i]` attacks. -/
def team_messages (game : Game) : List Member → List Nat → List Char
  | m :: ms, n :: ns => member_messages game m n ++ team_messages game ms ns
  | _, _ => []

/-- One round of the narrative of the golden battle: eight attacks that
leave their target alive, then one that eliminates it. -/
def goldenRound : List Char :=
  (List.replicate 8 "A uses splash: normal\n".toList).flatten ++
    "A uses splash: normal - A was eliminated.\n".toList

/-- The narrative of the golden battle. -/
def goldenNarrative : List Char :=
  "Alpha chooses A\nBeta chooses A\n".toList ++
  goldenRound ++ "Beta chooses A\nA uses splash: normal - A was eliminated.\n".toList ++
  "Alpha chooses A\n".toList ++
  goldenRound ++ "Beta chooses A\nA uses splash: normal - A was eliminated.\n".toList ++
  "Alpha chooses A\n".toList ++
  goldenRound ++ "Beta chooses A\nA uses splash: normal - A was eliminated.\n".toList ++
  "Alpha chooses A\n".toList ++
  goldenRound ++ "Team Beta was eliminated.\n".toList

/-- The number of lines of a narrative that report the elimination of a
member. -/
def eliminated_members (narrative : List Char) : Nat :=
  ((file_lines narrative).filter (fun l =>
    " was eliminated.".toList.isSuffixOf l && !"Team ".toList.isPrefixOf l)).length

/-- A rulebook whose agent, attack and effectiveness strings have underscores. -/
def underscoreText : List Char :=
  ("water\n.\nwater not_very weak_ish super_duper\n.\nwater\n.\n" ++
   "tail_whip water\n.\nMr_A water tail_whip tail_whip tail_whip\n.\n").toList

/-- The Definitions of the rulebook with underscores. -/
def underscoreGame : Game := (read_sinister_file new_game underscoreText).2.1

/-- The line of the narrative for one attack, as the code composes it: the
text `<attacker> uses <attackName>: <s>`, then the text
` - <target> was eliminated.` when the target is eliminated, both with
every underscore replaced by a space, then a newline. -/
def narrative_line (attacker attackName s target : List Char) (eliminated : Bool) :
    List Char :=
  replace_underscores (attacker ++ " uses ".toList ++ attackName ++ ": ".toList ++ s) ++
    (if eliminated then replace_underscores (" - ".toList ++ target ++ " was eliminated.".toList)
      else []) ++ ['\n']

/-! ## Simulation mode (team.c) -/

/-- The `enum ControllerMessages` of team.c: the messages that the controller
can send. -/
inductive ControllerMsgs where
  | SINISTER
  | BATTLE
  | GAMEOVERMAN
  | WHERENOW
  deriving DecidableEq, Repr

/-- What the main thread of a team in simulation mode does that can be
observed, in order: `read` is a line read from the controller, `zone` the
line `Team is in zone x y` printed on standard output, `challenge` the start
of a challenge thread for a port, `narratives` a call of
`print_and_free_narratives` (what it prints depends on the battle threads),
and `write` the characters written to the controller. -/
inductive Event where
  | read (line : List Char)
  | zone (x y : Int)
  | challenge (port : Int)
  | narratives
  | write (text : List Char)
  deriving DecidableEq, Repr

/-- Function `read_controller_msg`: the type of the next line of `file`.  An empty line
(or the end of the stream) is the loss of the controller.  The caller
advances the stream by `(read_line file).2`. -/
def read_controller_msg (file : List Char) : Except Stop ControllerMsgs :=
  let line := (read_line file).1
  if line.length = 0 then .error (.exit_game EXIT_CONTROLLER_DISCO)
  else
    let type := get_token line ' '
    if type = "sinister".toList then .ok .SINISTER
    else if type = "battle".toList then .ok .BATTLE
    else if type = "gameoverman".toList then .ok .GAMEOVERMAN
    else if type = "wherenow?".toList then .ok .WHERENOW
    else .error (.exit_game EXIT_BAD_MESSAGE)

/-- The `while (pos < strlen(message))` loop of `run_simulation`: a challenge
thread is started for the number of every remaining token of the message.
`fuel` bounds the number of iterations. -/
def challenge_ports (message : List Char) : Nat → Nat → Except Stop (List Event)
  | 0, pos => if pos < message.length then .error .out_of_fuel else .ok []
  | fuel + 1, pos =>
    if pos < message.length then
      let portVal := get_token_update_pos message ' ' pos
      match number portVal.1 with
      | .error e => .error e
      | .ok port =>
        match challenge_ports message fuel portVal.2 with
        | .error e => .error e
        | .ok events => .ok (.challenge port :: events)
    else .ok []

/-- Function `run_simulation`: the loop over the messages of the controller, for a team
with its direction ring and the cursor `nextMove` into it.  Returns what the
main thread does and how the program ends; the loop has no other way out.
`fuel` bounds the number of messages. -/
def run_simulation : Nat → Team → List Char → List Event × Stop
  | 0, _, _ => ([], .out_of_fuel)
  | fuel + 1, team, file =>
    let message := (read_line file).1
    match read_controller_msg file with
    | .error e => ([.read message], e)
    | .ok .BATTLE =>
      let pos := "battle ".toList.length
      if pos ≥ message.length then ([.read message], .exit_game EXIT_BAD_MESSAGE)
      else
        match get_coords message ' ' pos with
        | .error e => ([.read message], e)
        | .ok coords =>
          if coords.1.x < 0 ∨ coords.1.y < 0 then
            ([.read message], .exit_game EXIT_BAD_MESSAGE)
          else
            match challenge_ports message message.length coords.2 with
            | .error e => ([.read message, .zone coords.1.x coords.1.y], e)
            | .ok events =>
              let rest := run_simulation fuel { team with pos := coords.1 } (read_line file).2
              (.read message :: .zone coords.1.x coords.1.y :: events ++ rest.1, rest.2)
    | .ok .GAMEOVERMAN => ([.read message, .narratives], .exit 0)
    | .ok .WHERENOW =>
      if team.directions = [] then ([.read message, .narratives], .undefined)
      else
        let rest := run_simulation fuel
          { team with nextMove := (team.nextMove + 1) % team.directions.length }
          (read_line file).2
        (.read message :: .narratives ::
          .write ("travel ".toList ++ [team.directions.getD team.nextMove 'N'] ++ ['\n']) ::
          rest.1, rest.2)
    | .ok .SINISTER => ([.read message], .exit EXIT_BAD_MESSAGE)

/-- The events that C14 is about: a `wherenow?` message read from the
controller, or something written to the controller. -/
def wherenow_or_write : Event → Bool
  | .read line => decide (get_token line ' ' = "wherenow?".toList)
  | .write _ => true
  | _ => false

/-- The `wherenow?` messages among the events, in order. -/
def wherenow_lines : List Event → List (List Char)
  | [] => []
  | .read line :: events =>
    if get_token line ' ' = "wherenow?".toList then line :: wherenow_lines events
    else wherenow_lines events
  | _ :: events => wherenow_lines events

/-- The exchange that C14 describes, for the `wherenow?` messages `lines`
counted from `k`: each message is followed by the reply `travel d`, where `d`
is the direction number `k mod n` of the `n` directions. -/
def travel_replies (directions : List Char) : Nat → List (List Char) → List Event
  | _, [] => []
  | k, line :: lines =>
    .read line ::
      .write ("travel ".toList ++ [directions.getD (k % directions.length) 'N'] ++ ['\n']) ::
      travel_replies directions (k + 1) lines

/-- A controller stream: a battle message, three `wherenow?` messages and the
end of the game. -/
def controllerText : List Char :=
  "wherenow?\nbattle 3 4 5001 5002\nwherenow?\nwherenow?\nwherenow?\ngameoverman\n".toList

/-! ## Controller (controller.c) -/

/-- The `enum Messages` of controller.c: the messages that a team can send to
the controller; `END` stands for the end of the stream. -/
inductive Controller.Messages where
  | IWANNAPLAY
  | DONEFIGHTING
  | DISCO
  | TRAVEL
  | END
  deriving DecidableEq, Repr

/-- The fields of the `Team` struct of shared.h that controller.c uses:
`read` is what is still to come on the stream from the team, `write` what has
been written to the team so far. -/
structure Controller.Team where
  name : List Char
  port : Int
  pos : Coords
  read : List Char
  write : List Char
  deriving DecidableEq, Repr

/-- One call of `read_msg` on the stream of a team of the roster: `team` is
the index of the team in `sim->teams`, `message` the line that was read, or
`none` at the end of the stream. -/
structure Controller.Received where
  team : Nat
  message : Option (List Char)
  deriving DecidableEq, Repr

/-- The `Simulation` struct of shared.h: `numTeams` is the length of `teams`.
A `Team *` of the roster is the index of the team in `teams`.  The server
socket `fdServer` is left out, and the text of the file `sinFilename` is an
argument of `connect_team`.  The field `log` is not in the C struct: it
records the calls of `read_msg` on the streams of the roster, in order. -/
structure Simulation where
  teams : List Controller.Team
  rounds : Int
  width : Int
  height : Int
  log : List Controller.Received
  deriving DecidableEq, Repr

instance : Inhabited Controller.Team := ⟨⟨[], 0, ⟨0, 0⟩, [], []⟩⟩

/-- The team `sim->teams[i]`. -/
def Simulation.teamAt (sim : Simulation) (i : Nat) : Controller.Team :=
  sim.teams.getD i default

/-- The message that `exit_game` of controller.c prints for a status. -/
def Controller.exit_message (status : Nat) : List Char :=
  if status = 1 then
    ("Usage: 2310controller height width sinisterfile rounds " ++
      "port teams [[rounds port teams] ...]").toList
  else if status = 2 then "Invalid height".toList
  else if status = 3 then "Invalid width".toList
  else if status = 4 then "Unable to access sinister file".toList
  else if status = 5 then "Error reading sinister file".toList
  else if status = 6 then "Invalid number of rounds".toList
  else if status = 7 then "Invalid port number".toList
  else if status = 8 then "Unable to listen on port".toList
  else if status = 9 then "Invalid number of teams".toList
  else if status = 19 then "Protocol error".toList
  else if status = 20 then "System error".toList
  else "Well, this is awkward".toList

/-- The type of a line that `read_msg` has read, by its first token; a line
of no known type ends the controller with the protocol error. -/
def Controller.message_type (result : List Char) : Except Stop Controller.Messages :=
  let type := get_token result ' '
  if type = "iwannaplay".toList then .ok .IWANNAPLAY
  else if type = "donefighting".toList then .ok .DONEFIGHTING
  else if type = "disco".toList then .ok .DISCO
  else if type = "travel".toList then .ok .TRAVEL
  else .error (.exit_game EXIT_BAD_MESSAGE)

/-- The message that a call of `read_msg` on the stream `file` reads: the
next line, or `none` at the end of the stream. -/
def Controller.next_message (file : List Char) : Option (List Char) :=
  if file = [] then none else some (read_line file).1

/-- The type that `read_msg` returns for what it has read: `END` at the end
of the stream, and else the type of the line. -/
def Controller.type_of (message : Option (List Char)) : Except Stop Controller.Messages :=
  match message with
  | none => .ok .END
  | some line => Controller.message_type line

/-- Function `read_msg`: the type of the next line of `file`, or `END` at the end of the
stream.  Returns the type, the line (the buffer `result`; at the end of the
stream the buffer is left as it was, and no caller reads it then) and the rest
of the stream. -/
def Controller.read_msg (file : List Char) :
    Except Stop Controller.Messages × List Char × List Char :=
  if file = [] then (.ok .END, [], file)
  else (Controller.message_type (read_line file).1, (read_line file).1, (read_line file).2)

/-- A call `read_msg(message, BUFFER, sim->teams[i]->read)`: the stream of the
team is advanced and the call is recorded in the log.  Returns the type and
the line. -/
def Controller.read_from (sim : Simulation) (i : Nat) :
    Except Stop Controller.Messages × List Char × Simulation :=
  let team := sim.teamAt i
  let r := Controller.read_msg team.read
  (r.1, r.2.1,
    { sim with
      teams := sim.teams.set i { team with read := r.2.2 },
      log := sim.log ++ [⟨i, Controller.next_message team.read⟩] })

/-- Writing `text` to `sim->teams[i]->write`. -/
def Controller.write_to (sim : Simulation) (i : Nat) (text : List Char) : Simulation :=
  { sim with teams := (sim.teams.set i
      { sim.teamAt i with write := (sim.teamAt i).write ++ text }) }

/-- Function `send_gameoverman`: every team of the simulation is sent `gameoverman`. -/
def Controller.send_gameoverman (sim : Simulation) : Simulation :=
  (List.range sim.teams.length).foldl
    (fun s i => Controller.write_to s i "gameoverman\n".toList) sim

/-- The body of the inner loop of `read_donefighting_messages` for the teams
`a = sim->teams[i]` and `b = sim->teams[j]`, with the current value of
`endEarly`: returns the new value of `endEarly`. -/
def Controller.read_pair (i j : Nat) (sim : Simulation) (endEarly : Bool) :
    Except Stop Bool × Simulation :=
  let a := sim.teamAt i
  let b := sim.teamAt j
  if a.pos.x = b.pos.x ∧ a.pos.y = b.pos.y then
    let ra := Controller.read_from sim i
    match ra.1 with
    | .error e => (.error e, ra.2.2)
    | .ok typeA =>
      let rb := Controller.read_from ra.2.2 j
      match rb.1 with
      | .error e => (.error e, rb.2.2)
      | .ok typeB =>
        if typeA = .DONEFIGHTING ∧ typeB = .DONEFIGHTING then (.ok endEarly, rb.2.2)
        else if (typeA = .DISCO ∧ typeB = .END) ∨ (typeA = .END ∧ typeB = .DISCO) then
          (.ok true, rb.2.2)
        else (.error (.exit_game EXIT_BAD_MESSAGE), rb.2.2)
  else (.ok endEarly, sim)

/-- The inner loop of `read_donefighting_messages` for the team number `i`,
over the values `js` of `j` that are left. -/
def Controller.read_pairs (i : Nat) :
    List Nat → Simulation → Bool → Except Stop Bool × Simulation
  | [], sim, endEarly => (.ok endEarly, sim)
  | j :: js, sim, endEarly =>
    match Controller.read_pair i j sim endEarly with
    | (.error e, sim1) => (.error e, sim1)
    | (.ok endEarly1, sim1) => Controller.read_pairs i js sim1 endEarly1

/-- The outer loop of `read_donefighting_messages`, over the values of `i`
that are left: for each, `j` runs from `i + 1` up to `numTeams - 1`. -/
def Controller.read_rows :
    List Nat → Simulation → Bool → Except Stop Bool × Simulation
  | [], sim, endEarly => (.ok endEarly, sim)
  | i :: is, sim, endEarly =>
    match Controller.read_pairs i (List.range' (i + 1) (sim.teams.length - (i + 1))) sim
        endEarly with
    | (.error e, sim1) => (.error e, sim1)
    | (.ok endEarly1, sim1) => Controller.read_rows is sim1 endEarly1

/-- Function `read_donefighting_messages`: reads the end-of-battle messages of every pair
of teams in the same grid square; when a pair has ended early, every team is
sent `gameoverman` and the program exits with status 0. -/
def Controller.read_donefighting_messages (sim : Simulation) : Except Stop Unit × Simulation :=
  match Controller.read_rows (List.range sim.teams.length) sim false with
  | (.error e, sim1) => (.error e, sim1)
  | (.ok endEarly, sim1) =>
    if endEarly = true then (.error (.exit 0), Controller.send_gameoverman sim1)
    else (.ok (), sim1)

/-- The body of the outer loop of `get_grouped_teams` for the team
`a = sim->teams[a]`: the team joins the first group whose first team is in
its grid square, or else makes a new group at the end. -/
def Controller.place (sim : Simulation) (a : Nat) : List (List Nat) → List (List Nat)
  | [] => [[a]]
  | group :: groups =>
    let b := sim.teamAt (group.headD 0)
    if b.pos.x = (sim.teamAt a).pos.x ∧ b.pos.y = (sim.teamAt a).pos.y then
      (group ++ [a]) :: groups
    else group :: Controller.place sim a groups

/-- Function `get_grouped_teams`: the groups of the teams by zone, each group the list of
the roster indices of its teams, with the new value of `*numZones`.  The
array of groups starts as `NULL`: with `*numZones` not 0 the first team makes
the function read `teamGroups[0]` through it. -/
def Controller.get_grouped_teams (sim : Simulation) (numZones : Nat) :
    Except Stop (List (List Nat) × Nat) :=
  if numZones ≠ 0 then
    if sim.teams = [] then .ok ([], numZones) else .error .undefined
  else
    let teamGroups :=
      (List.range sim.teams.length).foldl (fun groups a => Controller.place sim a groups) []
    .ok (teamGroups, teamGroups.length)

/-- What `%d` prints for an `int`. -/
def decimal : Int → List Char
  | .ofNat n => Nat.toDigits 10 n
  | .negSucc n => '-' :: Nat.toDigits 10 (n + 1)

/-- The line `battle <x> <y> <port>*` that `send_battle_messages` writes to a
team, for the ports it lists. -/
def Controller.battle_line (a : Controller.Team) (ports : List Int) : List Char :=
  "battle ".toList ++ decimal a.pos.x ++ [' '] ++ decimal a.pos.y ++
    (ports.map (fun port => ' ' :: decimal port)).flatten ++ ['\n']

/-- The body of the loop of `send_battle_messages` over the zones, for one
group: the teams that get a line, in order, each with its line.  The team
number `j` of the group, when not the last, is told the ports of the teams
number `k` with `j < k < numTeams - 1`; the last team is told the ports of the
teams before it that are in its grid square. -/
def Controller.zone_lines (sim : Simulation) (group : List Nat) : List (Nat × List Char) :=
  let numTeams := group.length
  (List.range (numTeams - 1)).map (fun j =>
    let a := group.getD j 0
    (a, Controller.battle_line (sim.teamAt a)
      ((List.range' (j + 1) (numTeams - 1 - (j + 1))).map
        (fun k => (sim.teamAt (group.getD k 0)).port)))) ++
  [(group.getD (numTeams - 1) 0,
    Controller.battle_line (sim.teamAt (group.getD (numTeams - 1) 0))
      (((List.range (numTeams - 1)).filter (fun j =>
          decide ((sim.teamAt (group.getD (numTeams - 1) 0)).pos.x =
              (sim.teamAt (group.getD j 0)).pos.x ∧
            (sim.teamAt (group.getD (numTeams - 1) 0)).pos.y =
              (sim.teamAt (group.getD j 0)).pos.y))).map
        (fun j => (sim.teamAt (group.getD j 0)).port)))]

/-- Writing lines to teams of the roster, one after the other: each line comes
with the index of the team it is for. -/
def Controller.write_lines (sim : Simulation) (lines : List (Nat × List Char)) : Simulation :=
  lines.foldl (fun s line => Controller.write_to s line.1 line.2) sim

/-- Function `send_battle_messages`: the teams are grouped by zone, with the zone counter
at 0, and the lines of every zone are written, zone after zone. -/
def Controller.send_battle_messages (sim : Simulation) : Simulation :=
  match Controller.get_grouped_teams sim 0 with
  | .error _ => sim
  | .ok teams =>
    Controller.write_lines sim ((teams.1.take teams.2).map (Controller.zone_lines sim)).flatten

/-- The `switch` of `process_wherenow_messages` on the direction letter and the
wrap of the position that follows it.  The position is inside the grid
before, so the `int` additions do not overflow; `%` is that of C. -/
def Controller.travel (sim : Simulation) (d : Char) (pos : Coords) : Except Stop Coords :=
  let moved : Except Stop Coords :=
    if d = 'N' then .ok { pos with y := pos.y + 1 }
    else if d = 'E' then .ok { pos with x := pos.x + 1 }
    else if d = 'S' then .ok { pos with y := pos.y - 1 }
    else if d = 'W' then .ok { pos with x := pos.x - 1 }
    else .error (.exit_game EXIT_BAD_MESSAGE)
  match moved with
  | .error e => .error e
  | .ok p =>
    let p1 : Coords :=
      if p.x < 0 then { p with x := sim.width - 1 }
      else if p.y < 0 then { p with y := sim.height - 1 }
      else p
    .ok ⟨p1.x.tmod sim.width, p1.y.tmod sim.height⟩

/-- The body of the loop of `process_wherenow_messages` for the team number
`j`: the team is asked `wherenow?` and its position follows its `travel`
reply. -/
def Controller.process_wherenow (sim : Simulation) (j : Nat) : Except Stop Unit × Simulation :=
  let sim1 := Controller.write_to sim j "wherenow?\n".toList
  let r := Controller.read_from sim1 j
  match r.1 with
  | .error e => (.error e, r.2.2)
  | .ok type =>
    if type ≠ .TRAVEL ∨ r.2.1.length ≠ "travel d".toList.length then
      (.error (.exit_game EXIT_BAD_MESSAGE), r.2.2)
    else
      match Controller.travel sim (r.2.1.getD "travel ".toList.length '\x00')
          (r.2.2.teamAt j).pos with
      | .error e => (.error e, r.2.2)
      | .ok pos =>
        (.ok (), { r.2.2 with teams := r.2.2.teams.set j { r.2.2.teamAt j with pos := pos } })

/-- The loop of `process_wherenow_messages` over the teams that are left. -/
def Controller.process_wherenow_loop : List Nat → Simulation → Except Stop Unit × Simulation
  | [], sim => (.ok (), sim)
  | j :: js, sim =>
    match Controller.process_wherenow sim j with
    | (.error e, sim1) => (.error e, sim1)
    | (.ok _, sim1) => Controller.process_wherenow_loop js sim1

/-- Function `process_wherenow_messages`: every team in turn is asked where it goes and
is moved. -/
def Controller.process_wherenow_messages (sim : Simulation) : Except Stop Unit × Simulation :=
  Controller.process_wherenow_loop (List.range sim.teams.length) sim

/-- Function `valid_port`: true if the port is in the range 1 to 65535. -/
def valid_port (port : Int) : Bool :=
  if port ≤ 0 ∨ port > 65535 then false else true

/-- The loop of `connect_team` that copies the sinister file to the team: the
pieces that `fgets` reads, each printed as a C string.  `fuel` bounds the
number of pieces. -/
def Controller.copy_file : Nat → List Char → Except Stop (List Char)
  | 0, file => if file = [] then .ok [] else .error .out_of_fuel
  | fuel + 1, file =>
    match fgets BUFFER file with
    | (none, _) => .ok []
    | (some message, rest) =>
      match Controller.copy_file fuel rest with
      | .error e => .error e
      | .ok text => .ok (message ++ text)

/-- Function `connect_team`: for a team that has connected with the stream `read`, the
sinister file is sent and the `iwannaplay` message of the team gives its
position, name and port.  Returns the team. -/
def Controller.connect_team (sim : Simulation) (sinister : List Char) (read : List Char) :
    Except Stop Controller.Team :=
  match Controller.copy_file sinister.length sinister with
  | .error e => .error e
  | .ok text =>
    let write := "sinister\n".toList ++ text
    let r := Controller.read_msg read
    match r.1 with
    | .error e => .error e
    | .ok type =>
      if type ≠ .IWANNAPLAY then .error (.exit_game EXIT_BAD_MESSAGE)
      else
        let message := r.2.1
        match get_coords message ' ' "iwannaplay ".toList.length with
        | .error e => .error e
        | .ok coords =>
          if coords.1.x < 0 ∨ coords.1.y < 0 ∨ coords.2 ≥ message.length then
            .error (.exit_game EXIT_BAD_MESSAGE)
          else
            let pos : Coords := ⟨coords.1.x.tmod sim.width, coords.1.y.tmod sim.height⟩
            let name := get_token_update_pos message ' ' coords.2
            if name.2 ≥ message.length then .error (.exit_game EXIT_BAD_MESSAGE)
            else
              match number (get_token_update_pos message '\x00' name.2).1 with
              | .error e => .error e
              | .ok port =>
                if valid_port port = false then .error (.exit_game EXIT_BAD_MESSAGE)
                else .ok ⟨name.1.getD [], port, pos, r.2.2, write⟩

/-- The teams number `i` and `j` of the roster are in the same grid square. -/
def colocated (sim : Simulation) (i j : Nat) : Bool :=
  decide ((sim.teamAt i).pos.x = (sim.teamAt j).pos.x ∧
    (sim.teamAt i).pos.y = (sim.teamAt j).pos.y)

/-- The number of teams of the roster that are in the grid square of the team
number `t`, that team included. -/
def zone_size (sim : Simulation) (t : Nat) : Nat :=
  ((List.range sim.teams.length).filter (fun u => colocated sim u t)).length

/-- The number of calls of `read_msg` in the log that are on the stream of the
team number `t`. -/
def reads_from (log : List Controller.Received) (t : Nat) : Nat :=
  (log.map Controller.Received.team).count t

/-- What `read_donefighting_messages` makes of the two messages that it reads
for a pair of teams in the same grid square: `false` when both are
`donefighting`, `true` (the battle ended early) when one is `disco` and the
other the end of the stream, and the protocol error for every other pair. -/
def Controller.pair_outcome (a b : Option (List Char)) : Except Stop Bool :=
  match Controller.type_of a with
  | .error e => .error e
  | .ok typeA =>
    match Controller.type_of b with
    | .error e => .error e
    | .ok typeB =>
      if typeA = .DONEFIGHTING ∧ typeB = .DONEFIGHTING then .ok false
      else if (typeA = .DISCO ∧ typeB = .END) ∨ (typeA = .END ∧ typeB = .DISCO) then .ok true
      else .error (.exit_game EXIT_BAD_MESSAGE)

/-- The value of `endEarly` after the reads of a list, taken two by two from
the value `endEarly`: it becomes true with a pair that ended early, and a
pair that is not accepted (or a single read left over, which is a line of no
known type) ends the controller with the protocol error. -/
def Controller.barrier_outcome : List Controller.Received → Bool → Except Stop Bool
  | [], endEarly => .ok endEarly
  | [_], _ => .error (.exit_game EXIT_BAD_MESSAGE)
  | a :: b :: rest, endEarly =>
    match Controller.pair_outcome a.message b.message with
    | .error e => .error e
    | .ok early => Controller.barrier_outcome rest (endEarly || early)

/-- The teams that `read_donefighting_messages` reads from when no pair ends
the controller, in order: for every `i`, and every `j` after `i` in the grid
square of `i`, first `i` and then `j`. -/
def barrier_reads (sim : Simulation) : List Nat :=
  (List.range sim.teams.length).flatMap (fun i =>
    ((List.range' (i + 1) (sim.teams.length - (i + 1))).filter (colocated sim i)).flatMap
      (fun j => [i, j]))

/-- The simulation `s1` is the simulation `s` but for the streams of its
teams and the log. -/
def Stable (s s1 : Simulation) : Prop :=
  s1.teams.length = s.teams.length ∧ s1.rounds = s.rounds ∧ s1.width = s.width ∧
  s1.height = s.height ∧
  ∀ k, (s1.teamAt k).name = (s.teamAt k).name ∧ (s1.teamAt k).port = (s.teamAt k).port ∧
    (s1.teamAt k).pos = (s.teamAt k).pos

/-- A simulation on a 3 by 3 grid with the teams `A`, `B`, `C` and `D`: the
first three are in the zone (0, 0), the last is alone in (1, 2). -/
def sampleSim : Simulation :=
  ⟨[⟨"A".toList, 5001, ⟨0, 0⟩, "donefighting\ndonefighting\ndonefighting\n".toList, []⟩,
    ⟨"B".toList, 5002, ⟨0, 0⟩, "donefighting\ndonefighting\ndonefighting\n".toList, []⟩,
    ⟨"C".toList, 5003, ⟨0, 0⟩, "donefighting\ndonefighting\ndonefighting\n".toList, []⟩,
    ⟨"D".toList, 5004, ⟨1, 2⟩, "donefighting\n".toList, []⟩], 2, 3, 3, []⟩

/-- A simulation on a 3 by 3 grid with the teams `A` and `B`, both in the
zone (0, 0). -/
def pairSim : Simulation :=
  ⟨[⟨"A".toList, 5001, ⟨0, 0⟩, "donefighting\n".toList, []⟩,
    ⟨"B".toList, 5002, ⟨0, 0⟩, "donefighting\n".toList, []⟩], 1, 3, 3, []⟩

/-- A simulation with the teams `A` and `B` in the zone (0, 0): the next line
of `A` has no known tag. -/
def helloSim : Simulation :=
  ⟨[⟨"A".toList, 5001, ⟨0, 0⟩, "hello\n".toList, []⟩,
    ⟨"B".toList, 5002, ⟨0, 0⟩, "donefighting\n".toList, []⟩], 1, 3, 3, []⟩

/-- A simulation with the teams `A` and `B` in the zone (0, 0) and `C` and `D`
in the zone (1, 1): `A` has sent `disco` and the stream of `B` is at its end;
`C` and `D` have sent `donefighting`. -/
def earlySim : Simulation :=
  ⟨[⟨"A".toList, 5001, ⟨0, 0⟩, "disco\n".toList, []⟩,
    ⟨"B".toList, 5002, ⟨0, 0⟩, [], []⟩,
    ⟨"C".toList, 5003, ⟨1, 1⟩, "donefighting\n".toList, []⟩,
    ⟨"D".toList, 5004, ⟨1, 1⟩, "donefighting\n".toList, []⟩], 2, 3, 3, []⟩

/-- The simulation `earlySim` but for the team `C`, which has sent `travel N`. -/
def mixedSim : Simulation :=
  ⟨[⟨"A".toList, 5001, ⟨0, 0⟩, "disco\n".toList, []⟩,
    ⟨"B".toList, 5002, ⟨0, 0⟩, [], []⟩,
    ⟨"C".toList, 5003, ⟨1, 1⟩, "travel N\n".toList, []⟩,
    ⟨"D".toList, 5004, ⟨1, 1⟩, "donefighting\n".toList, []⟩], 2, 3, 3, []⟩

/-- The invariant of the loop of `get_grouped_teams` after the first `k`
teams: the groups are not empty; together they hold each of the first `k`
roster indices once; each group is in increasing order, and so are the first
teams of the groups; the teams of a group are in the grid square of its first
team; and the first teams of two groups are in different grid squares. -/
def Grouped (sim : Simulation) (k : Nat) (zones : List (List Nat)) : Prop :=
  (∀ z ∈ zones, z ≠ []) ∧ zones.flatten.Perm (List.range k) ∧
  (∀ z ∈ zones, z.Pairwise (· < ·)) ∧ (zones.map (fun z => z.headD 0)).Pairwise (· < ·) ∧
  (∀ z ∈ zones, ∀ i ∈ z, (sim.teamAt i).pos = (sim.teamAt (z.headD 0)).pos) ∧
  (zones.map (fun z => (sim.teamAt (z.headD 0)).pos)).Pairwise (· ≠ ·)

/-- The ports that `send_battle_messages` lists for the team number `j` of the
zone `z`: for the last team of the zone the ports of all the teams before it,
for another team the ports of the teams after it but for the last. -/
def zone_ports (sim : Simulation) (z : List Nat) (j : Nat) : List Int :=
  (if j + 1 = z.length then z.dropLast else (z.drop (j + 1)).dropLast).map
    (fun t => (sim.teamAt t).port)

/-- What a part of the loops of `read_donefighting_messages` does, from the
simulation `sim` and the value `endEarly`, when `teams` are the teams it reads
from if nothing ends the controller: it changes only the streams and the log,
it writes nothing, the result is that of the reads it has added to the log,
and every team it has read from has another team of the roster in its grid
square. -/
def BarrierSpec (sim : Simulation) (endEarly : Bool) (teams : List Nat)
    (out : Except Stop Bool × Simulation) : Prop :=
  Stable sim out.2 ∧ (∀ k, (out.2.teamAt k).write = (sim.teamAt k).write) ∧
  ∃ log : List Controller.Received,
    out.2.log = sim.log ++ log ∧ out.1 = Controller.barrier_outcome log endEarly ∧
    ((∃ early, out.1 = .ok early) → log.map Controller.Received.team = teams) ∧
    (∀ x ∈ log, ∃ u, u ≠ x.team ∧ u < sim.teams.length ∧ colocated sim x.team u = true) ∧
    (∀ k, (∀ x ∈ log, x.team ≠ k) → (out.2.teamAt k).read = (sim.teamAt k).read)

/-- The teams that the rows `is` of the barrier read from when nothing ends
the controller, in a roster of `n` teams. -/
def rows_reads (sim : Simulation) (n : Nat) (is : List Nat) : List Nat :=
  is.flatMap (fun i =>
    ((List.range' (i + 1) (n - (i + 1))).filter (colocated sim i)).flatMap (fun j => [i, j]))

/-- The position is inside the grid of the simulation. -/
def InGrid (sim : Simulation) (pos : Coords) : Prop :=
  0 ≤ pos.x ∧ pos.x < sim.width ∧ 0 ≤ pos.y ∧ pos.y < sim.height

instance (sim : Simulation) (pos : Coords) : Decidable (InGrid sim pos) := by
  unfold InGrid
  infer_instance

/-- The states of a simulation of the controller that `run_simulation` goes
through, from a grid that `main` has accepted (height and width at least
`MIN_DIMENSION`): the roster grows by the teams that `connect_team` returns,
`qsort` reorders it, and the rounds call `send_battle_messages`,
`read_donefighting_messages`, `send_gameoverman` and
`process_wherenow_messages`.  The order of the calls is left open. -/
inductive Controller.Reachable : Simulation → Prop where
  | start (rounds width height : Int) : 1 ≤ width → 1 ≤ height →
      Controller.Reachable ⟨[], rounds, width, height, []⟩
  | connect (sim : Simulation) (sinister read : List Char) (team : Controller.Team) :
      Controller.Reachable sim → Controller.connect_team sim sinister read = .ok team →
      Controller.Reachable { sim with teams := sim.teams ++ [team] }
  | qsort (sim : Simulation) (teams : List Controller.Team) :
      Controller.Reachable sim → teams.Perm sim.teams →
      Controller.Reachable { sim with teams := teams }
  | battle (sim : Simulation) :
      Controller.Reachable sim → Controller.Reachable (Controller.send_battle_messages sim)
  | barrier (sim : Simulation) :
      Controller.Reachable sim →
      Controller.Reachable (Controller.read_donefighting_messages sim).2
  | gameover (sim : Simulation) :
      Controller.Reachable sim → Controller.Reachable (Controller.send_gameoverman sim)
  | wherenow (sim : Simulation) :
      Controller.Reachable sim →
      Controller.Reachable (Controller.process_wherenow_messages sim).2

/-- Every team of the roster is inside the grid. -/
def AllInGrid (sim : Simulation) : Prop :=
  ∀ k, k < sim.teams.length → InGrid sim (sim.teamAt k).pos

/-- The movement update of the controller, `n` times in a row for the
direction `d`. -/
def Controller.travel_times (sim : Simulation) (d : Char) : Nat → Coords → Except Stop Coords
  | 0, pos => .ok pos
  | n + 1, pos =>
    match Controller.travel sim d pos with
    | .error e => .error e
    | .ok p => Controller.travel_times sim d n p

/-- A simulation on a 3 by 3 grid with one team at (0, 0), which goes west
twice. -/
def westSim : Simulation :=
  ⟨[⟨"A".toList, 5001, ⟨0, 0⟩, "travel W\ntravel W\n".toList, []⟩], 3, 3, 3, []⟩

/-- Exit status `EXIT_INVALID_PORT` of team.c. -/
def EXIT_INVALID_PORT : Nat := 6

/-- Exit status `EXIT_CONNECT_TEAM` of team.c. -/
def EXIT_CONNECT_TEAM : Nat := 8

/-- Function `add_narrative`: the narrative becomes the last of the array of narratives
of the game; `numNarratives` is the length of the list. -/
def add_narrative (narratives : List (List Char)) (narrative : List Char) :
    List (List Char) :=
  narratives ++ [narrative]

/-- The C library's `strcmp`: the difference of the first two characters that
differ, as `unsigned char`, with the terminating NUL as the character after
the end of a string; the comparison stops at a NUL that both strings have. -/
def strcmp : List Char → List Char → Int
  | [], [] => 0
  | [], b :: _ => 0 - (b.toNat : Int)
  | a :: _, [] => (a.toNat : Int)
  | a :: as, b :: bs =>
    if a ≠ b then (a.toNat : Int) - (b.toNat : Int)
    else if a = '\x00' then 0
    else strcmp as bs

/-- Function `sort_strings`: the comparison that `print_and_free_narratives` hands to
`qsort`. -/
def sort_strings (a b : List Char) : Int := strcmp a b

/-- The C library's `qsort` for the comparison `compar`: the array in an order
in which `compar` of an element and a later one is never positive.  For a
comparison that is a total order and is 0 only on equal elements, as
`sort_strings` is, there is one such order of the array; it is computed by
insertion here. -/
def qsort (compar : List Char → List Char → Int) (base : List (List Char)) :
    List (List Char) :=
  List.insertionSort (fun a b => compar a b ≤ 0) base

/-- Function `print_and_free_narratives`: the narratives are sorted and printed one after
the other.  Returns what the calls of `printf` print, one string per call,
and the new value of `numNarratives`. -/
def print_and_free_narratives (narratives : List (List Char)) : List (List Char) × Nat :=
  (qsort sort_strings narratives, 0)

/-- The result of `battle`: the number of eliminated opposing members, whether
the loser is the opposing team, and the member copies as they were freed. -/
abbrev BattleResult : Type := Nat × Bool × List Member

/-- Function `be_challenged`: the wait side of the handshake, then the battle in which
the opposing team goes first.  `read` is what is still to come from the
opposing team and `write` what has been written to it so far.  The name of
the opposing team is what follows the first `strlen("fightmeirl ")`
characters of the message (nothing, when the message is shorter); until then
`opposing->name` is not set. -/
def be_challenged (game : Game) (team : Team) (simulation : Bool) (read write : List Char) :
    Except Stop BattleResult × BattleState :=
  match read_team_msg simulation read with
  | .error e => (.error e, ⟨[], (read_line read).2, write, []⟩)
  | .ok msg =>
    if msg.1 ≠ .FIGHTMEIRL then
      (.error (.exit_game EXIT_BAD_MESSAGE), ⟨[], (read_line read).2, write, []⟩)
    else
      let name := get_token (msg.2.drop "fightmeirl ".toList.length) '\x00'
      battle game team simulation false
        ⟨name, (read_line read).2, write ++ ("haveatyou ".toList ++ team.name ++ ['\n']),
          append_string [] (name ++ " has a difference of opinion\n".toList)⟩

/-- Function `challenge`: the challenge side of the handshake, then the battle in which
the team goes first. -/
def challenge (game : Game) (team : Team) (simulation : Bool) (read write : List Char) :
    Except Stop BattleResult × BattleState :=
  match read_team_msg simulation read with
  | .error e =>
    (.error e,
      ⟨[], (read_line read).2, write ++ ("fightmeirl ".toList ++ team.name ++ ['\n']), []⟩)
  | .ok msg =>
    if msg.1 ≠ .HAVEATYOU then
      (.error (.exit_game EXIT_BAD_MESSAGE),
        ⟨[], (read_line read).2, write ++ ("fightmeirl ".toList ++ team.name ++ ['\n']), []⟩)
    else
      let name := get_token (msg.2.drop "haveatyou ".toList.length) '\x00'
      battle game team simulation true
        ⟨name, (read_line read).2, write ++ ("fightmeirl ".toList ++ team.name ++ ['\n']),
          append_string [] (name ++ " has a difference of opinion\n".toList)⟩

/-- Function `enter_challenge_mode`: the port is checked, the opposing team is connected
to and challenged.  `connection` is what `connect_to_port` gives: the stream
from the opposing team, or `none` when the connection fails. -/
def enter_challenge_mode (game : Game) (team : Team) (simulation : Bool) (port : Int)
    (connection : Option (List Char)) : Except Stop BattleResult × BattleState :=
  if valid_port port = false then (.error (.exit_game EXIT_INVALID_PORT), ⟨[], [], [], []⟩)
  else
    match connection with
    | none => (.error (.exit_game EXIT_CONNECT_TEAM), ⟨[], [], [], []⟩)
    | some read => challenge game team simulation read []

/-- What a battle thread of a team leaves behind: how it ended, the state of
its battle, the characters it has written to the controller, the narratives
of the game, and what it has printed on standard output, one string per
`printf`. -/
structure ThreadEnd where
  result : Except Stop Unit
  state : BattleState
  controller : List Char
  narratives : List (List Char)
  stdout : List (List Char)
  deriving DecidableEq, Repr

/-- What a thread has written to the controller when its battle ended without
returning: `disco` when `read_team_msg` found the opposing team gone in
simulation mode, and nothing when the program was ended. -/
def stop_message (e : Stop) : List Char :=
  if e = .disco then "disco\n".toList else []

/-- Function `wait_wrapper`: the team is challenged, and when the battle has run, its
narrative is with the narratives of the game; in simulation mode
`donefighting` is written to the controller, else the narratives are
printed. -/
def wait_wrapper (game : Game) (team : Team) (simulation : Bool) (read : List Char)
    (narratives : List (List Char)) : ThreadEnd :=
  match be_challenged game team simulation read [] with
  | (.error e, st) => ⟨.error e, st, stop_message e, narratives, []⟩
  | (.ok _, st) =>
    if simulation = true then
      ⟨.ok (), st, "donefighting\n".toList, add_narrative narratives st.narrative, []⟩
    else
      ⟨.ok (), st, [], [],
        (print_and_free_narratives (add_narrative narratives st.narrative)).1⟩

/-- Function `spawn_challenge_thread`: the thread that `run_simulation` starts for a port
of a `battle` message; when the battle has run, its narrative is with the
narratives of the game and `donefighting` is written to the controller. -/
def spawn_challenge_thread (game : Game) (team : Team) (simulation : Bool) (port : Int)
    (connection : Option (List Char)) (narratives : List (List Char)) : ThreadEnd :=
  match enter_challenge_mode game team simulation port connection with
  | (.error e, st) => ⟨.error e, st, stop_message e, narratives, []⟩
  | (.ok _, st) =>
    ⟨.ok (), st, "donefighting\n".toList, add_narrative narratives st.narrative, []⟩

/-- The positions, in a zone of `numTeams` teams, of the teams whose ports
`send_battle_messages` lists in the line of the team at the position `j`: for
a team that is not the last the loop from `j + 1` while `k < numTeams - 1`,
for the last team the loop over all the teams before it (which are in its
grid square). -/
def challenged (numTeams j : Nat) : List Nat :=
  if j + 1 = numTeams then List.range (numTeams - 1)
  else List.range' (j + 1) (numTeams - 1 - (j + 1))

/-- The positions, in a zone of `numTeams` teams, of the teams whose lines
list the port of the team at the position `j`: the teams that challenge it,
for which it waits. -/
def challengers (numTeams j : Nat) : List Nat :=
  (List.range numTeams).filter (fun k => decide (j ∈ challenged numTeams k))

/-- The ways in which a read of a battle ends the thread or the team: the
loss of the opposing team (`disco` in a simulation, else status 10) and the
protocol error. -/
def Stop.ended (e : Stop) : Prop :=
  e = .disco ∨ e = .exit_game EXIT_TEAM_DISCO ∨ e = .exit_game EXIT_BAD_MESSAGE

/-- The names of the attacks and of the agents are C strings of one line: they
hold no newline and no NUL. -/
def NamesClean (g : Game) : Prop :=
  (∀ a ∈ g.attacks, '\n' ∉ a.name ∧ '\x00' ∉ a.name) ∧
  (∀ o ∈ g.agents, '\n' ∉ o.name ∧ '\x00' ∉ o.name)

/-- A member of a team as `read_agents` accepts it: its agent is one of the
game, it has attacks, and each is an attack of the game that is legal for the
agent. -/
def MemberOK (game : Game) (m : Member) : Prop :=
  m.agent < game.agents.length ∧ m.attacks ≠ [] ∧
  ∀ a ∈ m.attacks, a < game.attacks.length ∧ a ∈ (game.agentAt m.agent).legalAttacks

/-- The rest of a round of `battle` from the `while` loop on, and the rounds
after it: `fight` for the member of the round `i`, then the `for` loop from
`i + 1`.  `ffuel` bounds the iterations of the `while` loop and `lfuel` the
rounds left. -/
def battle_rest (game : Game) (team : Team) (simulation goFirst : Bool)
    (ffuel lfuel i j : Nat) (loser : Bool) (member opponent : Member) (freed : List Member)
    (st : BattleState) : Except Stop (Nat × Bool × List Member) × BattleState :=
  match fight game simulation ffuel j loser member opponent st with
  | (.error e, st3) => (.error e, st3)
  | (.ok (j1, loser1, member1, opponent2), st3) =>
    battle_loop game team simulation goFirst lfuel (i + 1) j1 loser1 opponent2
      (freed ++ [member1]) st3

/-- The rest of a round of `battle` from a call of `get_attacked` on: the
attack is taken, then the `while` loop goes on. -/
def battle_await (game : Game) (team : Team) (simulation goFirst : Bool)
    (ffuel lfuel i j : Nat) (loser : Bool) (member opponent : Member) (freed : List Member)
    (st : BattleState) : Except Stop (Nat × Bool × List Member) × BattleState :=
  match get_attacked game simulation member opponent st with
  | (.error e, st3) => (.error e, st3)
  | (.ok member1, st3) =>
    battle_rest game team simulation goFirst ffuel lfuel i j loser member1 opponent freed st3

/-- The line `iselectyou <name>` that `select_member` writes for a member. -/
def select_line (game : Game) (m : Member) : List Char :=
  "iselectyou ".toList ++ (game.agentAt m.agent).name ++ ['\n']

/-- The line `attack <agent> <attack>` that `attack` writes for a member. -/
def attack_line (game : Game) (m : Member) : List Char :=
  "attack ".toList ++ (game.agentAt m.agent).name ++ [' '] ++
    (game.attackAt (m.attacks.getD m.nextAttack 0)).name ++ ['\n']

/-- The C string that starts at index `pos` of a buffer whose bytes are
`memory`: the bytes from there up to the first NUL.  When there is no NUL
from `pos` to the end of the buffer (in particular when `pos` is behind the
buffer) the read leaves the buffer: `none`. -/
def string_at (memory : List Char) (pos : Nat) : Option (List Char) :=
  if '\x00' ∈ memory.drop pos then some (get_token (memory.drop pos) '\x00') else none

/-- The bytes of the caller's buffer after `read_line(result, buffer, file)`,
for a buffer of `buffer` bytes that held the bytes `stale` before the call
(`malloc` does not clear the bytes it returns).  The characters up to the
newline are stored from index 0 and a NUL after them; the bytes behind that
NUL keep their old value.  (On an empty line the test
`result[position - 1] == '\n'` looks at the byte in front of the buffer;
whatever it finds, the NUL is stored at index 0.)  Once `buffer - 1`
characters are stored `read_line` calls `realloc` on its own copy of the
pointer, so the pointer of the caller is no longer valid after the call:
`none`. -/
def read_line_buffer (stale : List Char) (buffer : Nat) (file : List Char) :
    Option (List Char) :=
  let line := get_token file '\n'
  if line.length < buffer - 1 then
    some (line ++ '\x00' :: (stale.drop (line.length + 1)).take (buffer - (line.length + 1)))
  else none

/-- Function `get_attacked` on the bytes of its buffer `message`, which held
`stale` when `malloc` returned it.  `read_team_msg` looks only at the string
at index 0 of the buffer.  The agent name is the token of the string at index
`strlen("attack ")`, and the attack name is the string at index
`strlen("attack  ") + strlen(opponent->agent->name)`: on a shorter line these
indices are behind the NUL that `read_line` stored, where the buffer still
holds its old bytes. -/
def get_attacked_buffer (stale : List Char) (game : Game) (simulation : Bool)
    (member opponent : Member) (st : BattleState) : Except Stop Member × BattleState :=
  let st1 := { st with read := (read_line st.read).2 }
  match read_line_buffer stale BUFFER st.read with
  | none => (.error .undefined, st1)
  | some message =>
    match read_team_msg simulation st.read with
    | .error e => (.error e, st1)
    | .ok msg =>
      if msg.1 ≠ .ATTACK then (.error (.exit_game EXIT_BAD_MESSAGE), st1)
      else
        let agent := game.agentAt opponent.agent
        match string_at message "attack ".toList.length,
          string_at message ("attack  ".toList.length + agent.name.length) with
        | some s, some attackName =>
          let agentName := get_token s ' '
          match get_attack game attackName with
          | none => (.error (.exit_game EXIT_BAD_MESSAGE), st1)
          | some a =>
            if legal_attack game agent (game.attackAt a) = false ∨ agentName ≠ agent.name then
              (.error (.exit_game EXIT_BAD_MESSAGE), st1)
            else
              let attack := game.attackAt a
              let effectiveness :=
                (get_effectiveness game attack (game.agentAt member.agent)).val
              let member1 := { member with health := member.health - effectiveness }
              (.ok member1,
                { st1 with
                  narrative :=
                    narrate_attack game st1.narrative agent attack effectiveness member1 })
        | _, _ => (.error .undefined, st1)

/-- The body of the loop of `read_agents` on the bytes of its buffer `line`
after `read_line`.  The line is the string at index 0.  The attacks are read
by `read_team_attacks(&line[pos], ...)` with `pos = strlen(agent->name) + 1`:
the string at index `pos` of the buffer, which for a line that is only the
name of an agent starts behind the NUL that `read_line` stored, where the
buffer still holds its old bytes. -/
def read_member_line_buffer (game : Game) (memory : List Char) : Except Stop Member :=
  match string_at memory 0 with
  | none => .error .undefined
  | some line =>
    if line.length = 0 then .error (.exit_game EXIT_TEAM_FILE_CONTENTS)
    else
      match get_agent game (get_token line ' ') with
      | none => .error (.exit_game EXIT_TEAM_FILE_CONTENTS)
      | some agent =>
        match string_at memory ((game.agentAt agent).name.length + 1) with
        | none => .error .undefined
        | some attacks => read_team_attacks attacks game ⟨agent, [], 0, 0⟩

/-- The `for` loop of `read_agents` with the buffer of every iteration:
`stale i` are the bytes that the buffer of iteration `i` holds when `malloc`
returns it.  A line of `BUFFER - 1` characters or more leaves the loop with a
pointer that is no longer valid.  Returns the members and the rest of the
stream. -/
def read_agents_loop_buffer (stale : Nat → List Char) (game : Game) :
    Nat → List Char → List Member → Except Stop (List Member × List Char)
  | 0, file, members => .ok (members, file)
  | n + 1, file, members =>
    match read_line_buffer (stale members.length) BUFFER file with
    | none => .error .undefined
    | some memory =>
      match read_member_line_buffer game memory with
      | .error e => .error e
      | .ok member =>
        read_agents_loop_buffer stale game n (read_line file).2 (members ++ [member])

/-- Function `read_agents` with the buffers of its iterations. -/
def read_agents_buffer (stale : Nat → List Char) (file : List Char) (game : Game) :
    Except Stop (List Member × List Char) :=
  read_agents_loop_buffer stale game MAX_TEAM_PLAYERS file []

/-- Function `read_team_file`, on the contents of the opened file, with the
buffers of `read_agents`.  The name of the team is read by `read_line` into a
buffer of `BUFFER` bytes of which only the string at index 0 is used. -/
def read_team_file_buffer (stale : Nat → List Char) (game : Game) (file : List Char) :
    Except Stop Team :=
  match read_line_buffer [] BUFFER file with
  | none => .error .undefined
  | some _ =>
    let name := (read_line file).1
    if name.length = 0 then .error (.exit_game EXIT_TEAM_FILE_CONTENTS)
    else
      match read_agents_buffer stale (read_line file).2 game with
      | .error e => .error e
      | .ok (members, f1) =>
        match fgets BUFFER f1 with
        | (none, _) => .error (.exit_game EXIT_TEAM_FILE_CONTENTS)
        | (some coords, f2) =>
          match get_coords coords '\n' 0 with
          | .error e => .error e
          | .ok (pos, _) =>
            if pos.x < 0 ∨ pos.y < 0 then .error (.exit_game EXIT_TEAM_FILE_CONTENTS)
            else
              match read_directions f2 [] with
              | .error e => .error e
              | .ok (directions, f3) =>
                if f3 ≠ [] then .error (.exit_game EXIT_TEAM_FILE_CONTENTS)
                else .ok { new_team name with
                  members := members, pos := pos, directions := directions, nextMove := 0 }

/-- A team file whose second member line is only the name of an agent. -/
def noAttackTeamText : List Char :=
  "Alpha\nA splash\nA\nA splash\nA splash\n3 4\nN E\nS\n".toList

/-- Function `read_attack` on the buffer of `read_section`.  The type name is
the string at `&line[strlen(attackName) + 1]`.  On a line without a space the
attack name is the whole line and that index is behind the NUL that
`read_line` stored, where the buffer holds whatever it held before: the
outcome is not determined by the line (`none`). -/
def read_attack_checked (game : Game) (line : List Char) : Option (Int × Game) :=
  if (get_token line ' ').length + 1 ≤ line.length then some (read_attack game line) else none

/-- The `while (true)` loop of `read_section` with its buffer of 80 bytes.
When a line has 79 characters or more, `read_line` reallocs its own copy of
the pointer and `read_section` goes on with a pointer that is no longer valid:
the outcome is not determined by the text (`none`), and the same holds when
`processLine` reads bytes that `read_line` did not store.  Otherwise
`read_section` uses only the string at index 0 of the buffer, which is the
line.  Returns the status, the game and the rest of the stream. -/
def read_section_loop_checked (processLine : Game → List Char → Option (Int × Game)) :
    Nat → Game → List Char → Option (Int × Game × List Char)
  | 0, game, file => some (-1, game, file)
  | fuel + 1, game, file =>
    match read_line_buffer [] 80 file with
    | none => none
    | some _ =>
      match read_line file with
      | (line, rest) =>
        if line.length = 0 then some (-1, game, rest)
        else if line = ['.'] then some (0, game, rest)
        else if line.head? = some '#' then
          read_section_loop_checked processLine fuel game rest
        else
          match processLine game line with
          | none => none
          | some result =>
            if result.1 ≠ 0 then some (result.1, result.2, rest)
            else read_section_loop_checked processLine fuel result.2 rest

/-- Function `read_section` with its buffer: the loop started with enough fuel
for the whole stream. -/
def read_section_checked (game : Game) (file : List Char)
    (processLine : Game → List Char → Option (Int × Game)) : Option (Int × Game × List Char) :=
  read_section_loop_checked processLine (file.length + 1) game file

/-- Function `read_sinister_file` with the buffer of `read_section`: `none`
when the outcome is not determined by the text. -/
def read_sinister_file_checked (game : Game) (file : List Char) :
    Option (Int × Game × List Char) :=
  match read_section_checked game file (fun g l => some (read_type_name g l)) with
  | none => none
  | some s1 =>
    if s1.1 ≠ 0 then some (-1, s1.2.1, s1.2.2)
    else
      match read_section_checked s1.2.1 s1.2.2
          (fun g l => some (read_effectiveness_strings g l)) with
      | none => none
      | some s2 =>
        if s2.1 ≠ 0 then some (-1, s2.2.1, s2.2.2)
        else
          match read_section_checked s2.2.1 s2.2.2
              (fun g l => some (read_relation_strings g l)) with
          | none => none
          | some s3 =>
            if s3.1 ≠ 0 then some (-1, s3.2.1, s3.2.2)
            else
              match read_section_checked s3.2.1 s3.2.2 read_attack_checked with
              | none => none
              | some s4 =>
                if s4.1 ≠ 0 then some (-1, s4.2.1, s4.2.2)
                else
                  match read_section_checked s4.2.1 s4.2.2
                      (fun g l => some (read_agent g l)) with
                  | none => none
                  | some s5 =>
                    if s5.1 ≠ 0 then some (-1, s5.2.1, s5.2.2)
                    else if s5.2.1.types.length ≤ 0 ∨ s5.2.1.agents.length ≤ 0 ∨
                        s5.2.1.attacks.length ≤ 0 then some (-1, s5.2.1, s5.2.2)
                    else if s5.2.1.types.any
                        (fun type => (type.effectiveness.get 0).isNone) then
                      some (-1, s5.2.1, s5.2.2)
                    else some (0, s5.2.1, s5.2.2)

/-- The text `f'` is the text `f`, possibly with one comment line `#c` of
fewer than `buffer - 1` characters inserted at the start of a line. -/
def short_comment_inserted (buffer : Nat) (f f' : List Char) : Prop :=
  f' = f ∨ ∃ pre post c : List Char, (pre = [] ∨ pre.getLast? = some '\n') ∧ '\n' ∉ c ∧
    c.length + 1 < buffer - 1 ∧ f = pre ++ post ∧ f' = pre ++ ('#' :: c ++ '\n' :: post)

/-- Two runs of a section agree: both are undetermined, or both end with the
same status and game and with streams that differ by the comment at most. -/
def section_agree (a b : Option (Int × Game × List Char)) : Prop :=
  match a, b with
  | none, none => True
  | some ra, some rb => ra.1 = rb.1 ∧ ra.2.1 = rb.2.1 ∧ short_comment_inserted 80 rb.2.2 ra.2.2
  | _, _ => False

/-- The golden rulebook with a comment line of 79 characters before the
terminator of the Types section. -/
def longCommentText : List Char :=
  "fire\nwater\ngrass\n".toList ++ ('#' :: List.replicate 78 'x') ++ '\n' ::
    (".\n" ++
     "fire weak normal super\nwater weak normal super\ngrass weak normal super\n.\n" ++
     "water +fire\nfire +grass\ngrass +water\n.\n" ++
     "splash water\nember fire\nvine grass\n.\n" ++
     "A water splash splash splash\nB fire ember ember ember\nC grass vine vine vine\n.\n").toList

/-- Every line of the stream has fewer than `BUFFER - 1` characters, so that
`read_line` leaves the buffer of its caller in place. -/
def ShortLines (w : List Char) : Prop := ∀ l ∈ w.splitOn '\n', l.length < BUFFER - 1

/-- The names of the game are short enough for the messages of a battle: the
lines `iselectyou <agent>` and `attack <agent> <attack>` have fewer than
`BUFFER - 1` characters. -/
def ShortNames (g : Game) : Prop :=
  ∀ o ∈ g.agents, "iselectyou ".toList.length + o.name.length < BUFFER - 1 ∧
    ∀ a ∈ g.attacks, "attack  ".toList.length + o.name.length + a.name.length < BUFFER - 1

/-- Function `get_selected_opponent` on the bytes of its buffer `message`,
which held `stale` when `malloc` returned it.  `read_team_msg` looks only at
the string at index 0 of the buffer; the agent name is the string at index
`strlen("iselectyou ")`, which on the line `iselectyou` is behind the NUL
that `read_line` stored.  A line of `BUFFER - 1` characters or more leaves
`get_selected_opponent` with a pointer that is no longer valid. -/
def get_selected_opponent_buffer (stale : List Char) (game : Game) (simulation : Bool)
    (st : BattleState) : Except Stop Member × BattleState :=
  let st1 := { st with read := (read_line st.read).2 }
  match read_line_buffer stale BUFFER st.read with
  | none => (.error .undefined, st1)
  | some message =>
    match read_team_msg simulation st.read with
    | .error e => (.error e, st1)
    | .ok msg =>
      if msg.1 ≠ .ISELECTYOU then (.error (.exit_game EXIT_BAD_MESSAGE), st1)
      else
        match string_at message "iselectyou ".toList.length with
        | none => (.error .undefined, st1)
        | some s =>
          let agentName := get_token s '\x00'
          match get_agent game agentName with
          | none => (.error (.exit_game EXIT_BAD_MESSAGE), st1)
          | some agent =>
            (.ok ⟨agent, [], 0, MAX_HEALTH⟩,
              { st1 with narrative := (append_string st1.narrative
                  (st1.name ++ " chooses ".toList ++ (game.agentAt agent).name ++ ['\n'])) })

/-- A rulebook whose agent has a name of 68 characters. -/
def longNameText : List Char :=
  "w\n.\nw a b c\n.\nw\n.\na w\n.\n".toList ++ List.replicate 68 'x' ++ " w a a a\n.\n".toList

/-- A team file for the rulebook with the long name. -/
def longNameTeamText : List Char :=
  "T\n".toList ++ List.replicate 68 'x' ++ " a\n".toList ++ List.replicate 68 'x' ++
    " a\n".toList ++ List.replicate 68 'x' ++ " a\n".toList ++ List.replicate 68 'x' ++
    " a\n3 4\nN\n".toList

/-- A team file for the rulebook with the long name whose second member line
is only the name of the agent. -/
def longNameNoAttackTeamText : List Char :=
  "T\n".toList ++ List.replicate 68 'x' ++ " a\n".toList ++ List.replicate 68 'x' ++
    "\n".toList ++ List.replicate 68 'x' ++ " a\n".toList ++ List.replicate 68 'x' ++
    " a\n3 4\nN\n".toList

/-- The bytes of a freed buffer that held the line `<name> a` for the name of
68 characters, with its first 16 bytes overwritten by the allocator. -/
def freedMemberLine : List Char :=
  List.replicate 16 '\x00' ++ List.replicate 52 'x' ++ " a".toList ++ List.replicate 10 '\x00'

/-- The bytes of a freed buffer that held the message `attack <name> a` for
the name of 68 characters, with its first 16 bytes overwritten by the
allocator. -/
def freedAttackLine : List Char :=
  List.replicate 16 '\x00' ++ List.replicate 59 'x' ++ " a".toList ++ List.replicate 3 '\x00'

/-! ## Tokens -/

theorem get_token_nil (d : Char) : get_token [] d = [] := rfl

theorem get_token_cons (c : Char) (s : List Char) (d : Char) :
    get_token (c :: s) d = if c = d then [] else c :: get_token s d := by
  by_cases h : c = d <;> simp [get_token, List.takeWhile, h]

theorem not_mem_get_token (s : List Char) (d : Char) : d ∉ get_token s d := by
  induction s with
  | nil => simp [get_token]
  | cons c s ih =>
    rw [get_token_cons]
    by_cases h : c = d
    · simp [h]
    · simp only [h, if_false, List.mem_cons, not_or]
      exact ⟨fun e => h e.symm, ih⟩

theorem get_token_append_sep {tok : List Char} {d : Char} (h : d ∉ tok)
    (rest : List Char) : get_token (tok ++ d :: rest) d = tok := by
  induction tok with
  | nil => simp [get_token_cons]
  | cons c s ih =>
    simp only [List.mem_cons, not_or] at h
    have hc : c ≠ d := fun e => h.1 e.symm
    simp [get_token_cons, hc, ih h.2]

theorem get_token_eq_self {tok : List Char} {d : Char} (h : d ∉ tok) :
    get_token tok d = tok := by
  induction tok with
  | nil => rfl
  | cons c s ih =>
    simp only [List.mem_cons, not_or] at h
    have hc : c ≠ d := fun e => h.1 e.symm
    simp [get_token_cons, hc, ih h.2]

theorem get_token_length_le (s : List Char) (d : Char) :
    (get_token s d).length ≤ s.length := by
  induction s with
  | nil => simp [get_token]
  | cons c s ih =>
    rw [get_token_cons]
    by_cases h : c = d <;> simp [h]
    omega

/-- Either the token is the whole string, or the string is the token, the
delimiter and the part after it. -/
theorem get_token_split (s : List Char) (d : Char) :
    s = get_token s d ∨
      s = get_token s d ++ d :: s.drop ((get_token s d).length + 1) := by
  induction s with
  | nil => left; rfl
  | cons c s ih =>
    rw [get_token_cons]
    by_cases h : c = d
    · right; simp [h]
    · simp only [h, if_false]
      rcases ih with ih | ih
      · left; rw [← ih]
      · right
        simp only [List.length_cons, List.drop_succ_cons, List.cons_append]
        rw [← ih]

theorem get_token_update_pos_of_lt {line : List Char} {pos : Nat} (d : Char)
    (h : pos < line.length) :
    get_token_update_pos line d pos =
      (some (get_token (line.drop pos) d),
        pos + ((get_token (line.drop pos) d).length + 1)) := by
  simp [get_token_update_pos, Nat.not_le.mpr h]

theorem get_token_update_pos_of_ge {line : List Char} {pos : Nat} (d : Char)
    (h : line.length ≤ pos) : get_token_update_pos line d pos = (none, pos) := by
  simp [get_token_update_pos, h]

/-- A token in the middle of the line: followed by the delimiter. -/
theorem get_token_update_pos_mid (pre : List Char) {tok : List Char} {d : Char}
    (h : d ∉ tok) (rest : List Char) :
    get_token_update_pos (pre ++ (tok ++ d :: rest)) d pre.length =
      (some tok, (pre ++ (tok ++ [d])).length) := by
  rw [get_token_update_pos_of_lt d (by simp)]
  simp [get_token_append_sep h]

/-- The last token of the line: not followed by a delimiter. -/
theorem get_token_update_pos_end (pre : List Char) {tok : List Char} {d : Char}
    (h : d ∉ tok) (hne : tok ≠ []) :
    get_token_update_pos (pre ++ tok) d pre.length =
      (some tok, (pre ++ tok).length + 1) := by
  have : 0 < tok.length := List.length_pos.mpr hne
  rw [get_token_update_pos_of_lt d (by simp; omega)]
  simp [get_token_eq_self h]
  omega

/-- One scanning step that stays inside the line: the text at `pos` is the
token, the delimiter and the text at the new position. -/
theorem drop_eq_token_sep (line : List Char) (pos : Nat) (d : Char)
    (h : pos + ((get_token (line.drop pos) d).length + 1) ≤ line.length) :
    line.drop pos = get_token (line.drop pos) d ++
      d :: line.drop (pos + ((get_token (line.drop pos) d).length + 1)) := by
  rcases get_token_split (line.drop pos) d with h1 | h1
  · exfalso
    have := congrArg List.length h1
    simp at this
    omega
  · rw [List.drop_drop] at h1
    exact h1

/-- One scanning step that leaves the line: the text at `pos` is the token. -/
theorem drop_eq_token (line : List Char) (pos : Nat) (d : Char)
    (h : line.length < pos + ((get_token (line.drop pos) d).length + 1)) :
    line.drop pos = get_token (line.drop pos) d := by
  rcases get_token_split (line.drop pos) d with h1 | h1
  · exact h1
  · exfalso
    have := congrArg List.length h1
    simp at this
    omega

/-! ## Lookup by name -/

theorem find_name_eq_none {names : List (List Char)} {n : List Char} :
    find_name names n = none ↔ n ∉ names := by
  induction names with
  | nil => simp [find_name]
  | cons x xs ih =>
    by_cases h : x = n
    · simp [find_name, h]
    · have h' : ¬ n = x := fun e => h e.symm
      simp [find_name, h, h', ih]

theorem find_name_eq_some {names : List (List Char)} {n : List Char} {i : Nat}
    (h : find_name names n = some i) :
    i < names.length ∧ names[i]? = some n ∧ ∀ k, k < i → names[k]? ≠ some n := by
  induction names generalizing i with
  | nil => simp [find_name] at h
  | cons x xs ih =>
    by_cases hx : x = n
    · simp [find_name, hx] at h
      subst h
      simp [hx]
    · simp only [find_name, hx, if_false, Option.map_eq_some'] at h
      obtain ⟨j, hj, rfl⟩ := h
      obtain ⟨h1, h2, h3⟩ := ih hj
      refine ⟨by simp; omega, by simpa using h2, ?_⟩
      intro k hk
      cases k with
      | zero => simpa using hx
      | succ k => simpa using h3 k (by omega)

theorem find_name_isSome {names : List (List Char)} {n : List Char} :
    (find_name names n).isSome ↔ n ∈ names := by
  rw [← not_iff_not, ← find_name_eq_none]
  cases find_name names n <;> simp

theorem find_name_append_of_some {names : List (List Char)} {n : List Char} {i : Nat}
    (h : find_name names n = some i) (more : List (List Char)) :
    find_name (names ++ more) n = some i := by
  induction names generalizing i with
  | nil => simp [find_name] at h
  | cons x xs ih =>
    by_cases hx : x = n
    · simpa [find_name, hx] using h
    · simp only [find_name, hx, if_false, Option.map_eq_some'] at h
      obtain ⟨j, hj, rfl⟩ := h
      simp [find_name, hx, ih hj]

/-- A token in the middle of the line, by the shape of the line. -/
theorem get_token_update_pos_at {line : List Char} (pre tok rest : List Char) {d : Char}
    {pos : Nat} (hline : line = pre ++ (tok ++ d :: rest)) (hpos : pos = pre.length) (h : d ∉ tok) :
    get_token_update_pos line d pos = (some tok, pos + (tok.length + 1)) := by
  subst hline hpos
  rw [get_token_update_pos_mid pre h rest]
  simp

/-- The last token of the line, by the shape of the line. -/
theorem get_token_update_pos_at_end {line : List Char} (pre tok : List Char) {d : Char}
    {pos : Nat} (hline : line = pre ++ tok) (hpos : pos = pre.length) (h : d ∉ tok) (hne : tok ≠ []) :
    get_token_update_pos line d pos = (some tok, pos + (tok.length + 1)) := by
  subst hline hpos
  rw [get_token_update_pos_end pre h hne]
  simp
  omega

theorem getLast?_ne_of_not_mem (pre : List Char) {tok : List Char} {d : Char} (h : d ∉ tok)
    (hne : tok ≠ []) : (pre ++ tok).getLast? ≠ some d := by
  intro hc
  rw [List.getLast?_append_of_ne_nil _ hne] at hc
  exact h (List.mem_of_getLast?_eq_some hc)

/-! ## `read_agent` -/

/-- A well-formed agent line is accepted, and appends the agent. -/
theorem read_agent_accepts (game : Game) {name typeName a1 a2 a3 : List Char}
    {type x1 x2 x3 : Nat}
    (hn : ' ' ∉ name) (ht : ' ' ∉ typeName) (h1 : ' ' ∉ a1) (h2 : ' ' ∉ a2)
    (h3 : ' ' ∉ a3) (hne : name ≠ []) (hne3 : a3 ≠ [])
    (hagent : get_agent game name = none) (htype : get_type game typeName = some type)
    (hx1 : get_attack game a1 = some x1) (hx2 : get_attack game a2 = some x2)
    (hx3 : get_attack game a3 = some x3) :
    read_agent game
        (name ++ ' ' :: (typeName ++ ' ' :: (a1 ++ ' ' :: (a2 ++ ' ' :: a3)))) =
      (0, { game with agents := game.agents ++ [⟨name, type, [x1, x2, x3]⟩] }) := by
  generalize hline :
    name ++ ' ' :: (typeName ++ ' ' :: (a1 ++ ' ' :: (a2 ++ ' ' :: a3))) = line
  have hl3 : 0 < a3.length := List.length_pos.mpr hne3
  have hl : 0 < name.length := List.length_pos.mpr hne
  have hlen : line.length =
      name.length + typeName.length + a1.length + a2.length + a3.length + 4 := by
    rw [← hline]; simp; omega
  have e1 : get_token_update_pos line ' ' 0 = (some name, 0 + (name.length + 1)) :=
    get_token_update_pos_at [] name (typeName ++ ' ' :: (a1 ++ ' ' :: (a2 ++ ' ' :: a3)))
      (by rw [← hline]; simp) (by simp) hn
  have e2 : get_token_update_pos line ' ' (0 + (name.length + 1)) =
      (some typeName, 0 + (name.length + 1) + (typeName.length + 1)) :=
    get_token_update_pos_at (name ++ [' ']) typeName (a1 ++ ' ' :: (a2 ++ ' ' :: a3))
      (by rw [← hline]; simp) (by simp) ht
  have e3 : get_token_update_pos line ' ' (0 + (name.length + 1) + (typeName.length + 1)) =
      (some a1, 0 + (name.length + 1) + (typeName.length + 1) + (a1.length + 1)) :=
    get_token_update_pos_at (name ++ [' '] ++ (typeName ++ [' '])) a1 (a2 ++ ' ' :: a3)
      (by rw [← hline]; simp) (by simp; omega) h1
  have e4 : get_token_update_pos line ' '
      (0 + (name.length + 1) + (typeName.length + 1) + (a1.length + 1)) =
      (some a2, 0 + (name.length + 1) + (typeName.length + 1) + (a1.length + 1) +
        (a2.length + 1)) :=
    get_token_update_pos_at (name ++ [' '] ++ (typeName ++ [' ']) ++ (a1 ++ [' '])) a2 a3
      (by rw [← hline]; simp) (by simp; omega) h2
  have e5 : get_token_update_pos line ' '
      (0 + (name.length + 1) + (typeName.length + 1) + (a1.length + 1) + (a2.length + 1)) =
      (some a3, 0 + (name.length + 1) + (typeName.length + 1) + (a1.length + 1) +
        (a2.length + 1) + (a3.length + 1)) :=
    get_token_update_pos_at_end
      (name ++ [' '] ++ (typeName ++ [' ']) ++ (a1 ++ [' ']) ++ (a2 ++ [' '])) a3
      (by rw [← hline]; simp) (by simp; omega) h3 hne3
  have hlast : line.getLast? ≠ some ' ' := by
    rw [← hline]
    have := getLast?_ne_of_not_mem
      (name ++ [' '] ++ (typeName ++ [' ']) ++ (a1 ++ [' ']) ++ (a2 ++ [' '])) h3 hne3
    simpa using this
  have c1 : ¬ (0 + (name.length + 1) ≥ line.length ∨ name.length = 0 ∨
      (get_agent game name).isSome = true) := by
    rintro (h | h | h)
    · omega
    · omega
    · simp [hagent] at h
  have c2 : ¬ (0 + (name.length + 1) + (typeName.length + 1) ≥ line.length) := by omega
  have c3 : ¬ (0 + (name.length + 1) + (typeName.length + 1) + (a1.length + 1)
      ≥ line.length) := by omega
  have c4 : ¬ (0 + (name.length + 1) + (typeName.length + 1) + (a1.length + 1) +
      (a2.length + 1) ≥ line.length) := by omega
  have c5 : ¬ (line.getLast? = some ' ' ∨
      0 + (name.length + 1) + (typeName.length + 1) + (a1.length + 1) +
        (a2.length + 1) + (a3.length + 1) < line.length) := by
    simp only [hlast, false_or]; omega
  simp only [read_agent, read_agent_loop, LEGAL_ATTACKS, e1, e2, e3, e4, e5, htype,
    hx1, hx2, hx3, c1, c2, c3, c4, c5, if_false, List.nil_append, List.cons_append]

theorem read_agent_loop_succ {game : Game} {line : List Char} {n pos : Nat}
    {legal : List Nat} {r : List Nat × Nat}
    (h : read_agent_loop game line (n + 1) pos legal = some r) :
    pos < line.length ∧ ∃ x, get_attack game (get_token (line.drop pos) ' ') = some x ∧
      read_agent_loop game line n (pos + ((get_token (line.drop pos) ' ').length + 1))
        (legal ++ [x]) = some r := by
  by_cases hp : pos < line.length
  · refine ⟨hp, ?_⟩
    rw [read_agent_loop, if_neg (Nat.not_le.mpr hp), get_token_update_pos_of_lt ' ' hp] at h
    cases hx : get_attack game (get_token (line.drop pos) ' ') with
    | none => simp [hx] at h
    | some x => exact ⟨x, rfl, by simpa [hx] using h⟩
  · rw [read_agent_loop, if_pos (Nat.not_lt.mp hp)] at h
    exact absurd h (by simp)

/-- On every failure exit `read_agent` leaves the game as it was. -/
theorem read_agent_failure (game : Game) (line : List Char)
    (h : (read_agent game line).1 ≠ 0) : (read_agent game line).2 = game := by
  revert h
  unfold read_agent
  repeat' split
  all_goals simp

/-- An accepted agent line has five tokens, and the lookups succeeded. -/
theorem read_agent_accepted {game : Game} {line : List Char}
    (h : (read_agent game line).1 = 0) :
    ∃ name typeName a1 a2 a3 : List Char, ∃ type x1 x2 x3 : Nat,
      line = name ++ ' ' :: (typeName ++ ' ' :: (a1 ++ ' ' :: (a2 ++ ' ' :: a3))) ∧
      (' ' ∉ name ∧ ' ' ∉ typeName ∧ ' ' ∉ a1 ∧ ' ' ∉ a2 ∧ ' ' ∉ a3) ∧
      name ≠ [] ∧ a3 ≠ [] ∧
      get_agent game name = none ∧ get_type game typeName = some type ∧
      get_attack game a1 = some x1 ∧ get_attack game a2 = some x2 ∧
      get_attack game a3 = some x3 := by
  by_cases h0 : 0 < line.length
  swap
  · rw [read_agent, get_token_update_pos_of_ge ' ' (Nat.not_lt.mp h0)] at h
    simp at h
  rw [read_agent, get_token_update_pos_of_lt ' ' h0, Nat.zero_add] at h
  generalize hn : get_token (line.drop 0) ' ' = name at h
  simp only at h
  split at h
  · simp at h
  rename_i c1
  simp only [not_or, Nat.not_le] at c1
  obtain ⟨hp1, hne, hag⟩ := c1
  rw [get_token_update_pos_of_lt ' ' hp1] at h
  generalize ht : get_token (line.drop (name.length + 1)) ' ' = typeName at h
  simp only at h
  cases hty : get_type game typeName with
  | none => simp [hty] at h
  | some type =>
    simp only [hty] at h
    cases hloop : read_agent_loop game line LEGAL_ATTACKS
        (name.length + 1 + (typeName.length + 1)) [] with
    | none => simp [hloop] at h
    | some r =>
      obtain ⟨legal, pos5⟩ := r
      simp only [hloop] at h
      split at h
      · simp at h
      rename_i c5
      simp only [not_or, Nat.not_lt] at c5
      obtain ⟨hlast, hp5⟩ := c5
      obtain ⟨hp2, x1, hx1, hloop⟩ := read_agent_loop_succ hloop
      generalize h1 : get_token (line.drop (name.length + 1 + (typeName.length + 1))) ' '
        = a1 at hx1 hloop
      obtain ⟨hp3, x2, hx2, hloop⟩ := read_agent_loop_succ hloop
      generalize h2 : get_token (line.drop (name.length + 1 + (typeName.length + 1) +
        (a1.length + 1))) ' ' = a2 at hx2 hloop
      obtain ⟨hp4, x3, hx3, hloop⟩ := read_agent_loop_succ hloop
      generalize h3 : get_token (line.drop (name.length + 1 + (typeName.length + 1) +
        (a1.length + 1) + (a2.length + 1))) ' ' = a3 at hx3 hloop
      simp only [read_agent_loop, Option.some.injEq, Prod.mk.injEq] at hloop
      obtain ⟨-, rfl⟩ := hloop
      have d1 := drop_eq_token_sep line (0) ' ' (by rw [hn]; omega)
      rw [hn, Nat.zero_add] at d1
      have d2 := drop_eq_token_sep line (name.length + 1) ' '
        (by rw [ht]; omega)
      have d3 := drop_eq_token_sep line (name.length + 1 + (typeName.length + 1)) ' ' (by rw [h1]; omega)
      have d4 := drop_eq_token_sep line (name.length + 1 + (typeName.length + 1) + (a1.length + 1)) ' '
        (by rw [h2]; omega)
      rw [ht] at d2
      rw [h1] at d3
      rw [h2] at d4
      have d5 : line.drop (name.length + 1 + (typeName.length + 1) +
          (a1.length + 1) + (a2.length + 1)) = a3 := by
        rcases Nat.lt_or_ge line.length (name.length + 1 + (typeName.length + 1) +
          (a1.length + 1) + (a2.length + 1) + (a3.length + 1)) with hlt | hge
        · have := drop_eq_token line (name.length + 1 +
            (typeName.length + 1) + (a1.length + 1) + (a2.length + 1)) ' ' (by rw [h3]; exact hlt)
          rw [h3] at this
          exact this
        · exfalso
          have d := drop_eq_token_sep line (name.length + 1 +
            (typeName.length + 1) + (a1.length + 1) + (a2.length + 1)) ' ' (by rw [h3]; exact hge)
          rw [h3, List.drop_of_length_le hp5] at d
          apply hlast
          have e : line = line.take (name.length + 1 +
            (typeName.length + 1) + (a1.length + 1) + (a2.length + 1)) ++ (a3 ++ [' ']) := by
            rw [← d, List.take_append_drop]
          rw [e, ← List.append_assoc, List.getLast?_append]
          simp
      have hn' : ' ' ∉ name := hn ▸ not_mem_get_token _ _
      have ht' : ' ' ∉ typeName := ht ▸ not_mem_get_token _ _
      have h1' : ' ' ∉ a1 := h1 ▸ not_mem_get_token _ _
      have h2' : ' ' ∉ a2 := h2 ▸ not_mem_get_token _ _
      have h3' : ' ' ∉ a3 := h3 ▸ not_mem_get_token _ _
      refine ⟨name, typeName, a1, a2, a3, type, x1, x2, x3, ?_, ⟨hn', ht', h1', h2', h3'⟩,
        ?_, ?_, ?_, hty, hx1, hx2, hx3⟩
      · rw [d5] at d4
        rw [d4] at d3
        rw [d3] at d2
        rw [d2] at d1
        simpa using d1
      · intro e; simp [e] at hne
      · intro e
        rw [e] at d5
        have := congrArg List.length d5
        simp at this
        omega
      · cases hg : get_agent game name with
        | none => rfl
        | some _ => simp [hg] at hag

theorem mem_names_of_find_name {names : List (List Char)} {n : List Char} {i : Nat}
    (h : find_name names n = some i) : n ∈ names := by
  rw [← find_name_isSome, h]; rfl

theorem type_name_ne_nil {game : Game} {n : List Char} {i : Nat}
    (hT : ∀ t ∈ game.types, t.name ≠ []) (h : get_type game n = some i) : n ≠ [] := by
  have := mem_names_of_find_name h
  simp only [List.mem_map] at this
  obtain ⟨t, ht, rfl⟩ := this
  exact hT t ht

theorem attack_name_ne_nil {game : Game} {n : List Char} {i : Nat}
    (hA : ∀ a ∈ game.attacks, a.name ≠ []) (h : get_attack game n = some i) : n ≠ [] := by
  have := mem_names_of_find_name h
  simp only [List.mem_map] at this
  obtain ⟨t, ht, rfl⟩ := this
  exact hA t ht

/-- C10: in a game whose declared types and attacks have non-empty names (the
parser declares no other), `read_agent` returns 0 exactly when the line is
five non-empty space-free tokens separated by single spaces, the first is not
the name of a declared agent, the second names a declared type and the last
three name declared attacks; it then has appended exactly the agent with that
name, that type and those three attacks in order.  On every failure the game
(so the agent list) is unchanged. -/
theorem read_agent_returns_zero_iff (game : Game) (line : List Char)
    (hT : ∀ t ∈ game.types, t.name ≠ []) (hA : ∀ a ∈ game.attacks, a.name ≠ []) :
    ((read_agent game line).1 = 0 ↔
      ∃ name typeName a1 a2 a3 : List Char, ∃ type x1 x2 x3 : Nat,
        line = name ++ ' ' :: (typeName ++ ' ' :: (a1 ++ ' ' :: (a2 ++ ' ' :: a3))) ∧
        (name ≠ [] ∧ typeName ≠ [] ∧ a1 ≠ [] ∧ a2 ≠ [] ∧ a3 ≠ []) ∧
        (' ' ∉ name ∧ ' ' ∉ typeName ∧ ' ' ∉ a1 ∧ ' ' ∉ a2 ∧ ' ' ∉ a3) ∧
        get_agent game name = none ∧ get_type game typeName = some type ∧
        get_attack game a1 = some x1 ∧ get_attack game a2 = some x2 ∧
        get_attack game a3 = some x3 ∧
        (read_agent game line).2 =
          { game with agents := game.agents ++ [⟨name, type, [x1, x2, x3]⟩] }) ∧
    ((read_agent game line).1 ≠ 0 → (read_agent game line).2 = game) := by
  refine ⟨⟨fun h => ?_, fun h => ?_⟩, read_agent_failure game line⟩
  · obtain ⟨name, typeName, a1, a2, a3, type, x1, x2, x3, hline, hs, hne, hne3, hag, hty,
      hx1, hx2, hx3⟩ := read_agent_accepted h
    refine ⟨name, typeName, a1, a2, a3, type, x1, x2, x3, hline,
      ⟨hne, type_name_ne_nil hT hty, attack_name_ne_nil hA hx1, attack_name_ne_nil hA hx2,
        hne3⟩, hs, hag, hty, hx1, hx2, hx3, ?_⟩
    rw [hline, read_agent_accepts game hs.1 hs.2.1 hs.2.2.1 hs.2.2.2.1 hs.2.2.2.2 hne hne3
      hag hty hx1 hx2 hx3]
  · obtain ⟨name, typeName, a1, a2, a3, type, x1, x2, x3, hline, hne, hs, hag, hty,
      hx1, hx2, hx3, -⟩ := h
    rw [hline, read_agent_accepts game hs.1 hs.2.1 hs.2.2.1 hs.2.2.2.1 hs.2.2.2.2 hne.1
      hne.2.2.2.2 hag hty hx1 hx2 hx3]

/-- C10 at a concrete game and line: `A water splash splash splash` is
accepted, a line with a trailing space is not. -/
theorem read_agent_returns_zero_iff_witness :
    (∀ t ∈ agentGame.types, t.name ≠ []) ∧ (∀ a ∈ agentGame.attacks, a.name ≠ []) ∧
    (read_agent agentGame "A water splash splash splash".toList).1 = 0 ∧
    ((read_agent agentGame "A water splash splash splash ".toList).1 ≠ 0 →
      (read_agent agentGame "A water splash splash splash ".toList).2 = agentGame) :=
  ⟨by decide, by decide, by decide,
    (read_agent_returns_zero_iff agentGame "A water splash splash splash ".toList
      (by decide) (by decide)).2⟩

/-! ## `read_effectiveness_strings` -/

theorem token_split_unique {a b r q : List Char} {d : Char} (ha : d ∉ a) (hb : d ∉ b)
    (h : a ++ d :: r = b ++ d :: q) : a = b ∧ r = q := by
  have e : a = b := by
    rw [← get_token_append_sep ha r, h, get_token_append_sep hb q]
  subst e
  exact ⟨rfl, by simpa using h⟩

theorem typeAt_set_self {game : Game} {i : Nat} (h : i < game.types.length) (t : TypeRec) :
    ({ game with types := game.types.set i t } : Game).typeAt i = t := by
  simp [Game.typeAt, List.getD_eq_getElem?_getD, List.getElem?_set, h]

theorem get_type_lt {game : Game} {n : List Char} {i : Nat} (h : get_type game n = some i) :
    i < game.types.length := by
  simpa using (find_name_eq_some h).1

theorem read_effectiveness_loop_status (line : List Char) (n pos : Nat) (t : TypeRec) :
    (read_effectiveness_loop line n pos t).1 = 0 ∨
      (read_effectiveness_loop line n pos t).1 = -1 := by
  induction n generalizing pos t with
  | zero => left; rfl
  | succ n ih =>
    rw [read_effectiveness_loop]
    split
    · right; rfl
    · simp only
      split
      · right; rfl
      · exact ih _ _

theorem read_effectiveness_loop_succ {line : List Char} {n pos : Nat} {t : TypeRec}
    (h : (read_effectiveness_loop line (n + 1) pos t).1 = 0) :
    pos < line.length ∧ get_token (line.drop pos) ' ' ≠ [] ∧
      read_effectiveness_loop line (n + 1) pos t =
        read_effectiveness_loop line n (pos + ((get_token (line.drop pos) ' ').length + 1))
          { t with effectiveness :=
              t.effectiveness.set n (some (get_token (line.drop pos) ' ')) } := by
  by_cases hp : pos < line.length
  · rw [read_effectiveness_loop, if_neg (Nat.not_le.mpr hp),
      get_token_update_pos_of_lt ' ' hp] at h ⊢
    simp only [Option.getD_some, List.length_eq_zero] at h ⊢
    by_cases he : get_token (line.drop pos) ' ' = []
    · rw [if_pos he] at h
      simp at h
    · rw [if_neg he]
      exact ⟨hp, he, rfl⟩
  · rw [read_effectiveness_loop, if_pos (Nat.not_lt.mp hp)] at h
    simp at h

/-- A well-formed effectiveness line for a type without strings is accepted:
the first string goes to slot 2, the second to slot 1, the third to slot 0. -/
theorem read_effectiveness_strings_accepts (game : Game) {T s1 s2 s3 : List Char} {i : Nat}
    (hT : ' ' ∉ T) (h1 : ' ' ∉ s1) (h2 : ' ' ∉ s2) (h3 : ' ' ∉ s3)
    (n1 : s1 ≠ []) (n2 : s2 ≠ []) (n3 : s3 ≠ [])
    (htype : get_type game T = some i)
    (hfree : (game.typeAt i).effectiveness.get 0 = none) :
    read_effectiveness_strings game (T ++ ' ' :: (s1 ++ ' ' :: (s2 ++ ' ' :: s3))) =
      (0, { game with types := (game.types.set i
        { (game.typeAt i) with effectiveness := ⟨some s3, some s2, some s1⟩ }) }) := by
  generalize hline : T ++ ' ' :: (s1 ++ ' ' :: (s2 ++ ' ' :: s3)) = line
  have l1 : 0 < s1.length := List.length_pos.mpr n1
  have l2 : 0 < s2.length := List.length_pos.mpr n2
  have l3 : 0 < s3.length := List.length_pos.mpr n3
  have hlen : line.length = T.length + s1.length + s2.length + s3.length + 3 := by
    rw [← hline]; simp; omega
  have e1 : get_token_update_pos line ' ' 0 = (some T, 0 + (T.length + 1)) :=
    get_token_update_pos_at [] T (s1 ++ ' ' :: (s2 ++ ' ' :: s3))
      (by rw [← hline]; simp) (by simp) hT
  have e2 : get_token_update_pos line ' ' (0 + (T.length + 1)) =
      (some s1, 0 + (T.length + 1) + (s1.length + 1)) :=
    get_token_update_pos_at (T ++ [' ']) s1 (s2 ++ ' ' :: s3)
      (by rw [← hline]; simp) (by simp) h1
  have e3 : get_token_update_pos line ' ' (0 + (T.length + 1) + (s1.length + 1)) =
      (some s2, 0 + (T.length + 1) + (s1.length + 1) + (s2.length + 1)) :=
    get_token_update_pos_at (T ++ [' '] ++ (s1 ++ [' '])) s2 s3
      (by rw [← hline]; simp) (by simp; omega) h2
  have e4 : get_token_update_pos line ' '
      (0 + (T.length + 1) + (s1.length + 1) + (s2.length + 1)) =
      (some s3, 0 + (T.length + 1) + (s1.length + 1) + (s2.length + 1) + (s3.length + 1)) :=
    get_token_update_pos_at_end (T ++ [' '] ++ (s1 ++ [' ']) ++ (s2 ++ [' '])) s3
      (by rw [← hline]; simp) (by simp; omega) h3 n3
  have hlast : line.getLast? ≠ some ' ' := by
    rw [← hline]
    have := getLast?_ne_of_not_mem (T ++ [' '] ++ (s1 ++ [' ']) ++ (s2 ++ [' '])) h3 n3
    simpa using this
  have c2 : ¬ (0 + (T.length + 1) ≥ line.length) := by omega
  have c3 : ¬ (0 + (T.length + 1) + (s1.length + 1) ≥ line.length) := by omega
  have c4 : ¬ (0 + (T.length + 1) + (s1.length + 1) + (s2.length + 1) ≥ line.length) := by
    omega
  have c5 : ¬ (0 + (T.length + 1) + (s1.length + 1) + (s2.length + 1) + (s3.length + 1)
      < line.length ∨ line.getLast? = some ' ') := by
    simp only [hlast, or_false]; omega
  have z1 : ¬ (s1.length = 0) := by omega
  have z2 : ¬ (s2.length = 0) := by omega
  have z3 : ¬ (s3.length = 0) := by omega
  simp only [read_effectiveness_strings, read_effectiveness_loop, e1, e2, e3, e4, htype,
    hfree, c2, c3, c4, c5, z1, z2, z3, if_false, Option.isSome_none, Bool.false_eq_true,
    Option.getD_some, EffArray.set, ne_eq, not_true_eq_false]

/-- An accepted effectiveness line has four tokens, the last three non-empty,
and names a type that had no strings yet. -/
theorem read_effectiveness_strings_accepted {game : Game} {line : List Char}
    (h : (read_effectiveness_strings game line).1 = 0) :
    ∃ T s1 s2 s3 : List Char, ∃ i : Nat,
      line = T ++ ' ' :: (s1 ++ ' ' :: (s2 ++ ' ' :: s3)) ∧
      (' ' ∉ T ∧ ' ' ∉ s1 ∧ ' ' ∉ s2 ∧ ' ' ∉ s3) ∧
      (s1 ≠ [] ∧ s2 ≠ [] ∧ s3 ≠ []) ∧
      get_type game T = some i ∧ (game.typeAt i).effectiveness.get 0 = none := by
  by_cases h0 : 0 < line.length
  swap
  · rw [read_effectiveness_strings, get_token_update_pos_of_ge ' ' (Nat.not_lt.mp h0)] at h
    simp at h
  rw [read_effectiveness_strings, get_token_update_pos_of_lt ' ' h0, Nat.zero_add] at h
  generalize hn : get_token (line.drop 0) ' ' = T at h
  simp only at h
  cases hty : get_type game T with
  | none => simp [hty] at h
  | some i =>
    simp only [hty] at h
    split at h
    · simp at h
    rename_i hfree
    generalize hloop : read_effectiveness_loop line 3 (T.length + 1) (game.typeAt i) = r at h
    obtain ⟨st, t1, pos4⟩ := r
    simp only at h
    have hst : st = 0 := by
      by_contra hne
      rw [if_pos hne] at h
      exact hne h
    subst hst
    simp only [ne_eq, not_true_eq_false, if_false] at h
    split at h
    · simp at h
    rename_i c5
    simp only [not_or, Nat.not_lt] at c5
    obtain ⟨hp4, hlast⟩ := c5
    have z : (read_effectiveness_loop line 3 (T.length + 1) (game.typeAt i)).1 = 0 := by
      rw [hloop]
    obtain ⟨hp1, n1, q1⟩ := read_effectiveness_loop_succ z
    generalize h1 : get_token (line.drop (T.length + 1)) ' ' = s1 at n1 q1
    rw [q1] at z hloop
    obtain ⟨hp2, n2, q2⟩ := read_effectiveness_loop_succ z
    generalize h2 : get_token (line.drop (T.length + 1 + (s1.length + 1))) ' ' = s2 at n2 q2
    rw [q2] at z hloop
    obtain ⟨hp3, n3, q3⟩ := read_effectiveness_loop_succ z
    generalize h3 : get_token (line.drop (T.length + 1 + (s1.length + 1) + (s2.length + 1))) ' '
      = s3 at n3 q3
    rw [q3] at hloop
    simp only [read_effectiveness_loop, Prod.mk.injEq] at hloop
    obtain ⟨-, -, rfl⟩ := hloop
    have d1 := drop_eq_token_sep line 0 ' ' (by rw [hn]; omega)
    rw [hn, Nat.zero_add] at d1
    have d2 := drop_eq_token_sep line (T.length + 1) ' ' (by rw [h1]; omega)
    rw [h1] at d2
    have d3 := drop_eq_token_sep line (T.length + 1 + (s1.length + 1)) ' ' (by rw [h2]; omega)
    rw [h2] at d3
    have d4 : line.drop (T.length + 1 + (s1.length + 1) + (s2.length + 1)) = s3 := by
      rcases Nat.lt_or_ge line.length
        (T.length + 1 + (s1.length + 1) + (s2.length + 1) + (s3.length + 1)) with hlt | hge
      · have := drop_eq_token line (T.length + 1 + (s1.length + 1) + (s2.length + 1)) ' '
          (by rw [h3]; exact hlt)
        rw [h3] at this
        exact this
      · exfalso
        have d := drop_eq_token_sep line (T.length + 1 + (s1.length + 1) + (s2.length + 1)) ' '
          (by rw [h3]; exact hge)
        rw [h3, List.drop_of_length_le hp4] at d
        apply hlast
        have e : line = line.take (T.length + 1 + (s1.length + 1) + (s2.length + 1)) ++
            (s3 ++ [' ']) := by
          rw [← d, List.take_append_drop]
        rw [e, ← List.append_assoc, List.getLast?_append]
        simp
    refine ⟨T, s1, s2, s3, i, ?_, ⟨hn ▸ not_mem_get_token _ _, h1 ▸ not_mem_get_token _ _,
      h2 ▸ not_mem_get_token _ _, h3 ▸ not_mem_get_token _ _⟩, ⟨n1, n2, n3⟩, hty, ?_⟩
    · rw [d4] at d3
      rw [d3] at d2
      rw [d2] at d1
      simpa using d1
    · cases hg : (game.typeAt i).effectiveness.get 0 with
      | none => rfl
      | some _ => simp [hg] at hfree

/-- C3 (amended): for every effectiveness line `<typeName> <s1> <s2> <s3>`
that `read_effectiveness_strings` accepts, the named type's effectiveness
array afterwards holds s3 at index 0, s2 at index 1 and s1 at index 2: the
strings are stored from the highest slot down. -/
theorem read_effectiveness_strings_slots (game : Game) (T s1 s2 s3 : List Char)
    (hT : ' ' ∉ T) (h1 : ' ' ∉ s1) (h2 : ' ' ∉ s2) (h3 : ' ' ∉ s3)
    (h : (read_effectiveness_strings game
      (T ++ ' ' :: (s1 ++ ' ' :: (s2 ++ ' ' :: s3)))).1 = 0) :
    ∃ i, get_type game T = some i ∧
      (((read_effectiveness_strings game
        (T ++ ' ' :: (s1 ++ ' ' :: (s2 ++ ' ' :: s3)))).2.typeAt i).effectiveness.get 0
          = some s3) ∧
      (((read_effectiveness_strings game
        (T ++ ' ' :: (s1 ++ ' ' :: (s2 ++ ' ' :: s3)))).2.typeAt i).effectiveness.get 1
          = some s2) ∧
      (((read_effectiveness_strings game
        (T ++ ' ' :: (s1 ++ ' ' :: (s2 ++ ' ' :: s3)))).2.typeAt i).effectiveness.get 2
          = some s1) := by
  obtain ⟨T', a, b, c, i, hline, ⟨hT', ha, hb, hc⟩, ⟨na, nb, nc⟩, hty, hfree⟩ :=
    read_effectiveness_strings_accepted h
  obtain ⟨rfl, e1⟩ := token_split_unique hT hT' hline
  obtain ⟨rfl, e2⟩ := token_split_unique h1 ha e1
  obtain ⟨rfl, rfl⟩ := token_split_unique h2 hb e2
  refine ⟨i, hty, ?_⟩
  rw [read_effectiveness_strings_accepts game hT h1 h2 h3 na nb nc hty hfree]
  simp only [typeAt_set_self (get_type_lt hty)]
  exact ⟨rfl, rfl, rfl⟩

/-- C3 (amended) at the line `fire a b c`. -/
theorem read_effectiveness_strings_slots_witness :
    (read_effectiveness_strings effGame "fire a b c".toList).1 = 0 ∧
    ∃ i, get_type effGame "fire".toList = some i ∧
      (((read_effectiveness_strings effGame "fire a b c".toList).2.typeAt i).effectiveness.get 0
          = some "c".toList) ∧
      (((read_effectiveness_strings effGame "fire a b c".toList).2.typeAt i).effectiveness.get 1
          = some "b".toList) ∧
      (((read_effectiveness_strings effGame "fire a b c".toList).2.typeAt i).effectiveness.get 2
          = some "a".toList) :=
  ⟨by decide, read_effectiveness_strings_slots effGame "fire".toList "a".toList "b".toList
    "c".toList (by decide) (by decide) (by decide) (by decide) (by decide)⟩

/-- C3 as stated fails: the accepted line `fire a b c` leaves `c`, not the
first string `a`, at index 0 (and `a`, not `c`, at index 2). -/
theorem read_effectiveness_strings_slots_counterexample :
    (read_effectiveness_strings effGame "fire a b c".toList).1 = 0 ∧
    ((read_effectiveness_strings effGame "fire a b c".toList).2.typeAt 0).effectiveness.get 0
      = some "c".toList ∧
    ((read_effectiveness_strings effGame "fire a b c".toList).2.typeAt 0).effectiveness.get 0
      ≠ some "a".toList ∧
    ((read_effectiveness_strings effGame "fire a b c".toList).2.typeAt 0).effectiveness.get 2
      ≠ some "c".toList := by
  decide

/-! ## `read_relation_strings` -/

theorem read_relation_loop_done (game : Game) {line : List Char} {pos : Nat}
    (h : line.length ≤ pos) (fuel : Nat) (t : TypeRec) :
    read_relation_loop game line fuel pos t = (0, t, pos) := by
  cases fuel with
  | zero => simp [read_relation_loop, Nat.not_lt.mpr h]
  | succ f => simp [read_relation_loop, Nat.not_lt.mpr h]

theorem read_relation_loop_cons (game : Game) {line : List Char} {fuel pos pos1 : Nat}
    (t : TypeRec) {r : List Char} {rs : List (List Char)} (hp : pos < line.length)
    (hg : get_token_update_pos line ' ' pos = (some r, pos1))
    (hrec : ∀ u, ((read_relation_loop game line fuel pos1 u).1,
      (read_relation_loop game line fuel pos1 u).2.1) = apply_relations game rs u) :
    ((read_relation_loop game line (fuel + 1) pos t).1,
      (read_relation_loop game line (fuel + 1) pos t).2.1) =
        apply_relations game (r :: rs) t := by
  rw [read_relation_loop, apply_relations, if_pos hp, hg]
  simp only
  split
  · rfl
  · split
    · rfl
    · split
      · exact hrec _
      · exact hrec _
      · exact hrec _
      · rfl

theorem spaced_cons_cons (r r' : List Char) (rs : List (List Char)) :
    spaced (r :: r' :: rs) = r ++ ' ' :: spaced (r' :: rs) := rfl

/-- The loop of `read_relation_strings` on a line of space-free items, the
last one not empty, does what `apply_relations` does on the items. -/
theorem read_relation_loop_spaced (game : Game) (rs : List (List Char)) :
    ∀ (r pre : List Char) (fuel : Nat) (t : TypeRec),
      (∀ x ∈ r :: rs, ' ' ∉ x) → (r :: rs).getLast? ≠ some [] → rs.length + 1 ≤ fuel →
      ((read_relation_loop game (pre ++ spaced (r :: rs)) fuel pre.length t).1,
        (read_relation_loop game (pre ++ spaced (r :: rs)) fuel pre.length t).2.1) =
          apply_relations game (r :: rs) t := by
  induction rs with
  | nil =>
    intro r pre fuel t hs hlast hf
    obtain ⟨f, rfl⟩ : ∃ f, fuel = f + 1 := ⟨fuel - 1, by simp at hf; omega⟩
    have hr : r ≠ [] := by simpa using hlast
    have hl : 0 < r.length := List.length_pos.mpr hr
    have hsr : ' ' ∉ r := hs r (by simp)
    refine read_relation_loop_cons game t (by simp [spaced]; omega)
      (get_token_update_pos_at_end pre r (by simp [spaced]) rfl hsr hr) ?_
    intro u
    rw [read_relation_loop_done game (by simp [spaced])]
    rfl
  | cons r' rs ih =>
    intro r pre fuel t hs hlast hf
    obtain ⟨f, rfl⟩ : ∃ f, fuel = f + 1 := ⟨fuel - 1, by simp at hf; omega⟩
    have hsr : ' ' ∉ r := hs r (by simp)
    refine read_relation_loop_cons game t (by simp [spaced_cons_cons])
      (get_token_update_pos_at pre r (spaced (r' :: rs)) (by rw [spaced_cons_cons]) rfl hsr) ?_
    intro u
    have e : pre ++ spaced (r :: r' :: rs) = (pre ++ (r ++ [' '])) ++ spaced (r' :: rs) := by
      simp [spaced_cons_cons]
    have e' : pre.length + (r.length + 1) = (pre ++ (r ++ [' '])).length := by simp
    rw [e, e']
    exact ih r' (pre ++ (r ++ [' '])) f u (fun x hx => hs x (List.mem_cons_of_mem _ hx))
      (by simpa [List.getLast?_cons_cons] using hlast) (by simp at hf ⊢; omega)

theorem spaced_length (rs : List (List Char)) :
    ∀ r : List Char, (r :: rs).getLast? ≠ some [] → rs.length + 1 ≤ (spaced (r :: rs)).length := by
  induction rs with
  | nil =>
    intro r h
    have hr : r ≠ [] := by simpa using h
    have := List.length_pos.mpr hr
    simpa [spaced] using this
  | cons r' rs ih =>
    intro r h
    have := ih r' (by simpa [List.getLast?_cons_cons] using h)
    simp [spaced_cons_cons] at this ⊢
    omega

theorem spaced_getLast (rs : List (List Char)) :
    ∀ r : List Char, (∀ x ∈ r :: rs, ' ' ∉ x) → (r :: rs).getLast? ≠ some [] →
      (spaced (r :: rs)).getLast? ≠ some ' ' := by
  induction rs with
  | nil =>
    intro r hs h
    have hr : r ≠ [] := by simpa using h
    have := getLast?_ne_of_not_mem [] (hs r (by simp)) hr
    simpa [spaced] using this
  | cons r' rs ih =>
    intro r hs h
    have h' : (r' :: rs).getLast? ≠ some [] := by simpa [List.getLast?_cons_cons] using h
    have hne : spaced (r' :: rs) ≠ [] := by
      intro e
      have := spaced_length rs r' h'
      rw [e] at this
      simp at this
    have := ih r' (fun x hx => hs x (List.mem_cons_of_mem _ hx)) h'
    rw [spaced_cons_cons, show r ++ ' ' :: spaced (r' :: rs) = (r ++ [' ']) ++ spaced (r' :: rs)
      by simp, List.getLast?_append_of_ne_nil _ hne]
    exact this

theorem spaced_getLast_of_empty (rs : List (List Char)) :
    ∀ r r' : List Char, (r :: r' :: rs).getLast? = some [] →
      (spaced (r :: r' :: rs)).getLast? = some ' ' := by
  induction rs with
  | nil =>
    intro r r' h
    have : r' = [] := by simpa using h
    subst this
    simp [spaced]
  | cons r'' rs ih =>
    intro r r' h
    have := ih r' r'' (by simpa [List.getLast?_cons_cons] using h)
    have hne : spaced (r' :: r'' :: rs) ≠ [] := by
      intro e; rw [e] at this; simp at this
    rw [spaced_cons_cons, show r ++ ' ' :: spaced (r' :: r'' :: rs) =
      (r ++ [' ']) ++ spaced (r' :: r'' :: rs) by simp, List.getLast?_append_of_ne_nil _ hne]
    exact this

/-- A relation line with a trailing space is rejected. -/
theorem read_relation_strings_trailing (game : Game) {line : List Char}
    (h : line.getLast? = some ' ') : (read_relation_strings game line).1 ≠ 0 := by
  unfold read_relation_strings
  split
  · simp
  · split
    · simp
    · simp only
      split
      · simp
      · split
        · assumption
        · simp

/-- The end of `read_relation_strings`, once the loop result is known. -/
theorem read_relation_strings_finish (game : Game) {line : List Char} (i : Nat)
    (res : Int × TypeRec × Nat) (spec : Int × TypeRec)
    (hres : (res.1, res.2.1) = spec) (hl : line.getLast? ≠ some ' ') :
    (if res.1 ≠ 0 then (res.1, ({ game with types := game.types.set i res.2.1 } : Game))
      else if line.getLast? = some ' ' then
        (-1, ({ game with types := game.types.set i res.2.1 } : Game))
      else (0, ({ game with types := game.types.set i res.2.1 } : Game))) =
      (spec.1, ({ game with types := game.types.set i spec.2 } : Game)) := by
  obtain ⟨st, t1, p⟩ := res
  subst hres
  simp only [hl, if_false]
  by_cases hst : st = 0
  · simp [hst]
  · simp [hst]

/-- The result of `read_relation_strings` on a line of space-free tokens, the last one not
empty. -/
theorem read_relation_strings_spaced (game : Game) (T : List Char) (rs : List (List Char))
    (hs : ∀ x ∈ T :: rs, ' ' ∉ x) (hlast : (T :: rs).getLast? ≠ some []) :
    read_relation_strings game (spaced (T :: rs)) =
      match get_type game T with
      | none => (-1, game)
      | some i =>
        if (game.typeAt i).lower.length > 0 ∨ (game.typeAt i).higher.length > 0 then (-1, game)
        else ((apply_relations game rs (game.typeAt i)).1,
          { game with types := game.types.set i (apply_relations game rs (game.typeAt i)).2 }) := by
  have hT : ' ' ∉ T := hs T (by simp)
  have hl := spaced_getLast rs T hs hlast
  cases rs with
  | nil =>
    have hne : T ≠ [] := by simpa using hlast
    have hg : get_token_update_pos (spaced [T]) ' ' 0 = (some T, 0 + (T.length + 1)) :=
      get_token_update_pos_at_end [] T (by simp [spaced]) (by simp) hT hne
    rw [read_relation_strings, hg]
    simp only
    cases hty : get_type game T with
    | none => rfl
    | some i =>
      simp only
      by_cases hf : (game.typeAt i).lower.length > 0 ∨ (game.typeAt i).higher.length > 0
      · rw [if_pos hf, if_pos hf]
      · rw [if_neg hf, if_neg hf]
        exact read_relation_strings_finish game i
          (read_relation_loop game (spaced [T]) (spaced [T]).length (0 + (T.length + 1))
            (game.typeAt i)) (apply_relations game [] (game.typeAt i))
          (by rw [read_relation_loop_done game (by simp [spaced])]; rfl) hl
  | cons r rs =>
    have hg : get_token_update_pos (spaced (T :: r :: rs)) ' ' 0 =
        (some T, 0 + (T.length + 1)) :=
      get_token_update_pos_at [] T (spaced (r :: rs)) (by simp [spaced_cons_cons]) (by simp) hT
    have hlast' : (r :: rs).getLast? ≠ some [] := by
      simpa [List.getLast?_cons_cons] using hlast
    have hlen := spaced_length rs r hlast'
    have e1 : spaced (T :: r :: rs) = (T ++ [' ']) ++ spaced (r :: rs) := by
      simp [spaced_cons_cons]
    have e2 : 0 + (T.length + 1) = (T ++ [' ']).length := by simp
    rw [read_relation_strings, hg]
    simp only
    cases hty : get_type game T with
    | none => rfl
    | some i =>
      simp only
      by_cases hf : (game.typeAt i).lower.length > 0 ∨ (game.typeAt i).higher.length > 0
      · rw [if_pos hf, if_pos hf]
      · rw [if_neg hf, if_neg hf]
        refine read_relation_strings_finish game i
          (read_relation_loop game (spaced (T :: r :: rs)) (spaced (T :: r :: rs)).length
            (0 + (T.length + 1)) (game.typeAt i))
          (apply_relations game (r :: rs) (game.typeAt i)) ?_ hl
        rw [e2, e1]
        exact read_relation_loop_spaced game rs r (T ++ [' ']) _ (game.typeAt i)
          (fun x hx => hs x (List.mem_cons_of_mem _ hx)) hlast' (by simp; omega)

theorem relation_targets_nil (c : Char) : relation_targets c [] = [] := rfl

theorem relation_targets_cons_of_head {c : Char} {r : List Char} (h : r.head? = some c)
    (rs : List (List Char)) :
    relation_targets c (r :: rs) = r.drop 1 :: relation_targets c rs := by
  simp [relation_targets, List.filter_cons, h]

theorem relation_targets_cons_of_ne {c : Char} {r : List Char} (h : r.head? ≠ some c)
    (rs : List (List Char)) : relation_targets c (r :: rs) = relation_targets c rs := by
  simp [relation_targets, List.filter_cons, h]

/-- When all the items are applied, the `+X` items have been appended to
`higher` and the `-X` items to `lower`, in order, and every item was well
formed. -/
theorem apply_relations_ok (game : Game) (rs : List (List Char)) :
    ∀ t u : TypeRec, apply_relations game rs t = (0, u) →
      u.name = t.name ∧ u.effectiveness = t.effectiveness ∧
      u.higher.map some = t.higher.map some ++ (relation_targets '+' rs).map (get_type game) ∧
      u.lower.map some = t.lower.map some ++ (relation_targets '-' rs).map (get_type game) ∧
      ∀ r ∈ rs, 2 ≤ r.length ∧ get_type game (r.drop 1) ≠ none ∧
        (r.head? = some '+' ∨ r.head? = some '-' ∨ r.head? = some '=') := by
  induction rs with
  | nil =>
    intro t u h
    simp only [apply_relations, Prod.mk.injEq, true_and] at h
    subst h
    simp [relation_targets_nil]
  | cons r rs ih =>
    intro t u h
    rw [apply_relations] at h
    split at h
    · simp at h
    rename_i hlen
    split at h
    · simp at h
    rename_i related hrel
    split at h
    · rename_i hhead
      obtain ⟨a, b, c, d, e⟩ := ih _ _ h
      have hm : r.head? ≠ some '-' := by rw [hhead]; decide
      refine ⟨a, b, ?_, ?_, ?_⟩
      · rw [c, relation_targets_cons_of_head hhead, List.map_cons, hrel]; simp
      · rw [d, relation_targets_cons_of_ne hm]
      · intro x hx
        rcases List.mem_cons.mp hx with rfl | hx
        · exact ⟨by omega, by rw [hrel]; simp, Or.inl hhead⟩
        · exact e x hx
    · rename_i hhead
      obtain ⟨a, b, c, d, e⟩ := ih _ _ h
      have hm : r.head? ≠ some '+' := by rw [hhead]; decide
      refine ⟨a, b, ?_, ?_, ?_⟩
      · rw [c, relation_targets_cons_of_ne hm]
      · rw [d, relation_targets_cons_of_head hhead, List.map_cons, hrel]; simp
      · intro x hx
        rcases List.mem_cons.mp hx with rfl | hx
        · exact ⟨by omega, by rw [hrel]; simp, Or.inr (Or.inl hhead)⟩
        · exact e x hx
    · rename_i hhead
      obtain ⟨a, b, c, d, e⟩ := ih _ _ h
      have hm : r.head? ≠ some '+' := by rw [hhead]; decide
      have hm' : r.head? ≠ some '-' := by rw [hhead]; decide
      refine ⟨a, b, ?_, ?_, ?_⟩
      · rw [c, relation_targets_cons_of_ne hm]
      · rw [d, relation_targets_cons_of_ne hm']
      · intro x hx
        rcases List.mem_cons.mp hx with rfl | hx
        · exact ⟨by omega, by rw [hrel]; simp, Or.inr (Or.inr hhead)⟩
        · exact e x hx
    · simp at h

theorem typeAt_name_of_get_type {game : Game} {n : List Char} {i : Nat}
    (h : get_type game n = some i) : (game.typeAt i).name = n := by
  have h2 := (find_name_eq_some h).2.1
  have h1 : i < game.types.length := get_type_lt h
  simp only [List.getElem?_map] at h2
  simp only [Game.typeAt, List.getD_eq_getElem?_getD, List.getElem?_eq_getElem h1,
    Option.getD_some]
  simpa [List.getElem?_eq_getElem h1] using h2

theorem names_of_pointers (game : Game) (l : List Nat) :
    ∀ xs : List (List Char), l.map some = xs.map (get_type game) →
      l.map (fun j => (game.typeAt j).name) = xs := by
  induction l with
  | nil =>
    intro xs h
    cases xs with
    | nil => rfl
    | cons x xs => simp at h
  | cons j l ih =>
    intro xs h
    cases xs with
    | nil => simp at h
    | cons x xs =>
      simp only [List.map_cons, List.cons.injEq] at h ⊢
      exact ⟨typeAt_name_of_get_type h.1.symm, ih xs h.2⟩

theorem read_relation_strings_last_ne {game : Game} {T : List Char} {rs : List (List Char)}
    (h : (read_relation_strings game (spaced (T :: rs))).1 = 0) :
    (T :: rs).getLast? ≠ some [] := by
  intro hl
  cases rs with
  | nil =>
    have : T = [] := by simpa using hl
    subst this
    simp [spaced, read_relation_strings, get_token_update_pos] at h
  | cons r rs =>
    exact read_relation_strings_trailing game (spaced_getLast_of_empty rs T r hl) h

/-- C6: for a relation line `T r1 ... rn` (tokens free of spaces, separated by
single spaces) that `read_relation_strings` accepts, T's `higher` list is
exactly the types named X by the `+X` items, in line order, and T's `lower`
list exactly those of the `-X` items (so `=X` items add nothing); and the line
is rejected when an item is shorter than two characters, names a type that
does not exist, or starts with a character other than `+`, `-`, `=`. -/
theorem read_relation_strings_lists (game : Game) (T : List Char) (rs : List (List Char))
    (hs : ∀ x ∈ T :: rs, ' ' ∉ x) :
    ((read_relation_strings game (spaced (T :: rs))).1 = 0 →
      ∃ i, get_type game T = some i ∧
        ((read_relation_strings game (spaced (T :: rs))).2.typeAt i).higher.map some =
          (relation_targets '+' rs).map (get_type game) ∧
        ((read_relation_strings game (spaced (T :: rs))).2.typeAt i).lower.map some =
          (relation_targets '-' rs).map (get_type game) ∧
        ((read_relation_strings game (spaced (T :: rs))).2.typeAt i).higher.map
          (fun j => (game.typeAt j).name) = relation_targets '+' rs ∧
        ((read_relation_strings game (spaced (T :: rs))).2.typeAt i).lower.map
          (fun j => (game.typeAt j).name) = relation_targets '-' rs) ∧
    ((∃ r ∈ rs, r.length < 2 ∨ get_type game (r.drop 1) = none ∨
        (r.head? ≠ some '+' ∧ r.head? ≠ some '-' ∧ r.head? ≠ some '=')) →
      (read_relation_strings game (spaced (T :: rs))).1 ≠ 0) := by
  have key : (read_relation_strings game (spaced (T :: rs))).1 = 0 →
      ∃ i u, get_type game T = some i ∧
        ((read_relation_strings game (spaced (T :: rs))).2.typeAt i) = u ∧
        (game.typeAt i).lower = [] ∧ (game.typeAt i).higher = [] ∧
        apply_relations game rs (game.typeAt i) = (0, u) := by
    intro h
    have hlast := read_relation_strings_last_ne h
    rw [read_relation_strings_spaced game T rs hs hlast] at h ⊢
    cases hty : get_type game T with
    | none => simp [hty] at h
    | some i =>
      simp only [hty] at h ⊢
      by_cases hf : (game.typeAt i).lower.length > 0 ∨ (game.typeAt i).higher.length > 0
      · simp [if_pos hf] at h
      · rw [if_neg hf] at h ⊢
        simp only at h
        simp only [not_or, gt_iff_lt, Nat.not_lt, Nat.le_zero, List.length_eq_zero] at hf
        exact ⟨i, _, rfl, typeAt_set_self (get_type_lt hty) _, hf.1, hf.2, Prod.ext h rfl⟩
  constructor
  · intro h
    obtain ⟨i, u, hty, hu, hlo, hhi, happ⟩ := key h
    obtain ⟨-, -, c, d, -⟩ := apply_relations_ok game rs _ _ happ
    rw [hhi] at c
    rw [hlo] at d
    simp only [List.map_nil, List.nil_append] at c d
    refine ⟨i, hty, ?_⟩
    rw [hu]
    exact ⟨c, d, names_of_pointers game _ _ c, names_of_pointers game _ _ d⟩
  · rintro ⟨r, hr, hbad⟩ h
    obtain ⟨i, u, -, -, -, -, happ⟩ := key h
    obtain ⟨-, -, -, -, e⟩ := apply_relations_ok game rs _ _ happ
    obtain ⟨e1, e2, e3⟩ := e r hr
    rcases hbad with hbad | hbad | hbad
    · omega
    · exact e2 hbad
    · rcases e3 with e3 | e3 | e3
      · exact hbad.1 e3
      · exact hbad.2.1 e3
      · exact hbad.2.2 e3

/-- C6 at the line `a +b =a -b -a`: accepted, with `higher = [b]` and
`lower = [b, a]`. -/
theorem read_relation_strings_lists_witness :
    (∀ x ∈ ["a".toList, "+b".toList, "=a".toList, "-b".toList, "-a".toList], ' ' ∉ x) ∧
    (read_relation_strings relGame "a +b =a -b -a".toList).1 = 0 ∧
    ∃ i, get_type relGame "a".toList = some i ∧
      ((read_relation_strings relGame "a +b =a -b -a".toList).2.typeAt i).higher.map some =
        [get_type relGame "b".toList] ∧
      ((read_relation_strings relGame "a +b =a -b -a".toList).2.typeAt i).lower.map some =
        [get_type relGame "b".toList, get_type relGame "a".toList] ∧
      ((read_relation_strings relGame "a +b =a -b -a".toList).2.typeAt i).higher.map
        (fun j => (relGame.typeAt j).name) = ["b".toList] ∧
      ((read_relation_strings relGame "a +b =a -b -a".toList).2.typeAt i).lower.map
        (fun j => (relGame.typeAt j).name) = ["b".toList, "a".toList] :=
  ⟨by decide, by decide,
    (read_relation_strings_lists relGame "a".toList
      ["+b".toList, "=a".toList, "-b".toList, "-a".toList] (by decide)).1 (by decide)⟩

/-! ## `read_line` and `read_section` -/

theorem dropWhile_length_le (f : List Char) (q : Char → Bool) :
    (f.dropWhile q).length ≤ f.length :=
  (List.dropWhile_suffix q).length_le

/-- Reading a line from a stream that is not at its end consumes something. -/
theorem read_line_length {f : List Char} (h : f ≠ []) :
    (read_line f).2.length < f.length := by
  cases f with
  | nil => exact absurd rfl h
  | cons c cs =>
    by_cases hc : c = '\n'
    · simp [read_line, List.dropWhile, hc]
    · have := dropWhile_length_le cs (fun c => decide (c ≠ '\n'))
      have e : (read_line (c :: cs)).2 =
          (cs.dropWhile (fun c => decide (c ≠ '\n'))).tail := by
        simp [read_line, List.dropWhile, hc]
      rw [e]
      simp only [List.length_tail, List.length_cons]
      omega

theorem read_line_nil : read_line [] = ([], []) := rfl

theorem read_line_ne_nil {f : List Char} (h : (read_line f).1 ≠ []) : f ≠ [] := by
  intro e
  rw [e] at h
  exact h rfl

/-- With enough fuel the loop of `read_section` does not depend on the fuel. -/
theorem read_section_loop_fuel (p : Game → List Char → Int × Game) (n : Nat) :
    ∀ (m : Nat) (g : Game) (f : List Char), f.length < n → f.length < m →
      read_section_loop p n g f = read_section_loop p m g f := by
  induction n with
  | zero => intro m g f h; omega
  | succ n ih =>
    intro m g f hn hm
    cases m with
    | zero => omega
    | succ m =>
      rw [read_section_loop, read_section_loop]
      simp only
      by_cases h0 : (read_line f).1.length = 0
      · rw [if_pos h0, if_pos h0]
      · have hne : f ≠ [] := read_line_ne_nil (fun e => h0 (by rw [e]; rfl))
        have hlt := read_line_length hne
        rw [if_neg h0, if_neg h0]
        rw [ih m g (read_line f).2 (by omega) (by omega),
          ih m (p g (read_line f).1).2 (read_line f).2 (by omega) (by omega)]

/-- One iteration of `read_section`. -/
theorem read_section_eq (p : Game → List Char → Int × Game) (g : Game) (f : List Char) :
    read_section g f p =
      if (read_line f).1 = [] then (-1, g, (read_line f).2)
      else if (read_line f).1 = ['.'] then (0, g, (read_line f).2)
      else if (read_line f).1.head? = some '#' then read_section g (read_line f).2 p
      else if (p g (read_line f).1).1 ≠ 0 then
        ((p g (read_line f).1).1, (p g (read_line f).1).2, (read_line f).2)
      else read_section (p g (read_line f).1).2 (read_line f).2 p := by
  rw [read_section, read_section_loop]
  simp only [List.length_eq_zero]
  by_cases h0 : (read_line f).1 = []
  · rw [if_pos h0, if_pos h0]
  · have hlt := read_line_length (read_line_ne_nil h0)
    rw [if_neg h0, if_neg h0, read_section, read_section,
      read_section_loop_fuel p f.length ((read_line f).2.length + 1) g _ hlt (by omega),
      read_section_loop_fuel p f.length ((read_line f).2.length + 1) _ _ hlt (by omega)]

/-- Induction along the iterations of `read_section`. -/
theorem read_section_induction (p : Game → List Char → Int × Game)
    (motive : Game → List Char → Int × Game × List Char → Prop)
    (blank : ∀ g f, (read_line f).1 = [] → motive g f (-1, g, (read_line f).2))
    (stop : ∀ g f, (read_line f).1 = ['.'] → motive g f (0, g, (read_line f).2))
    (comment : ∀ g f, (read_line f).1 ≠ [] → (read_line f).1 ≠ ['.'] →
      (read_line f).1.head? = some '#' →
      motive g (read_line f).2 (read_section g (read_line f).2 p) →
      motive g f (read_section g (read_line f).2 p))
    (fail : ∀ g f, (read_line f).1 ≠ [] → (read_line f).1 ≠ ['.'] →
      (read_line f).1.head? ≠ some '#' → (p g (read_line f).1).1 ≠ 0 →
      motive g f ((p g (read_line f).1).1, (p g (read_line f).1).2, (read_line f).2))
    (step : ∀ g f, (read_line f).1 ≠ [] → (read_line f).1 ≠ ['.'] →
      (read_line f).1.head? ≠ some '#' → (p g (read_line f).1).1 = 0 →
      motive (p g (read_line f).1).2 (read_line f).2
        (read_section (p g (read_line f).1).2 (read_line f).2 p) →
      motive g f (read_section (p g (read_line f).1).2 (read_line f).2 p)) :
    ∀ g f, motive g f (read_section g f p) := by
  have main : ∀ n : Nat, ∀ g f, f.length = n → motive g f (read_section g f p) := by
    intro n
    induction n using Nat.strong_induction_on with
    | _ n ih =>
      intro g f hn
      subst hn
      rw [read_section_eq]
      by_cases h0 : (read_line f).1 = []
      · rw [if_pos h0]; exact blank g f h0
      · have hlt := read_line_length (read_line_ne_nil h0)
        rw [if_neg h0]
        by_cases h1 : (read_line f).1 = ['.']
        · rw [if_pos h1]; exact stop g f h1
        · rw [if_neg h1]
          by_cases h2 : (read_line f).1.head? = some '#'
          · rw [if_pos h2]
            exact comment g f h0 h1 h2 (ih _ hlt g _ rfl)
          · rw [if_neg h2]
            by_cases h3 : (p g (read_line f).1).1 ≠ 0
            · rw [if_pos h3]; exact fail g f h0 h1 h2 h3
            · rw [if_neg h3]
              exact step g f h0 h1 h2 (not_not.mp h3) (ih _ hlt _ _ rfl)
  intro g f
  exact main f.length g f rfl

/-- An invariant that every accepted line preserves holds after a section
that ends with status 0. -/
theorem read_section_invariant (p : Game → List Char → Int × Game) (P : Game → Prop)
    (hp : ∀ g l, P g → (p g l).1 = 0 → P (p g l).2) :
    ∀ g f, P g → (read_section g f p).1 = 0 → P (read_section g f p).2.1 := by
  refine read_section_induction p
    (fun g _ res => P g → res.1 = 0 → P res.2.1) ?_ ?_ ?_ ?_ ?_
  · intro g f _ _ h; simp at h
  · intro g f _ hP _; exact hP
  · intro g f _ _ _ ih hP h; exact ih hP h
  · intro g f _ _ _ hne _ h; exact absurd h hne
  · intro g f _ _ _ h0 ih hP h; exact ih (hp g _ hP h0) h

theorem splitOn_newline (f : List Char) :
    f.splitOn '\n' = get_token f '\n' ::
      (if '\n' ∈ f then ((f.dropWhile (fun c => decide (c ≠ '\n'))).tail).splitOn '\n'
        else []) := by
  induction f with
  | nil => simp [List.splitOn_nil, get_token]
  | cons c cs ih =>
    rw [List.splitOn, List.splitOnP_cons]
    by_cases hc : c = '\n'
    · subst hc
      simp [get_token_cons, List.dropWhile, List.splitOn]
    · have hb : (c == '\n') = false := by simpa using hc
      have hne : ¬ '\n' = c := fun e => hc e.symm
      rw [hb]
      simp only [Bool.false_eq_true, if_false]
      have ih' := ih
      rw [List.splitOn] at ih'
      rw [ih']
      simp only [List.modifyHead_cons, get_token_cons, hc, if_false, List.mem_cons, hne, false_or,
        List.dropWhile, ne_eq, not_false_eq_true, decide_True, List.splitOn]

theorem file_lines_eq (f : List Char) :
    file_lines f = (read_line f).1 ::
      (if '\n' ∈ f then file_lines (read_line f).2 else []) := by
  rw [file_lines, splitOn_newline]
  by_cases h : '\n' ∈ f
  · simp [h, read_line, file_lines]
  · simp [h, read_line]

theorem read_line_rest_of_no_newline {f : List Char} (h : '\n' ∉ f) : (read_line f).2 = [] := by
  have : f.dropWhile (fun c => decide (c ≠ '\n')) = [] := by
    rw [List.dropWhile_eq_nil_iff]
    intro x hx
    have : x ≠ '\n' := fun e => h (e ▸ hx)
    simpa using this
  unfold read_line
  simp only
  rw [this]
  rfl

theorem lines_before_blank_eq (f : List Char) :
    lines_before_blank f =
      if (read_line f).1 = [] then []
      else (read_line f).1 :: lines_before_blank (read_line f).2 := by
  rw [lines_before_blank, file_lines_eq]
  by_cases h0 : (read_line f).1 = []
  · simp [h0, List.takeWhile]
  · rw [if_neg h0]
    simp only [List.takeWhile, ne_eq, h0, not_false_eq_true, decide_True, List.cons.injEq,
      true_and]
    by_cases h : '\n' ∈ f
    · simp [h, lines_before_blank]
    · rw [if_neg h, read_line_rest_of_no_newline h]
      rfl

/-- A section that ends with status 0 has consumed one `.` line, and no blank
line before it. -/
theorem read_section_count (p : Game → List Char → Int × Game) :
    ∀ g f, (read_section g f p).1 = 0 →
      (lines_before_blank (read_section g f p).2.2).count ['.'] + 1 ≤
        (lines_before_blank f).count ['.'] := by
  refine read_section_induction p
    (fun _ f res => res.1 = 0 →
      (lines_before_blank res.2.2).count ['.'] + 1 ≤ (lines_before_blank f).count ['.'])
    ?_ ?_ ?_ ?_ ?_
  · intro g f _ h; simp at h
  · intro g f h1 _
    rw [lines_before_blank_eq f, h1]
    simp
  · intro g f h0 _ _ ih h
    have := ih h
    rw [lines_before_blank_eq f, if_neg h0, List.count_cons]
    omega
  · intro g f _ _ _ hne h; exact absurd h hne
  · intro g f h0 _ _ _ ih h
    have := ih h
    rw [lines_before_blank_eq f, if_neg h0, List.count_cons]
    omega

/-- What a successful `read_sinister_file` went through: five sections that
each ended with status 0, and the final checks. -/
theorem read_sinister_file_ok {g : Game} {f : List Char}
    (h : (read_sinister_file g f).1 = 0) :
    ∃ g1 f1 g2 f2 g3 f3 g4 f4 g5 f5,
      read_section g f read_type_name = (0, g1, f1) ∧
      read_section g1 f1 read_effectiveness_strings = (0, g2, f2) ∧
      read_section g2 f2 read_relation_strings = (0, g3, f3) ∧
      read_section g3 f3 read_attack = (0, g4, f4) ∧
      read_section g4 f4 read_agent = (0, g5, f5) ∧
      (0 < g5.types.length ∧ 0 < g5.agents.length ∧ 0 < g5.attacks.length) ∧
      (∀ t ∈ g5.types, t.effectiveness.get 0 ≠ none) ∧
      read_sinister_file g f = (0, g5, f5) := by
  unfold read_sinister_file at h ⊢
  simp only at h ⊢
  by_cases c1 : (read_section g f read_type_name).1 ≠ 0
  · rw [if_pos c1] at h; simp at h
  rw [if_neg c1] at h ⊢
  by_cases c2 : (read_section (read_section g f read_type_name).2.1
      (read_section g f read_type_name).2.2 read_effectiveness_strings).1 ≠ 0
  · rw [if_pos c2] at h; simp at h
  rw [if_neg c2] at h ⊢
  generalize hs2 : read_section (read_section g f read_type_name).2.1
      (read_section g f read_type_name).2.2 read_effectiveness_strings = s2 at h c2 ⊢
  by_cases c3 : (read_section s2.2.1 s2.2.2 read_relation_strings).1 ≠ 0
  · rw [if_pos c3] at h; simp at h
  rw [if_neg c3] at h ⊢
  generalize hs3 : read_section s2.2.1 s2.2.2 read_relation_strings = s3 at h c3 ⊢
  by_cases c4 : (read_section s3.2.1 s3.2.2 read_attack).1 ≠ 0
  · rw [if_pos c4] at h; simp at h
  rw [if_neg c4] at h ⊢
  generalize hs4 : read_section s3.2.1 s3.2.2 read_attack = s4 at h c4 ⊢
  by_cases c5 : (read_section s4.2.1 s4.2.2 read_agent).1 ≠ 0
  · rw [if_pos c5] at h; simp at h
  rw [if_neg c5] at h ⊢
  generalize hs5 : read_section s4.2.1 s4.2.2 read_agent = s5 at h c5 ⊢
  by_cases c6 : s5.2.1.types.length ≤ 0 ∨ s5.2.1.agents.length ≤ 0 ∨ s5.2.1.attacks.length ≤ 0
  · rw [if_pos c6] at h; simp at h
  rw [if_neg c6] at h ⊢
  by_cases c7 : (s5.2.1.types.any fun type => (type.effectiveness.get 0).isNone) = true
  · rw [if_pos c7] at h; simp at h
  rw [if_neg c7]
  simp only [ne_eq, not_not] at c1 c2 c3 c4 c5
  refine ⟨(read_section g f read_type_name).2.1, (read_section g f read_type_name).2.2,
    s2.2.1, s2.2.2, s3.2.1, s3.2.2, s4.2.1, s4.2.2, s5.2.1, s5.2.2, ?_, ?_, ?_, ?_, ?_, ?_, ?_,
    rfl⟩
  · exact Prod.ext c1 rfl
  · rw [hs2]; exact Prod.ext c2 rfl
  · rw [hs3]; exact Prod.ext c3 rfl
  · rw [hs4]; exact Prod.ext c4 rfl
  · rw [hs5]; exact Prod.ext c5 rfl
  · simp only [not_or, Nat.not_le] at c6
    exact c6
  · intro t ht e
    apply c7
    rw [List.any_eq_true]
    exact ⟨t, ht, by simp [e]⟩

/-- C9: when fewer than five `.` lines come before the first blank line of
the text (or before its end, when no line is blank), `read_sinister_file`
returns a non-zero status.  So a blank line or the end of input before the
terminator of the fifth section, and in particular a text with fewer than
five terminated sections, is rejected. -/
theorem read_sinister_file_needs_five_sections (f : List Char)
    (h : (lines_before_blank f).count ['.'] < 5) :
    (read_sinister_file new_game f).1 ≠ 0 := by
  intro h0
  obtain ⟨g1, f1, g2, f2, g3, f3, g4, f4, g5, f5, h1, h2, h3, h4, h5, -, -, -⟩ :=
    read_sinister_file_ok h0
  have c1 := read_section_count read_type_name new_game f (by rw [h1])
  have c2 := read_section_count read_effectiveness_strings g1 f1 (by rw [h2])
  have c3 := read_section_count read_relation_strings g2 f2 (by rw [h3])
  have c4 := read_section_count read_attack g3 f3 (by rw [h4])
  have c5 := read_section_count read_agent g4 f4 (by rw [h5])
  rw [h1] at c1
  rw [h2] at c2
  rw [h3] at c3
  rw [h4] at c4
  rw [h5] at c5
  simp only at c1 c2 c3 c4 c5
  omega

/-- C9 at a text that ends inside its second section. -/
theorem read_sinister_file_needs_five_sections_witness :
    (lines_before_blank "fire\n.\nfire a b c\n".toList).count ['.'] < 5 ∧
    (read_sinister_file new_game "fire\n.\nfire a b c\n".toList).1 ≠ 0 :=
  ⟨by decide, read_sinister_file_needs_five_sections "fire\n.\nfire a b c\n".toList (by decide)⟩

/-! ## Comment lines -/

theorem dropWhile_append_sep {l : List Char} {d : Char} (h : d ∉ l) (rest : List Char) :
    (l ++ d :: rest).dropWhile (fun c => decide (c ≠ d)) = d :: rest := by
  induction l with
  | nil => simp [List.dropWhile]
  | cons c cs ih =>
    simp only [List.mem_cons, not_or] at h
    have hc : c ≠ d := fun e => h.1 e.symm
    have := ih h.2
    simp only [List.cons_append, List.dropWhile, ne_eq, hc, not_false_eq_true, decide_True]
    simpa using this

theorem read_line_append {l : List Char} (h : '\n' ∉ l) (rest : List Char) :
    read_line (l ++ '\n' :: rest) = (get_token l '\x00', rest) := by
  unfold read_line
  rw [get_token_append_sep h, dropWhile_append_sep h]
  rfl

theorem read_section_blank (p : Game → List Char → Int × Game) (g : Game) {f : List Char}
    (h0 : (read_line f).1 = []) : read_section g f p = (-1, g, (read_line f).2) := by
  rw [read_section_eq, if_pos h0]

theorem read_section_stop (p : Game → List Char → Int × Game) (g : Game) {f : List Char}
    (h1 : (read_line f).1 = ['.']) : read_section g f p = (0, g, (read_line f).2) := by
  rw [read_section_eq, if_neg (by rw [h1]; simp), if_pos h1]

theorem read_section_skip (p : Game → List Char → Int × Game) (g : Game) {f : List Char}
    (h0 : (read_line f).1 ≠ []) (h1 : (read_line f).1 ≠ ['.'])
    (h2 : (read_line f).1.head? = some '#') :
    read_section g f p = read_section g (read_line f).2 p := by
  rw [read_section_eq, if_neg h0, if_neg h1, if_pos h2]

theorem read_section_fail (p : Game → List Char → Int × Game) (g : Game) {f : List Char}
    (h0 : (read_line f).1 ≠ []) (h1 : (read_line f).1 ≠ ['.'])
    (h2 : (read_line f).1.head? ≠ some '#') (h3 : (p g (read_line f).1).1 ≠ 0) :
    read_section g f p =
      ((p g (read_line f).1).1, (p g (read_line f).1).2, (read_line f).2) := by
  rw [read_section_eq, if_neg h0, if_neg h1, if_neg h2, if_pos h3]

theorem read_section_step (p : Game → List Char → Int × Game) (g : Game) {f : List Char}
    (h0 : (read_line f).1 ≠ []) (h1 : (read_line f).1 ≠ ['.'])
    (h2 : (read_line f).1.head? ≠ some '#') (h3 : (p g (read_line f).1).1 = 0) :
    read_section g f p = read_section (p g (read_line f).1).2 (read_line f).2 p := by
  rw [read_section_eq, if_neg h0, if_neg h1, if_neg h2, if_neg (not_not.mpr h3)]

/-- A comment line at the head of the stream is skipped. -/
theorem read_section_comment_head (p : Game → List Char → Int × Game) (g : Game)
    {c : List Char} (hc : '\n' ∉ c) (f : List Char) :
    read_section g ('#' :: c ++ '\n' :: f) p = read_section g f p := by
  have hl : read_line ('#' :: c ++ '\n' :: f) = (get_token ('#' :: c) '\x00', f) :=
    read_line_append (l := '#' :: c) (by simp [hc]) f
  have e : get_token ('#' :: c) '\x00' = '#' :: get_token c '\x00' := by
    rw [get_token_cons, if_neg (by decide)]
  rw [read_section_skip p g (by rw [hl, e]; simp) (by rw [hl, e]; simp)
    (by rw [hl, e]; rfl), hl]

theorem comment_inserted_step {f f' : List Char} (h : comment_inserted f f') :
    (∃ c, '\n' ∉ c ∧ f' = '#' :: c ++ '\n' :: f) ∨
      ((read_line f').1 = (read_line f).1 ∧
        comment_inserted (read_line f).2 (read_line f').2) := by
  rcases h with rfl | ⟨pre, post, c, hpre, hc, rfl, rfl⟩
  · exact Or.inr ⟨rfl, Or.inl rfl⟩
  · rcases hpre with rfl | hlast
    · exact Or.inl ⟨c, hc, rfl⟩
    · right
      have hmem : '\n' ∈ pre := List.mem_of_getLast?_eq_some hlast
      rcases get_token_split pre '\n' with e | e
      · exact absurd (e ▸ hmem) (not_mem_get_token pre '\n')
      · generalize hl : get_token pre '\n' = l at e
        generalize hq : pre.drop (l.length + 1) = q at e
        have hnl : '\n' ∉ l := hl ▸ not_mem_get_token pre '\n'
        have hq' : q = [] ∨ q.getLast? = some '\n' := by
          by_cases hqe : q = []
          · exact Or.inl hqe
          · right
            rw [e, show l ++ '\n' :: q = (l ++ ['\n']) ++ q by simp,
              List.getLast?_append_of_ne_nil _ hqe] at hlast
            exact hlast
        subst e
        have e1 : l ++ '\n' :: q ++ post = l ++ '\n' :: (q ++ post) := by simp
        have e2 : l ++ '\n' :: q ++ ('#' :: c ++ '\n' :: post) =
            l ++ '\n' :: (q ++ ('#' :: c ++ '\n' :: post)) := by simp
        rw [e1, e2, read_line_append hnl, read_line_append hnl]
        exact ⟨rfl, Or.inr ⟨q, post, c, hq', hc, rfl, rfl⟩⟩

/-- Inserting a comment line does not change what a section does. -/
theorem read_section_comment_inserted (p : Game → List Char → Int × Game) :
    ∀ g f, ∀ f', comment_inserted f f' →
      (read_section g f' p).1 = (read_section g f p).1 ∧
      (read_section g f' p).2.1 = (read_section g f p).2.1 ∧
      comment_inserted (read_section g f p).2.2 (read_section g f' p).2.2 := by
  intro g f
  refine read_section_induction p
    (fun g f res => read_section g f p = res → ∀ f', comment_inserted f f' →
      (read_section g f' p).1 = res.1 ∧ (read_section g f' p).2.1 = res.2.1 ∧
      comment_inserted res.2.2 (read_section g f' p).2.2) ?_ ?_ ?_ ?_ ?_ g f rfl
  · intro g f h0 he f' hR
    rcases comment_inserted_step hR with ⟨c, hc, rfl⟩ | ⟨hl, hR'⟩
    · rw [read_section_comment_head p g hc, he]
      exact ⟨rfl, rfl, Or.inl rfl⟩
    · rw [read_section_blank p g (hl.trans h0)]
      exact ⟨rfl, rfl, hR'⟩
  · intro g f h1 he f' hR
    rcases comment_inserted_step hR with ⟨c, hc, rfl⟩ | ⟨hl, hR'⟩
    · rw [read_section_comment_head p g hc, he]
      exact ⟨rfl, rfl, Or.inl rfl⟩
    · rw [read_section_stop p g (hl.trans h1)]
      exact ⟨rfl, rfl, hR'⟩
  · intro g f h0 h1 h2 ih he f' hR
    rcases comment_inserted_step hR with ⟨c, hc, rfl⟩ | ⟨hl, hR'⟩
    · rw [read_section_comment_head p g hc, he]
      exact ⟨rfl, rfl, Or.inl rfl⟩
    · rw [read_section_skip p g (hl ▸ h0) (hl ▸ h1) (hl ▸ h2)]
      exact ih rfl _ hR'
  · intro g f h0 h1 h2 h3 he f' hR
    rcases comment_inserted_step hR with ⟨c, hc, rfl⟩ | ⟨hl, hR'⟩
    · rw [read_section_comment_head p g hc, he]
      exact ⟨rfl, rfl, Or.inl rfl⟩
    · rw [read_section_fail p g (hl ▸ h0) (hl ▸ h1) (hl ▸ h2) (hl ▸ h3), hl]
      exact ⟨rfl, rfl, hR'⟩
  · intro g f h0 h1 h2 h3 ih he f' hR
    rcases comment_inserted_step hR with ⟨c, hc, rfl⟩ | ⟨hl, hR'⟩
    · rw [read_section_comment_head p g hc, he]
      exact ⟨rfl, rfl, Or.inl rfl⟩
    · rw [read_section_step p g (hl ▸ h0) (hl ▸ h1) (hl ▸ h2) (hl ▸ h3), hl]
      exact ih rfl _ hR'

theorem read_sinister_file_comment_inserted (g : Game) {f f' : List Char}
    (hR : comment_inserted f f') :
    (read_sinister_file g f').1 = (read_sinister_file g f).1 ∧
      (read_sinister_file g f').2.1 = (read_sinister_file g f).2.1 := by
  unfold read_sinister_file
  simp only
  obtain ⟨a1, b1, r1⟩ := read_section_comment_inserted read_type_name g f f' hR
  generalize read_section g f' read_type_name = t1 at a1 b1 r1 ⊢
  generalize read_section g f read_type_name = s1 at a1 b1 r1 ⊢
  rw [a1, b1]
  by_cases c1 : s1.1 ≠ 0
  · rw [if_pos c1, if_pos c1]; exact ⟨rfl, rfl⟩
  rw [if_neg c1, if_neg c1]
  obtain ⟨a2, b2, r2⟩ :=
    read_section_comment_inserted read_effectiveness_strings s1.2.1 s1.2.2 t1.2.2 r1
  generalize read_section s1.2.1 t1.2.2 read_effectiveness_strings = t2 at a2 b2 r2 ⊢
  generalize read_section s1.2.1 s1.2.2 read_effectiveness_strings = s2 at a2 b2 r2 ⊢
  rw [a2, b2]
  by_cases c2 : s2.1 ≠ 0
  · rw [if_pos c2, if_pos c2]; exact ⟨rfl, rfl⟩
  rw [if_neg c2, if_neg c2]
  obtain ⟨a3, b3, r3⟩ :=
    read_section_comment_inserted read_relation_strings s2.2.1 s2.2.2 t2.2.2 r2
  generalize read_section s2.2.1 t2.2.2 read_relation_strings = t3 at a3 b3 r3 ⊢
  generalize read_section s2.2.1 s2.2.2 read_relation_strings = s3 at a3 b3 r3 ⊢
  rw [a3, b3]
  by_cases c3 : s3.1 ≠ 0
  · rw [if_pos c3, if_pos c3]; exact ⟨rfl, rfl⟩
  rw [if_neg c3, if_neg c3]
  obtain ⟨a4, b4, r4⟩ := read_section_comment_inserted read_attack s3.2.1 s3.2.2 t3.2.2 r3
  generalize read_section s3.2.1 t3.2.2 read_attack = t4 at a4 b4 r4 ⊢
  generalize read_section s3.2.1 s3.2.2 read_attack = s4 at a4 b4 r4 ⊢
  rw [a4, b4]
  by_cases c4 : s4.1 ≠ 0
  · rw [if_pos c4, if_pos c4]; exact ⟨rfl, rfl⟩
  rw [if_neg c4, if_neg c4]
  obtain ⟨a5, b5, r5⟩ := read_section_comment_inserted read_agent s4.2.1 s4.2.2 t4.2.2 r4
  generalize read_section s4.2.1 t4.2.2 read_agent = t5 at a5 b5 r5 ⊢
  generalize read_section s4.2.1 s4.2.2 read_agent = s5 at a5 b5 r5 ⊢
  rw [a5, b5]
  by_cases c5 : s5.1 ≠ 0
  · rw [if_pos c5, if_pos c5]; exact ⟨rfl, rfl⟩
  rw [if_neg c5, if_neg c5]
  by_cases c6 : s5.2.1.types.length ≤ 0 ∨ s5.2.1.agents.length ≤ 0 ∨ s5.2.1.attacks.length ≤ 0
  · rw [if_pos c6, if_pos c6]; exact ⟨rfl, rfl⟩
  rw [if_neg c6, if_neg c6]
  by_cases c7 : (s5.2.1.types.any fun type => (type.effectiveness.get 0).isNone) = true
  · rw [if_pos c7, if_pos c7]; exact ⟨rfl, rfl⟩
  rw [if_neg c7, if_neg c7]
  exact ⟨rfl, rfl⟩

/-! ## What an accepted line does to the game -/

theorem read_type_name_accepted {g : Game} {l : List Char} (h : (read_type_name g l).1 = 0) :
    l ≠ [] ∧ ' ' ∉ l ∧ (read_type_name g l).2 = { g with types := g.types ++ [new_type l] } := by
  unfold read_type_name at h ⊢
  simp only at h ⊢
  by_cases c : l ≠ get_token l ' ' ∨ l.length = 0
  · rw [if_pos c] at h; simp at h
  · rw [if_neg c]
    simp only [not_or, ne_eq, not_not, List.length_eq_zero] at c
    refine ⟨c.2, ?_, rfl⟩
    rw [c.1]
    exact not_mem_get_token l ' '

theorem read_attack_accepted {g : Game} {l : List Char} (h : (read_attack g l).1 = 0) :
    ∃ (n : List Char) (ty : Nat), n ≠ [] ∧ ' ' ∉ n ∧ get_attack g n = none ∧
      ty < g.types.length ∧
      (read_attack g l).2 = { g with attacks := g.attacks ++ [⟨n, ty⟩] } := by
  unfold read_attack at h ⊢
  simp only at h ⊢
  by_cases c : (get_attack g (get_token l ' ')).isSome = true ∨ (get_token l ' ').length = 0 ∨
      (get_token (List.drop ((get_token l ' ').length + 1) l) '\x00').length = 0
  · rw [if_pos c] at h; simp at h
  · rw [if_neg c] at h ⊢
    simp only [not_or, List.length_eq_zero] at c
    cases hty : get_type g (get_token (List.drop ((get_token l ' ').length + 1) l) '\x00') with
    | none => rw [hty] at h; simp at h
    | some ty =>
      refine ⟨get_token l ' ', ty, c.2.1, not_mem_get_token l ' ', ?_, get_type_lt hty, rfl⟩
      cases hg : get_attack g (get_token l ' ') with
      | none => rfl
      | some _ => simp [hg] at c

/-- Every line is a sequence of space-free tokens separated by single spaces. -/
theorem exists_spaced (l : List Char) :
    ∃ (T : List Char) (rs : List (List Char)), l = spaced (T :: rs) ∧ ∀ x ∈ T :: rs, ' ' ∉ x := by
  have main : ∀ n : Nat, ∀ l : List Char, l.length = n →
      ∃ (T : List Char) (rs : List (List Char)), l = spaced (T :: rs) ∧
        ∀ x ∈ T :: rs, ' ' ∉ x := by
    intro n
    induction n using Nat.strong_induction_on with
    | _ n ih =>
      intro l hn
      rcases get_token_split l ' ' with e | e
      · exact ⟨l, [], rfl, by
          intro x hx
          simp only [List.mem_singleton] at hx
          subst hx
          rw [e]
          exact not_mem_get_token _ _⟩
      · have hlen : (l.drop ((get_token l ' ').length + 1)).length < n := by
          have := congrArg List.length e
          simp only [List.length_append, List.length_cons] at this
          omega
        obtain ⟨T, rs, h1, h2⟩ := ih _ hlen _ rfl
        refine ⟨get_token l ' ', T :: rs, ?_, ?_⟩
        · rw [spaced_cons_cons, ← h1]
          exact e
        · intro x hx
          rcases List.mem_cons.mp hx with rfl | hx
          · exact not_mem_get_token _ _
          · exact h2 x hx
  exact main l.length l rfl

/-- An accepted relation line replaces one type record by one with the same
name and strings, whose relation lists hold existing types only. -/
theorem read_relation_strings_accepted {g : Game} {l : List Char}
    (h : (read_relation_strings g l).1 = 0) :
    ∃ (i : Nat) (u : TypeRec), i < g.types.length ∧ u.name = (g.typeAt i).name ∧
      u.effectiveness = (g.typeAt i).effectiveness ∧
      (∀ j ∈ u.lower, j < g.types.length) ∧ (∀ j ∈ u.higher, j < g.types.length) ∧
      (read_relation_strings g l).2 = { g with types := g.types.set i u } := by
  obtain ⟨T, rs, rfl, hs⟩ := exists_spaced l
  have hlast := read_relation_strings_last_ne h
  rw [read_relation_strings_spaced g T rs hs hlast] at h ⊢
  cases hty : get_type g T with
  | none => simp [hty] at h
  | some i =>
    simp only [hty] at h ⊢
    by_cases hf : (g.typeAt i).lower.length > 0 ∨ (g.typeAt i).higher.length > 0
    · simp [if_pos hf] at h
    · rw [if_neg hf] at h ⊢
      simp only at h
      simp only [not_or, gt_iff_lt, Nat.not_lt, Nat.le_zero, List.length_eq_zero] at hf
      have happ : apply_relations g rs (g.typeAt i) =
          (0, (apply_relations g rs (g.typeAt i)).2) := Prod.ext h rfl
      obtain ⟨a, b, c, d, -⟩ := apply_relations_ok g rs _ _ happ
      rw [hf.2] at c
      rw [hf.1] at d
      simp only [List.map_nil, List.nil_append] at c d
      have valid : ∀ (l : List Nat) (xs : List (List Char)),
          l.map some = xs.map (get_type g) → ∀ j ∈ l, j < g.types.length := by
        intro l xs hl j hj
        have : some j ∈ l.map some := List.mem_map_of_mem _ hj
        rw [hl, List.mem_map] at this
        obtain ⟨x, -, hx⟩ := this
        exact get_type_lt hx
      exact ⟨i, _, get_type_lt hty, a, b, valid _ _ d, valid _ _ c, rfl⟩

/-! ## Invariants of the game during the parse -/

theorem getD_mem {ts : List TypeRec} {i : Nat} (h : i < ts.length) :
    ts.getD i default ∈ ts := by
  rw [List.getD_eq_getElem _ _ h]
  exact List.getElem_mem h

theorem getD_set_ne (ts : List TypeRec) {i j : Nat} (u : TypeRec) (h : i ≠ j) :
    (ts.set i u).getD j default = ts.getD j default := by
  simp [List.getD_eq_getElem?_getD, List.getElem?_set, h]

theorem getD_set_self {ts : List TypeRec} {i : Nat} (u : TypeRec) (h : i < ts.length) :
    (ts.set i u).getD i default = u := by
  simp [List.getD_eq_getElem?_getD, List.getElem?_set, h]

theorem TypesOK_nil : TypesOK [] := by
  refine ⟨?_, ?_, ?_, ?_⟩ <;> simp

theorem TypesOK_append {ts : List TypeRec} (h : TypesOK ts) {l : List Char}
    (hne : l ≠ []) (hs : ' ' ∉ l) : TypesOK (ts ++ [new_type l]) := by
  obtain ⟨h1, h2, h3, h4⟩ := h
  refine ⟨?_, ?_, ?_, ?_⟩
  · intro t ht
    rcases List.mem_append.mp ht with ht | ht
    · exact h1 t ht
    · simp only [List.mem_singleton] at ht
      subst ht
      exact ⟨hne, hs⟩
  · intro t ht
    rcases List.mem_append.mp ht with ht | ht
    · exact h2 t ht
    · simp only [List.mem_singleton] at ht
      subst ht
      intro hc
      exact absurd rfl hc
  · intro a b hab hb
    simp only [List.length_append, List.length_singleton] at hb
    by_cases hbl : b < ts.length
    · rw [List.getD_append _ _ _ _ hbl, List.getD_append _ _ _ _ (by omega)]
      exact h3 a b hab hbl
    · have : b = ts.length := by omega
      subst this
      intro _
      rw [List.getD_append_right _ _ _ _ (Nat.le_refl _)]
      simp [new_type, EffArray.get]
  · intro t ht
    simp only [List.length_append, List.length_singleton]
    rcases List.mem_append.mp ht with ht | ht
    · exact ⟨fun j hj => Nat.lt_succ_of_lt ((h4 t ht).1 j hj),
        fun j hj => Nat.lt_succ_of_lt ((h4 t ht).2 j hj)⟩
    · simp only [List.mem_singleton] at ht
      subst ht
      simp [new_type]

theorem TypesOK_set {ts : List TypeRec} (h : TypesOK ts) {i : Nat} {u : TypeRec}
    (hi : i < ts.length) (hname : u.name = (ts.getD i default).name)
    (heff : u.effectiveness.get 0 ≠ none →
      ∃ a b c, u.effectiveness = ⟨some a, some b, some c⟩ ∧ a ≠ [] ∧ b ≠ [] ∧ c ≠ [])
    (hfirst : u.effectiveness.get 0 ≠ none →
      ∀ a, a < i → (ts.getD a default).name ≠ (ts.getD i default).name)
    (hlo : ∀ j ∈ u.lower, j < ts.length) (hhi : ∀ j ∈ u.higher, j < ts.length) :
    TypesOK (ts.set i u) := by
  obtain ⟨h1, h2, h3, h4⟩ := h
  have hnames : ∀ j, ((ts.set i u).getD j default).name = (ts.getD j default).name := by
    intro j
    by_cases hj : i = j
    · subst hj
      rw [getD_set_self u hi, hname]
    · rw [getD_set_ne ts u hj]
  refine ⟨?_, ?_, ?_, ?_⟩
  · intro t ht
    rcases List.mem_or_eq_of_mem_set ht with ht | rfl
    · exact h1 t ht
    · rw [hname]
      exact h1 _ (getD_mem hi)
  · intro t ht
    rcases List.mem_or_eq_of_mem_set ht with ht | rfl
    · exact h2 t ht
    · exact heff
  · intro a b hab hb hn
    rw [List.length_set] at hb
    rw [hnames a, hnames b] at hn
    by_cases hbi : i = b
    · subst hbi
      rw [getD_set_self u hi]
      by_contra hc
      exact hfirst hc a hab hn
    · rw [getD_set_ne ts u hbi]
      exact h3 a b hab hb hn
  · intro t ht
    rw [List.length_set]
    rcases List.mem_or_eq_of_mem_set ht with ht | rfl
    · exact h4 t ht
    · exact ⟨hlo, hhi⟩

theorem AttacksOK_mono {n n' : Nat} {attacks : List Attack} (h : AttacksOK n attacks)
    (hn : n ≤ n') : AttacksOK n' attacks :=
  ⟨fun a ha => ⟨(h.1 a ha).1, (h.1 a ha).2.1, Nat.lt_of_lt_of_le (h.1 a ha).2.2 hn⟩, h.2⟩

theorem AgentsOK_mono {n n' m m' : Nat} {agents : List Agent} (h : AgentsOK n m agents)
    (hn : n ≤ n') (hm : m ≤ m') : AgentsOK n' m' agents :=
  ⟨fun o ho => ⟨(h.1 o ho).1, (h.1 o ho).2.1, Nat.lt_of_lt_of_le (h.1 o ho).2.2.1 hn,
    (h.1 o ho).2.2.2.1, fun x hx => Nat.lt_of_lt_of_le ((h.1 o ho).2.2.2.2 x hx) hm⟩, h.2⟩

theorem WellFormed_new_game : WellFormed new_game := by
  refine ⟨TypesOK_nil, ⟨?_, ?_⟩, ⟨?_, ?_⟩⟩ <;> simp [new_game]

theorem get_attack_lt {game : Game} {n : List Char} {i : Nat}
    (h : get_attack game n = some i) : i < game.attacks.length := by
  simpa using (find_name_eq_some h).1

theorem nodup_append_singleton {l : List (List Char)} {n : List Char} (h : l.Nodup)
    (hn : n ∉ l) : (l ++ [n]).Nodup := by
  rw [List.nodup_append]
  refine ⟨h, List.nodup_singleton n, ?_⟩
  intro x hx hx'
  simp only [List.mem_singleton] at hx'
  subst hx'
  exact hn hx

theorem read_type_name_wf (g : Game) (l : List Char) (h : WellFormed g)
    (h0 : (read_type_name g l).1 = 0) : WellFormed (read_type_name g l).2 := by
  obtain ⟨hne, hs, e⟩ := read_type_name_accepted h0
  rw [e]
  obtain ⟨ht, ha, ho⟩ := h
  exact ⟨TypesOK_append ht hne hs, AttacksOK_mono ha (by simp),
    AgentsOK_mono ho (by simp) (Nat.le_refl _)⟩

theorem read_effectiveness_strings_wf (g : Game) (l : List Char) (h : WellFormed g)
    (h0 : (read_effectiveness_strings g l).1 = 0) :
    WellFormed (read_effectiveness_strings g l).2 := by
  obtain ⟨T, s1, s2, s3, i, rfl, ⟨hT, c1, c2, c3⟩, ⟨n1, n2, n3⟩, hty, hfree⟩ :=
    read_effectiveness_strings_accepted h0
  rw [read_effectiveness_strings_accepts g hT c1 c2 c3 n1 n2 n3 hty hfree]
  obtain ⟨ht, ha, ho⟩ := h
  have hi := get_type_lt hty
  refine ⟨?_, AttacksOK_mono ha (by simp), AgentsOK_mono ho (by simp) (Nat.le_refl _)⟩
  refine TypesOK_set ht hi rfl (fun _ => ⟨s3, s2, s1, rfl, n3, n2, n1⟩) ?_ ?_ ?_
  · intro _ a hai hn
    have hmin := (find_name_eq_some hty).2.2 a hai
    apply hmin
    have hlt : a < g.types.length := by omega
    have hT' := typeAt_name_of_get_type hty
    unfold Game.typeAt at hT'
    rw [hT'] at hn
    rw [List.getD_eq_getElem _ _ hlt] at hn
    simp [List.getElem?_eq_getElem hlt, hn]
  · exact (ht.2.2.2 _ (getD_mem hi)).1
  · exact (ht.2.2.2 _ (getD_mem hi)).2

theorem read_relation_strings_wf (g : Game) (l : List Char) (h : WellFormed g)
    (h0 : (read_relation_strings g l).1 = 0) : WellFormed (read_relation_strings g l).2 := by
  obtain ⟨i, u, hi, hname, heff, hlo, hhi, e⟩ := read_relation_strings_accepted h0
  rw [e]
  obtain ⟨ht, ha, ho⟩ := h
  refine ⟨?_, AttacksOK_mono ha (by simp), AgentsOK_mono ho (by simp) (Nat.le_refl _)⟩
  refine TypesOK_set ht hi hname ?_ ?_ hlo hhi
  · intro hc
    rw [heff] at hc ⊢
    exact ht.2.1 _ (getD_mem hi) hc
  · intro hc a hai hn
    rw [heff] at hc
    exact hc (ht.2.2.1 a i hai hi hn)

theorem read_attack_wf (g : Game) (l : List Char) (h : WellFormed g)
    (h0 : (read_attack g l).1 = 0) : WellFormed (read_attack g l).2 := by
  obtain ⟨n, ty, hne, hs, hnew, hty, e⟩ := read_attack_accepted h0
  rw [e]
  obtain ⟨ht, ha, ho⟩ := h
  refine ⟨ht, ⟨?_, ?_⟩, AgentsOK_mono ho (Nat.le_refl _) (by simp)⟩
  · intro a hmem
    rcases List.mem_append.mp hmem with hmem | hmem
    · exact ha.1 a hmem
    · simp only [List.mem_singleton] at hmem
      subst hmem
      exact ⟨hne, hs, hty⟩
  · simp only [List.map_append, List.map_cons, List.map_nil]
    exact nodup_append_singleton ha.2 (find_name_eq_none.mp hnew)

theorem read_agent_wf (g : Game) (l : List Char) (h : WellFormed g)
    (h0 : (read_agent g l).1 = 0) : WellFormed (read_agent g l).2 := by
  obtain ⟨name, typeName, a1, a2, a3, type, x1, x2, x3, rfl, hs, hne, hne3, hag, hty,
    hx1, hx2, hx3⟩ := read_agent_accepted h0
  rw [read_agent_accepts g hs.1 hs.2.1 hs.2.2.1 hs.2.2.2.1 hs.2.2.2.2 hne hne3 hag hty
    hx1 hx2 hx3]
  obtain ⟨ht, ha, ho⟩ := h
  refine ⟨ht, ha, ⟨?_, ?_⟩⟩
  · intro o hmem
    rcases List.mem_append.mp hmem with hmem | hmem
    · exact ho.1 o hmem
    · simp only [List.mem_singleton] at hmem
      subst hmem
      refine ⟨hne, hs.1, get_type_lt hty, rfl, ?_⟩
      intro x hx
      simp only [List.mem_cons, List.mem_singleton, List.not_mem_nil, or_false] at hx
      rcases hx with rfl | rfl | rfl
      · exact get_attack_lt hx1
      · exact get_attack_lt hx2
      · exact get_attack_lt hx3
  · simp only [List.map_append, List.map_cons, List.map_nil]
    exact nodup_append_singleton ho.2 (find_name_eq_none.mp hag)

/-- The game that a successful `read_sinister_file` returns is well formed,
has data in every category, and every type has `effectiveness[0]` set. -/
theorem read_sinister_file_wf {f : List Char} (h : (read_sinister_file new_game f).1 = 0) :
    WellFormed (read_sinister_file new_game f).2.1 ∧
    (0 < (read_sinister_file new_game f).2.1.types.length ∧
      0 < (read_sinister_file new_game f).2.1.agents.length ∧
      0 < (read_sinister_file new_game f).2.1.attacks.length) ∧
    ∀ t ∈ (read_sinister_file new_game f).2.1.types, t.effectiveness.get 0 ≠ none := by
  obtain ⟨g1, f1, g2, f2, g3, f3, g4, f4, g5, f5, h1, h2, h3, h4, h5, hc, he, hr⟩ :=
    read_sinister_file_ok h
  rw [hr]
  refine ⟨?_, hc, he⟩
  have w1 := read_section_invariant read_type_name WellFormed read_type_name_wf new_game f
    WellFormed_new_game (by rw [h1])
  rw [h1] at w1
  have w2 := read_section_invariant read_effectiveness_strings WellFormed
    read_effectiveness_strings_wf g1 f1 w1 (by rw [h2])
  rw [h2] at w2
  have w3 := read_section_invariant read_relation_strings WellFormed
    read_relation_strings_wf g2 f2 w2 (by rw [h3])
  rw [h3] at w3
  have w4 := read_section_invariant read_attack WellFormed read_attack_wf g3 f3 w3
    (by rw [h4])
  rw [h4] at w4
  have w5 := read_section_invariant read_agent WellFormed read_agent_wf g4 f4 w4 (by rw [h5])
  rw [h5] at w5
  exact w5

/-- C7: whenever `read_sinister_file` returns 0, the Definitions have at
least one type, one attack and one agent; every type has its three
effectiveness strings set and non-empty; every attack's type, every agent's
type and each of every agent's three legal attacks points into the
Definitions' own arrays; attack names and agent names are pairwise distinct. -/
theorem read_sinister_file_definitions (f : List Char)
    (h : (read_sinister_file new_game f).1 = 0) :
    (0 < (read_sinister_file new_game f).2.1.types.length ∧
      0 < (read_sinister_file new_game f).2.1.attacks.length ∧
      0 < (read_sinister_file new_game f).2.1.agents.length) ∧
    (∀ t ∈ (read_sinister_file new_game f).2.1.types,
      ∃ a b c, t.effectiveness = ⟨some a, some b, some c⟩ ∧ a ≠ [] ∧ b ≠ [] ∧ c ≠ []) ∧
    (∀ a ∈ (read_sinister_file new_game f).2.1.attacks,
      a.type < (read_sinister_file new_game f).2.1.types.length) ∧
    (∀ o ∈ (read_sinister_file new_game f).2.1.agents,
      o.type < (read_sinister_file new_game f).2.1.types.length ∧
      o.legalAttacks.length = 3 ∧
      ∀ x ∈ o.legalAttacks, x < (read_sinister_file new_game f).2.1.attacks.length) ∧
    ((read_sinister_file new_game f).2.1.attacks.map (·.name)).Nodup ∧
    ((read_sinister_file new_game f).2.1.agents.map (·.name)).Nodup := by
  obtain ⟨⟨ht, ha, ho⟩, hc, he⟩ := read_sinister_file_wf h
  refine ⟨⟨hc.1, hc.2.2, hc.2.1⟩, fun t hm => ht.2.1 t hm (he t hm),
    fun a hm => (ha.1 a hm).2.2,
    fun o hm => ⟨(ho.1 o hm).2.2.1, (ho.1 o hm).2.2.2.1, (ho.1 o hm).2.2.2.2⟩, ha.2, ho.2⟩

/-- C7 at the golden rulebook. -/
theorem read_sinister_file_definitions_witness :
    (read_sinister_file new_game goldenText).1 = 0 ∧
    (∀ t ∈ (read_sinister_file new_game goldenText).2.1.types,
      ∃ a b c, t.effectiveness = ⟨some a, some b, some c⟩ ∧ a ≠ [] ∧ b ≠ [] ∧ c ≠ []) ∧
    ((read_sinister_file new_game goldenText).2.1.attacks.map (·.name)).Nodup :=
  ⟨by decide, (read_sinister_file_definitions goldenText (by decide)).2.1,
    (read_sinister_file_definitions goldenText (by decide)).2.2.2.2.1⟩

/-! ## Duplicate type names -/

theorem nodup_names_of_TypesOK {ts : List TypeRec} (h : TypesOK ts)
    (he : ∀ t ∈ ts, t.effectiveness.get 0 ≠ none) : (ts.map (·.name)).Nodup := by
  rw [List.nodup_iff_getElem?_ne_getElem?]
  intro a b hab hb heq
  simp only [List.length_map] at hb
  have ha : a < ts.length := by omega
  simp only [List.getElem?_map, List.getElem?_eq_getElem ha, List.getElem?_eq_getElem hb,
    Option.map_some', Option.some.injEq] at heq
  have := h.2.2.1 a b hab hb (by
    rw [List.getD_eq_getElem _ _ ha, List.getD_eq_getElem _ _ hb]; exact heq)
  rw [List.getD_eq_getElem _ _ hb] at this
  exact he _ (List.getElem_mem hb) this

theorem map_name_set {ts : List TypeRec} {i : Nat} {u : TypeRec}
    (hname : u.name = (ts.getD i default).name) :
    (ts.set i u).map (·.name) = ts.map (·.name) := by
  apply List.ext_getElem?
  intro j
  simp only [List.getElem?_map, List.getElem?_set]
  by_cases hj : i = j
  · subst hj
    by_cases hi : i < ts.length
    · simp [hi, hname, List.getD_eq_getElem _ _ hi, List.getElem?_eq_getElem hi]
    · simp [hi, List.getElem?_eq_none (Nat.not_lt.mp hi)]
  · simp [hj]

/-- Accepted lines of the four later sections leave the type names alone. -/
theorem type_names_unchanged (g : Game) (l : List Char) :
    ((read_effectiveness_strings g l).1 = 0 →
      (read_effectiveness_strings g l).2.types.map (·.name) = g.types.map (·.name)) ∧
    ((read_relation_strings g l).1 = 0 →
      (read_relation_strings g l).2.types.map (·.name) = g.types.map (·.name)) ∧
    ((read_attack g l).1 = 0 →
      (read_attack g l).2.types.map (·.name) = g.types.map (·.name)) ∧
    ((read_agent g l).1 = 0 →
      (read_agent g l).2.types.map (·.name) = g.types.map (·.name)) := by
  refine ⟨?_, ?_, ?_, ?_⟩
  · intro h0
    obtain ⟨T, s1, s2, s3, i, rfl, ⟨hT, c1, c2, c3⟩, ⟨n1, n2, n3⟩, hty, hfree⟩ :=
      read_effectiveness_strings_accepted h0
    rw [read_effectiveness_strings_accepts g hT c1 c2 c3 n1 n2 n3 hty hfree]
    exact map_name_set rfl
  · intro h0
    obtain ⟨i, u, hi, hname, -, -, -, e⟩ := read_relation_strings_accepted h0
    rw [e]
    exact map_name_set hname
  · intro h0
    obtain ⟨n, ty, -, -, -, -, e⟩ := read_attack_accepted h0
    rw [e]
  · intro h0
    obtain ⟨name, typeName, a1, a2, a3, type, x1, x2, x3, rfl, hs, hne, hne3, hag, hty,
      hx1, hx2, hx3⟩ := read_agent_accepted h0
    rw [read_agent_accepts g hs.1 hs.2.1 hs.2.2.1 hs.2.2.2.1 hs.2.2.2.2 hne hne3 hag hty
      hx1 hx2 hx3]

/-- What a section that ends with status 0 did with its first line. -/
theorem read_section_cases (p : Game → List Char → Int × Game) (g : Game) (f : List Char)
    (h : (read_section g f p).1 = 0) :
    (read_line f).1 ≠ [] ∧
    (((read_line f).1 = ['.'] ∧ read_section g f p = (0, g, (read_line f).2)) ∨
      ((read_line f).1 ≠ ['.'] ∧ (read_line f).1.head? = some '#' ∧
        read_section g f p = read_section g (read_line f).2 p) ∨
      ((read_line f).1 ≠ ['.'] ∧ (read_line f).1.head? ≠ some '#' ∧
        (p g (read_line f).1).1 = 0 ∧
        read_section g f p = read_section (p g (read_line f).1).2 (read_line f).2 p)) := by
  by_cases h0 : (read_line f).1 = []
  · rw [read_section_blank p g h0] at h; simp at h
  refine ⟨h0, ?_⟩
  by_cases h1 : (read_line f).1 = ['.']
  · exact Or.inl ⟨h1, read_section_stop p g h1⟩
  by_cases h2 : (read_line f).1.head? = some '#'
  · exact Or.inr (Or.inl ⟨h1, h2, read_section_skip p g h0 h1 h2⟩)
  by_cases h3 : (p g (read_line f).1).1 = 0
  · exact Or.inr (Or.inr ⟨h1, h2, h3, read_section_step p g h0 h1 h2 h3⟩)
  · rw [read_section_fail p g h0 h1 h2 h3] at h
    exact absurd h h3

theorem file_lines_zero (f : List Char) : (file_lines f)[0]? = some (read_line f).1 := by
  rw [file_lines_eq]; simp

theorem file_lines_succ {f : List Char} {k : Nat} {n : List Char}
    (h : (file_lines f)[k + 1]? = some n) : (file_lines (read_line f).2)[k]? = some n := by
  rw [file_lines_eq] at h
  by_cases hn : '\n' ∈ f
  · simpa [hn] using h
  · simp [hn] at h

theorem file_lines_succ_ne_dot {f : List Char} {k : Nat}
    (h : (file_lines f)[k + 1]? ≠ some ['.']) :
    (file_lines (read_line f).2)[k]? ≠ some ['.'] := by
  intro hc
  apply h
  rw [file_lines_eq]
  by_cases hn : '\n' ∈ f
  · simpa [hn] using hc
  · exfalso
    rw [read_line_rest_of_no_newline hn] at hc
    have e : file_lines [] = [[]] := by decide
    rw [e] at hc
    cases k with
    | zero => simp at hc
    | succ k => simp at hc

theorem type_names_append {g : Game} {l : List Char} (h : (read_type_name g l).1 = 0) :
    (read_type_name g l).2.types.map (·.name) = g.types.map (·.name) ++ [l] := by
  obtain ⟨-, -, e⟩ := read_type_name_accepted h
  rw [e]
  simp [new_type]

theorem not_nodup_append {l : List (List Char)} (h : ¬ l.Nodup) (m : List (List Char)) :
    ¬ (l ++ m).Nodup := fun hc => h hc.of_append_left

theorem not_nodup_append_mem {l : List (List Char)} {n : List Char} (h : n ∈ l) :
    ¬ (l ++ [n]).Nodup := by
  intro hc
  rw [List.nodup_append] at hc
  exact hc.2.2 h (List.mem_singleton_self n)

theorem read_type_name_dup (g : Game) (l : List Char)
    (h : HasDuplicateType g) (h0 : (read_type_name g l).1 = 0) :
    HasDuplicateType (read_type_name g l).2 := by
  unfold HasDuplicateType at h ⊢
  rw [type_names_append h0]
  exact not_nodup_append h _

theorem read_effectiveness_strings_dup (g : Game) (l : List Char)
    (h : HasDuplicateType g) (h0 : (read_effectiveness_strings g l).1 = 0) :
    HasDuplicateType (read_effectiveness_strings g l).2 := by
  unfold HasDuplicateType at h ⊢
  rw [(type_names_unchanged g l).1 h0]
  exact h

theorem read_relation_strings_dup (g : Game) (l : List Char)
    (h : HasDuplicateType g) (h0 : (read_relation_strings g l).1 = 0) :
    HasDuplicateType (read_relation_strings g l).2 := by
  unfold HasDuplicateType at h ⊢
  rw [(type_names_unchanged g l).2.1 h0]
  exact h

theorem read_attack_dup (g : Game) (l : List Char)
    (h : HasDuplicateType g) (h0 : (read_attack g l).1 = 0) :
    HasDuplicateType (read_attack g l).2 := by
  unfold HasDuplicateType at h ⊢
  rw [(type_names_unchanged g l).2.2.1 h0]
  exact h

theorem read_agent_dup (g : Game) (l : List Char)
    (h : HasDuplicateType g) (h0 : (read_agent g l).1 = 0) :
    HasDuplicateType (read_agent g l).2 := by
  unfold HasDuplicateType at h ⊢
  rw [(type_names_unchanged g l).2.2.2 h0]
  exact h

/-- Once the name `n` is declared, a later line `n` of the Types section
leaves two types with the same name. -/
theorem dup_second (n : List Char) (hn : n.head? ≠ some '#') :
    ∀ (j : Nat) (f : List Char) (g : Game), (file_lines f)[j]? = some n →
      (∀ k, k ≤ j → (file_lines f)[k]? ≠ some ['.']) →
      (HasDuplicateType g ∨ n ∈ g.types.map (·.name)) →
      (read_section g f read_type_name).1 = 0 →
      HasDuplicateType (read_section g f read_type_name).2.1 := by
  intro j
  induction j with
  | zero =>
    intro f g hj hdot hQ h
    have hl : (read_line f).1 = n := by
      have := file_lines_zero f
      rw [hj] at this
      exact (Option.some.inj this).symm
    obtain ⟨-, hc⟩ := read_section_cases read_type_name g f h
    rcases hc with ⟨h1, -⟩ | ⟨-, h2, -⟩ | ⟨-, -, h3, e⟩
    · exact absurd (by rw [file_lines_zero, h1]) (hdot 0 (Nat.le_refl _))
    · rw [hl] at h2; exact absurd h2 hn
    · rw [e] at h ⊢
      refine read_section_invariant read_type_name HasDuplicateType read_type_name_dup
        _ _ ?_ h
      unfold HasDuplicateType at hQ ⊢
      rw [type_names_append h3, hl]
      rcases hQ with hQ | hQ
      · exact not_nodup_append hQ _
      · exact not_nodup_append_mem hQ
  | succ j ih =>
    intro f g hj hdot hQ h
    have hdot' : ∀ k, k ≤ j → (file_lines (read_line f).2)[k]? ≠ some ['.'] :=
      fun k hk => file_lines_succ_ne_dot (hdot (k + 1) (by omega))
    obtain ⟨-, hc⟩ := read_section_cases read_type_name g f h
    rcases hc with ⟨h1, -⟩ | ⟨-, -, e⟩ | ⟨-, -, h3, e⟩
    · exact absurd (by rw [file_lines_zero, h1]) (hdot 0 (Nat.zero_le _))
    · rw [e] at h ⊢
      exact ih _ g (file_lines_succ hj) hdot' hQ h
    · rw [e] at h ⊢
      refine ih _ _ (file_lines_succ hj) hdot' ?_ h
      rw [type_names_append h3]
      rcases hQ with hQ | hQ
      · exact Or.inl (read_type_name_dup g _ hQ h3)
      · exact Or.inr (List.mem_append_left _ hQ)

/-- Two equal non-comment lines of the Types section leave two types with the
same name. -/
theorem dup_first (n : List Char) (hn : n.head? ≠ some '#') :
    ∀ (i : Nat) (f : List Char) (g : Game) (j : Nat), i < j →
      (file_lines f)[i]? = some n → (file_lines f)[j]? = some n →
      (∀ k, k ≤ j → (file_lines f)[k]? ≠ some ['.']) →
      (read_section g f read_type_name).1 = 0 →
      HasDuplicateType (read_section g f read_type_name).2.1 := by
  intro i
  induction i with
  | zero =>
    intro f g j hij hi hj hdot h
    obtain ⟨j, rfl⟩ : ∃ k, j = k + 1 := ⟨j - 1, by omega⟩
    have hdot' : ∀ k, k ≤ j → (file_lines (read_line f).2)[k]? ≠ some ['.'] :=
      fun k hk => file_lines_succ_ne_dot (hdot (k + 1) (by omega))
    have hl : (read_line f).1 = n := by
      have := file_lines_zero f
      rw [hi] at this
      exact (Option.some.inj this).symm
    obtain ⟨-, hc⟩ := read_section_cases read_type_name g f h
    rcases hc with ⟨h1, -⟩ | ⟨-, h2, -⟩ | ⟨-, -, h3, e⟩
    · exact absurd (by rw [file_lines_zero, h1]) (hdot 0 (Nat.zero_le _))
    · rw [hl] at h2; exact absurd h2 hn
    · rw [e] at h ⊢
      refine dup_second n hn j _ _ (file_lines_succ hj) hdot' (Or.inr ?_) h
      rw [type_names_append h3, hl]
      simp
  | succ i ih =>
    intro f g j hij hi hj hdot h
    obtain ⟨j, rfl⟩ : ∃ k, j = k + 1 := ⟨j - 1, by omega⟩
    have hdot' : ∀ k, k ≤ j → (file_lines (read_line f).2)[k]? ≠ some ['.'] :=
      fun k hk => file_lines_succ_ne_dot (hdot (k + 1) (by omega))
    obtain ⟨-, hc⟩ := read_section_cases read_type_name g f h
    rcases hc with ⟨h1, -⟩ | ⟨-, -, e⟩ | ⟨-, -, h3, e⟩
    · exact absurd (by rw [file_lines_zero, h1]) (hdot 0 (Nat.zero_le _))
    · rw [e] at h ⊢
      exact ih _ g j (by omega) (file_lines_succ hi) (file_lines_succ hj) hdot' h
    · rw [e] at h ⊢
      exact ih _ _ j (by omega) (file_lines_succ hi) (file_lines_succ hj) hdot' h

/-- C4: when two lines of the Types section (two lines of the text with no
`.` line up to the second of them) are equal and not comments,
`read_sinister_file` returns a non-zero status, whatever else the text
contains. -/
theorem read_sinister_file_duplicate_type (f : List Char) (i j : Nat) (n : List Char)
    (hij : i < j) (hi : (file_lines f)[i]? = some n) (hj : (file_lines f)[j]? = some n)
    (hn : n.head? ≠ some '#')
    (hdot : ∀ k, k ≤ j → (file_lines f)[k]? ≠ some ['.']) :
    (read_sinister_file new_game f).1 ≠ 0 := by
  intro h0
  obtain ⟨⟨ht, -, -⟩, -, he⟩ := read_sinister_file_wf h0
  have hnodup := nodup_names_of_TypesOK ht he
  obtain ⟨g1, f1, g2, f2, g3, f3, g4, f4, g5, f5, h1, h2, h3, h4, h5, -, -, hr⟩ :=
    read_sinister_file_ok h0
  rw [hr] at hnodup
  have d1 := dup_first n hn i f new_game j hij hi hj hdot (by rw [h1])
  rw [h1] at d1
  have d2 := read_section_invariant read_effectiveness_strings HasDuplicateType
    read_effectiveness_strings_dup g1 f1 d1 (by rw [h2])
  rw [h2] at d2
  have d3 := read_section_invariant read_relation_strings HasDuplicateType
    read_relation_strings_dup g2 f2 d2 (by rw [h3])
  rw [h3] at d3
  have d4 := read_section_invariant read_attack HasDuplicateType read_attack_dup g3 f3 d3
    (by rw [h4])
  rw [h4] at d4
  have d5 := read_section_invariant read_agent HasDuplicateType read_agent_dup g4 f4 d4
    (by rw [h5])
  rw [h5] at d5
  exact d5 hnodup

/-- C4 at a rulebook that declares `fire` twice. -/
theorem read_sinister_file_duplicate_type_witness :
    (0 < 2 ∧ (file_lines duplicateTypeText)[0]? = some "fire".toList ∧
      (file_lines duplicateTypeText)[2]? = some "fire".toList ∧
      "fire".toList.head? ≠ some '#' ∧
      ∀ k, k ≤ 2 → (file_lines duplicateTypeText)[k]? ≠ some ['.']) ∧
    (read_sinister_file new_game duplicateTypeText).1 ≠ 0 :=
  ⟨⟨by decide, by decide, by decide, by decide, by decide⟩,
    read_sinister_file_duplicate_type duplicateTypeText 0 2 "fire".toList (by decide)
      (by decide) (by decide) (by decide) (by decide)⟩

/-! ## `get_effectiveness` -/

theorem index_eq_of_name_eq {ts : List TypeRec} (hn : (ts.map (·.name)).Nodup) {a b : Nat}
    (ha : a < ts.length) (hb : b < ts.length)
    (h : (ts.getD a default).name = (ts.getD b default).name) : a = b := by
  rw [List.nodup_iff_getElem?_ne_getElem?] at hn
  rw [List.getD_eq_getElem _ _ ha, List.getD_eq_getElem _ _ hb] at h
  have key : ∀ x y, x < y → y < ts.length → ts[x]?.map (·.name) ≠ ts[y]?.map (·.name) := by
    intro x y hxy hy
    have := hn x y hxy (by simpa using hy)
    simpa [List.getElem?_map] using this
  rcases Nat.lt_trichotomy a b with hlt | heq | hgt
  · exact absurd (by simp [List.getElem?_eq_getElem ha, List.getElem?_eq_getElem hb, h])
      (key a b hlt hb)
  · exact heq
  · exact absurd (by simp [List.getElem?_eq_getElem ha, List.getElem?_eq_getElem hb, h])
      (key b a hgt ha)

theorem any_name_iff_mem {ts : List TypeRec} (hn : (ts.map (·.name)).Nodup) {l : List Nat}
    (hl : ∀ j ∈ l, j < ts.length) {o : Nat} (ho : o < ts.length) :
    (l.any (fun i => decide ((ts.getD i default).name = (ts.getD o default).name)) = true) ↔
      o ∈ l := by
  rw [List.any_eq_true]
  constructor
  · rintro ⟨i, hi, he⟩
    have := index_eq_of_name_eq hn (hl i hi) ho (of_decide_eq_true he)
    exact this ▸ hi
  · intro h
    exact ⟨o, h, decide_eq_true rfl⟩

/-- C1 (amended): for every successfully parsed rulebook, every attack and
every target agent of the Definitions, `get_effectiveness` returns LOW if the
target agent's type is in the `lower` set of the attack's type (the types the
attack's type is lower than), otherwise HIGH if the target agent's type is in
the attack type's `higher` set, and NORMAL otherwise. -/
theorem get_effectiveness_parsed (f : List Char)
    (h : (read_sinister_file new_game f).1 = 0) :
    ∀ attack ∈ (read_sinister_file new_game f).2.1.attacks,
    ∀ opponent ∈ (read_sinister_file new_game f).2.1.agents,
      get_effectiveness (read_sinister_file new_game f).2.1 attack opponent =
        if opponent.type ∈
            ((read_sinister_file new_game f).2.1.typeAt attack.type).lower then
          Effectiveness.LOW
        else if opponent.type ∈
            ((read_sinister_file new_game f).2.1.typeAt attack.type).higher then
          Effectiveness.HIGH
        else Effectiveness.NORMAL := by
  obtain ⟨⟨ht, ha, ho⟩, -, he⟩ := read_sinister_file_wf h
  have hn := nodup_names_of_TypesOK ht he
  generalize (read_sinister_file new_game f).2.1 = g at ht ha ho he hn ⊢
  intro attack hattack opponent hopp
  have hat : attack.type < g.types.length := (ha.1 attack hattack).2.2
  have hot : opponent.type < g.types.length := (ho.1 opponent hopp).2.2.1
  have hrel := ht.2.2.2 _ (getD_mem hat)
  have e1 := any_name_iff_mem hn hrel.1 hot
  have e2 := any_name_iff_mem hn hrel.2 hot
  unfold get_effectiveness Game.typeAt
  simp only
  by_cases c1 : opponent.type ∈ (g.types.getD attack.type default).lower
  · rw [if_pos (e1.mpr c1), if_pos c1]
  · rw [if_neg (fun hc => c1 (e1.mp hc)), if_neg c1]
    by_cases c2 : opponent.type ∈ (g.types.getD attack.type default).higher
    · rw [if_pos (e2.mpr c2), if_pos c2]
    · rw [if_neg (fun hc => c2 (e2.mp hc)), if_neg c2]

/-- C1 (amended) at the golden rulebook. -/
theorem get_effectiveness_parsed_witness :
    (read_sinister_file new_game goldenText).1 = 0 ∧
    ∀ attack ∈ (read_sinister_file new_game goldenText).2.1.attacks,
    ∀ opponent ∈ (read_sinister_file new_game goldenText).2.1.agents,
      get_effectiveness (read_sinister_file new_game goldenText).2.1 attack opponent =
        if opponent.type ∈
            ((read_sinister_file new_game goldenText).2.1.typeAt attack.type).lower then
          Effectiveness.LOW
        else if opponent.type ∈
            ((read_sinister_file new_game goldenText).2.1.typeAt attack.type).higher then
          Effectiveness.HIGH
        else Effectiveness.NORMAL :=
  ⟨by decide, get_effectiveness_parsed goldenText (by decide)⟩

/-- C1 as stated fails: after the rulebook with the single relation `a +b`,
the type of attack `kick` (b, index 1) is in the `higher` set of the type of
agent `X` (a, index 0) and not in its `lower` set, so the claim asks for LOW,
but `get_effectiveness` returns NORMAL; and the type of `hit` (a) is in
neither set of the type of agent `Y` (b), so the claim asks for NORMAL, but
`get_effectiveness` returns HIGH. -/
theorem get_effectiveness_parsed_counterexample :
    (read_sinister_file new_game oneRelationText).1 = 0 ∧
    (⟨"kick".toList, 1⟩ : Attack) ∈ (read_sinister_file new_game oneRelationText).2.1.attacks ∧
    (⟨"X".toList, 0, [0, 0, 0]⟩ : Agent) ∈
      (read_sinister_file new_game oneRelationText).2.1.agents ∧
    1 ∈ ((read_sinister_file new_game oneRelationText).2.1.typeAt 0).higher ∧
    1 ∉ ((read_sinister_file new_game oneRelationText).2.1.typeAt 0).lower ∧
    get_effectiveness (read_sinister_file new_game oneRelationText).2.1
      ⟨"kick".toList, 1⟩ ⟨"X".toList, 0, [0, 0, 0]⟩ = Effectiveness.NORMAL ∧
    (⟨"hit".toList, 0⟩ : Attack) ∈ (read_sinister_file new_game oneRelationText).2.1.attacks ∧
    (⟨"Y".toList, 1, [1, 1, 1]⟩ : Agent) ∈
      (read_sinister_file new_game oneRelationText).2.1.agents ∧
    0 ∉ ((read_sinister_file new_game oneRelationText).2.1.typeAt 1).higher ∧
    0 ∉ ((read_sinister_file new_game oneRelationText).2.1.typeAt 1).lower ∧
    get_effectiveness (read_sinister_file new_game oneRelationText).2.1
      ⟨"hit".toList, 0⟩ ⟨"Y".toList, 1, [1, 1, 1]⟩ = Effectiveness.HIGH := by
  decide

/-- C2 (amended): on the golden rulebook `read_sinister_file` succeeds, and
`get_effectiveness` gives HIGH for splash against B, NORMAL for ember against
A, and NORMAL for vine against C. -/
theorem golden_rulebook :
    (read_sinister_file new_game goldenText).1 = 0 ∧
    effectiveness_by_name (read_sinister_file new_game goldenText).2.1
      "splash".toList "B".toList = some Effectiveness.HIGH ∧
    effectiveness_by_name (read_sinister_file new_game goldenText).2.1
      "ember".toList "A".toList = some Effectiveness.NORMAL ∧
    effectiveness_by_name (read_sinister_file new_game goldenText).2.1
      "vine".toList "C".toList = some Effectiveness.NORMAL := by
  decide

/-- C2 as stated fails: on the golden rulebook the effectiveness of ember
against A is not LOW. -/
theorem golden_rulebook_counterexample :
    ¬ ((read_sinister_file new_game goldenText).1 = 0 ∧
      effectiveness_by_name (read_sinister_file new_game goldenText).2.1
        "splash".toList "B".toList = some Effectiveness.HIGH ∧
      effectiveness_by_name (read_sinister_file new_game goldenText).2.1
        "ember".toList "A".toList = some Effectiveness.LOW ∧
      effectiveness_by_name (read_sinister_file new_game goldenText).2.1
        "vine".toList "C".toList = some Effectiveness.NORMAL) := by
  decide

/-- C5: the code at the failing input.  The Relations section has the two
lines `fire` and `fire +water`, both starting with the type name `fire`, yet
`read_sinister_file` returns 0, with `water` in the `higher` list of `fire`. -/
theorem duplicate_relation_accepted :
    (file_lines duplicateRelationText)[6]? = some "fire".toList ∧
    (file_lines duplicateRelationText)[7]? = some "fire +water".toList ∧
    (read_sinister_file new_game duplicateRelationText).1 = 0 ∧
    ((read_sinister_file new_game duplicateRelationText).2.1.typeAt 0).higher = [1] := by
  decide

/-! ## The members of a loaded team -/

theorem attack_index_eq_of_name_eq {as : List Attack} (hn : (as.map (·.name)).Nodup)
    {a b : Nat} (ha : a < as.length) (hb : b < as.length)
    (h : (as.getD a default).name = (as.getD b default).name) : a = b := by
  rw [List.nodup_iff_getElem?_ne_getElem?] at hn
  rw [List.getD_eq_getElem _ _ ha, List.getD_eq_getElem _ _ hb] at h
  have key : ∀ x y, x < y → y < as.length → as[x]?.map (·.name) ≠ as[y]?.map (·.name) := by
    intro x y hxy hy
    have := hn x y hxy (by simpa using hy)
    simpa [List.getElem?_map] using this
  rcases Nat.lt_trichotomy a b with hlt | heq | hgt
  · exact absurd (by simp [List.getElem?_eq_getElem ha, List.getElem?_eq_getElem hb, h])
      (key a b hlt hb)
  · exact heq
  · exact absurd (by simp [List.getElem?_eq_getElem ha, List.getElem?_eq_getElem hb, h])
      (key b a hgt ha)

theorem get_agent_lt {game : Game} {n : List Char} {i : Nat}
    (h : get_agent game n = some i) : i < game.agents.length := by
  simpa using (find_name_eq_some h).1

theorem agentAt_mem {game : Game} {i : Nat} (h : i < game.agents.length) :
    game.agentAt i ∈ game.agents := by
  unfold Game.agentAt
  rw [List.getD_eq_getElem _ _ h]
  exact List.getElem_mem h

theorem agentAt_name_of_get_agent {game : Game} {n : List Char} {i : Nat}
    (h : get_agent game n = some i) : (game.agentAt i).name = n := by
  have h2 := (find_name_eq_some h).2.1
  have h1 : i < game.agents.length := get_agent_lt h
  simp only [List.getElem?_map] at h2
  simp only [Game.agentAt, List.getD_eq_getElem?_getD, List.getElem?_eq_getElem h1,
    Option.getD_some]
  simpa [List.getElem?_eq_getElem h1] using h2

theorem attackAt_name_of_get_attack {game : Game} {n : List Char} {i : Nat}
    (h : get_attack game n = some i) : (game.attackAt i).name = n := by
  have h2 := (find_name_eq_some h).2.1
  have h1 : i < game.attacks.length := get_attack_lt h
  simp only [List.getElem?_map] at h2
  simp only [Game.attackAt, List.getD_eq_getElem?_getD, List.getElem?_eq_getElem h1,
    Option.getD_some]
  simpa [List.getElem?_eq_getElem h1] using h2

/-- In well-formed Definitions an attack is legal for an agent exactly when
it is one of the agent's legal attacks. -/
theorem legal_attack_iff_mem {game : Game} (hwf : WellFormed game) {i a : Nat}
    (hi : i < game.agents.length) (ha : a < game.attacks.length) :
    legal_attack game (game.agentAt i) (game.attackAt a) = true ↔
      a ∈ (game.agentAt i).legalAttacks := by
  obtain ⟨-, hA, hO⟩ := hwf
  have hvalid := (hO.1 _ (agentAt_mem hi)).2.2.2.2
  unfold legal_attack
  rw [List.any_eq_true]
  constructor
  · rintro ⟨x, hx, he⟩
    have := attack_index_eq_of_name_eq hA.2 (hvalid x hx) ha (of_decide_eq_true he)
    exact this ▸ hx
  · intro h
    exact ⟨a, h, decide_eq_true rfl⟩

/-- With fuel for the rest of the line the loop of `read_team_attacks` only
ever stops with the team-file-contents error. -/
theorem read_team_attacks_loop_error (game : Game) (agent : Agent) (line : List Char) :
    ∀ (fuel pos : Nat) (ring : List Nat) (e : Stop), line.length ≤ pos + fuel →
      read_team_attacks_loop game agent line fuel pos ring = .error e →
      e = .exit_game EXIT_TEAM_FILE_CONTENTS := by
  intro fuel
  induction fuel with
  | zero =>
    intro pos ring e hf h
    rw [read_team_attacks_loop, if_neg (by omega)] at h
    exact absurd h (by simp)
  | succ fuel ih =>
    intro pos ring e hf h
    rw [read_team_attacks_loop] at h
    by_cases hp : pos < line.length
    · rw [if_pos hp, get_token_update_pos_of_lt ' ' hp] at h
      simp only at h
      cases hg : get_attack game (get_token (List.drop pos line) ' ') with
      | none =>
        rw [hg] at h
        simp only [Except.error.injEq] at h
        exact h.symm
      | some a =>
        rw [hg] at h
        simp only at h
        by_cases hl : legal_attack game agent (game.attackAt a) = true
        · rw [if_pos hl] at h
          exact ih _ _ e (by omega) h
        · rw [if_neg hl] at h
          simp only [Except.error.injEq] at h
          exact h.symm
    · rw [if_neg hp] at h
      exact absurd h (by simp)

/-- What the loop of `read_team_attacks` appends: declared attacks that are
legal for the agent, and at least one when it starts inside the line. -/
theorem read_team_attacks_loop_ok (game : Game) (agent : Agent) (line : List Char) :
    ∀ (fuel pos : Nat) (ring ring1 : List Nat),
      read_team_attacks_loop game agent line fuel pos ring = .ok ring1 →
      ∃ extra, ring1 = ring ++ extra ∧ (pos < line.length → extra ≠ []) ∧
        ∀ a ∈ extra, a < game.attacks.length ∧
          legal_attack game agent (game.attackAt a) = true := by
  intro fuel
  induction fuel with
  | zero =>
    intro pos ring ring1 h
    rw [read_team_attacks_loop] at h
    by_cases hp : pos < line.length
    · rw [if_pos hp] at h
      exact absurd h (by simp)
    · rw [if_neg hp] at h
      simp only [Except.ok.injEq] at h
      exact ⟨[], by simp [h], fun hc => absurd hc hp, by simp⟩
  | succ fuel ih =>
    intro pos ring ring1 h
    rw [read_team_attacks_loop] at h
    by_cases hp : pos < line.length
    · rw [if_pos hp, get_token_update_pos_of_lt ' ' hp] at h
      simp only at h
      cases hg : get_attack game (get_token (List.drop pos line) ' ') with
      | none =>
        rw [hg] at h
        exact absurd h (by simp)
      | some a =>
        rw [hg] at h
        simp only at h
        by_cases hl : legal_attack game agent (game.attackAt a) = true
        · rw [if_pos hl] at h
          obtain ⟨extra, h1, -, h3⟩ := ih _ _ _ h
          refine ⟨a :: extra, by simp [h1], fun _ => by simp, ?_⟩
          intro x hx
          rcases List.mem_cons.mp hx with rfl | hx
          · exact ⟨get_attack_lt hg, hl⟩
          · exact h3 x hx
        · rw [if_neg hl] at h
          exact absurd h (by simp)
    · rw [if_neg hp] at h
      simp only [Except.ok.injEq] at h
      exact ⟨[], by simp [h], fun hc => absurd hc hp, by simp⟩

theorem read_team_attacks_error {game : Game} {line : List Char} {member : Member} {e : Stop}
    (h : read_team_attacks line game member = .error e) :
    e = .exit_game EXIT_TEAM_FILE_CONTENTS := by
  unfold read_team_attacks at h
  by_cases h0 : 0 ≥ line.length
  · rw [if_pos h0] at h
    simp only [Except.error.injEq] at h
    exact h.symm
  · rw [if_neg h0] at h
    cases hl : read_team_attacks_loop game (game.agentAt member.agent) line line.length 0
        member.attacks with
    | error e1 =>
      rw [hl] at h
      simp only [Except.error.injEq] at h
      subst h
      exact read_team_attacks_loop_error game _ line _ _ _ _ (by omega) hl
    | ok ring =>
      rw [hl] at h
      exact absurd h (by simp)

theorem read_team_attacks_ok {game : Game} {line : List Char} {member m1 : Member}
    (hm : member.attacks = []) (h : read_team_attacks line game member = .ok m1) :
    m1.agent = member.agent ∧ m1.nextAttack = 0 ∧ m1.attacks ≠ [] ∧
      ∀ a ∈ m1.attacks, a < game.attacks.length ∧
        legal_attack game (game.agentAt member.agent) (game.attackAt a) = true := by
  unfold read_team_attacks at h
  by_cases h0 : 0 ≥ line.length
  · rw [if_pos h0] at h
    exact absurd h (by simp)
  · rw [if_neg h0] at h
    cases hl : read_team_attacks_loop game (game.agentAt member.agent) line line.length 0
        member.attacks with
    | error e1 =>
      rw [hl] at h
      exact absurd h (by simp)
    | ok ring =>
      rw [hl] at h
      simp only [Except.ok.injEq] at h
      subst h
      obtain ⟨extra, h1, h2, h3⟩ := read_team_attacks_loop_ok game _ line _ _ _ _ hl
      rw [hm, List.nil_append] at h1
      subst h1
      exact ⟨rfl, rfl, h2 (by omega), h3⟩

theorem read_agents_loop_succ (game : Game) (n : Nat) (file : List Char)
    (members : List Member) :
    read_agents_loop game (n + 1) file members =
      match read_member_line game (read_line file).1 with
      | .error e => .error e
      | .ok member => read_agents_loop game n (read_line file).2 (members ++ [member]) := by
  rw [read_agents_loop, read_member_line]
  simp only
  by_cases h0 : (read_line file).1.length = 0
  · rw [if_pos h0, if_pos h0]
  · rw [if_neg h0, if_neg h0]
    cases get_agent game (get_token (read_line file).1 ' ') with
    | none => rfl
    | some agent => rfl

theorem read_member_line_error {game : Game} {line : List Char} {e : Stop}
    (h : read_member_line game line = .error e) :
    e = .exit_game EXIT_TEAM_FILE_CONTENTS := by
  unfold read_member_line at h
  by_cases h0 : line.length = 0
  · rw [if_pos h0] at h
    simp only [Except.error.injEq] at h
    exact h.symm
  · rw [if_neg h0] at h
    cases hg : get_agent game (get_token line ' ') with
    | none =>
      rw [hg] at h
      simp only [Except.error.injEq] at h
      exact h.symm
    | some agent =>
      rw [hg] at h
      exact read_team_attacks_error h

theorem read_member_line_ok {game : Game} (hwf : WellFormed game) {line : List Char}
    {m : Member} (h : read_member_line game line = .ok m) :
    m.agent < game.agents.length ∧ m.nextAttack = 0 ∧ m.attacks ≠ [] ∧
      ∀ a ∈ m.attacks, a < game.attacks.length ∧ a ∈ (game.agentAt m.agent).legalAttacks := by
  unfold read_member_line at h
  by_cases h0 : line.length = 0
  · rw [if_pos h0] at h
    exact absurd h (by simp)
  · rw [if_neg h0] at h
    cases hg : get_agent game (get_token line ' ') with
    | none =>
      rw [hg] at h
      exact absurd h (by simp)
    | some agent =>
      rw [hg] at h
      obtain ⟨h1, h2, h3, h4⟩ := read_team_attacks_ok rfl h
      simp only at h1 h4
      have hi := get_agent_lt hg
      rw [h1]
      refine ⟨hi, h2, h3, fun a ha => ⟨(h4 a ha).1, ?_⟩⟩
      exact (legal_attack_iff_mem hwf hi (h4 a ha).1).mp (h4 a ha).2

/-- The members that `read_agents` returns. -/
theorem read_agents_loop_ok {game : Game} (hwf : WellFormed game) :
    ∀ (n : Nat) (file : List Char) (members ms : List Member) (rest : List Char),
      read_agents_loop game n file members = .ok (ms, rest) →
      ∃ new, ms = members ++ new ∧ new.length = n ∧
        ∀ m ∈ new, m.agent < game.agents.length ∧ m.nextAttack = 0 ∧ m.attacks ≠ [] ∧
          ∀ a ∈ m.attacks, a < game.attacks.length ∧
            a ∈ (game.agentAt m.agent).legalAttacks := by
  intro n
  induction n with
  | zero =>
    intro file members ms rest h
    simp only [read_agents_loop, Except.ok.injEq, Prod.mk.injEq] at h
    exact ⟨[], by simp [h.1], rfl, by simp⟩
  | succ n ih =>
    intro file members ms rest h
    rw [read_agents_loop_succ] at h
    cases hm : read_member_line game (read_line file).1 with
    | error e =>
      rw [hm] at h
      exact absurd h (by simp)
    | ok m =>
      rw [hm] at h
      simp only at h
      obtain ⟨new, h1, h2, h3⟩ := ih _ _ _ _ h
      refine ⟨m :: new, by simp [h1], by simp [h2], ?_⟩
      intro x hx
      rcases List.mem_cons.mp hx with rfl | hx
      · exact read_member_line_ok hwf hm
      · exact h3 x hx

theorem read_agents_loop_error (game : Game) :
    ∀ (n : Nat) (file : List Char) (members : List Member) (e : Stop),
      read_agents_loop game n file members = .error e →
      e = .exit_game EXIT_TEAM_FILE_CONTENTS := by
  intro n
  induction n with
  | zero =>
    intro file members e h
    simp [read_agents_loop] at h
  | succ n ih =>
    intro file members e h
    rw [read_agents_loop_succ] at h
    cases hm : read_member_line game (read_line file).1 with
    | error e1 =>
      rw [hm] at h
      simp only [Except.error.injEq] at h
      subst h
      exact read_member_line_error hm
    | ok m =>
      rw [hm] at h
      exact ih _ _ _ h

/-- A member line that the loop body does not accept makes `read_agents` end
with the team-file-contents error. -/
theorem read_agents_loop_reject (game : Game) {line : List Char}
    (hbad : ∀ m, read_member_line game line ≠ .ok m) :
    ∀ (k n : Nat) (file : List Char) (members : List Member), k < n →
      (file_lines file)[k]? = some line →
      read_agents_loop game n file members = .error (.exit_game EXIT_TEAM_FILE_CONTENTS) := by
  intro k
  induction k with
  | zero =>
    intro n file members hk hl
    obtain ⟨n, rfl⟩ : ∃ m, n = m + 1 := ⟨n - 1, by omega⟩
    have hl' : (read_line file).1 = line := by
      have := file_lines_zero file
      rw [hl] at this
      exact (Option.some.inj this).symm
    rw [read_agents_loop_succ, hl']
    cases hm : read_member_line game line with
    | error e => rw [read_member_line_error hm]
    | ok m => exact absurd hm (hbad m)
  | succ k ih =>
    intro n file members hk hl
    obtain ⟨n, rfl⟩ : ∃ m, n = m + 1 := ⟨n - 1, by omega⟩
    rw [read_agents_loop_succ]
    cases hm : read_member_line game (read_line file).1 with
    | error e => rw [read_member_line_error hm]
    | ok m => exact ih n _ _ (by omega) (file_lines_succ hl)

/-- The members of a team that `read_team_file` returns are those that
`read_agents` read. -/
theorem read_team_file_ok_members {game : Game} {file : List Char} {team : Team}
    (h : read_team_file game file = .ok team) :
    ∃ rest, read_agents (read_line file).2 game = .ok (team.members, rest) := by
  unfold read_team_file at h
  simp only at h
  by_cases h0 : (read_line file).1.length = 0
  · rw [if_pos h0] at h
    exact absurd h (by simp)
  rw [if_neg h0] at h
  cases ha : read_agents (read_line file).2 game with
  | error e =>
    rw [ha] at h
    exact absurd h (by simp)
  | ok r =>
    obtain ⟨members, f1⟩ := r
    rw [ha] at h
    simp only at h
    rcases hf : fgets BUFFER f1 with ⟨_ | coords, f2⟩
    · rw [hf] at h
      exact absurd h (by simp)
    rw [hf] at h
    simp only at h
    cases hc : get_coords coords '\n' 0 with
    | error e =>
      rw [hc] at h
      exact absurd h (by simp)
    | ok r2 =>
      obtain ⟨pos, p2⟩ := r2
      rw [hc] at h
      simp only at h
      by_cases hneg : pos.x < 0 ∨ pos.y < 0
      · rw [if_pos hneg] at h
        exact absurd h (by simp)
      rw [if_neg hneg] at h
      cases hd : read_directions f2 [] with
      | error e =>
        rw [hd] at h
        exact absurd h (by simp)
      | ok r3 =>
        obtain ⟨directions, f3⟩ := r3
        rw [hd] at h
        simp only at h
        by_cases h3 : f3 ≠ []
        · rw [if_pos h3] at h
          exact absurd h (by simp)
        rw [if_neg h3] at h
        simp only [Except.ok.injEq] at h
        subst h
        exact ⟨f1, rfl⟩

theorem read_team_file_reject (game : Game) {file line : List Char} {k : Nat}
    (hk : k < MAX_TEAM_PLAYERS) (hl : (file_lines file)[k + 1]? = some line)
    (hbad : ∀ m, read_member_line game line ≠ .ok m) :
    read_team_file game file = .error (.exit_game EXIT_TEAM_FILE_CONTENTS) := by
  unfold read_team_file
  simp only
  by_cases h0 : (read_line file).1.length = 0
  · rw [if_pos h0]
  rw [if_neg h0, read_agents,
    read_agents_loop_reject game hbad k MAX_TEAM_PLAYERS _ [] hk (file_lines_succ hl)]

/-- The loop of `read_team_attacks` on a line of space-free, non-empty attack
names: when it returns a ring, every name on the line is a declared attack
that is legal for the agent. -/
theorem read_team_attacks_loop_spaced (game : Game) (agent : Agent) (ts : List (List Char)) :
    ∀ (t pre : List Char) (fuel : Nat) (ring r : List Nat),
      (∀ x ∈ t :: ts, ' ' ∉ x ∧ x ≠ []) →
      read_team_attacks_loop game agent (pre ++ spaced (t :: ts)) fuel pre.length ring = .ok r →
      ∀ x ∈ t :: ts, ∃ a, get_attack game x = some a ∧
        legal_attack game agent (game.attackAt a) = true := by
  induction ts with
  | nil =>
    intro t pre fuel ring r hx h
    have ht := hx t (List.mem_cons_self _ _)
    have hlt : pre.length < (pre ++ spaced [t]).length := by
      have : 0 < t.length := List.length_pos.mpr ht.2
      simp [spaced]
      omega
    cases fuel with
    | zero =>
      rw [read_team_attacks_loop, if_pos hlt] at h
      exact absurd h (by simp)
    | succ fuel =>
      rw [read_team_attacks_loop, if_pos hlt,
        get_token_update_pos_at_end pre t (rfl : pre ++ spaced [t] = pre ++ t) rfl ht.1 ht.2] at h
      simp only at h
      intro x hxm
      rw [List.mem_singleton] at hxm
      subst hxm
      cases hg : get_attack game x with
      | none =>
        rw [hg] at h
        exact absurd h (by simp)
      | some a =>
        rw [hg] at h
        simp only at h
        by_cases hl : legal_attack game agent (game.attackAt a) = true
        · exact ⟨a, rfl, hl⟩
        · rw [if_neg hl] at h
          exact absurd h (by simp)
  | cons t2 ts ih =>
    intro t pre fuel ring r hx h
    have ht := hx t (List.mem_cons_self _ _)
    have hlt : pre.length < (pre ++ spaced (t :: t2 :: ts)).length := by
      rw [spaced_cons_cons]
      simp
    cases fuel with
    | zero =>
      rw [read_team_attacks_loop, if_pos hlt] at h
      exact absurd h (by simp)
    | succ fuel =>
      rw [read_team_attacks_loop, if_pos hlt,
        get_token_update_pos_at pre t (spaced (t2 :: ts))
          (rfl : pre ++ spaced (t :: t2 :: ts) = pre ++ (t ++ ' ' :: spaced (t2 :: ts))) rfl
          ht.1] at h
      simp only at h
      cases hg : get_attack game t with
      | none =>
        rw [hg] at h
        exact absurd h (by simp)
      | some a =>
        rw [hg] at h
        simp only at h
        by_cases hl : legal_attack game agent (game.attackAt a) = true
        · rw [if_pos hl] at h
          have e1 : pre ++ spaced (t :: t2 :: ts) = (pre ++ (t ++ [' '])) ++ spaced (t2 :: ts) := by
            rw [spaced_cons_cons]
            simp
          have e2 : pre.length + (t.length + 1) = (pre ++ (t ++ [' '])).length := by simp
          rw [e1, e2] at h
          have rec := ih t2 (pre ++ (t ++ [' '])) fuel _ r
            (fun x hxm => hx x (List.mem_cons_of_mem _ hxm)) h
          intro x hxm
          rcases List.mem_cons.mp hxm with rfl | hxm
          · exact ⟨a, hg, hl⟩
          · exact rec x hxm
        · rw [if_neg hl] at h
          exact absurd h (by simp)

theorem get_token_spaced {name : List Char} (h : ' ' ∉ name) (toks : List (List Char)) :
    get_token (spaced (name :: toks)) ' ' = name := by
  cases toks with
  | nil => exact get_token_eq_self h
  | cons t ts =>
    rw [spaced_cons_cons]
    exact get_token_append_sep h _

theorem drop_spaced (name : List Char) (toks : List (List Char)) :
    (spaced (name :: toks)).drop (name.length + 1) = spaced toks := by
  cases toks with
  | nil => simp [spaced]
  | cons t ts =>
    rw [spaced_cons_cons]
    have : name ++ ' ' :: spaced (t :: ts) = (name ++ [' ']) ++ spaced (t :: ts) := by simp
    rw [this, List.drop_append_eq_append_drop]
    simp

/-- A member line of space-free items that the loop body of `read_agents`
accepts names a declared agent followed by at least one attack, every one of
them declared and legal for that agent. -/
theorem read_member_line_spaced {game : Game} (hwf : WellFormed game) {name : List Char}
    {toks : List (List Char)} (hs : ∀ x ∈ name :: toks, ' ' ∉ x) (hne : ∀ x ∈ toks, x ≠ [])
    {m : Member} (h : read_member_line game (spaced (name :: toks)) = .ok m) :
    ∃ i, get_agent game name = some i ∧ toks ≠ [] ∧
      ∀ x ∈ toks, ∃ a, get_attack game x = some a ∧ a ∈ (game.agentAt i).legalAttacks := by
  unfold read_member_line at h
  by_cases h0 : (spaced (name :: toks)).length = 0
  · rw [if_pos h0] at h
    exact absurd h (by simp)
  rw [if_neg h0, get_token_spaced (hs name (List.mem_cons_self _ _))] at h
  cases hg : get_agent game name with
  | none =>
    rw [hg] at h
    exact absurd h (by simp)
  | some i =>
    rw [hg] at h
    simp only at h
    rw [agentAt_name_of_get_agent hg, drop_spaced] at h
    refine ⟨i, rfl, ?_⟩
    cases toks with
    | nil =>
      simp [spaced, read_team_attacks] at h
    | cons t ts =>
      refine ⟨by simp, ?_⟩
      unfold read_team_attacks at h
      by_cases hl : 0 ≥ (spaced (t :: ts)).length
      · rw [if_pos hl] at h
        exact absurd h (by simp)
      rw [if_neg hl] at h
      cases hloop : read_team_attacks_loop game (game.agentAt i) (spaced (t :: ts))
          (spaced (t :: ts)).length 0 [] with
      | error e =>
        simp only at h
        rw [hloop] at h
        exact absurd h (by simp)
      | ok ring =>
        have hloop2 : read_team_attacks_loop game (game.agentAt i)
            (([] : List Char) ++ spaced (t :: ts)) (spaced (t :: ts)).length
            ([] : List Char).length [] = .ok ring := by
          simpa using hloop
        have all := read_team_attacks_loop_spaced game (game.agentAt i) ts t [] _ [] ring
          (fun x hx => ⟨hs x (List.mem_cons_of_mem _ hx), hne x hx⟩) hloop2
        intro x hx
        obtain ⟨a, ha, hleg⟩ := all x hx
        exact ⟨a, ha, (legal_attack_iff_mem hwf (get_agent_lt hg) (get_attack_lt ha)).mp hleg⟩

/-- A member line that ends in a space right after the agent name is not
accepted by the loop body of `read_agents`. -/
theorem read_member_line_name_space (game : Game) (name : List Char) (hs : ' ' ∉ name)
    (m : Member) : read_member_line game (name ++ [' ']) ≠ .ok m := by
  intro h
  unfold read_member_line at h
  by_cases h0 : (name ++ [' ']).length = 0
  · rw [if_pos h0] at h
    exact absurd h (by simp)
  rw [if_neg h0, get_token_append_sep hs []] at h
  cases hg : get_agent game name with
  | none =>
    rw [hg] at h
    exact absurd h (by simp)
  | some i =>
    rw [hg] at h
    simp only at h
    rw [agentAt_name_of_get_agent hg] at h
    have : (name ++ [' ']).drop (name.length + 1) = [] := by simp
    rw [this] at h
    simp [read_team_attacks] at h

theorem goldenGame_wf : WellFormed goldenGame :=
  (read_sinister_file_wf (f := goldenText) (by decide)).1

/-! ## Directions and coordinates of a team file -/

theorem read_directions_ok :
    ∀ (file ring directions rest : List Char),
      read_directions file ring = .ok (directions, rest) →
      (∀ d ∈ ring, d = 'N' ∨ d = 'S' ∨ d = 'E' ∨ d = 'W') →
      directions ≠ [] ∧ ∀ d ∈ directions, d = 'N' ∨ d = 'S' ∨ d = 'E' ∨ d = 'W' := by
  have step : ∀ (n : Nat) (file ring directions rest : List Char), file.length ≤ n →
      read_directions file ring = .ok (directions, rest) →
      (∀ d ∈ ring, d = 'N' ∨ d = 'S' ∨ d = 'E' ∨ d = 'W') →
      directions ≠ [] ∧ ∀ d ∈ directions, d = 'N' ∨ d = 'S' ∨ d = 'E' ∨ d = 'W' := by
    intro n
    induction n with
    | zero =>
      intro file ring directions rest hl h hr
      have : file = [] := List.length_eq_zero.mp (Nat.le_zero.mp hl)
      subst this
      rw [read_directions] at h
      by_cases h0 : ring = []
      · rw [if_pos h0] at h
        exact absurd h (by simp)
      · rw [if_neg h0] at h
        simp only [Except.ok.injEq, Prod.mk.injEq] at h
        rw [← h.1]
        exact ⟨h0, hr⟩
    | succ n ihn =>
      intro file ring directions rest hl h hr
      match file, hl, h with
      | [], _, h =>
        rw [read_directions] at h
        by_cases h0 : ring = []
        · rw [if_pos h0] at h
          exact absurd h (by simp)
        · rw [if_neg h0] at h
          simp only [Except.ok.injEq, Prod.mk.injEq] at h
          rw [← h.1]
          exact ⟨h0, hr⟩
      | [c], _, h =>
        rw [read_directions] at h
        by_cases hc : c = 'N' ∨ c = 'S' ∨ c = 'E' ∨ c = 'W'
        · rw [if_pos hc] at h
          simp only [Except.ok.injEq, Prod.mk.injEq] at h
          rw [← h.1]
          refine ⟨by simp, ?_⟩
          intro d hd
          rcases List.mem_append.mp hd with hd | hd
          · exact hr d hd
          · rw [List.mem_singleton] at hd
            rw [hd]
            exact hc
        · rw [if_neg hc] at h
          exact absurd h (by simp)
      | c :: c2 :: more, hl, h =>
        rw [read_directions] at h
        by_cases hc : c = 'N' ∨ c = 'S' ∨ c = 'E' ∨ c = 'W'
        · rw [if_pos hc] at h
          by_cases h2 : c2 ≠ ' ' ∧ c2 ≠ '\n'
          · rw [if_pos h2] at h
            exact absurd h (by simp)
          · rw [if_neg h2] at h
            refine ihn more (ring ++ [c]) directions rest ?_ h ?_
            · simp only [List.length_cons] at hl
              omega
            · intro d hd
              rcases List.mem_append.mp hd with hd | hd
              · exact hr d hd
              · rw [List.mem_singleton] at hd
                rw [hd]
                exact hc
        · rw [if_neg hc] at h
          exact absurd h (by simp)
  intro file ring directions rest h hr
  exact step file.length file ring directions rest (Nat.le_refl _) h hr

/-- The directions of a team that `read_team_file` returns are those that
`read_directions` read, starting from no direction. -/
theorem read_team_file_ok_directions {game : Game} {file : List Char} {team : Team}
    (h : read_team_file game file = .ok team) :
    ∃ f2 rest, read_directions f2 [] = .ok (team.directions, rest) := by
  unfold read_team_file at h
  simp only at h
  by_cases h0 : (read_line file).1.length = 0
  · rw [if_pos h0] at h
    exact absurd h (by simp)
  rw [if_neg h0] at h
  cases ha : read_agents (read_line file).2 game with
  | error e =>
    rw [ha] at h
    exact absurd h (by simp)
  | ok r =>
    obtain ⟨members, f1⟩ := r
    rw [ha] at h
    simp only at h
    rcases hf : fgets BUFFER f1 with ⟨_ | coords, f2⟩
    · rw [hf] at h
      exact absurd h (by simp)
    rw [hf] at h
    simp only at h
    cases hc : get_coords coords '\n' 0 with
    | error e =>
      rw [hc] at h
      exact absurd h (by simp)
    | ok r2 =>
      obtain ⟨pos, p2⟩ := r2
      rw [hc] at h
      simp only at h
      by_cases hneg : pos.x < 0 ∨ pos.y < 0
      · rw [if_pos hneg] at h
        exact absurd h (by simp)
      rw [if_neg hneg] at h
      cases hd : read_directions f2 [] with
      | error e =>
        rw [hd] at h
        exact absurd h (by simp)
      | ok r3 =>
        obtain ⟨directions, f3⟩ := r3
        rw [hd] at h
        simp only at h
        by_cases h3 : f3 ≠ []
        · rw [if_pos h3] at h
          exact absurd h (by simp)
        rw [if_neg h3] at h
        simp only [Except.ok.injEq] at h
        subst h
        exact ⟨f2, f3, hd⟩

/-- Claim C12: the direction ring of a team that `read_team_file` returns is
non-empty and holds only the letters N, S, E and W; but a team file that ends
right after its coordinate line is not rejected with the team-file-contents
error: `read_directions` then stores through the pointer `tail`, which was
never assigned, and the behaviour is undefined. -/
theorem read_directions_empty_undefined :
    (∀ (game : Game) (file : List Char) (team : Team),
      read_team_file game file = .ok team →
      team.directions ≠ [] ∧ ∀ d ∈ team.directions, d = 'N' ∨ d = 'S' ∨ d = 'E' ∨ d = 'W') ∧
    read_directions [] [] = .error .undefined ∧
    read_team_file goldenGame noDirectionsTeamText = .error .undefined ∧
    read_team_file goldenGame noDirectionsTeamText ≠
      .error (.exit_game EXIT_TEAM_FILE_CONTENTS) := by
  refine ⟨?_, by decide, by decide, by decide⟩
  intro game file team h
  obtain ⟨f2, rest, hd⟩ := read_team_file_ok_directions h
  exact read_directions_ok f2 [] _ rest hd (by simp)

/-- The directions N, E and S of the golden team file. -/
theorem read_directions_empty_undefined_witness :
    (⟨"Alpha".toList, [⟨0, [0], 0, 0⟩, ⟨0, [0, 0], 0, 0⟩, ⟨0, [0], 0, 0⟩, ⟨0, [0], 0, 0⟩],
        0, ⟨3, 4⟩, ['N', 'E', 'S'], 0⟩ : Team).directions ≠ [] ∧
    ∀ d ∈ (⟨"Alpha".toList, [⟨0, [0], 0, 0⟩, ⟨0, [0, 0], 0, 0⟩, ⟨0, [0], 0, 0⟩, ⟨0, [0], 0, 0⟩],
        0, ⟨3, 4⟩, ['N', 'E', 'S'], 0⟩ : Team).directions,
      d = 'N' ∨ d = 'S' ∨ d = 'E' ∨ d = 'W' :=
  read_directions_empty_undefined.1 goldenGame goldenTeamText _ (by decide)

/-- Claim C13: `number` takes the empty string for the number 0, so
`read_team_file` accepts the coordinate line made of a space and `5` with the
position (0, 5), and the coordinate line made of `3` and a space with the
position (3, 0), instead of rejecting them with the team-file-contents
error. -/
theorem read_team_file_empty_coordinate :
    number (some []) = .ok 0 ∧
    get_coords " 5\n".toList '\n' 0 = .ok (⟨0, 5⟩, 3) ∧
    get_coords "3 \n".toList '\n' 0 = .ok (⟨3, 0⟩, 3) ∧
    read_team_file goldenGame emptyXTeamText =
      .ok ⟨"Alpha".toList, [⟨0, [0], 0, 0⟩, ⟨0, [0], 0, 0⟩, ⟨0, [0], 0, 0⟩, ⟨0, [0], 0, 0⟩],
        0, ⟨0, 5⟩, ['N'], 0⟩ ∧
    read_team_file goldenGame emptyYTeamText =
      .ok ⟨"Alpha".toList, [⟨0, [0], 0, 0⟩, ⟨0, [0], 0, 0⟩, ⟨0, [0], 0, 0⟩, ⟨0, [0], 0, 0⟩],
        0, ⟨3, 0⟩, ['N'], 0⟩ := by
  refine ⟨by decide, by decide, by decide, by decide, by decide⟩

/-! ## The battle engine -/

theorem read_team_msg_error {simulation : Bool} {file : List Char} {e : Stop}
    (h : read_team_msg simulation file = .error e) :
    e = .disco ∨ e = .exit_game EXIT_TEAM_DISCO ∨ e = .exit_game EXIT_BAD_MESSAGE := by
  unfold read_team_msg at h
  simp only at h
  by_cases h0 : (read_line file).1.length = 0
  · rw [if_pos h0] at h
    cases simulation with
    | true =>
      simp only [if_true, Except.error.injEq] at h
      exact Or.inl h.symm
    | false =>
      simp only [Bool.false_eq_true, if_false, Except.error.injEq] at h
      exact Or.inr (Or.inl h.symm)
  · rw [if_neg h0] at h
    by_cases h1 : get_token (read_line file).1 ' ' = "fightmeirl".toList
    · rw [if_pos h1] at h
      exact absurd h (by simp)
    rw [if_neg h1] at h
    by_cases h2 : get_token (read_line file).1 ' ' = "haveatyou".toList
    · rw [if_pos h2] at h
      exact absurd h (by simp)
    rw [if_neg h2] at h
    by_cases h3 : get_token (read_line file).1 ' ' = "iselectyou".toList
    · rw [if_pos h3] at h
      exact absurd h (by simp)
    rw [if_neg h3] at h
    by_cases h4 : get_token (read_line file).1 ' ' = "attack".toList
    · rw [if_pos h4] at h
      exact absurd h (by simp)
    rw [if_neg h4] at h
    simp only [Except.error.injEq] at h
    exact Or.inr (Or.inr h.symm)

theorem read_team_msg_ne_out_of_fuel {simulation : Bool} {file : List Char} {e : Stop}
    (h : read_team_msg simulation file = .error e) : e ≠ .out_of_fuel := by
  rcases read_team_msg_error h with rfl | rfl | rfl <;> simp

theorem append_string_getLast (narrative segment : List Char) :
    (append_string narrative (segment ++ ['\n'])).getLast? = some '\n' := by
  simp [append_string, replace_underscores]

theorem narrate_attack_getLast (game : Game) (narrative : List Char) (attacker : Agent)
    (attack : Attack) (effectiveness : Nat) (target : Member) :
    (narrate_attack game narrative attacker attack effectiveness target).getLast? =
      some '\n' := by
  unfold narrate_attack
  exact append_string_getLast _ []

/-- The possible outcomes of `get_selected_opponent`. -/
theorem get_selected_opponent_cases (game : Game) (simulation : Bool) (st : BattleState) :
    ∃ st1, st1.write = st.write ∧ st1.name = st.name ∧
      (st.narrative.getLast? = some '\n' → st1.narrative.getLast? = some '\n') ∧
      ((∃ e, e ≠ .out_of_fuel ∧ get_selected_opponent game simulation st = (.error e, st1)) ∨
        (∃ opp, opp.health = MAX_HEALTH ∧ opp.agent < game.agents.length ∧
          get_selected_opponent game simulation st = (.ok opp, st1) ∧
          st1.narrative.getLast? = some '\n')) := by
  unfold get_selected_opponent
  simp only
  cases hm : read_team_msg simulation st.read with
  | error e =>
    exact ⟨{ st with read := (read_line st.read).2 }, rfl, rfl, id,
      Or.inl ⟨e, read_team_msg_ne_out_of_fuel hm, rfl⟩⟩
  | ok msg =>
    simp only
    by_cases ht : msg.1 ≠ .ISELECTYOU
    · rw [if_pos ht]
      exact ⟨{ st with read := (read_line st.read).2 }, rfl, rfl, id,
        Or.inl ⟨.exit_game EXIT_BAD_MESSAGE, by simp, rfl⟩⟩
    · rw [if_neg ht]
      cases hg : get_agent game
          (get_token (msg.2.drop "iselectyou ".toList.length) '\x00') with
      | none =>
        exact ⟨{ st with read := (read_line st.read).2 }, rfl, rfl, id,
        Or.inl ⟨.exit_game EXIT_BAD_MESSAGE, by simp, rfl⟩⟩
      | some agent =>
        refine ⟨{ st with read := (read_line st.read).2, narrative := (append_string st.narrative
            (st.name ++ " chooses ".toList ++ (game.agentAt agent).name ++ ['\n'])) },
          rfl, rfl, fun _ => ?_, Or.inr ⟨_, rfl, get_agent_lt hg, rfl, ?_⟩⟩
        · exact append_string_getLast _ _
        · exact append_string_getLast _ _

/-- The possible outcomes of `get_attacked`. -/
theorem get_attacked_cases (game : Game) (simulation : Bool) (member opponent : Member)
    (st : BattleState) :
    ∃ st1, st1.write = st.write ∧ st1.name = st.name ∧
      (st.narrative.getLast? = some '\n' → st1.narrative.getLast? = some '\n') ∧
      ((∃ e, e ≠ .out_of_fuel ∧
          get_attacked game simulation member opponent st = (.error e, st1)) ∨
        (∃ m1, m1.agent = member.agent ∧ m1.attacks = member.attacks ∧
          m1.nextAttack = member.nextAttack ∧ m1.health < member.health ∧
          get_attacked game simulation member opponent st = (.ok m1, st1) ∧
          st1.narrative.getLast? = some '\n')) := by
  unfold get_attacked
  simp only
  cases hm : read_team_msg simulation st.read with
  | error e =>
    exact ⟨{ st with read := (read_line st.read).2 }, rfl, rfl, id,
      Or.inl ⟨e, read_team_msg_ne_out_of_fuel hm, rfl⟩⟩
  | ok msg =>
    simp only
    by_cases ht : msg.1 ≠ .ATTACK
    · rw [if_pos ht]
      exact ⟨{ st with read := (read_line st.read).2 }, rfl, rfl, id,
        Or.inl ⟨.exit_game EXIT_BAD_MESSAGE, by simp, rfl⟩⟩
    · rw [if_neg ht]
      cases hg : get_attack game (msg.2.drop ("attack  ".toList.length +
          (game.agentAt opponent.agent).name.length)) with
      | none =>
        exact ⟨{ st with read := (read_line st.read).2 }, rfl, rfl, id,
        Or.inl ⟨.exit_game EXIT_BAD_MESSAGE, by simp, rfl⟩⟩
      | some a =>
        simp only
        by_cases hl : legal_attack game (game.agentAt opponent.agent) (game.attackAt a) = false ∨
            get_token (msg.2.drop "attack ".toList.length) ' ' ≠
              (game.agentAt opponent.agent).name
        · rw [if_pos hl]
          exact ⟨{ st with read := (read_line st.read).2 }, rfl, rfl, id,
        Or.inl ⟨.exit_game EXIT_BAD_MESSAGE, by simp, rfl⟩⟩
        · rw [if_neg hl]
          refine ⟨{ st with read := (read_line st.read).2, narrative := (narrate_attack game
              st.narrative (game.agentAt opponent.agent) (game.attackAt a)
              (get_effectiveness game (game.attackAt a) (game.agentAt member.agent)).val
              { member with health := member.health -
                (get_effectiveness game (game.attackAt a) (game.agentAt member.agent)).val }) },
            rfl, rfl, fun _ => ?_, Or.inr ⟨{ member with health := member.health -
                (get_effectiveness game (game.attackAt a) (game.agentAt member.agent)).val },
              rfl, rfl, rfl, ?_, rfl, ?_⟩⟩
          · exact narrate_attack_getLast _ _ _ _ _ _
          · have : 0 < (get_effectiveness game (game.attackAt a)
                (game.agentAt member.agent)).val := by
              cases get_effectiveness game (game.attackAt a) (game.agentAt member.agent) <;>
                simp [Effectiveness.val]
            simp only
            omega
          · exact narrate_attack_getLast _ _ _ _ _ _

/-- The possible outcomes of `attack`. -/
theorem attack_cases (game : Game) (member opponent : Member) (st : BattleState) :
    (member.attacks = [] ∧ attack game member opponent st = (.error .undefined, st)) ∨
    (∃ m1 o1 st1, attack game member opponent st = (.ok (m1, o1), st1) ∧
      st1.write = st.write ++ ("attack ".toList ++ (game.agentAt member.agent).name ++ [' '] ++
        (game.attackAt (member.attacks.getD member.nextAttack 0)).name ++ ['\n']) ∧
      st1.name = st.name ∧ st1.narrative.getLast? = some '\n' ∧
      m1.agent = member.agent ∧ m1.attacks = member.attacks ∧
      m1.nextAttack = (member.nextAttack + 1) % member.attacks.length ∧
      m1.health = member.health ∧ o1.agent = opponent.agent) := by
  unfold attack
  by_cases h0 : member.attacks = []
  · rw [if_pos h0]
    exact Or.inl ⟨h0, rfl⟩
  · rw [if_neg h0]
    exact Or.inr ⟨_, _, _, rfl, rfl, rfl, narrate_attack_getLast _ _ _ _ _ _, rfl, rfl, rfl,
      rfl, rfl⟩

/-- The `while` loop of `battle`, entered with fewer than four opposing
members eliminated and with fuel for the health of the member: it does not run
out of fuel; it writes the `attack` messages number `k0`, `k0 + 1`, ... of the
member; and when it ends, the loser is the opposing team exactly when four
opposing members are eliminated, in which case the member is alive, and
otherwise the member is eliminated. -/
theorem fight_spec (game : Game) (simulation : Bool) :
    ∀ (fuel j : Nat) (member opponent : Member) (st : BattleState) (k0 : Nat),
      member.health ≤ fuel → j < MAX_TEAM_PLAYERS →
      member.nextAttack = k0 % member.attacks.length →
      ∃ res st1, fight game simulation fuel j false member opponent st = (res, st1) ∧
        res ≠ .error .out_of_fuel ∧ st1.name = st.name ∧
        (st.narrative.getLast? = some '\n' → st1.narrative.getLast? = some '\n') ∧
        (∃ n, st1.write = st.write ++ attack_messages game member.agent member.attacks k0 n) ∧
        ∀ j1 loser1 m1 o1, res = .ok (j1, loser1, m1, o1) →
          j ≤ j1 ∧ j1 ≤ MAX_TEAM_PLAYERS ∧ (loser1 = true ↔ j1 = MAX_TEAM_PLAYERS) ∧
          (loser1 = false → m1.health ≤ 0) ∧ (loser1 = true → 0 < m1.health) := by
  intro fuel
  induction fuel with
  | zero =>
    intro j member opponent st k0 hh hj hc
    rw [fight]
    have hpos : ¬ member.health > 0 := by
      have : member.health ≤ 0 := by simpa using hh
      omega
    rw [if_neg hpos]
    refine ⟨_, _, rfl, by simp, rfl, id, ⟨0, by simp [attack_messages]⟩, ?_⟩
    intro j1 loser1 m1 o1 h
    simp only [Except.ok.injEq, Prod.mk.injEq] at h
    obtain ⟨rfl, rfl, rfl, rfl⟩ := h
    refine ⟨Nat.le_refl _, Nat.le_of_lt hj, ⟨fun h => absurd h (by simp), fun h => ?_⟩,
      fun _ => by omega, fun h => absurd h (by simp)⟩
    omega
  | succ fuel ih =>
    intro j member opponent st k0 hh hj hc
    rw [fight]
    by_cases hpos : member.health > 0
    · rw [if_pos hpos]
      rcases attack_cases game member opponent st with
        ⟨-, ha⟩ | ⟨m1, o1, sa, ha, hw, hn, hnl0, hag, hat, hcur, hhe, -⟩
      · rw [ha]
        refine ⟨_, _, rfl, by simp, rfl, id, ⟨0, by simp [attack_messages]⟩, ?_⟩
        intro j1 loser1 r1 r2 h
        exact absurd h (by simp)
      · rw [ha]
        simp only
        have hw1 : sa.write = st.write ++ attack_message game member.agent member.attacks k0 := by
          rw [hw, attack_message, ← hc]
        by_cases hdead : o1.health ≤ 0
        · rw [if_pos hdead]
          by_cases hj4 : j + 1 = MAX_TEAM_PLAYERS
          · rw [if_pos hj4]
            refine ⟨_, _, rfl, by simp, hn, fun _ => hnl0, ⟨1, by rw [hw1]; simp [attack_messages]⟩, ?_⟩
            intro j1 loser1 r1 r2 h
            simp only [Except.ok.injEq, Prod.mk.injEq] at h
            obtain ⟨rfl, rfl, rfl, rfl⟩ := h
            refine ⟨Nat.le_succ _, Nat.le_of_eq hj4, ⟨fun _ => hj4, fun _ => rfl⟩,
              fun h => absurd h (by simp), fun _ => ?_⟩
            rw [hhe]
            exact hpos
          · rw [if_neg hj4]
            have hj1 : j + 1 < MAX_TEAM_PLAYERS := by omega
            obtain ⟨s2, hw2, hn2, hnl2, hso⟩ := get_selected_opponent_cases game simulation sa
            rcases hso with ⟨e, he, hso⟩ | ⟨opp, -, -, hso, -⟩
            · rw [hso]
              refine ⟨_, _, rfl, by simpa using he, by rw [hn2, hn], fun _ => hnl2 hnl0,
                ⟨1, by rw [hw2, hw1]; simp [attack_messages]⟩, ?_⟩
              intro j1 loser1 r1 r2 h
              exact absurd h (by simp)
            · rw [hso]
              simp only
              have hname2 : s2.name = st.name := by rw [hn2, hn]
              have hwrite2 : s2.write =
                  st.write ++ attack_message game member.agent member.attacks k0 := by
                rw [hw2, hw1]
              have hnls2 : s2.narrative.getLast? = some '\n' := hnl2 hnl0
              obtain ⟨s3, hw3, hn3, hnl3, hga⟩ := get_attacked_cases game simulation m1 opp s2
              rcases hga with ⟨e, he, hga⟩ | ⟨m2, hag2, hat2, hcur2, hhe2, hga, -⟩
              · rw [hga]
                refine ⟨_, _, rfl, by simpa using he, by rw [hn3, hname2], fun _ => hnl3 hnls2,
                  ⟨1, by rw [hw3, hwrite2]; simp [attack_messages]⟩, ?_⟩
                intro j1 loser1 r1 r2 h
                exact absurd h (by simp)
              · rw [hga]
                simp only
                have hfuel : m2.health ≤ (fuel : Int) := by
                  have : member.health ≤ (fuel : Int) + 1 := by simpa using hh
                  omega
                have hcursor : m2.nextAttack = (k0 + 1) % m2.attacks.length := by
                  rw [hcur2, hat2, hcur, hat, hc, Nat.add_mod, Nat.mod_mod, ← Nat.add_mod]
                obtain ⟨res, st1, hf, hne, hname, hnl, ⟨n, hwr⟩, hres⟩ :=
                  ih (j + 1) m2 opp s3 (k0 + 1) hfuel hj1 hcursor
                rw [hf]
                refine ⟨res, st1, rfl, hne, by rw [hname, hn3, hname2], fun _ => hnl (hnl3 hnls2),
                  ⟨n + 1, ?_⟩, ?_⟩
                · rw [hwr, hw3, hwrite2, hag2, hat2, hag, hat, List.append_assoc]
                  rfl
                · intro j1 loser1 r1 r2 h
                  obtain ⟨q1, q2, q3, q4, q5⟩ := hres j1 loser1 r1 r2 h
                  exact ⟨by omega, q2, q3, q4, q5⟩
        · rw [if_neg hdead]
          obtain ⟨s3, hw3, hn3, hnl3, hga⟩ := get_attacked_cases game simulation m1 o1 sa
          rcases hga with ⟨e, he, hga⟩ | ⟨m2, hag2, hat2, hcur2, hhe2, hga, -⟩
          · rw [hga]
            refine ⟨_, _, rfl, by simpa using he, by rw [hn3, hn], fun _ => hnl3 hnl0,
              ⟨1, by rw [hw3, hw1]; simp [attack_messages]⟩, ?_⟩
            intro j1 loser1 r1 r2 h
            exact absurd h (by simp)
          · rw [hga]
            simp only
            have hfuel : m2.health ≤ (fuel : Int) := by
              have : member.health ≤ (fuel : Int) + 1 := by simpa using hh
              omega
            have hcursor : m2.nextAttack = (k0 + 1) % m2.attacks.length := by
              rw [hcur2, hat2, hcur, hat, hc, Nat.add_mod, Nat.mod_mod, ← Nat.add_mod]
            obtain ⟨res, st1, hf, hne, hname, hnl, ⟨n, hwr⟩, hres⟩ :=
              ih j m2 o1 s3 (k0 + 1) hfuel hj hcursor
            rw [hf]
            refine ⟨res, st1, rfl, hne, by rw [hname, hn3, hn], fun _ => hnl (hnl3 hnl0),
              ⟨n + 1, ?_⟩, ?_⟩
            · rw [hwr, hw3, hw1, hag2, hat2, hag, hat, List.append_assoc]
              rfl
            · intro j1 loser1 r1 r2 h
              obtain ⟨q1, q2, q3, q4, q5⟩ := hres j1 loser1 r1 r2 h
              exact ⟨by omega, q2, q3, q4, q5⟩
    · rw [if_neg hpos]
      refine ⟨_, _, rfl, by simp, rfl, id, ⟨0, by simp [attack_messages]⟩, ?_⟩
      intro j1 loser1 m1 o1 h
      simp only [Except.ok.injEq, Prod.mk.injEq] at h
      obtain ⟨rfl, rfl, rfl, rfl⟩ := h
      refine ⟨Nat.le_refl _, Nat.le_of_lt hj, ⟨fun h => absurd h (by simp), fun h => ?_⟩,
        fun _ => by omega, fun h => absurd h (by simp)⟩
      omega

theorem team_messages_nil (game : Game) (ms : List Member) : team_messages game ms [] = [] := by
  cases ms <;> rfl

/-- The possible outcomes of the first-round block. -/
theorem first_round_spec (game : Game) (simulation goFirst : Bool) (i : Nat)
    (member opponent : Member) (st : BattleState) :
    ∃ res st1, first_round game simulation goFirst i member opponent st = (res, st1) ∧
      res ≠ .error .out_of_fuel ∧ st1.name = st.name ∧ st1.write = st.write ∧
      (st.narrative.getLast? = some '\n' → st1.narrative.getLast? = some '\n') ∧
      ∀ m1 o1, res = .ok (m1, o1) → m1.agent = member.agent ∧ m1.attacks = member.attacks ∧
        m1.nextAttack = member.nextAttack ∧ m1.health ≤ member.health := by
  unfold first_round
  by_cases hi : i = 0
  · rw [if_pos hi]
    by_cases hg : goFirst = false
    · rw [if_pos hg]
      obtain ⟨s3, hw3, hn3, hnl3, hga⟩ := get_attacked_cases game simulation member opponent st
      rcases hga with ⟨e, he, hga⟩ | ⟨m2, hag2, hat2, hcur2, hhe2, hga, -⟩
      · rw [hga]
        refine ⟨_, _, rfl, by simpa using he, hn3, hw3, hnl3, ?_⟩
        intro m1 o1 h
        exact absurd h (by simp)
      · rw [hga]
        refine ⟨_, _, rfl, by simp, hn3, hw3, hnl3, ?_⟩
        intro m1 o1 h
        simp only [Except.ok.injEq, Prod.mk.injEq] at h
        obtain ⟨rfl, rfl⟩ := h
        exact ⟨hag2, hat2, hcur2, Int.le_of_lt hhe2⟩
    · rw [if_neg hg]
      obtain ⟨s2, hw2, hn2, hnl2, hso⟩ := get_selected_opponent_cases game simulation st
      rcases hso with ⟨e, he, hso⟩ | ⟨opp, -, -, hso, -⟩
      · rw [hso]
        refine ⟨_, _, rfl, by simpa using he, hn2, hw2, hnl2, ?_⟩
        intro m1 o1 h
        exact absurd h (by simp)
      · rw [hso]
        refine ⟨_, _, rfl, by simp, hn2, hw2, hnl2, ?_⟩
        intro m1 o1 h
        simp only [Except.ok.injEq, Prod.mk.injEq] at h
        obtain ⟨rfl, rfl⟩ := h
        exact ⟨rfl, rfl, rfl, Int.le_refl _⟩
  · rw [if_neg hi]
    refine ⟨_, _, rfl, by simp, rfl, rfl, id, ?_⟩
    intro m1 o1 h
    simp only [Except.ok.injEq, Prod.mk.injEq] at h
    obtain ⟨rfl, rfl⟩ := h
    exact ⟨rfl, rfl, rfl, Int.le_refl _⟩

/-- The `for` loop of `battle` on a team of four members: it does not run out
of fuel; what it writes is, for each member it selects, the selection and the
attack messages of the member, in ring order from the first attack; and when
it ends, the loser is the opposing team exactly when four opposing members
are eliminated, in which case the last member freed is alive, and otherwise
all four members were freed eliminated. -/
theorem battle_loop_spec (game : Game) (team : Team) (simulation goFirst : Bool)
    (hlen : team.members.length = MAX_TEAM_PLAYERS) :
    ∀ (fuel i j : Nat) (loser : Bool) (opponent : Member) (freed : List Member)
      (st : BattleState),
      MAX_TEAM_PLAYERS ≤ i + fuel → i ≤ MAX_TEAM_PLAYERS → j ≤ MAX_TEAM_PLAYERS →
      (loser = true ↔ j = MAX_TEAM_PLAYERS) → freed.length = i →
      (loser = false → ∀ m ∈ freed, m.health ≤ 0) →
      (loser = true → ∃ m, freed.getLast? = some m ∧ 0 < m.health) →
      ∃ res st1,
        battle_loop game team simulation goFirst fuel i j loser opponent freed st =
          (res, st1) ∧
        res ≠ .error .out_of_fuel ∧ st1.name = st.name ∧
        (st.narrative.getLast? = some '\n' ∨ (i < MAX_TEAM_PLAYERS ∧ j < MAX_TEAM_PLAYERS) →
          st1.narrative.getLast? = some '\n') ∧
        (∃ counts, counts.length + i ≤ MAX_TEAM_PLAYERS ∧
          st1.write = st.write ++ team_messages game (team.members.drop i) counts) ∧
        ∀ j1 loser1 freed1, res = .ok (j1, loser1, freed1) →
          j1 ≤ MAX_TEAM_PLAYERS ∧ (loser1 = true ↔ j1 = MAX_TEAM_PLAYERS) ∧
          (loser1 = false → freed1.length = MAX_TEAM_PLAYERS ∧ ∀ m ∈ freed1, m.health ≤ 0) ∧
          (loser1 = true → ∃ m, freed1.getLast? = some m ∧ 0 < m.health) := by
  have done : ∀ (i j : Nat) (loser : Bool) (freed : List Member) (st : BattleState),
      ¬ (i < MAX_TEAM_PLAYERS ∧ j < MAX_TEAM_PLAYERS) →
      i ≤ MAX_TEAM_PLAYERS → j ≤ MAX_TEAM_PLAYERS →
      (loser = true ↔ j = MAX_TEAM_PLAYERS) → freed.length = i →
      (loser = false → ∀ m ∈ freed, m.health ≤ 0) →
      (loser = true → ∃ m, freed.getLast? = some m ∧ 0 < m.health) →
      (Except.ok (j, loser, freed) : Except Stop (Nat × Bool × List Member)) ≠
          .error .out_of_fuel ∧ st.name = st.name ∧
        (st.narrative.getLast? = some '\n' ∨ (i < MAX_TEAM_PLAYERS ∧ j < MAX_TEAM_PLAYERS) →
          st.narrative.getLast? = some '\n') ∧
        (∃ counts, counts.length + i ≤ MAX_TEAM_PLAYERS ∧
          st.write = st.write ++ team_messages game (team.members.drop i) counts) ∧
        ∀ j1 loser1 freed1,
          (Except.ok (j, loser, freed) : Except Stop (Nat × Bool × List Member)) =
            .ok (j1, loser1, freed1) →
          j1 ≤ MAX_TEAM_PLAYERS ∧ (loser1 = true ↔ j1 = MAX_TEAM_PLAYERS) ∧
          (loser1 = false → freed1.length = MAX_TEAM_PLAYERS ∧ ∀ m ∈ freed1, m.health ≤ 0) ∧
          (loser1 = true → ∃ m, freed1.getLast? = some m ∧ 0 < m.health) := by
    intro i j loser freed st hcond hi hj hinv hfl hdead halive
    refine ⟨by simp, rfl, ?_, ⟨[], by simpa using hi, by simp [team_messages_nil]⟩, ?_⟩
    · rintro (h | h)
      · exact h
      · exact absurd h hcond
    · intro j1 loser1 freed1 h
      simp only [Except.ok.injEq, Prod.mk.injEq] at h
      obtain ⟨rfl, rfl, rfl⟩ := h
      refine ⟨hj, hinv, fun hl => ⟨?_, hdead hl⟩, halive⟩
      have hj4 : j ≠ MAX_TEAM_PLAYERS := by
        intro h4
        rw [hinv.mpr h4] at hl
        exact absurd hl (by simp)
      have : ¬ i < MAX_TEAM_PLAYERS := fun h => hcond ⟨h, by omega⟩
      omega
  intro fuel
  induction fuel with
  | zero =>
    intro i j loser opponent freed st hfuel hi hj hinv hfl hdead halive
    have hcond : ¬ (i < MAX_TEAM_PLAYERS ∧ j < MAX_TEAM_PLAYERS) := by
      intro h
      omega
    rw [battle_loop, if_neg hcond]
    exact ⟨_, _, rfl, done i j loser freed st hcond hi hj hinv hfl hdead halive⟩
  | succ fuel ih =>
    intro i j loser opponent freed st hfuel hi hj hinv hfl hdead halive
    by_cases hcond : i < MAX_TEAM_PLAYERS ∧ j < MAX_TEAM_PLAYERS
    · have hl : loser = false := by
        cases loser with
        | false => rfl
        | true =>
          have := hinv.mp rfl
          omega
      subst hl
      have hilt : i < team.members.length := by
        rw [hlen]
        exact hcond.1
      obtain ⟨mem, hmem⟩ : ∃ mem, team.members.getD i default = mem := ⟨_, rfl⟩
      have hdrop : team.members.drop i = mem :: team.members.drop (i + 1) := by
        rw [List.drop_eq_getElem_cons hilt, ← hmem, List.getD_eq_getElem _ _ hilt]
      rw [battle_loop, if_pos hcond]
      simp only
      rw [hmem]
      obtain ⟨r1, s2, hfr, hne1, hn1, hw1, hnl1, hres1⟩ :=
        first_round_spec game simulation goFirst i (select_member game team.name mem st).1
          opponent (select_member game team.name mem st).2
      have hselnl : (select_member game team.name mem st).2.narrative.getLast? = some '\n' :=
        append_string_getLast _ _
      have hselw : (select_member game team.name mem st).2.write =
          st.write ++ ("iselectyou ".toList ++ (game.agentAt mem.agent).name ++ ['\n']) := rfl
      have hseln : (select_member game team.name mem st).2.name = st.name := rfl
      rw [hfr]
      cases r1 with
      | error e =>
        refine ⟨_, _, rfl, by simpa using hne1, by rw [hn1, hseln], fun _ => hnl1 hselnl,
          ⟨[0], by simp only [List.length_singleton]; omega, ?_⟩, ?_⟩
        · rw [hw1, hselw, hdrop]
          simp [team_messages, team_messages_nil, member_messages, attack_messages]
        · intro j1 loser1 freed1 h
          exact absurd h (by simp)
      | ok pr =>
        obtain ⟨member, opp1⟩ := pr
        obtain ⟨hag, hat, hcur, hhe⟩ := hres1 member opp1 rfl
        simp only
        have hfuelm : member.health ≤ (MAX_HEALTH.toNat : Int) := by
          have h10 : (select_member game team.name mem st).1.health = 10 := rfl
          have h11 : ((MAX_HEALTH.toNat : Nat) : Int) = 10 := by decide
          omega
        have hcursor : member.nextAttack = 0 % member.attacks.length := by
          rw [hcur, Nat.zero_mod]
          rfl
        obtain ⟨r2, s3, hf, hne2, hn2, hnl2, ⟨n, hw2⟩, hres2⟩ :=
          fight_spec game simulation MAX_HEALTH.toNat j member opp1 s2 0 hfuelm hcond.2 hcursor
        rw [hf]
        have hmsg : s3.write = st.write ++ member_messages game mem n := by
          rw [hw2, hw1, hselw, hag, hat, member_messages, List.append_assoc]
          rfl
        cases r2 with
        | error e =>
          refine ⟨_, _, rfl, by simpa using hne2, by rw [hn2, hn1, hseln],
            fun _ => hnl2 (hnl1 hselnl),
            ⟨[n], by simp only [List.length_singleton]; omega, ?_⟩, ?_⟩
          · rw [hmsg, hdrop]
            simp [team_messages, team_messages_nil]
          · intro j1 loser1 freed1 h
            exact absurd h (by simp)
        | ok q =>
          obtain ⟨j1, loser1, m1, o2⟩ := q
          obtain ⟨q1, q2, q3, q4, q5⟩ := hres2 j1 loser1 m1 o2 rfl
          simp only
          obtain ⟨res, st1, hb, hne, hname, hnl, ⟨counts, hcl, hwr⟩, hres⟩ :=
            ih (i + 1) j1 loser1 o2 (freed ++ [m1]) s3 (by omega) (by omega) q2 q3
              (by simp [hfl])
              (fun hl m hm => by
                rcases List.mem_append.mp hm with hm | hm
                · exact hdead rfl m hm
                · rw [List.mem_singleton] at hm
                  rw [hm]
                  exact q4 hl)
              (fun hl => ⟨m1, by simp, q5 hl⟩)
          rw [hb]
          refine ⟨res, st1, rfl, hne, by rw [hname, hn2, hn1, hseln],
            fun _ => hnl (Or.inl (hnl2 (hnl1 hselnl))),
            ⟨n :: counts, by simp only [List.length_cons]; omega, ?_⟩, hres⟩
          rw [hwr, hmsg, hdrop, List.append_assoc]
          rfl
    · rw [battle_loop, if_neg hcond]
      exact ⟨_, _, rfl, done i j loser freed st hcond hi hj hinv hfl hdead halive⟩

theorem replace_underscores_append (a b : List Char) :
    replace_underscores (a ++ b) = replace_underscores a ++ replace_underscores b := by
  simp [replace_underscores]

/-- The outcome of `battle` for a team of four members. -/
theorem battle_spec (game : Game) (team : Team) (simulation goFirst : Bool) (st : BattleState)
    (hlen : team.members.length = MAX_TEAM_PLAYERS) :
    ∃ res st1, battle game team simulation goFirst st = (res, st1) ∧
      res ≠ .error .out_of_fuel ∧
      (∃ counts, counts.length ≤ MAX_TEAM_PLAYERS ∧
        st1.write = st.write ++ team_messages game team.members counts) ∧
      ∀ j loser freed, res = .ok (j, loser, freed) →
        j ≤ MAX_TEAM_PLAYERS ∧ (loser = true ↔ j = MAX_TEAM_PLAYERS) ∧
        (loser = false → freed.length = MAX_TEAM_PLAYERS ∧ ∀ m ∈ freed, m.health ≤ 0) ∧
        (loser = true → ∃ m, freed.getLast? = some m ∧ 0 < m.health) ∧
        ∃ pre, pre.getLast? = some '\n' ∧
          st1.narrative = pre ++ ("Team ".toList ++
            replace_underscores (if loser = true then st.name else team.name) ++
            " was eliminated.\n".toList) := by
  have hstart : ∃ r s0,
      (if goFirst = false then get_selected_opponent game simulation st
        else (.ok default, st)) = (r, s0) ∧
      r ≠ .error .out_of_fuel ∧ s0.name = st.name ∧ s0.write = st.write := by
    by_cases hg : goFirst = false
    · rw [if_pos hg]
      obtain ⟨s2, hw2, hn2, -, hso⟩ := get_selected_opponent_cases game simulation st
      rcases hso with ⟨e, he, hso⟩ | ⟨opp, -, -, hso, -⟩
      · exact ⟨_, _, hso, by simpa using he, hn2, hw2⟩
      · exact ⟨_, _, hso, by simp, hn2, hw2⟩
    · rw [if_neg hg]
      exact ⟨_, _, rfl, by simp, rfl, rfl⟩
  obtain ⟨r, s0, hs, hne0, hn0, hw0⟩ := hstart
  unfold battle
  simp only
  rw [hs]
  cases r with
  | error e =>
    refine ⟨_, _, rfl, by simpa using hne0, ⟨[], by simp, ?_⟩, ?_⟩
    · simp [team_messages_nil, hw0]
    · intro j loser freed h
      exact absurd h (by simp)
  | ok opponent =>
    simp only
    obtain ⟨res, st2, hb, hne, hname, hnl, ⟨counts, hcl, hwr⟩, hres⟩ :=
      battle_loop_spec game team simulation goFirst hlen MAX_TEAM_PLAYERS 0 0 false opponent []
        s0 (by simp) (by simp) (by simp) (by simp [MAX_TEAM_PLAYERS]) rfl (by simp) (by simp)
    rw [hb]
    cases res with
    | error e =>
      refine ⟨_, _, rfl, by simpa using hne, ⟨counts, by omega, ?_⟩, ?_⟩
      · rw [hwr, hw0]
        rfl
      · intro j loser freed h
        exact absurd h (by simp)
    | ok q =>
      obtain ⟨j1, loser1, freed1⟩ := q
      simp only
      refine ⟨_, _, rfl, by simp, ⟨counts, by omega, ?_⟩, ?_⟩
      · rw [← hw0]
        exact hwr
      · intro j loser freed h
        simp only [Except.ok.injEq, Prod.mk.injEq] at h
        obtain ⟨rfl, rfl, rfl⟩ := h
        obtain ⟨q1, q2, q3, q4⟩ := hres j1 loser1 freed1 rfl
        refine ⟨q1, q2, q3, q4, st2.narrative, hnl (Or.inr (by simp [MAX_TEAM_PLAYERS])), ?_⟩
        simp only [append_string, replace_underscores_append]
        rw [hname, hn0]
        cases loser1 <;> rfl

/-! ## The attack ring in a battle -/

theorem read_team_attacks_loop_done (game : Game) (agent : Agent) (line : List Char)
    (fuel pos : Nat) (ring : List Nat) (h : line.length ≤ pos) :
    read_team_attacks_loop game agent line fuel pos ring = .ok ring := by
  cases fuel with
  | zero => rw [read_team_attacks_loop, if_neg (by omega)]
  | succ fuel => rw [read_team_attacks_loop, if_neg (by omega)]

/-- The loop of `read_team_attacks` on a line of space-free, non-empty attack
names: the ring it returns has the attacks of the line appended, in order. -/
theorem read_team_attacks_loop_names (game : Game) (agent : Agent) (ts : List (List Char)) :
    ∀ (t pre : List Char) (fuel : Nat) (ring r : List Nat),
      (∀ x ∈ t :: ts, ' ' ∉ x ∧ x ≠ []) →
      read_team_attacks_loop game agent (pre ++ spaced (t :: ts)) fuel pre.length ring = .ok r →
      r.map (fun a => (game.attackAt a).name) =
        ring.map (fun a => (game.attackAt a).name) ++ t :: ts := by
  induction ts with
  | nil =>
    intro t pre fuel ring r hx h
    have ht := hx t (List.mem_cons_self _ _)
    have hlt : pre.length < (pre ++ spaced [t]).length := by
      have : 0 < t.length := List.length_pos.mpr ht.2
      simp [spaced]
      omega
    cases fuel with
    | zero =>
      rw [read_team_attacks_loop, if_pos hlt] at h
      exact absurd h (by simp)
    | succ fuel =>
      rw [read_team_attacks_loop, if_pos hlt,
        get_token_update_pos_at_end pre t (rfl : pre ++ spaced [t] = pre ++ t) rfl ht.1
          ht.2] at h
      simp only at h
      cases hg : get_attack game t with
      | none =>
        rw [hg] at h
        exact absurd h (by simp)
      | some a =>
        rw [hg] at h
        simp only at h
        by_cases hl : legal_attack game agent (game.attackAt a) = true
        · rw [if_pos hl, read_team_attacks_loop_done _ _ _ _ _ _ (by simp [spaced])] at h
          simp only [Except.ok.injEq] at h
          rw [← h]
          simp [attackAt_name_of_get_attack hg]
        · rw [if_neg hl] at h
          exact absurd h (by simp)
  | cons t2 ts ih =>
    intro t pre fuel ring r hx h
    have ht := hx t (List.mem_cons_self _ _)
    have hlt : pre.length < (pre ++ spaced (t :: t2 :: ts)).length := by
      rw [spaced_cons_cons]
      simp
    cases fuel with
    | zero =>
      rw [read_team_attacks_loop, if_pos hlt] at h
      exact absurd h (by simp)
    | succ fuel =>
      rw [read_team_attacks_loop, if_pos hlt,
        get_token_update_pos_at pre t (spaced (t2 :: ts))
          (rfl : pre ++ spaced (t :: t2 :: ts) = pre ++ (t ++ ' ' :: spaced (t2 :: ts))) rfl
          ht.1] at h
      simp only at h
      cases hg : get_attack game t with
      | none =>
        rw [hg] at h
        exact absurd h (by simp)
      | some a =>
        rw [hg] at h
        simp only at h
        by_cases hl : legal_attack game agent (game.attackAt a) = true
        · rw [if_pos hl] at h
          have e1 : pre ++ spaced (t :: t2 :: ts) = (pre ++ (t ++ [' '])) ++ spaced (t2 :: ts) := by
            rw [spaced_cons_cons]
            simp
          have e2 : pre.length + (t.length + 1) = (pre ++ (t ++ [' '])).length := by simp
          rw [e1, e2] at h
          have rec := ih t2 (pre ++ (t ++ [' '])) fuel _ r
            (fun x hxm => hx x (List.mem_cons_of_mem _ hxm)) h
          rw [rec]
          simp [attackAt_name_of_get_attack hg]
        · rw [if_neg hl] at h
          exact absurd h (by simp)

/-- A member line of space-free items that the loop body of `read_agents`
accepts gives a member of the agent named first, whose ring holds the attacks
named after it, in the order of the line, with the cursor on the first. -/
theorem read_member_line_names {game : Game} {name : List Char}
    {toks : List (List Char)} (hs : ∀ x ∈ name :: toks, ' ' ∉ x) (hne : ∀ x ∈ toks, x ≠ [])
    {m : Member} (h : read_member_line game (spaced (name :: toks)) = .ok m) :
    (game.agentAt m.agent).name = name ∧ m.nextAttack = 0 ∧
      m.attacks.map (fun a => (game.attackAt a).name) = toks := by
  unfold read_member_line at h
  by_cases h0 : (spaced (name :: toks)).length = 0
  · rw [if_pos h0] at h
    exact absurd h (by simp)
  rw [if_neg h0, get_token_spaced (hs name (List.mem_cons_self _ _))] at h
  cases hg : get_agent game name with
  | none =>
    rw [hg] at h
    exact absurd h (by simp)
  | some i =>
    rw [hg] at h
    simp only at h
    rw [agentAt_name_of_get_agent hg, drop_spaced] at h
    cases toks with
    | nil =>
      simp [spaced, read_team_attacks] at h
    | cons t ts =>
      unfold read_team_attacks at h
      by_cases hl : 0 ≥ (spaced (t :: ts)).length
      · rw [if_pos hl] at h
        exact absurd h (by simp)
      rw [if_neg hl] at h
      cases hloop : read_team_attacks_loop game (game.agentAt i) (spaced (t :: ts))
          (spaced (t :: ts)).length 0 [] with
      | error e =>
        simp only at h
        rw [hloop] at h
        exact absurd h (by simp)
      | ok ring =>
        have hloop2 : read_team_attacks_loop game (game.agentAt i)
            (([] : List Char) ++ spaced (t :: ts)) (spaced (t :: ts)).length
            ([] : List Char).length [] = .ok ring := by
          simpa using hloop
        have all := read_team_attacks_loop_names game (game.agentAt i) ts t [] _ [] ring
          (fun x hx => ⟨hs x (List.mem_cons_of_mem _ hx), hne x hx⟩) hloop2
        simp only at h
        rw [hloop] at h
        simp only [Except.ok.injEq] at h
        rw [← h]
        exact ⟨agentAt_name_of_get_agent hg, rfl, by simpa using all⟩

theorem read_agents_loop_extends (game : Game) :
    ∀ (n : Nat) (file : List Char) (members ms : List Member) (rest : List Char),
      read_agents_loop game n file members = .ok (ms, rest) → ∃ new, ms = members ++ new := by
  intro n
  induction n with
  | zero =>
    intro file members ms rest h
    simp only [read_agents_loop, Except.ok.injEq, Prod.mk.injEq] at h
    exact ⟨[], by simp [h.1]⟩
  | succ n ih =>
    intro file members ms rest h
    rw [read_agents_loop_succ] at h
    cases hm : read_member_line game (read_line file).1 with
    | error e =>
      rw [hm] at h
      exact absurd h (by simp)
    | ok m =>
      rw [hm] at h
      obtain ⟨new, h1⟩ := ih _ _ _ _ h
      exact ⟨m :: new, by simp [h1]⟩

/-- Member number `k` that `read_agents` returns is what the loop body makes
of line number `k`. -/
theorem read_agents_loop_members (game : Game) :
    ∀ (n : Nat) (file : List Char) (members ms : List Member) (rest : List Char),
      read_agents_loop game n file members = .ok (ms, rest) →
      ∀ (k : Nat) (line : List Char), k < n → (file_lines file)[k]? = some line →
      ∃ m, read_member_line game line = .ok m ∧ ms[members.length + k]? = some m := by
  intro n
  induction n with
  | zero =>
    intro file members ms rest h k line hk
    exact absurd hk (by omega)
  | succ n ih =>
    intro file members ms rest h k line hk hl
    rw [read_agents_loop_succ] at h
    cases hm : read_member_line game (read_line file).1 with
    | error e =>
      rw [hm] at h
      exact absurd h (by simp)
    | ok m =>
      rw [hm] at h
      simp only at h
      cases k with
      | zero =>
        have hl2 : (read_line file).1 = line := by
          have := file_lines_zero file
          rw [hl] at this
          exact (Option.some.inj this).symm
        obtain ⟨new, h1⟩ := read_agents_loop_extends game _ _ _ _ _ h
        refine ⟨m, by rw [← hl2, hm], ?_⟩
        rw [h1, Nat.add_zero, List.append_assoc,
          List.getElem?_append_right (Nat.le_refl _)]
        simp
      | succ k =>
        obtain ⟨m2, q1, q2⟩ := ih _ _ _ _ h k line (by omega) (file_lines_succ hl)
        refine ⟨m2, q1, ?_⟩
        rw [← q2]
        congr 1
        simp
        omega

/-- Claim C15: the members of a loaded team hold the attacks of their member
lines in the order of the file, and what a battle writes to the opposing team
is, for each member it selects in turn, the selection followed by the attack
messages of that member, message number `k` (from 0, counted from the
selection) naming the attack number `k mod m` of its ring of `m` attacks;
so the cursor advances by one with every attack sent, is not moved by the
attacks received in between, and starts at the first attack on every
selection, whatever the stored cursor of the member was. -/
theorem battle_attack_ring (game : Game) :
    (∀ (file : List Char) (team : Team) (k : Nat) (name : List Char) (toks : List (List Char)),
      read_team_file game file = .ok team → k < MAX_TEAM_PLAYERS →
      (file_lines file)[k + 1]? = some (spaced (name :: toks)) →
      (∀ x ∈ name :: toks, ' ' ∉ x) → (∀ x ∈ toks, x ≠ []) →
      ∃ m, team.members[k]? = some m ∧ (game.agentAt m.agent).name = name ∧
        m.attacks.map (fun a => (game.attackAt a).name) = toks) ∧
    (∀ (team : Team) (simulation goFirst : Bool) (st : BattleState),
      team.members.length = MAX_TEAM_PLAYERS →
      ∃ counts, counts.length ≤ MAX_TEAM_PLAYERS ∧
        (battle game team simulation goFirst st).2.write =
          st.write ++ team_messages game team.members counts) := by
  refine ⟨?_, ?_⟩
  · intro file team k name toks h hk hl hs hne
    obtain ⟨rest, hr⟩ := read_team_file_ok_members h
    obtain ⟨m, q1, q2⟩ := read_agents_loop_members game _ _ _ _ _ hr k _ hk (file_lines_succ hl)
    obtain ⟨r1, -, r3⟩ := read_member_line_names hs hne q1
    exact ⟨m, by simpa using q2, r1, r3⟩
  · intro team simulation goFirst st hlen
    obtain ⟨res, st1, hb, -, hw, -⟩ := battle_spec game team simulation goFirst st hlen
    rw [hb]
    exact hw

/-- The second member of the golden team file holds `splash` twice, and
what Alpha writes in a battle is made of selections and ring attacks. -/
theorem battle_attack_ring_witness :
    (∃ m, (⟨"Alpha".toList,
        [⟨0, [0], 0, 0⟩, ⟨0, [0, 0], 0, 0⟩, ⟨0, [0], 0, 0⟩, ⟨0, [0], 0, 0⟩],
        0, ⟨3, 4⟩, ['N', 'E', 'S'], 0⟩ : Team).members[1]? = some m ∧
      (goldenGame.agentAt m.agent).name = "A".toList ∧
      m.attacks.map (fun a => (goldenGame.attackAt a).name) =
        ["splash".toList, "splash".toList]) ∧
    ∃ counts, counts.length ≤ MAX_TEAM_PLAYERS ∧
      (battle goldenGame alphaTeam false true ⟨"Beta".toList, betaSends, [], []⟩).2.write =
        [] ++ team_messages goldenGame alphaTeam.members counts :=
  ⟨(battle_attack_ring goldenGame).1 goldenTeamText _ 1 "A".toList
      ["splash".toList, "splash".toList] (by decide) (by decide) (by decide) (by decide)
      (by decide),
    (battle_attack_ring goldenGame).2 alphaTeam false true ⟨"Beta".toList, betaSends, [], []⟩
      (by decide)⟩

/-! ## The loser of a battle -/

/-- Claim C18: when `battle` runs to completion for a team of four members,
it names the opposing team as the loser exactly when four opposing members
were eliminated by own attacks, and otherwise the local team, all four
members of which were then freed eliminated; and the last line of the
narrative is `Team <loserName> was eliminated.` with every underscore of the
name of the loser replaced by a space. -/
theorem battle_loser (game : Game) (team : Team) (simulation goFirst : Bool)
    (st st1 : BattleState) (j : Nat) (loser : Bool) (freed : List Member)
    (hlen : team.members.length = MAX_TEAM_PLAYERS)
    (h : battle game team simulation goFirst st = (.ok (j, loser, freed), st1)) :
    (loser = true ↔ j = MAX_TEAM_PLAYERS) ∧
    (loser = false → freed.length = MAX_TEAM_PLAYERS ∧ ∀ m ∈ freed, m.health ≤ 0) ∧
    ∃ pre, pre.getLast? = some '\n' ∧
      st1.narrative = pre ++ ("Team ".toList ++
        replace_underscores (if loser = true then st.name else team.name) ++
        " was eliminated.\n".toList) := by
  obtain ⟨res, st2, hb, -, -, hres⟩ := battle_spec game team simulation goFirst st hlen
  rw [h] at hb
  simp only [Prod.mk.injEq] at hb
  obtain ⟨rfl, rfl⟩ := hb
  obtain ⟨-, q2, q3, -, q5⟩ := hres j loser freed rfl
  exact ⟨q2, q3, q5⟩

/-- The golden battle, seen from Alpha: Beta is the loser. -/
theorem battle_loser_witness :
    alphaTeam.members.length = MAX_TEAM_PLAYERS ∧
    ((true = true ↔ 4 = MAX_TEAM_PLAYERS) ∧
    (true = false → [(⟨0, [0], 0, 0⟩ : Member), ⟨0, [0], 0, 0⟩, ⟨0, [0], 0, 0⟩,
        ⟨0, [0], 0, 2⟩].length = MAX_TEAM_PLAYERS ∧
      ∀ m ∈ [(⟨0, [0], 0, 0⟩ : Member), ⟨0, [0], 0, 0⟩, ⟨0, [0], 0, 0⟩, ⟨0, [0], 0, 2⟩],
        m.health ≤ 0) ∧
    ∃ pre, pre.getLast? = some '\n' ∧
      goldenNarrative = pre ++ ("Team ".toList ++
        replace_underscores (if true = true then "Beta".toList else alphaTeam.name) ++
        " was eliminated.\n".toList)) :=
  ⟨by decide,
    battle_loser goldenGame alphaTeam false true ⟨"Beta".toList, betaSends, [], []⟩
      ⟨"Beta".toList, [], alphaSends, goldenNarrative⟩ 4 true
      [⟨0, [0], 0, 0⟩, ⟨0, [0], 0, 0⟩, ⟨0, [0], 0, 0⟩, ⟨0, [0], 0, 2⟩] (by decide) rfl⟩

/-- The original claim C18 fails for a loser whose name has an underscore:
the golden battle against a team named `Be_ta` ends with the line
`Team Be ta was eliminated.` and not with `Team Be_ta was eliminated.` -/
theorem battle_loser_counterexample :
    (battle goldenGame alphaTeam false true ⟨"Be_ta".toList, betaSends, [], []⟩).1 =
      .ok (4, true, [⟨0, [0], 0, 0⟩, ⟨0, [0], 0, 0⟩, ⟨0, [0], 0, 0⟩, ⟨0, [0], 0, 2⟩]) ∧
    "Team Be_ta was eliminated.\n".toList.isSuffixOf
      (battle goldenGame alphaTeam false true
        ⟨"Be_ta".toList, betaSends, [], []⟩).2.narrative = false ∧
    "Team Be ta was eliminated.\n".toList.isSuffixOf
      (battle goldenGame alphaTeam false true
        ⟨"Be_ta".toList, betaSends, [], []⟩).2.narrative = true :=
  ⟨rfl, rfl, rfl⟩

/-- Claim C19: Alpha and Beta are the teams of their team files; in the
golden battle every splash on `A` has normal effectiveness and deals 2
damage; the battle runs to completion on both sides, each side reading what
the other writes, with the same narrative; it eliminates seven members, the
four of Beta and the first three of Alpha: the fourth member of Alpha is
alive, with health 2, when Beta has lost. -/
theorem golden_battle :
    read_team_file goldenGame alphaTeamText = .ok alphaTeam ∧
    read_team_file goldenGame betaTeamText = .ok betaTeam ∧
    get_effectiveness goldenGame (goldenGame.attackAt 0) (goldenGame.agentAt 0) = .NORMAL ∧
    Effectiveness.val .NORMAL = 2 ∧
    battle goldenGame alphaTeam false true ⟨"Beta".toList, betaSends, [], []⟩ =
      (.ok (4, true, [⟨0, [0], 0, 0⟩, ⟨0, [0], 0, 0⟩, ⟨0, [0], 0, 0⟩, ⟨0, [0], 0, 2⟩]),
        ⟨"Beta".toList, [], alphaSends, goldenNarrative⟩) ∧
    battle goldenGame betaTeam false false ⟨"Alpha".toList, alphaSends, [], []⟩ =
      (.ok (3, false, [⟨0, [0], 0, 0⟩, ⟨0, [0], 0, 0⟩, ⟨0, [0], 0, 0⟩, ⟨0, [0], 0, 0⟩]),
        ⟨"Alpha".toList, [], betaSends, goldenNarrative⟩) ∧
    eliminated_members goldenNarrative = 7 :=
  ⟨rfl, rfl, rfl, rfl, rfl, rfl, rfl⟩

/-- The original claim C19 fails: the golden battle does not eliminate eight
members, since the last member of Alpha is freed with health 2. -/
theorem golden_battle_counterexample :
    eliminated_members (battle goldenGame alphaTeam false true
      ⟨"Beta".toList, betaSends, [], []⟩).2.narrative ≠ 8 ∧
    ∃ j loser freed m,
      (battle goldenGame alphaTeam false true ⟨"Beta".toList, betaSends, [], []⟩).1 =
        .ok (j, loser, freed) ∧ freed[3]? = some m ∧ 0 < m.health :=
  ⟨by decide, 4, true, [⟨0, [0], 0, 0⟩, ⟨0, [0], 0, 0⟩, ⟨0, [0], 0, 0⟩, ⟨0, [0], 0, 2⟩],
    ⟨0, [0], 0, 2⟩, rfl, rfl, by decide⟩

/-! ## Health and damage -/

theorem effectiveness_val (e : Effectiveness) : e.val = 1 ∨ e.val = 2 ∨ e.val = 3 := by
  cases e <;> simp [Effectiveness.val]

/-- The outcome of `get_attacked` when it returns. -/
theorem get_attacked_ok {game : Game} {simulation : Bool} {member opponent m1 : Member}
    {st st1 : BattleState}
    (h : get_attacked game simulation member opponent st = (.ok m1, st1)) :
    ∃ a, read_team_msg simulation st.read = .ok (.ATTACK, (read_line st.read).1) ∧
      get_attack game ((read_line st.read).1.drop
        ("attack  ".toList.length + (game.agentAt opponent.agent).name.length)) = some a ∧
      legal_attack game (game.agentAt opponent.agent) (game.attackAt a) = true ∧
      get_token ((read_line st.read).1.drop "attack ".toList.length) ' ' =
        (game.agentAt opponent.agent).name ∧
      m1 = { member with health := member.health -
        (get_effectiveness game (game.attackAt a) (game.agentAt member.agent)).val } ∧
      st1 = { st with read := (read_line st.read).2, narrative := (narrate_attack game
        st.narrative (game.agentAt opponent.agent) (game.attackAt a)
        (get_effectiveness game (game.attackAt a) (game.agentAt member.agent)).val
        { member with health := member.health -
          (get_effectiveness game (game.attackAt a) (game.agentAt member.agent)).val }) } := by
  unfold get_attacked at h
  simp only at h
  cases hm : read_team_msg simulation st.read with
  | error e =>
    rw [hm] at h
    exact absurd h (by simp)
  | ok msg =>
    rw [hm] at h
    simp only at h
    have hmsg : msg.2 = (read_line st.read).1 := by
      unfold read_team_msg at hm
      simp only at hm
      by_cases h0 : (read_line st.read).1.length = 0
      · rw [if_pos h0] at hm
        cases simulation <;> simp at hm
      · rw [if_neg h0] at hm
        by_cases h1 : get_token (read_line st.read).1 ' ' = "fightmeirl".toList
        · rw [if_pos h1] at hm
          simp only [Except.ok.injEq] at hm
          rw [← hm]
        rw [if_neg h1] at hm
        by_cases h2 : get_token (read_line st.read).1 ' ' = "haveatyou".toList
        · rw [if_pos h2] at hm
          simp only [Except.ok.injEq] at hm
          rw [← hm]
        rw [if_neg h2] at hm
        by_cases h3 : get_token (read_line st.read).1 ' ' = "iselectyou".toList
        · rw [if_pos h3] at hm
          simp only [Except.ok.injEq] at hm
          rw [← hm]
        rw [if_neg h3] at hm
        by_cases h4 : get_token (read_line st.read).1 ' ' = "attack".toList
        · rw [if_pos h4] at hm
          simp only [Except.ok.injEq] at hm
          rw [← hm]
        rw [if_neg h4] at hm
        exact absurd hm (by simp)
    by_cases ht : msg.1 ≠ .ATTACK
    · rw [if_pos ht] at h
      exact absurd h (by simp)
    · rw [if_neg ht] at h
      have ht2 : msg.1 = .ATTACK := by
        by_contra hc
        exact ht hc
      have hmsg2 : msg = (.ATTACK, (read_line st.read).1) := by
        rw [← ht2, ← hmsg]
      subst hmsg2
      simp only at h
      cases hg : get_attack game ((read_line st.read).1.drop ("attack  ".toList.length +
          (game.agentAt opponent.agent).name.length)) with
      | none =>
        rw [hg] at h
        exact absurd h (by simp)
      | some a =>
        rw [hg] at h
        simp only at h
        by_cases hl : legal_attack game (game.agentAt opponent.agent) (game.attackAt a) = false ∨
            get_token ((read_line st.read).1.drop "attack ".toList.length) ' ' ≠
              (game.agentAt opponent.agent).name
        · rw [if_pos hl] at h
          exact absurd h (by simp)
        · rw [if_neg hl] at h
          simp only [Prod.mk.injEq, Except.ok.injEq] at h
          have hl1 : legal_attack game (game.agentAt opponent.agent) (game.attackAt a) = true := by
            by_contra hc
            exact hl (Or.inl (by simpa using hc))
          have hl2 : get_token ((read_line st.read).1.drop "attack ".toList.length) ' ' =
              (game.agentAt opponent.agent).name := by
            by_contra hc
            exact hl (Or.inr hc)
          exact ⟨a, rfl, rfl, hl1, hl2, h.1.symm, h.2.symm⟩

/-- The outcome of `attack` when it returns. -/
theorem attack_ok {game : Game} {member opponent m1 o1 : Member} {st st1 : BattleState}
    (h : attack game member opponent st = (.ok (m1, o1), st1)) :
    m1 = { member with nextAttack := (member.nextAttack + 1) % member.attacks.length } ∧
    o1 = { opponent with health := opponent.health -
      (get_effectiveness game (game.attackAt (member.attacks.getD member.nextAttack 0))
        (game.agentAt opponent.agent)).val } ∧
    st1.narrative = narrate_attack game st.narrative (game.agentAt member.agent)
      (game.attackAt (member.attacks.getD member.nextAttack 0))
      (get_effectiveness game (game.attackAt (member.attacks.getD member.nextAttack 0))
        (game.agentAt opponent.agent)).val
      { opponent with health := opponent.health -
        (get_effectiveness game (game.attackAt (member.attacks.getD member.nextAttack 0))
          (game.agentAt opponent.agent)).val } := by
  unfold attack at h
  by_cases h0 : member.attacks = []
  · rw [if_pos h0] at h
    exact absurd h (by simp)
  · rw [if_neg h0] at h
    simp only [Prod.mk.injEq, Except.ok.injEq] at h
    obtain ⟨⟨rfl, rfl⟩, rfl⟩ := h
    exact ⟨rfl, rfl, rfl⟩

theorem narrate_attack_eq (game : Game) (narrative : List Char) (attacker : Agent)
    (attack : Attack) (effectiveness : Nat) (target : Member) :
    narrate_attack game narrative attacker attack effectiveness target =
      narrative ++ narrative_line attacker.name attack.name
        (effectiveness_string game attack effectiveness) (game.agentAt target.agent).name
        (decide (target.health ≤ 0)) := by
  unfold narrate_attack narrative_line append_string
  by_cases h : target.health ≤ 0
  · simp [h, replace_underscores]
  · simp [h, replace_underscores]

/-- Claim C20: the line that `attack` and `get_attacked` append to the
narrative for an attack of effectiveness `e` is
`<attackerAgent> uses <attackName>: <s>`, where `s` is the string at index
`e - 1` of the type of the attack, followed by
` - <targetAgent> was eliminated.` exactly when the health of the target is
not positive after the damage, and by a newline; every underscore of the
line, those of the agent names and of the attack name included, is replaced
by a space. -/
theorem attack_narrative (game : Game) :
    (∀ member opponent st m1 o1 st1, attack game member opponent st = (.ok (m1, o1), st1) →
      st1.narrative = st.narrative ++
        narrative_line (game.agentAt member.agent).name
          (game.attackAt (member.attacks.getD member.nextAttack 0)).name
          (effectiveness_string game (game.attackAt (member.attacks.getD member.nextAttack 0))
            (get_effectiveness game (game.attackAt (member.attacks.getD member.nextAttack 0))
              (game.agentAt opponent.agent)).val)
          (game.agentAt opponent.agent).name (decide (o1.health ≤ 0))) ∧
    (∀ simulation member opponent st m1 st1,
      get_attacked game simulation member opponent st = (.ok m1, st1) →
      ∃ a, get_attack game ((read_line st.read).1.drop
          ("attack  ".toList.length + (game.agentAt opponent.agent).name.length)) = some a ∧
        st1.narrative = st.narrative ++
          narrative_line (game.agentAt opponent.agent).name (game.attackAt a).name
            (effectiveness_string game (game.attackAt a)
              (get_effectiveness game (game.attackAt a) (game.agentAt member.agent)).val)
            (game.agentAt member.agent).name (decide (m1.health ≤ 0))) ∧
    (∀ (attack : Attack) (e : Effectiveness) (s : List Char),
      (game.typeAt attack.type).effectiveness.get (e.val - 1) = some s →
      effectiveness_string game attack e.val = s) := by
  refine ⟨?_, ?_, ?_⟩
  · intro member opponent st m1 o1 st1 h
    obtain ⟨-, rfl, hn⟩ := attack_ok h
    rw [hn, narrate_attack_eq]
  · intro simulation member opponent st m1 st1 h
    obtain ⟨a, -, hg, -, -, rfl, rfl⟩ := get_attacked_ok h
    exact ⟨a, hg, by simp only [narrate_attack_eq]⟩
  · intro attack e s h
    unfold effectiveness_string
    rw [h]
    rfl

/-- An attack of the golden battle that leaves its target alive, and the
string of a normal attack. -/
theorem attack_narrative_witness :
    "A uses splash: normal\n".toList = [] ++
      narrative_line (goldenGame.agentAt 0).name
        (goldenGame.attackAt (([0] : List Nat).getD 0 0)).name
        (effectiveness_string goldenGame (goldenGame.attackAt (([0] : List Nat).getD 0 0))
          (get_effectiveness goldenGame (goldenGame.attackAt (([0] : List Nat).getD 0 0))
            (goldenGame.agentAt 0)).val)
        (goldenGame.agentAt 0).name (decide ((8 : Int) ≤ 0)) ∧
    effectiveness_string goldenGame (goldenGame.attackAt 0) Effectiveness.NORMAL.val =
      "normal".toList :=
  ⟨(attack_narrative goldenGame).1 ⟨0, [0], 0, 10⟩ ⟨0, [], 0, 10⟩ ⟨[], [], [], []⟩
      ⟨0, [0], 0, 10⟩ ⟨0, [], 0, 8⟩
      ⟨[], [], "attack A splash\n".toList, "A uses splash: normal\n".toList⟩ rfl,
    (attack_narrative goldenGame).2.2 (goldenGame.attackAt 0) .NORMAL "normal".toList rfl⟩

/-- The original claim C20 fails for names with underscores: for the agent
`Mr_A` and its attack `tail_whip` the narrative line is
`Mr A uses tail whip: weak ish - Mr A was eliminated.` and not the line with
the names as they are. -/
theorem attack_narrative_counterexample :
    (read_sinister_file new_game underscoreText).1 = 0 ∧
    (underscoreGame.agentAt 0).name = "Mr_A".toList ∧
    (underscoreGame.attackAt 0).name = "tail_whip".toList ∧
    (attack underscoreGame ⟨0, [0], 0, 10⟩ ⟨0, [], 0, 2⟩ ⟨[], [], [], []⟩).2.narrative =
      "Mr A uses tail whip: weak ish - Mr A was eliminated.\n".toList ∧
    (attack underscoreGame ⟨0, [0], 0, 10⟩ ⟨0, [], 0, 2⟩ ⟨[], [], [], []⟩).2.narrative ≠
      "Mr_A uses tail_whip: weak ish - Mr_A was eliminated.\n".toList :=
  ⟨by decide, by decide, by decide, by decide, by decide⟩

/-! ## Attack messages that are accepted -/

theorem attackAt_mem {game : Game} {i : Nat} (h : i < game.attacks.length) :
    game.attackAt i ∈ game.attacks := by
  unfold Game.attackAt
  rw [List.getD_eq_getElem _ _ h]
  exact List.getElem_mem h

/-- The outcome of `read_team_msg` on a line that is not empty, by the first
token of the line. -/
theorem read_team_msg_of_ne_nil (simulation : Bool) {file : List Char}
    (h : (read_line file).1 ≠ []) :
    (get_token (read_line file).1 ' ' = "attack".toList ∧
      read_team_msg simulation file = .ok (.ATTACK, (read_line file).1)) ∨
    (get_token (read_line file).1 ' ' ≠ "attack".toList ∧
      (read_team_msg simulation file = .error (.exit_game EXIT_BAD_MESSAGE) ∨
        ∃ t, t ≠ TeamMsgs.ATTACK ∧ read_team_msg simulation file = .ok (t, (read_line file).1))) := by
  unfold read_team_msg
  simp only
  have h0 : ¬ (read_line file).1.length = 0 := fun e => h (List.length_eq_zero.mp e)
  rw [if_neg h0]
  by_cases h1 : get_token (read_line file).1 ' ' = "fightmeirl".toList
  · rw [if_pos h1]
    exact Or.inr ⟨by rw [h1]; decide, Or.inr ⟨.FIGHTMEIRL, by decide, rfl⟩⟩
  rw [if_neg h1]
  by_cases h2 : get_token (read_line file).1 ' ' = "haveatyou".toList
  · rw [if_pos h2]
    exact Or.inr ⟨by rw [h2]; decide, Or.inr ⟨.HAVEATYOU, by decide, rfl⟩⟩
  rw [if_neg h2]
  by_cases h3 : get_token (read_line file).1 ' ' = "iselectyou".toList
  · rw [if_pos h3]
    exact Or.inr ⟨by rw [h3]; decide, Or.inr ⟨.ISELECTYOU, by decide, rfl⟩⟩
  rw [if_neg h3]
  by_cases h4 : get_token (read_line file).1 ' ' = "attack".toList
  · rw [if_pos h4]
    exact Or.inl ⟨h4, rfl⟩
  rw [if_neg h4]
  exact Or.inr ⟨h4, Or.inl rfl⟩

/-- On a line that is not empty, `get_attacked` either returns or ends in
the protocol error. -/
theorem get_attacked_error {game : Game} {simulation : Bool} {member opponent : Member}
    {st st1 : BattleState} {e : Stop} (hline : (read_line st.read).1 ≠ [])
    (h : get_attacked game simulation member opponent st = (.error e, st1)) :
    e = .exit_game EXIT_BAD_MESSAGE := by
  unfold get_attacked at h
  simp only at h
  rcases read_team_msg_of_ne_nil simulation hline with ⟨-, hm⟩ | ⟨-, hm | ⟨t, ht, hm⟩⟩
  · rw [hm] at h
    simp only at h
    rw [if_neg (by simp)] at h
    cases hg : get_attack game ((read_line st.read).1.drop ("attack  ".toList.length +
        (game.agentAt opponent.agent).name.length)) with
    | none =>
      rw [hg] at h
      simp only [Prod.mk.injEq, Except.error.injEq] at h
      exact h.1.symm
    | some a =>
      rw [hg] at h
      simp only at h
      by_cases hl : legal_attack game (game.agentAt opponent.agent) (game.attackAt a) = false ∨
          get_token ((read_line st.read).1.drop "attack ".toList.length) ' ' ≠
            (game.agentAt opponent.agent).name
      · rw [if_pos hl] at h
        simp only [Prod.mk.injEq, Except.error.injEq] at h
        exact h.1.symm
      · rw [if_neg hl] at h
        exact absurd h (by simp)
  · rw [hm] at h
    simp only [Prod.mk.injEq, Except.error.injEq] at h
    exact h.1.symm
  · rw [hm] at h
    simp only at h
    rw [if_pos ht] at h
    simp only [Prod.mk.injEq, Except.error.injEq] at h
    exact h.1.symm

/-- Reading a string that starts behind the end of the message as empty, on
an incoming line that is not empty `get_attacked` returns exactly when the
line is `attack <agentName> <attackName>` with the name of the agent of the
selected opposing member and the name of a declared attack that is among the
legal attacks of that agent; on every other line that is not empty it ends in
the protocol error. -/
theorem get_attacked_accepts (game : Game) (hwf : WellFormed game) (simulation : Bool)
    (member opponent : Member) (st : BattleState)
    (hopp : opponent.agent < game.agents.length) (hline : (read_line st.read).1 ≠ []) :
    ((∃ m1 st1, get_attacked game simulation member opponent st = (.ok m1, st1)) ↔
      ∃ attackName a,
        (read_line st.read).1 =
          "attack ".toList ++ (game.agentAt opponent.agent).name ++ ' ' :: attackName ∧
        get_attack game attackName = some a ∧
        a ∈ (game.agentAt opponent.agent).legalAttacks) ∧
    ((¬ ∃ m1 st1, get_attacked game simulation member opponent st = (.ok m1, st1)) →
      (get_attacked game simulation member opponent st).1 =
        .error (.exit_game EXIT_BAD_MESSAGE)) ∧
    EXIT_BAD_MESSAGE = 19 ∧ exit_message EXIT_BAD_MESSAGE = "Protocol error".toList := by
  have hname := (hwf.2.2.1 _ (agentAt_mem hopp))
  refine ⟨⟨?_, ?_⟩, ?_, rfl, by decide⟩
  · rintro ⟨m1, st1, h⟩
    obtain ⟨a, hm, hg, hl1, hl2, -, -⟩ := get_attacked_ok h
    have htok : get_token (read_line st.read).1 ' ' = "attack".toList := by
      rcases read_team_msg_of_ne_nil simulation hline with ⟨h1, -⟩ | ⟨-, h2 | ⟨t, ht, h2⟩⟩
      · exact h1
      · rw [h2] at hm
        exact absurd hm (by simp)
      · rw [h2] at hm
        simp only [Except.ok.injEq, Prod.mk.injEq] at hm
        exact absurd hm.1 ht
    rcases get_token_split (read_line st.read).1 ' ' with hs | hs
    · exfalso
      rw [htok] at hs
      rw [hs] at hl2
      exact hname.1 hl2.symm
    · rw [htok] at hs
      have hd7 : (read_line st.read).1.drop "attack ".toList.length =
          (read_line st.read).1.drop ("attack".toList.length + 1) := rfl
      rw [hd7] at hl2
      generalize (read_line st.read).1.drop ("attack".toList.length + 1) = rest at hs hl2
      rcases get_token_split rest ' ' with hr | hr
      · exfalso
        rw [hl2] at hr
        have hnil : (read_line st.read).1.drop ("attack  ".toList.length +
            (game.agentAt opponent.agent).name.length) = [] := by
          rw [hs, hr]
          apply List.drop_eq_nil_of_le
          simp
          omega
        rw [hnil] at hg
        have := attackAt_name_of_get_attack hg
        exact (hwf.2.1.1 _ (attackAt_mem (get_attack_lt hg))).1 this
      · rw [hl2] at hr
        generalize rest.drop ((game.agentAt opponent.agent).name.length + 1) = rest2 at hr
        have hline2 : (read_line st.read).1 =
            "attack ".toList ++ (game.agentAt opponent.agent).name ++ ' ' :: rest2 := by
          rw [hs, hr]
          simp
        have hdrop : (read_line st.read).1.drop ("attack  ".toList.length +
            (game.agentAt opponent.agent).name.length) = rest2 := by
          rw [hline2]
          have e : "attack ".toList ++ (game.agentAt opponent.agent).name ++ ' ' :: rest2 =
              ("attack ".toList ++ (game.agentAt opponent.agent).name ++ [' ']) ++ rest2 := by
            simp
          rw [e]
          apply List.drop_left'
          simp
          omega
        rw [hdrop] at hg
        exact ⟨rest2, a, hline2, hg,
          (legal_attack_iff_mem hwf hopp (get_attack_lt hg)).mp hl1⟩
  · rintro ⟨attackName, a, hl, hg, hmem⟩
    have htok : get_token (read_line st.read).1 ' ' = "attack".toList := by
      rw [hl]
      have e : "attack ".toList ++ (game.agentAt opponent.agent).name ++ ' ' :: attackName =
          "attack".toList ++ ' ' :: ((game.agentAt opponent.agent).name ++ ' ' :: attackName) := by
        simp
      rw [e]
      exact get_token_append_sep (by decide) _
    have hm : read_team_msg simulation st.read = .ok (.ATTACK, (read_line st.read).1) := by
      rcases read_team_msg_of_ne_nil simulation hline with ⟨-, h1⟩ | ⟨h2, -⟩
      · exact h1
      · exact absurd htok h2
    have hdrop : (read_line st.read).1.drop ("attack  ".toList.length +
        (game.agentAt opponent.agent).name.length) = attackName := by
      rw [hl]
      have e : "attack ".toList ++ (game.agentAt opponent.agent).name ++ ' ' :: attackName =
          ("attack ".toList ++ (game.agentAt opponent.agent).name ++ [' ']) ++ attackName := by
        simp
      rw [e]
      apply List.drop_left'
      simp
      omega
    have hagent : get_token ((read_line st.read).1.drop "attack ".toList.length) ' ' =
        (game.agentAt opponent.agent).name := by
      rw [hl]
      have e : ("attack ".toList ++ (game.agentAt opponent.agent).name ++
          ' ' :: attackName).drop "attack ".toList.length =
          (game.agentAt opponent.agent).name ++ ' ' :: attackName := by
        rw [List.append_assoc]
        exact List.drop_left' rfl
      rw [e]
      exact get_token_append_sep hname.2.1 _
    have hlegal : legal_attack game (game.agentAt opponent.agent) (game.attackAt a) = true :=
      (legal_attack_iff_mem hwf hopp (get_attack_lt hg)).mpr hmem
    unfold get_attacked
    simp only
    rw [hm]
    simp only
    rw [if_neg (by simp), hdrop, hg]
    simp only
    rw [if_neg (by
      rintro (h | h)
      · rw [hlegal] at h
        exact absurd h (by simp)
      · exact h hagent)]
    exact ⟨_, _, rfl⟩
  · intro hno
    rcases hr : get_attacked game simulation member opponent st with ⟨r, st1⟩
    cases r with
    | error e =>
      rw [get_attacked_error hline hr]
    | ok m1 =>
      exact absurd ⟨m1, st1, hr⟩ hno

/-! ## The replies to `wherenow?` -/

/-- The outcome of `read_controller_msg`, by the first token of the line. -/
theorem read_controller_msg_spec (file : List Char) :
    (get_token (read_line file).1 ' ' = "wherenow?".toList ∧ (read_line file).1 ≠ [] ∧
      read_controller_msg file = .ok .WHERENOW) ∨
    (get_token (read_line file).1 ' ' ≠ "wherenow?".toList ∧
      (read_controller_msg file = .error (.exit_game EXIT_CONTROLLER_DISCO) ∨
        ((read_line file).1 ≠ [] ∧
          (read_controller_msg file = .error (.exit_game EXIT_BAD_MESSAGE) ∨
            read_controller_msg file = .ok .SINISTER ∨
            read_controller_msg file = .ok .BATTLE ∨
            read_controller_msg file = .ok .GAMEOVERMAN)))) := by
  unfold read_controller_msg
  simp only
  by_cases h0 : (read_line file).1.length = 0
  · rw [if_pos h0]
    have : (read_line file).1 = [] := List.length_eq_zero.mp h0
    exact Or.inr ⟨by rw [this]; decide, Or.inl rfl⟩
  · rw [if_neg h0]
    have hne : (read_line file).1 ≠ [] := fun e => h0 (by rw [e]; rfl)
    by_cases h1 : get_token (read_line file).1 ' ' = "sinister".toList
    · rw [if_pos h1]
      exact Or.inr ⟨by rw [h1]; decide, Or.inr ⟨hne, Or.inr (Or.inl rfl)⟩⟩
    rw [if_neg h1]
    by_cases h2 : get_token (read_line file).1 ' ' = "battle".toList
    · rw [if_pos h2]
      exact Or.inr ⟨by rw [h2]; decide, Or.inr ⟨hne, Or.inr (Or.inr (Or.inl rfl))⟩⟩
    rw [if_neg h2]
    by_cases h3 : get_token (read_line file).1 ' ' = "gameoverman".toList
    · rw [if_pos h3]
      exact Or.inr ⟨by rw [h3]; decide, Or.inr ⟨hne, Or.inr (Or.inr (Or.inr rfl))⟩⟩
    rw [if_neg h3]
    by_cases h4 : get_token (read_line file).1 ' ' = "wherenow?".toList
    · rw [if_pos h4]
      exact Or.inl ⟨h4, hne, rfl⟩
    rw [if_neg h4]
    exact Or.inr ⟨h4, Or.inr ⟨hne, Or.inl rfl⟩⟩

theorem filter_read_wherenow {line : List Char}
    (h : get_token line ' ' = "wherenow?".toList) (es : List Event) :
    (Event.read line :: es).filter wherenow_or_write =
      Event.read line :: es.filter wherenow_or_write :=
  List.filter_cons_of_pos (by simp only [wherenow_or_write]; exact decide_eq_true h)

theorem filter_read_other {line : List Char}
    (h : get_token line ' ' ≠ "wherenow?".toList) (es : List Event) :
    (Event.read line :: es).filter wherenow_or_write = es.filter wherenow_or_write :=
  List.filter_cons_of_neg (by simp only [wherenow_or_write]; simpa using h)

theorem filter_zone (x y : Int) (es : List Event) :
    (Event.zone x y :: es).filter wherenow_or_write = es.filter wherenow_or_write :=
  List.filter_cons_of_neg (by simp [wherenow_or_write])

theorem filter_challenge (port : Int) (es : List Event) :
    (Event.challenge port :: es).filter wherenow_or_write = es.filter wherenow_or_write :=
  List.filter_cons_of_neg (by simp [wherenow_or_write])

theorem filter_narratives (es : List Event) :
    (Event.narratives :: es).filter wherenow_or_write = es.filter wherenow_or_write :=
  List.filter_cons_of_neg (by simp [wherenow_or_write])

theorem filter_write (text : List Char) (es : List Event) :
    (Event.write text :: es).filter wherenow_or_write =
      Event.write text :: es.filter wherenow_or_write :=
  List.filter_cons_of_pos (by simp [wherenow_or_write])

theorem wherenow_lines_read {line : List Char}
    (h : get_token line ' ' = "wherenow?".toList) (es : List Event) :
    wherenow_lines (Event.read line :: es) = line :: wherenow_lines es := by
  rw [wherenow_lines, if_pos h]

theorem wherenow_lines_zone (x y : Int) (es : List Event) :
    wherenow_lines (Event.zone x y :: es) = wherenow_lines es := rfl

theorem wherenow_lines_challenge (port : Int) (es : List Event) :
    wherenow_lines (Event.challenge port :: es) = wherenow_lines es := rfl

theorem wherenow_lines_narratives (es : List Event) :
    wherenow_lines (Event.narratives :: es) = wherenow_lines es := rfl

theorem wherenow_lines_write (text : List Char) (es : List Event) :
    wherenow_lines (Event.write text :: es) = wherenow_lines es := rfl

theorem wherenow_lines_read_other {line : List Char}
    (h : get_token line ' ' ≠ "wherenow?".toList) (es : List Event) :
    wherenow_lines (Event.read line :: es) = wherenow_lines es := by
  rw [wherenow_lines, if_neg h]

/-- With fuel for the length of the message, the loop over the ports ends,
and all it does is start challenge threads. -/
theorem challenge_ports_ok (message : List Char) :
    ∀ (fuel pos : Nat), message.length ≤ pos + fuel →
      ∃ events, challenge_ports message fuel pos = .ok events ∧
        events.filter wherenow_or_write = [] ∧ wherenow_lines events = [] := by
  intro fuel
  induction fuel with
  | zero =>
    intro pos h
    rw [challenge_ports, if_neg (by omega)]
    exact ⟨[], rfl, rfl, rfl⟩
  | succ fuel ih =>
    intro pos h
    rw [challenge_ports]
    by_cases hp : pos < message.length
    · rw [if_pos hp]
      simp only
      rw [get_token_update_pos_of_lt ' ' hp]
      simp only
      obtain ⟨events, he, hf, hw⟩ := ih (pos + ((get_token (message.drop pos) ' ').length + 1))
        (by omega)
      rw [he]
      cases hn : number (some (get_token (message.drop pos) ' ')) with
      | error e =>
        unfold number at hn
        simp only at hn
        by_cases hd : (get_token (message.drop pos) ' ').all isdigit = true
        · rw [if_pos hd] at hn
          exact absurd hn (by simp)
        · rw [if_neg hd] at hn
          exact absurd hn (by simp)
      | ok port =>
        exact ⟨_, rfl, by rw [filter_challenge]; exact hf,
          by rw [wherenow_lines_challenge]; exact hw⟩
    · rw [if_neg hp]
      exact ⟨[], rfl, rfl, rfl⟩

theorem filter_challenges {events : List Event} (h : events.filter wherenow_or_write = [])
    (rest : List Event) :
    (events ++ rest).filter wherenow_or_write = rest.filter wherenow_or_write := by
  rw [List.filter_append, h, List.nil_append]

theorem wherenow_lines_challenges :
    ∀ {events : List Event}, events.filter wherenow_or_write = [] →
      ∀ rest : List Event, wherenow_lines (events ++ rest) = wherenow_lines rest := by
  intro events
  induction events with
  | nil => intro _ rest; rfl
  | cons e es ih =>
    intro h rest
    cases e with
    | read line =>
      by_cases hl : get_token line ' ' = "wherenow?".toList
      · rw [filter_read_wherenow hl] at h
        exact absurd h (by simp)
      · rw [filter_read_other hl] at h
        rw [List.cons_append, wherenow_lines_read_other hl]
        exact ih h rest
    | zone x y =>
      rw [filter_zone] at h
      rw [List.cons_append, wherenow_lines_zone]
      exact ih h rest
    | challenge port =>
      rw [filter_challenge] at h
      rw [List.cons_append, wherenow_lines_challenge]
      exact ih h rest
    | narratives =>
      rw [filter_narratives] at h
      rw [List.cons_append, wherenow_lines_narratives]
      exact ih h rest
    | write text =>
      rw [filter_write] at h
      exact absurd h (by simp)

/-- The loop of `run_simulation` with fuel for the length of the stream, for
a team with directions whose cursor is on direction number `k mod n`: it does
not run out of fuel, and every `wherenow?` message is followed by the reply
that names the next direction of the ring. -/
theorem run_simulation_spec :
    ∀ (fuel : Nat) (team : Team) (file : List Char) (k : Nat),
      team.directions ≠ [] → team.nextMove = k % team.directions.length →
      file.length < fuel →
      (run_simulation fuel team file).2 ≠ .out_of_fuel ∧
      (run_simulation fuel team file).1.filter wherenow_or_write =
        travel_replies team.directions k (wherenow_lines (run_simulation fuel team file).1) := by
  intro fuel
  induction fuel with
  | zero =>
    intro team file k hd hk hf
    exact absurd hf (by omega)
  | succ fuel ih =>
    intro team file k hd hk hf
    have hrest : (read_line file).1 ≠ [] → (read_line file).2.length < fuel := by
      intro hne
      have hfile : file ≠ [] := by
        intro e
        rw [e] at hne
        exact hne rfl
      have := read_line_length hfile
      omega
    rw [run_simulation]
    simp only
    rcases read_controller_msg_spec file with ⟨htok, hne, hm⟩ | ⟨htok, hm | ⟨hne, hm | hm | hm | hm⟩⟩
    · rw [hm]
      simp only
      rw [if_neg hd]
      obtain ⟨q1, q2⟩ := ih { team with nextMove := (team.nextMove + 1) % team.directions.length }
        (read_line file).2 (k + 1) hd
        (by
          show (team.nextMove + 1) % team.directions.length = (k + 1) % team.directions.length
          rw [hk, Nat.add_mod, Nat.mod_mod, ← Nat.add_mod])
        (hrest hne)
      refine ⟨q1, ?_⟩
      rw [filter_read_wherenow htok, filter_narratives, filter_write, wherenow_lines_read htok,
        wherenow_lines_narratives, wherenow_lines_write, travel_replies, ← hk, q2]
    · rw [hm]
      simp only
      refine ⟨by simp, ?_⟩
      rw [filter_read_other htok, wherenow_lines_read_other htok]
      rfl
    · rw [hm]
      simp only
      refine ⟨by simp, ?_⟩
      rw [filter_read_other htok, wherenow_lines_read_other htok]
      rfl
    · rw [hm]
      simp only
      refine ⟨by simp, ?_⟩
      rw [filter_read_other htok, wherenow_lines_read_other htok]
      rfl
    · rw [hm]
      simp only
      by_cases hp : "battle ".toList.length ≥ (read_line file).1.length
      · rw [if_pos hp]
        refine ⟨by simp, ?_⟩
        rw [filter_read_other htok, wherenow_lines_read_other htok]
        rfl
      rw [if_neg hp]
      cases hc : get_coords (read_line file).1 ' ' "battle ".toList.length with
      | error e =>
        simp only
        have he : e = .undefined := by
          unfold get_coords at hc
          simp only at hc
          cases hx : number (get_token_update_pos (read_line file).1 ' '
              "battle ".toList.length).1 with
          | error e1 =>
            rw [hx] at hc
            simp only [Except.error.injEq] at hc
            subst hc
            unfold number at hx
            cases hv : (get_token_update_pos (read_line file).1 ' '
                "battle ".toList.length).1 with
            | none =>
              rw [hv] at hx
              simp only [Except.error.injEq] at hx
              exact hx.symm
            | some v =>
              rw [hv] at hx
              simp only at hx
              by_cases hdg : v.all isdigit = true
              · rw [if_pos hdg] at hx
                exact absurd hx (by simp)
              · rw [if_neg hdg] at hx
                exact absurd hx (by simp)
          | ok xv =>
            rw [hx] at hc
            simp only at hc
            cases hy : number (get_token_update_pos (read_line file).1 ' '
                (get_token_update_pos (read_line file).1 ' '
                  "battle ".toList.length).2).1 with
            | error e1 =>
              rw [hy] at hc
              simp only [Except.error.injEq] at hc
              subst hc
              unfold number at hy
              cases hv : (get_token_update_pos (read_line file).1 ' '
                  (get_token_update_pos (read_line file).1 ' '
                    "battle ".toList.length).2).1 with
              | none =>
                rw [hv] at hy
                simp only [Except.error.injEq] at hy
                exact hy.symm
              | some v =>
                rw [hv] at hy
                simp only at hy
                by_cases hdg : v.all isdigit = true
                · rw [if_pos hdg] at hy
                  exact absurd hy (by simp)
                · rw [if_neg hdg] at hy
                  exact absurd hy (by simp)
            | ok yv =>
              rw [hy] at hc
              exact absurd hc (by simp)
        refine ⟨by rw [he]; simp, ?_⟩
        rw [filter_read_other htok, wherenow_lines_read_other htok]
        rfl
      | ok coords =>
        simp only
        by_cases hneg : coords.1.x < 0 ∨ coords.1.y < 0
        · rw [if_pos hneg]
          refine ⟨by simp, ?_⟩
          rw [filter_read_other htok, wherenow_lines_read_other htok]
          rfl
        rw [if_neg hneg]
        obtain ⟨events, he, hf1, hw1⟩ := challenge_ports_ok (read_line file).1
          (read_line file).1.length coords.2 (by omega)
        rw [he]
        simp only
        obtain ⟨q1, q2⟩ := ih { team with pos := coords.1 } (read_line file).2 k hd hk (hrest hne)
        refine ⟨q1, ?_⟩
        have e1 : (Event.read (read_line file).1 :: Event.zone coords.1.x coords.1.y ::
            events ++ (run_simulation fuel { team with pos := coords.1 } (read_line file).2).1) =
            [Event.read (read_line file).1, Event.zone coords.1.x coords.1.y] ++
              (events ++
                (run_simulation fuel { team with pos := coords.1 } (read_line file).2).1) := rfl
        have hf2 : ([Event.read (read_line file).1, Event.zone coords.1.x coords.1.y]).filter
            wherenow_or_write = [] := by
          rw [filter_read_other htok, filter_zone]
          rfl
        rw [e1, filter_challenges hf2, wherenow_lines_challenges hf2, filter_challenges hf1,
          wherenow_lines_challenges hf1]
        exact q2
    · rw [hm]
      simp only
      refine ⟨by simp, ?_⟩
      rw [filter_read_other htok, wherenow_lines_read_other htok]
      rfl

/-- Function `read_directions` on direction letters that are each followed by a space or
a newline: the ring has the letters appended in the order of the text. -/
theorem read_directions_letters :
    ∀ (ps : List (Char × Char)) (ring : List Char),
      (∀ p ∈ ps, (p.1 = 'N' ∨ p.1 = 'S' ∨ p.1 = 'E' ∨ p.1 = 'W') ∧ (p.2 = ' ' ∨ p.2 = '\n')) →
      (ring ≠ [] ∨ ps ≠ []) →
      read_directions (ps.map (fun p => [p.1, p.2])).flatten ring =
        .ok (ring ++ ps.map Prod.fst, []) := by
  intro ps
  induction ps with
  | nil =>
    intro ring _ hne
    have : ring ≠ [] := by
      rcases hne with h | h
      · exact h
      · exact absurd rfl h
    simp only [List.map_nil, List.flatten_nil, List.append_nil]
    rw [read_directions, if_neg this]
  | cons p ps ih =>
    intro ring hp _
    have h1 := hp p (List.mem_cons_self _ _)
    simp only [List.map_cons, List.flatten_cons, List.cons_append, List.nil_append]
    rw [read_directions, if_pos h1.1, if_neg (by
      rintro ⟨a, b⟩
      rcases h1.2 with h | h
      · exact a h
      · exact b h)]
    rw [ih (ring ++ [p.1]) (fun q hq => hp q (List.mem_cons_of_mem _ hq)) (Or.inl (by simp))]
    simp

/-- The cursor of a team that `read_team_file` returns is on the first
direction of its ring. -/
theorem read_team_file_ok_nextMove {game : Game} {file : List Char} {team : Team}
    (h : read_team_file game file = .ok team) : team.nextMove = 0 := by
  unfold read_team_file at h
  simp only at h
  by_cases h0 : (read_line file).1.length = 0
  · rw [if_pos h0] at h
    exact absurd h (by simp)
  rw [if_neg h0] at h
  cases ha : read_agents (read_line file).2 game with
  | error e =>
    rw [ha] at h
    exact absurd h (by simp)
  | ok r =>
    obtain ⟨members, f1⟩ := r
    rw [ha] at h
    simp only at h
    rcases hf : fgets BUFFER f1 with ⟨_ | coords, f2⟩
    · rw [hf] at h
      exact absurd h (by simp)
    rw [hf] at h
    simp only at h
    cases hc : get_coords coords '\n' 0 with
    | error e =>
      rw [hc] at h
      exact absurd h (by simp)
    | ok r2 =>
      obtain ⟨pos, p2⟩ := r2
      rw [hc] at h
      simp only at h
      by_cases hneg : pos.x < 0 ∨ pos.y < 0
      · rw [if_pos hneg] at h
        exact absurd h (by simp)
      rw [if_neg hneg] at h
      cases hd : read_directions f2 [] with
      | error e =>
        rw [hd] at h
        exact absurd h (by simp)
      | ok r3 =>
        obtain ⟨directions, f3⟩ := r3
        rw [hd] at h
        simp only at h
        by_cases h3 : f3 ≠ []
        · rw [if_pos h3] at h
          exact absurd h (by simp)
        rw [if_neg h3] at h
        simp only [Except.ok.injEq] at h
        subst h
        rfl

/-- Claim C14: `read_directions` stores the direction letters of the file in
their order; a team that `read_team_file` returns has a ring that is not
empty and its cursor on the first direction; and for such a team
`run_simulation`, with fuel for the length of the controller stream, does
not run out of fuel and answers the `wherenow?` message number `k` (from 0)
with `travel d`, where `d` is the direction number `k mod n` of the `n`
directions: the `wherenow?` messages it reads and what it writes to the
controller are, in order, each message followed by that reply. -/
theorem run_simulation_travel :
    (∀ ps : List (Char × Char), ps ≠ [] →
      (∀ p ∈ ps, (p.1 = 'N' ∨ p.1 = 'S' ∨ p.1 = 'E' ∨ p.1 = 'W') ∧ (p.2 = ' ' ∨ p.2 = '\n')) →
      read_directions (ps.map (fun p => [p.1, p.2])).flatten [] = .ok (ps.map Prod.fst, [])) ∧
    (∀ (game : Game) (file : List Char) (team : Team), read_team_file game file = .ok team →
      team.nextMove = 0 ∧ team.directions ≠ []) ∧
    (∀ (team : Team) (file : List Char) (fuel : Nat),
      team.directions ≠ [] → team.nextMove = 0 → file.length < fuel →
      (run_simulation fuel team file).2 ≠ .out_of_fuel ∧
      (run_simulation fuel team file).1.filter wherenow_or_write =
        travel_replies team.directions 0 (wherenow_lines (run_simulation fuel team file).1)) := by
  refine ⟨?_, ?_, ?_⟩
  · intro ps hne hp
    have := read_directions_letters ps [] hp (Or.inr hne)
    simpa using this
  · intro game file team h
    refine ⟨read_team_file_ok_nextMove h, ?_⟩
    obtain ⟨f2, rest, hd⟩ := read_team_file_ok_directions h
    exact (read_directions_ok f2 [] _ rest hd (by simp)).1
  · intro team file fuel hd hn hf
    exact run_simulation_spec fuel team file 0 hd (by rw [hn, Nat.zero_mod]) hf

/-- The team of the golden team file, with the directions N, E and S, answers
four `wherenow?` messages with N, E, S and N. -/
theorem run_simulation_travel_witness :
    read_directions "N E\nS\n".toList [] = .ok (['N', 'E', 'S'], []) ∧
    ((run_simulation 100 { alphaTeam with directions := ['N', 'E', 'S'] } controllerText).2 ≠
        .out_of_fuel ∧
      (run_simulation 100 { alphaTeam with directions := ['N', 'E', 'S'] }
          controllerText).1.filter wherenow_or_write =
        travel_replies ['N', 'E', 'S'] 0
          (wherenow_lines (run_simulation 100 { alphaTeam with directions := ['N', 'E', 'S'] }
            controllerText).1)) ∧
    (run_simulation 100 { alphaTeam with directions := ['N', 'E', 'S'] }
        controllerText).1.filter wherenow_or_write =
      [.read "wherenow?".toList, .write "travel N\n".toList,
        .read "wherenow?".toList, .write "travel E\n".toList,
        .read "wherenow?".toList, .write "travel S\n".toList,
        .read "wherenow?".toList, .write "travel N\n".toList] :=
  ⟨run_simulation_travel.1 [('N', ' '), ('E', '\n'), ('S', '\n')] (by decide) (by decide),
    run_simulation_travel.2.2 { alphaTeam with directions := ['N', 'E', 'S'] } controllerText 100
      (by decide) rfl (by decide),
    by rfl⟩

/-! ## Zones of the roster -/

theorem coords_eq_iff (p q : Coords) : p = q ↔ p.x = q.x ∧ p.y = q.y := by
  cases p
  cases q
  simp

/-- The two ways in which `place` changes the groups. -/
theorem place_cases (sim : Simulation) (a : Nat) :
    ∀ groups : List (List Nat),
      (∃ pre g post, groups = pre ++ g :: post ∧
        (sim.teamAt (g.headD 0)).pos = (sim.teamAt a).pos ∧
        (∀ z ∈ pre, (sim.teamAt (z.headD 0)).pos ≠ (sim.teamAt a).pos) ∧
        Controller.place sim a groups = pre ++ (g ++ [a]) :: post) ∨
      ((∀ z ∈ groups, (sim.teamAt (z.headD 0)).pos ≠ (sim.teamAt a).pos) ∧
        Controller.place sim a groups = groups ++ [[a]]) := by
  intro groups
  induction groups with
  | nil => exact Or.inr ⟨by simp, rfl⟩
  | cons g gs ih =>
    rw [Controller.place]
    by_cases h : (sim.teamAt (g.headD 0)).pos.x = (sim.teamAt a).pos.x ∧
        (sim.teamAt (g.headD 0)).pos.y = (sim.teamAt a).pos.y
    · rw [if_pos h]
      exact Or.inl ⟨[], g, gs, rfl, (coords_eq_iff _ _).mpr h, by simp, rfl⟩
    · rw [if_neg h]
      have hne : (sim.teamAt (g.headD 0)).pos ≠ (sim.teamAt a).pos :=
        fun e => h ((coords_eq_iff _ _).mp e)
      rcases ih with ⟨pre, g1, post, h1, h2, h3, h4⟩ | ⟨h1, h2⟩
      · refine Or.inl ⟨g :: pre, g1, post, by rw [h1]; rfl, h2, ?_, by rw [h4]; rfl⟩
        intro z hz
        rcases List.mem_cons.mp hz with rfl | hz
        · exact hne
        · exact h3 z hz
      · refine Or.inr ⟨?_, by rw [h2]; rfl⟩
        intro z hz
        rcases List.mem_cons.mp hz with rfl | hz
        · exact hne
        · exact h1 z hz

theorem place_flatten (sim : Simulation) (a : Nat) :
    ∀ groups : List (List Nat),
      (Controller.place sim a groups).flatten.Perm (groups.flatten ++ [a]) := by
  intro groups
  rcases place_cases sim a groups with ⟨pre, g, post, h1, -, -, h4⟩ | ⟨-, h2⟩
  · rw [h4, h1]
    simp only [List.flatten_append, List.flatten_cons, List.append_assoc]
    refine List.Perm.append_left _ (List.Perm.append_left _ ?_)
    exact List.perm_append_comm
  · rw [h2]
    simp

theorem headD_append_singleton {g : List Nat} (h : g ≠ []) (a : Nat) :
    (g ++ [a]).headD 0 = g.headD 0 := by
  cases g with
  | nil => exact absurd rfl h
  | cons x xs => rfl

theorem headD_mem {g : List Nat} (h : g ≠ []) : g.headD 0 ∈ g := by
  cases g with
  | nil => exact absurd rfl h
  | cons x xs => simp

/-- One more team keeps the invariant of the groups. -/
theorem Grouped_place {sim : Simulation} {k : Nat} {zones : List (List Nat)}
    (h : Grouped sim k zones) : Grouped sim (k + 1) (Controller.place sim k zones) := by
  obtain ⟨h1, h2, h3, h4, h5, h6⟩ := h
  have hlt : ∀ z ∈ zones, ∀ i ∈ z, i < k := by
    intro z hz i hi
    have : i ∈ zones.flatten := List.mem_flatten.mpr ⟨z, hz, hi⟩
    simpa using (h2.mem_iff.mp this)
  have hperm : (Controller.place sim k zones).flatten.Perm (List.range (k + 1)) := by
    rw [List.range_succ]
    exact (place_flatten sim k zones).trans (List.Perm.append_right _ h2)
  rcases place_cases sim k zones with ⟨pre, g, post, e1, e2, e3, e4⟩ | ⟨e1, e2⟩
  · have hg : g ∈ zones := by rw [e1]; simp
    have hgne : g ≠ [] := h1 g hg
    have hmem : ∀ z ∈ pre ++ (g ++ [k]) :: post, z = g ++ [k] ∨ z ∈ zones := by
      intro z hz
      rw [e1]
      simp only [List.mem_append, List.mem_cons] at hz ⊢
      rcases hz with hz | hz | hz
      · exact Or.inr (Or.inl hz)
      · exact Or.inl hz
      · exact Or.inr (Or.inr (Or.inr hz))
    have hheads : (pre ++ (g ++ [k]) :: post).map (fun z => z.headD 0) =
        zones.map (fun z => z.headD 0) := by
      rw [e1]
      simp only [List.map_append, List.map_cons, headD_append_singleton hgne]
    have hposs : (pre ++ (g ++ [k]) :: post).map (fun z => (sim.teamAt (z.headD 0)).pos) =
        zones.map (fun z => (sim.teamAt (z.headD 0)).pos) := by
      rw [e1]
      simp only [List.map_append, List.map_cons, headD_append_singleton hgne]
    rw [e4] at hperm ⊢
    refine ⟨?_, hperm, ?_, by rw [hheads]; exact h4, ?_, by rw [hposs]; exact h6⟩
    · intro z hz
      rcases hmem z hz with rfl | hz
      · simp
      · exact h1 z hz
    · intro z hz
      rcases hmem z hz with rfl | hz
      · rw [List.pairwise_append]
        refine ⟨h3 g hg, by simp, ?_⟩
        intro x hx y hy
        rw [List.mem_singleton] at hy
        rw [hy]
        exact hlt g hg x hx
      · exact h3 z hz
    · intro z hz i hi
      rcases hmem z hz with rfl | hz
      · rw [headD_append_singleton hgne]
        rcases List.mem_append.mp hi with hi | hi
        · exact h5 g hg i hi
        · rw [List.mem_singleton] at hi
          rw [hi]
          exact e2.symm
      · exact h5 z hz i hi
  · rw [e2] at hperm ⊢
    refine ⟨?_, hperm, ?_, ?_, ?_, ?_⟩
    · intro z hz
      rcases List.mem_append.mp hz with hz | hz
      · exact h1 z hz
      · rw [List.mem_singleton] at hz
        rw [hz]
        simp
    · intro z hz
      rcases List.mem_append.mp hz with hz | hz
      · exact h3 z hz
      · rw [List.mem_singleton] at hz
        rw [hz]
        simp
    · rw [List.map_append, List.pairwise_append]
      refine ⟨h4, by simp, ?_⟩
      intro x hx y hy
      obtain ⟨z, hz, rfl⟩ := List.mem_map.mp hx
      simp only [List.map_cons, List.map_nil, List.mem_singleton, List.headD_cons] at hy
      rw [hy]
      exact hlt z hz _ (headD_mem (h1 z hz))
    · intro z hz i hi
      rcases List.mem_append.mp hz with hz | hz
      · exact h5 z hz i hi
      · rw [List.mem_singleton] at hz
        rw [hz] at hi ⊢
        rw [List.mem_singleton] at hi
        rw [hi]
        rfl
    · rw [List.map_append, List.pairwise_append]
      refine ⟨h6, by simp, ?_⟩
      intro x hx y hy
      obtain ⟨z, hz, rfl⟩ := List.mem_map.mp hx
      simp only [List.map_cons, List.map_nil, List.mem_singleton, List.headD_cons] at hy
      rw [hy]
      exact e1 z hz

/-- The groups that the loop of `get_grouped_teams` has made after `k` teams. -/
theorem Grouped_foldl (sim : Simulation) :
    ∀ k : Nat, Grouped sim k
      ((List.range k).foldl (fun groups a => Controller.place sim a groups) []) := by
  intro k
  induction k with
  | zero =>
    refine ⟨by simp, by simp, by simp, by simp, by simp, by simp⟩
  | succ k ih =>
    rw [List.range_succ, List.foldl_append]
    exact Grouped_place ih

theorem get_grouped_teams_zero (sim : Simulation) :
    Controller.get_grouped_teams sim 0 =
      .ok ((List.range sim.teams.length).foldl
          (fun groups a => Controller.place sim a groups) [],
        ((List.range sim.teams.length).foldl
          (fun groups a => Controller.place sim a groups) []).length) := by
  unfold Controller.get_grouped_teams
  rw [if_neg (by simp)]

/-- Two groups with a common team are the same group. -/
theorem Grouped_unique {sim : Simulation} {k : Nat} {zones : List (List Nat)}
    (h : Grouped sim k zones) {z1 z2 : List Nat} (h1 : z1 ∈ zones) (h2 : z2 ∈ zones)
    (hp : (sim.teamAt (z1.headD 0)).pos = (sim.teamAt (z2.headD 0)).pos) : z1 = z2 := by
  have hnd : (zones.map (fun z => (sim.teamAt (z.headD 0)).pos)).Nodup := h.2.2.2.2.2
  exact List.inj_on_of_nodup_map hnd h1 h2 hp

/-- Claim C21: called with the zone counter at 0, `get_grouped_teams` returns
a partition of the roster into zones, each a list of roster indices, with
their number: the zones together hold every roster index exactly once and
none is empty; two teams are in one zone exactly when they have the same
position; every zone is in increasing roster order; and the first teams of
the zones are in increasing roster order. -/
theorem get_grouped_teams_partition (sim : Simulation) :
    ∃ zones : List (List Nat),
      Controller.get_grouped_teams sim 0 = .ok (zones, zones.length) ∧
      zones.flatten.Perm (List.range sim.teams.length) ∧ (∀ z ∈ zones, z ≠ []) ∧
      (∀ i j, i < sim.teams.length → j < sim.teams.length →
        ((∃ z ∈ zones, i ∈ z ∧ j ∈ z) ↔ (sim.teamAt i).pos = (sim.teamAt j).pos)) ∧
      (∀ z ∈ zones, z.Pairwise (· < ·)) ∧
      (zones.map (fun z => z.headD 0)).Pairwise (· < ·) := by
  have hG := Grouped_foldl sim sim.teams.length
  refine ⟨_, get_grouped_teams_zero sim, hG.2.1, hG.1, ?_, hG.2.2.1, hG.2.2.2.1⟩
  intro i j hi hj
  constructor
  · rintro ⟨z, hz, hiz, hjz⟩
    rw [hG.2.2.2.2.1 z hz i hiz, hG.2.2.2.2.1 z hz j hjz]
  · intro hp
    have hi' : i ∈ List.flatten ((List.range sim.teams.length).foldl
        (fun groups a => Controller.place sim a groups) []) :=
      hG.2.1.mem_iff.mpr (by simpa using hi)
    have hj' : j ∈ List.flatten ((List.range sim.teams.length).foldl
        (fun groups a => Controller.place sim a groups) []) :=
      hG.2.1.mem_iff.mpr (by simpa using hj)
    obtain ⟨z1, hz1, hiz⟩ := List.mem_flatten.mp hi'
    obtain ⟨z2, hz2, hjz⟩ := List.mem_flatten.mp hj'
    have : z1 = z2 := by
      apply Grouped_unique hG hz1 hz2
      rw [← hG.2.2.2.2.1 z1 hz1 i hiz, ← hG.2.2.2.2.1 z2 hz2 j hjz]
      exact hp
    subst this
    exact ⟨z1, hz1, hiz, hjz⟩

/-! ## Streams of the roster -/

theorem Stable_refl (s : Simulation) : Stable s s :=
  ⟨rfl, rfl, rfl, rfl, fun _ => ⟨rfl, rfl, rfl⟩⟩

theorem Stable_trans {s s1 s2 : Simulation} (h1 : Stable s s1) (h2 : Stable s1 s2) :
    Stable s s2 := by
  obtain ⟨a1, a2, a3, a4, a5⟩ := h1
  obtain ⟨b1, b2, b3, b4, b5⟩ := h2
  refine ⟨b1.trans a1, b2.trans a2, b3.trans a3, b4.trans a4, fun k => ?_⟩
  exact ⟨(b5 k).1.trans (a5 k).1, (b5 k).2.1.trans (a5 k).2.1, (b5 k).2.2.trans (a5 k).2.2⟩

theorem colocated_stable {s s1 : Simulation} (h : Stable s s1) (i j : Nat) :
    colocated s1 i j = colocated s i j := by
  unfold colocated
  rw [(h.2.2.2.2 i).2.2, (h.2.2.2.2 j).2.2]

theorem colocated_iff (sim : Simulation) (i j : Nat) :
    colocated sim i j = true ↔ (sim.teamAt i).pos = (sim.teamAt j).pos := by
  unfold colocated
  rw [decide_eq_true_iff, coords_eq_iff]

theorem colocated_comm (sim : Simulation) (i j : Nat) :
    colocated sim i j = colocated sim j i := by
  rw [Bool.eq_iff_iff, colocated_iff, colocated_iff]
  exact eq_comm

/-- The team number `k` after a store into `sim->teams[i]`. -/
theorem teamAt_set (sim : Simulation) (i k : Nat) (v : Controller.Team)
    (log : List Controller.Received) :
    ({ sim with teams := sim.teams.set i v, log := log } : Simulation).teamAt k =
      if k = i ∧ i < sim.teams.length then v else sim.teamAt k := by
  unfold Simulation.teamAt
  simp only [List.getD_eq_getElem?_getD, List.getElem?_set]
  by_cases h : i = k
  · subst h
    by_cases h2 : i < sim.teams.length
    · simp [h2]
    · simp [h2]
      rw [List.getElem?_eq_none (by omega)]
      rfl
  · have h' : ¬ (k = i ∧ i < sim.teams.length) := fun e => h e.1.symm
    simp [h, h']

/-- What `write_to` changes. -/
theorem write_to_spec (sim : Simulation) (i : Nat) (text : List Char) :
    Stable sim (Controller.write_to sim i text) ∧
    (Controller.write_to sim i text).log = sim.log ∧
    (∀ k, ((Controller.write_to sim i text).teamAt k).read = (sim.teamAt k).read) ∧
    (∀ k, ((Controller.write_to sim i text).teamAt k).write =
      if k = i ∧ i < sim.teams.length then (sim.teamAt k).write ++ text
      else (sim.teamAt k).write) := by
  have key : ∀ k, (Controller.write_to sim i text).teamAt k =
      if k = i ∧ i < sim.teams.length then
        { sim.teamAt i with write := (sim.teamAt i).write ++ text }
      else sim.teamAt k := fun k => teamAt_set sim i k _ sim.log
  refine ⟨⟨by simp [Controller.write_to], rfl, rfl, rfl, fun k => ?_⟩, rfl, fun k => ?_,
    fun k => ?_⟩
  · rw [key]
    by_cases h : k = i ∧ i < sim.teams.length
    · rw [if_pos h, h.1]
      exact ⟨rfl, rfl, rfl⟩
    · rw [if_neg h]
      exact ⟨rfl, rfl, rfl⟩
  · rw [key]
    by_cases h : k = i ∧ i < sim.teams.length
    · rw [if_pos h, h.1]
    · rw [if_neg h]
  · rw [key]
    by_cases h : k = i ∧ i < sim.teams.length
    · rw [if_pos h, if_pos h, h.1]
    · rw [if_neg h, if_neg h]

theorem read_msg_type (file : List Char) :
    (Controller.read_msg file).1 = Controller.type_of (Controller.next_message file) := by
  unfold Controller.read_msg Controller.next_message
  by_cases h : file = []
  · rw [if_pos h, if_pos h]
    rfl
  · rw [if_neg h, if_neg h]
    rfl

/-- What `read_from` changes, and what it returns. -/
theorem read_from_spec (sim : Simulation) (i : Nat) :
    Stable sim (Controller.read_from sim i).2.2 ∧
    (Controller.read_from sim i).2.2.log =
      sim.log ++ [⟨i, Controller.next_message (sim.teamAt i).read⟩] ∧
    (∀ k, ((Controller.read_from sim i).2.2.teamAt k).write = (sim.teamAt k).write) ∧
    (∀ k, k ≠ i → ((Controller.read_from sim i).2.2.teamAt k).read = (sim.teamAt k).read) ∧
    (Controller.read_from sim i).1 =
      Controller.type_of (Controller.next_message (sim.teamAt i).read) := by
  have key : ∀ k, (Controller.read_from sim i).2.2.teamAt k =
      if k = i ∧ i < sim.teams.length then
        { sim.teamAt i with read := (Controller.read_msg (sim.teamAt i).read).2.2 }
      else sim.teamAt k := fun k => teamAt_set sim i k _ _
  refine ⟨⟨by simp [Controller.read_from], rfl, rfl, rfl, fun k => ?_⟩, rfl, fun k => ?_,
    fun k hk => ?_, read_msg_type _⟩
  · rw [key]
    by_cases h : k = i ∧ i < sim.teams.length
    · rw [if_pos h, h.1]
      exact ⟨rfl, rfl, rfl⟩
    · rw [if_neg h]
      exact ⟨rfl, rfl, rfl⟩
  · rw [key]
    by_cases h : k = i ∧ i < sim.teams.length
    · rw [if_pos h, h.1]
    · rw [if_neg h]
  · rw [key, if_neg (fun e => hk e.1)]

theorem message_type_error {line : List Char} {e : Stop}
    (h : Controller.message_type line = .error e) : e = .exit_game EXIT_BAD_MESSAGE := by
  unfold Controller.message_type at h
  simp only at h
  by_cases h1 : get_token line ' ' = "iwannaplay".toList
  · rw [if_pos h1] at h
    exact absurd h (by simp)
  rw [if_neg h1] at h
  by_cases h2 : get_token line ' ' = "donefighting".toList
  · rw [if_pos h2] at h
    exact absurd h (by simp)
  rw [if_neg h2] at h
  by_cases h3 : get_token line ' ' = "disco".toList
  · rw [if_pos h3] at h
    exact absurd h (by simp)
  rw [if_neg h3] at h
  by_cases h4 : get_token line ' ' = "travel".toList
  · rw [if_pos h4] at h
    exact absurd h (by simp)
  rw [if_neg h4] at h
  simp only [Except.error.injEq] at h
  exact h.symm

theorem type_of_error {message : Option (List Char)} {e : Stop}
    (h : Controller.type_of message = .error e) : e = .exit_game EXIT_BAD_MESSAGE := by
  cases message with
  | none => exact absurd h (by simp [Controller.type_of])
  | some line => exact message_type_error h

theorem pair_outcome_error {a b : Option (List Char)} {e : Stop}
    (h : Controller.pair_outcome a b = .error e) : e = .exit_game EXIT_BAD_MESSAGE := by
  unfold Controller.pair_outcome at h
  cases ha : Controller.type_of a with
  | error x =>
    rw [ha] at h
    simp only [Except.error.injEq] at h
    rw [← h]
    exact type_of_error ha
  | ok typeA =>
    rw [ha] at h
    simp only at h
    cases hb : Controller.type_of b with
    | error x =>
      rw [hb] at h
      simp only [Except.error.injEq] at h
      rw [← h]
      exact type_of_error hb
    | ok typeB =>
      rw [hb] at h
      simp only at h
      by_cases h1 : typeA = .DONEFIGHTING ∧ typeB = .DONEFIGHTING
      · rw [if_pos h1] at h
        exact absurd h (by simp)
      rw [if_neg h1] at h
      by_cases h2 : (typeA = .DISCO ∧ typeB = .END) ∨ (typeA = .END ∧ typeB = .DISCO)
      · rw [if_pos h2] at h
        exact absurd h (by simp)
      rw [if_neg h2] at h
      simp only [Except.error.injEq] at h
      exact h.symm

/-- Every way in which the reads of a barrier end the controller is the
protocol error. -/
theorem barrier_outcome_error :
    ∀ (n : Nat) (log : List Controller.Received) (endEarly : Bool) (e : Stop),
      log.length ≤ n → Controller.barrier_outcome log endEarly = .error e →
      e = .exit_game EXIT_BAD_MESSAGE := by
  intro n
  induction n using Nat.strong_induction_on with
  | _ n ih =>
    intro log endEarly e hn h
    match log, hn, h with
    | [], _, h => exact absurd h (by simp [Controller.barrier_outcome])
    | [a], _, h =>
      simp only [Controller.barrier_outcome, Except.error.injEq] at h
      exact h.symm
    | a :: b :: rest, hn, h =>
      rw [Controller.barrier_outcome] at h
      cases hp : Controller.pair_outcome a.message b.message with
      | error x =>
        rw [hp] at h
        simp only [Except.error.injEq] at h
        rw [← h]
        exact pair_outcome_error hp
      | ok early =>
        rw [hp] at h
        simp only at h
        simp only [List.length_cons] at hn
        exact ih (n - 2) (by omega) rest _ e (by omega) h

/-- The reads of a barrier that leave `endEarly` at a value, followed by more
reads. -/
theorem barrier_outcome_append :
    ∀ (n : Nat) (log1 log2 : List Controller.Received) (endEarly early1 : Bool),
      log1.length ≤ n → Controller.barrier_outcome log1 endEarly = .ok early1 →
      Controller.barrier_outcome (log1 ++ log2) endEarly =
        Controller.barrier_outcome log2 early1 := by
  intro n
  induction n using Nat.strong_induction_on with
  | _ n ih =>
    intro log1 log2 endEarly early1 hn h
    match log1, hn, h with
    | [], _, h =>
      simp only [Controller.barrier_outcome, Except.ok.injEq] at h
      rw [List.nil_append, h]
    | [a], _, h => exact absurd h (by simp [Controller.barrier_outcome])
    | a :: b :: rest, hn, h =>
      rw [Controller.barrier_outcome] at h
      rw [List.cons_append, List.cons_append, Controller.barrier_outcome]
      cases hp : Controller.pair_outcome a.message b.message with
      | error x =>
        rw [hp] at h
        exact absurd h (by simp)
      | ok early =>
        rw [hp] at h
        simp only at h ⊢
        simp only [List.length_cons] at hn
        exact ih (n - 2) (by omega) rest log2 _ early1 (by omega) h

/-! ## Battle messages -/

theorem get_grouped_teams_grouped (sim : Simulation) :
    ∃ zones : List (List Nat),
      Controller.get_grouped_teams sim 0 = .ok (zones, zones.length) ∧
      Grouped sim sim.teams.length zones :=
  ⟨_, get_grouped_teams_zero sim, Grouped_foldl sim sim.teams.length⟩

theorem Grouped_lt {sim : Simulation} {k : Nat} {zones : List (List Nat)}
    (h : Grouped sim k zones) {z : List Nat} (hz : z ∈ zones) {i : Nat} (hi : i ∈ z) :
    i < k := by
  have : i ∈ zones.flatten := List.mem_flatten.mpr ⟨z, hz, hi⟩
  simpa using (h.2.1.mem_iff.mp this)

/-- Two teams of a zone are in the same grid square. -/
theorem Grouped_colocated {sim : Simulation} {k : Nat} {zones : List (List Nat)}
    (h : Grouped sim k zones) {z : List Nat} (hz : z ∈ zones) {i j : Nat} (hi : i ∈ z)
    (hj : j ∈ z) : (sim.teamAt i).pos = (sim.teamAt j).pos :=
  (h.2.2.2.2.1 z hz i hi).trans (h.2.2.2.2.1 z hz j hj).symm

/-- Two teams in the same grid square are in the same zone. -/
theorem Grouped_same_zone {sim : Simulation} {k : Nat} {zones : List (List Nat)}
    (h : Grouped sim k zones) {z : List Nat} (hz : z ∈ zones) {i j : Nat} (hi : i ∈ z)
    (hj : j < k) (hp : (sim.teamAt i).pos = (sim.teamAt j).pos) : j ∈ z := by
  have hj1 : j ∈ zones.flatten := h.2.1.mem_iff.mpr (List.mem_range.mpr hj)
  obtain ⟨z2, hz2, hjz2⟩ := List.mem_flatten.mp hj1
  have e : z = z2 := Grouped_unique h hz hz2
    ((h.2.2.2.2.1 z hz i hi).symm.trans (hp.trans (h.2.2.2.2.1 z2 hz2 j hjz2)))
  rw [e]
  exact hjz2

theorem getD_mem_nat (z : List Nat) (j : Nat) (hj : j < z.length) : z.getD j 0 ∈ z := by
  rw [List.getD_eq_getElem z 0 hj]
  exact List.getElem_mem hj

/-- What `write_lines` changes. -/
theorem write_lines_spec :
    ∀ (lines : List (Nat × List Char)) (sim : Simulation),
      Stable sim (Controller.write_lines sim lines) ∧
      (Controller.write_lines sim lines).log = sim.log ∧
      (∀ k, ((Controller.write_lines sim lines).teamAt k).read = (sim.teamAt k).read) ∧
      (∀ k, k < sim.teams.length → ((Controller.write_lines sim lines).teamAt k).write =
        (sim.teamAt k).write ++
          ((lines.filter (fun line => decide (line.1 = k))).map Prod.snd).flatten) := by
  intro lines
  induction lines with
  | nil =>
    intro sim
    exact ⟨Stable_refl sim, rfl, fun _ => rfl, fun k _ => by simp [Controller.write_lines]⟩
  | cons l ls ih =>
    intro sim
    have e : Controller.write_lines sim (l :: ls) =
        Controller.write_lines (Controller.write_to sim l.1 l.2) ls := rfl
    obtain ⟨w1, w2, w3, w4⟩ := write_to_spec sim l.1 l.2
    obtain ⟨i1, i2, i3, i4⟩ := ih (Controller.write_to sim l.1 l.2)
    rw [e]
    refine ⟨Stable_trans w1 i1, i2.trans w2, fun k => (i3 k).trans (w3 k), fun k hk => ?_⟩
    rw [i4 k (by rw [w1.1]; exact hk), w4 k]
    by_cases hl : l.1 = k
    · rw [if_pos ⟨hl.symm, by rw [hl]; exact hk⟩,
        List.filter_cons_of_pos (by simpa using hl)]
      simp
    · rw [if_neg (fun c => hl c.1.symm), List.filter_cons_of_neg (by simpa using hl)]

/-- A line whose key is the only one of its value in the list is what the
filter on that value gives. -/
theorem filter_key_unique :
    ∀ (lines : List (Nat × List Char)) (t : Nat) (x : List Char),
      (lines.map Prod.fst).Nodup → (t, x) ∈ lines →
      lines.filter (fun line => decide (line.1 = t)) = [(t, x)] := by
  intro lines
  induction lines with
  | nil =>
    intro t x _ hm
    exact absurd hm (List.not_mem_nil _)
  | cons p ps ih =>
    intro t x hnd hm
    rw [List.map_cons, List.nodup_cons] at hnd
    rcases List.mem_cons.mp hm with hp | hp
    · subst hp
      rw [List.filter_cons_of_pos (by simp)]
      congr 1
      rw [List.filter_eq_nil_iff]
      intro q hq hq1
      apply hnd.1
      have hq2 : q.1 = t := by simpa using hq1
      have hq3 : q.1 ∈ ps.map Prod.fst := List.mem_map_of_mem Prod.fst hq
      rw [hq2] at hq3
      exact hq3
    · have hne : p.1 ≠ t := by
        intro c
        apply hnd.1
        rw [c]
        exact List.mem_map_of_mem Prod.fst hp
      rw [List.filter_cons_of_neg (by simpa using hne)]
      exact ih t x hnd.2 hp

theorem map_getD_range' (z : List Nat) (f : Nat → Int) :
    ∀ (m a : Nat), a + m ≤ z.length →
      (List.range' a m).map (fun k => f (z.getD k 0)) = ((z.drop a).take m).map f := by
  intro m
  induction m with
  | zero =>
    intro a _
    simp
  | succ m ih =>
    intro a ha
    have hlt : a < z.length := by omega
    rw [List.range'_succ, List.map_cons, ih (a + 1) (by omega), List.drop_eq_getElem_cons hlt,
      List.take_succ_cons, List.map_cons, List.getD_eq_getElem z 0 hlt]

theorem map_getD_range (z : List Nat) : (List.range z.length).map (fun j => z.getD j 0) = z := by
  apply List.ext_getElem
  · simp
  · intro i h1 h2
    simp only [List.getElem_map, List.getElem_range]
    exact List.getD_eq_getElem z 0 h2

/-- The teams that get a line for a zone are the teams of the zone, in order. -/
theorem zone_lines_keys (sim : Simulation) (z : List Nat) (hz : z ≠ []) :
    (Controller.zone_lines sim z).map Prod.fst = z := by
  have hlen : z.length - 1 + 1 = z.length := by
    have : 0 < z.length := List.length_pos.mpr hz
    omega
  unfold Controller.zone_lines
  simp only [List.map_append, List.map_map, List.map_cons, List.map_nil]
  have e : (List.map (Prod.fst ∘ fun j =>
      (z.getD j 0, Controller.battle_line (sim.teamAt (z.getD j 0))
        (List.map (fun k => (sim.teamAt (z.getD k 0)).port)
          (List.range' (j + 1) (z.length - 1 - (j + 1)))))) (List.range (z.length - 1))) =
      (List.range (z.length - 1)).map (fun j => z.getD j 0) := rfl
  rw [e]
  have e2 : (List.range (z.length - 1)).map (fun j => z.getD j 0) ++ [z.getD (z.length - 1) 0] =
      (List.range (z.length - 1 + 1)).map (fun j => z.getD j 0) := by
    rw [List.range_succ, List.map_append]
    rfl
  rw [e2, hlen]
  exact map_getD_range z

theorem zones_lines_keys (sim : Simulation) :
    ∀ zones : List (List Nat), (∀ z ∈ zones, z ≠ []) →
      ((zones.map (Controller.zone_lines sim)).flatten).map Prod.fst = zones.flatten := by
  intro zones
  induction zones with
  | nil =>
    intro _
    rfl
  | cons z zs ih =>
    intro h
    rw [List.map_cons, List.flatten_cons, List.map_append, List.flatten_cons,
      zone_lines_keys sim z (h z (List.mem_cons_self _ _)),
      ih (fun y hy => h y (List.mem_cons_of_mem _ hy))]

/-- The line of the team number `j` of a zone is among the lines of the zone. -/
theorem zone_lines_mem (sim : Simulation) (z : List Nat)
    (hco : ∀ i ∈ z, ∀ j ∈ z, (sim.teamAt i).pos = (sim.teamAt j).pos)
    (j : Nat) (hj : j < z.length) :
    (z.getD j 0, Controller.battle_line (sim.teamAt (z.getD j 0)) (zone_ports sim z j)) ∈
      Controller.zone_lines sim z := by
  unfold Controller.zone_lines zone_ports
  by_cases hlast : j + 1 = z.length
  · rw [if_pos hlast]
    have hj1 : z.length - 1 = j := by omega
    apply List.mem_append_right
    rw [List.mem_singleton, hj1]
    congr 2
    have hall : (List.range j).filter (fun i =>
        decide ((sim.teamAt (z.getD j 0)).pos.x = (sim.teamAt (z.getD i 0)).pos.x ∧
          (sim.teamAt (z.getD j 0)).pos.y = (sim.teamAt (z.getD i 0)).pos.y)) =
        List.range j := by
      rw [List.filter_eq_self]
      intro i hi
      have hi1 : i < z.length := by
        have := List.mem_range.mp hi
        omega
      have := hco _ (getD_mem_nat z j hj) _ (getD_mem_nat z i hi1)
      rw [decide_eq_true_iff, ← coords_eq_iff]
      exact this
    rw [hall, List.range_eq_range', map_getD_range' z (fun t => (sim.teamAt t).port) j 0
      (by omega), List.drop_zero, List.dropLast_eq_take, hj1]
  · rw [if_neg hlast]
    apply List.mem_append_left
    rw [List.mem_map]
    refine ⟨j, List.mem_range.mpr (by omega), ?_⟩
    simp only
    congr 2
    rw [map_getD_range' z (fun t => (sim.teamAt t).port) _ (j + 1) (by omega),
      List.dropLast_eq_take, List.length_drop]
    congr 2
    omega

/-- The line that `send_battle_messages` writes to the team number `j` of a
zone: one line, with the ports of `zone_ports`. -/
theorem send_battle_messages_line (sim : Simulation) (zones : List (List Nat))
    (numZones : Nat) (hz : Controller.get_grouped_teams sim 0 = .ok (zones, numZones))
    (z : List Nat) (hzm : z ∈ zones) (j : Nat) (hj : j < z.length) :
    ((Controller.send_battle_messages sim).teamAt (z.getD j 0)).write =
      (sim.teamAt (z.getD j 0)).write ++
        Controller.battle_line (sim.teamAt (z.getD j 0)) (zone_ports sim z j) := by
  obtain ⟨zones1, h1, hg⟩ := get_grouped_teams_grouped sim
  rw [h1] at hz
  simp only [Except.ok.injEq, Prod.mk.injEq] at hz
  obtain ⟨hz1, hz2⟩ := hz
  subst hz1
  have hsend : Controller.send_battle_messages sim =
      Controller.write_lines sim ((zones1.map (Controller.zone_lines sim)).flatten) := by
    unfold Controller.send_battle_messages
    rw [h1]
    simp only [List.take_length]
  have hlt : z.getD j 0 < sim.teams.length := Grouped_lt hg hzm (getD_mem_nat z j hj)
  have hkeys := zones_lines_keys sim zones1 hg.1
  have hnd : (((zones1.map (Controller.zone_lines sim)).flatten).map Prod.fst).Nodup := by
    rw [hkeys]
    exact (List.Perm.nodup_iff hg.2.1).mpr (List.nodup_range _)
  have hmem : (z.getD j 0, Controller.battle_line (sim.teamAt (z.getD j 0))
      (zone_ports sim z j)) ∈ (zones1.map (Controller.zone_lines sim)).flatten :=
    List.mem_flatten.mpr ⟨_, List.mem_map_of_mem _ hzm,
      zone_lines_mem sim z (fun a ha b hb => Grouped_colocated hg hzm ha hb) j hj⟩
  rw [hsend, (write_lines_spec _ sim).2.2.2 _ hlt, filter_key_unique _ _ _ hnd hmem]
  simp

/-- What `send_battle_messages` leaves as it is. -/
theorem send_battle_messages_stable (sim : Simulation) :
    Stable sim (Controller.send_battle_messages sim) ∧
    (Controller.send_battle_messages sim).log = sim.log ∧
    ∀ k, ((Controller.send_battle_messages sim).teamAt k).read = (sim.teamAt k).read := by
  unfold Controller.send_battle_messages
  cases h : Controller.get_grouped_teams sim 0 with
  | error e => exact ⟨Stable_refl sim, rfl, fun _ => rfl⟩
  | ok teams =>
    simp only
    have := write_lines_spec ((teams.1.take teams.2).map (Controller.zone_lines sim)).flatten sim
    exact ⟨this.1, this.2.1, this.2.2.1⟩

/-! ## The barrier at the end of the battles -/

/-- The three ways through the body of the inner loop of
`read_donefighting_messages`. -/
theorem read_pair_cases (i j : Nat) (sim : Simulation) (endEarly : Bool) (hij : i ≠ j) :
    (colocated sim i j = false ∧ Controller.read_pair i j sim endEarly = (.ok endEarly, sim)) ∨
    (colocated sim i j = true ∧
      ∃ e, Controller.type_of (Controller.next_message (sim.teamAt i).read) = .error e ∧
        Controller.read_pair i j sim endEarly = (.error e, (Controller.read_from sim i).2.2)) ∨
    (colocated sim i j = true ∧
      (∃ typeA, Controller.type_of (Controller.next_message (sim.teamAt i).read) = .ok typeA) ∧
      Controller.read_pair i j sim endEarly =
        (match Controller.pair_outcome (Controller.next_message (sim.teamAt i).read)
            (Controller.next_message (sim.teamAt j).read) with
          | .error e => .error e
          | .ok early => .ok (endEarly || early),
         (Controller.read_from (Controller.read_from sim i).2.2 j).2.2)) := by
  by_cases hc : (sim.teamAt i).pos.x = (sim.teamAt j).pos.x ∧
      (sim.teamAt i).pos.y = (sim.teamAt j).pos.y
  · have hco : colocated sim i j = true := by
      unfold colocated
      exact decide_eq_true hc
    obtain ⟨-, -, -, ha4, ha5⟩ := read_from_spec sim i
    obtain ⟨-, -, -, -, hb5⟩ := read_from_spec (Controller.read_from sim i).2.2 j
    rw [ha4 j (Ne.symm hij)] at hb5
    unfold Controller.read_pair
    simp only
    rw [if_pos hc]
    cases hA : Controller.type_of (Controller.next_message (sim.teamAt i).read) with
    | error e =>
      rw [hA] at ha5
      rw [ha5]
      exact Or.inr (Or.inl ⟨hco, e, rfl, rfl⟩)
    | ok typeA =>
      rw [hA] at ha5
      rw [ha5]
      simp only
      refine Or.inr (Or.inr ⟨hco, ⟨typeA, rfl⟩, ?_⟩)
      unfold Controller.pair_outcome
      rw [hA]
      simp only
      cases hB : Controller.type_of (Controller.next_message (sim.teamAt j).read) with
      | error e =>
        rw [hB] at hb5
        rw [hb5]
      | ok typeB =>
        rw [hB] at hb5
        rw [hb5]
        simp only
        by_cases h1 : typeA = .DONEFIGHTING ∧ typeB = .DONEFIGHTING
        · rw [if_pos h1, if_pos h1]
          simp
        · rw [if_neg h1, if_neg h1]
          by_cases h2 : (typeA = .DISCO ∧ typeB = .END) ∨ (typeA = .END ∧ typeB = .DISCO)
          · rw [if_pos h2, if_pos h2]
            simp
          · rw [if_neg h2, if_neg h2]
  · have hco : colocated sim i j = false := by
      unfold colocated
      exact decide_eq_false hc
    unfold Controller.read_pair
    simp only
    rw [if_neg hc]
    exact Or.inl ⟨hco, rfl⟩

theorem barrier_outcome_two (a b : Controller.Received) (endEarly : Bool) :
    Controller.barrier_outcome [a, b] endEarly =
      match Controller.pair_outcome a.message b.message with
      | .error e => .error e
      | .ok early => .ok (endEarly || early) := by
  rw [Controller.barrier_outcome]
  cases Controller.pair_outcome a.message b.message with
  | error e => rfl
  | ok early => rfl

theorem pair_outcome_first_error {a b : Option (List Char)} {e : Stop}
    (h : Controller.type_of a = .error e) : Controller.pair_outcome a b = .error e := by
  unfold Controller.pair_outcome
  rw [h]

/-- The body of the inner loop of `read_donefighting_messages` as a part of
the barrier. -/
theorem read_pair_spec (i j : Nat) (sim : Simulation) (endEarly : Bool) (hij : i ≠ j)
    (hi : i < sim.teams.length) (hj : j < sim.teams.length) :
    BarrierSpec sim endEarly (if colocated sim i j = true then [i, j] else [])
      (Controller.read_pair i j sim endEarly) := by
  obtain ⟨a1, a2, a3, a4, a5⟩ := read_from_spec sim i
  obtain ⟨b1, b2, b3, b4, b5⟩ := read_from_spec (Controller.read_from sim i).2.2 j
  rcases read_pair_cases i j sim endEarly hij with ⟨hco, h⟩ | ⟨hco, e, he, h⟩ | ⟨hco, ⟨tA, hA⟩, h⟩
  · rw [h, hco]
    refine ⟨Stable_refl sim, fun _ => rfl, [], by simp, rfl, fun _ => by simp, ?_, fun _ _ => rfl⟩
    intro x hx
    exact absurd hx (List.not_mem_nil _)
  · rw [h]
    refine ⟨a1, a3, [⟨i, Controller.next_message (sim.teamAt i).read⟩], a2, ?_, ?_, ?_, ?_⟩
    · simp only [Controller.barrier_outcome]
      rw [type_of_error he]
    · rintro ⟨early, hearly⟩
      exact absurd hearly (by simp)
    · intro x hx
      rw [List.mem_singleton] at hx
      subst hx
      exact ⟨j, Ne.symm hij, hj, hco⟩
    · intro k hk
      exact a4 k (Ne.symm (hk _ (List.mem_singleton.mpr rfl)))
  · rw [h, if_pos hco]
    refine ⟨Stable_trans a1 b1, fun k => (b3 k).trans (a3 k),
      [⟨i, Controller.next_message (sim.teamAt i).read⟩,
        ⟨j, Controller.next_message (sim.teamAt j).read⟩], ?_, ?_, fun _ => rfl, ?_, ?_⟩
    · rw [b2, a2, a4 j (Ne.symm hij)]
      simp
    · exact (barrier_outcome_two ⟨i, Controller.next_message (sim.teamAt i).read⟩
        ⟨j, Controller.next_message (sim.teamAt j).read⟩ endEarly).symm
    · intro x hx
      simp only [List.mem_cons, List.mem_singleton, List.not_mem_nil, or_false] at hx
      rcases hx with hx | hx
      · subst hx
        exact ⟨j, Ne.symm hij, hj, hco⟩
      · subst hx
        refine ⟨i, hij, hi, ?_⟩
        rw [colocated_comm]
        exact hco
    · intro k hk
      have k1 : k ≠ i := Ne.symm (hk ⟨i, _⟩ (List.mem_cons_self _ _))
      have k2 : k ≠ j := Ne.symm (hk ⟨j, _⟩ (List.mem_cons_of_mem _ (List.mem_singleton.mpr rfl)))
      exact (b4 k k2).trans (a4 k k1)

/-- One part of the barrier after another. -/
theorem BarrierSpec_seq {sim sim1 : Simulation} {endEarly early1 : Bool} {teams1 teams2 : List Nat}
    {out : Except Stop Bool × Simulation}
    (h1 : BarrierSpec sim endEarly teams1 (.ok early1, sim1))
    (h2 : BarrierSpec sim1 early1 teams2 out) :
    BarrierSpec sim endEarly (teams1 ++ teams2) out := by
  obtain ⟨s1, w1, log1, l1, o1, t1, c1, r1⟩ := h1
  obtain ⟨s2, w2, log2, l2, o2, t2, c2, r2⟩ := h2
  refine ⟨Stable_trans s1 s2, fun k => (w2 k).trans (w1 k), log1 ++ log2, ?_, ?_, ?_, ?_, ?_⟩
  · rw [l2, l1, List.append_assoc]
  · rw [o2]
    exact (barrier_outcome_append log1.length log1 log2 endEarly early1 (Nat.le_refl _)
      o1.symm).symm
  · intro h
    rw [List.map_append, t1 ⟨early1, rfl⟩, t2 h]
  · intro x hx
    rcases List.mem_append.mp hx with hx | hx
    · exact c1 x hx
    · obtain ⟨u, u1, u2, u3⟩ := c2 x hx
      refine ⟨u, u1, ?_, ?_⟩
      · rw [← s1.1]
        exact u2
      · rw [← colocated_stable s1]
        exact u3
  · intro k hk
    exact (r2 k (fun x hx => hk x (List.mem_append_right _ hx))).trans
      (r1 k (fun x hx => hk x (List.mem_append_left _ hx)))

/-- A part of the barrier that ends the controller, after which nothing
runs. -/
theorem BarrierSpec_stop {sim sim1 : Simulation} {endEarly : Bool} {teams1 teams2 : List Nat}
    {e : Stop} (h1 : BarrierSpec sim endEarly teams1 (.error e, sim1)) :
    BarrierSpec sim endEarly teams2 (.error e, sim1) := by
  obtain ⟨s1, w1, log1, l1, o1, -, c1, r1⟩ := h1
  refine ⟨s1, w1, log1, l1, o1, ?_, c1, r1⟩
  rintro ⟨early, hearly⟩
  exact absurd hearly (by simp)

/-- The inner loop of `read_donefighting_messages` as a part of the barrier. -/
theorem read_pairs_spec (i : Nat) :
    ∀ (js : List Nat) (sim : Simulation) (endEarly : Bool), i < sim.teams.length →
      (∀ j ∈ js, i ≠ j ∧ j < sim.teams.length) →
      BarrierSpec sim endEarly ((js.filter (colocated sim i)).flatMap (fun j => [i, j]))
        (Controller.read_pairs i js sim endEarly) := by
  intro js
  induction js with
  | nil =>
    intro sim endEarly _ _
    refine ⟨Stable_refl sim, fun _ => rfl, [], by simp [Controller.read_pairs], rfl,
      fun _ => by simp, ?_, fun _ _ => rfl⟩
    intro x hx
    exact absurd hx (List.not_mem_nil _)
  | cons j js ih =>
    intro sim endEarly hi hjs
    have hj := hjs j (List.mem_cons_self _ _)
    have hp := read_pair_spec i j sim endEarly hj.1 hi hj.2
    have hteams : ((j :: js).filter (colocated sim i)).flatMap (fun j => [i, j]) =
        (if colocated sim i j = true then [i, j] else []) ++
          (js.filter (colocated sim i)).flatMap (fun j => [i, j]) := by
      by_cases hc : colocated sim i j = true
      · rw [List.filter_cons_of_pos hc, if_pos hc]
        rfl
      · rw [List.filter_cons_of_neg hc, if_neg hc]
        rfl
    rw [hteams, Controller.read_pairs]
    rcases hpair : Controller.read_pair i j sim endEarly with ⟨e | early1, sim1⟩
    · rw [hpair] at hp
      exact BarrierSpec_stop hp
    · rw [hpair] at hp
      simp only
      have hs : Stable sim sim1 := hp.1
      have hrec := ih sim1 early1 (by rw [hs.1]; exact hi)
        (fun k hk => ⟨(hjs k (List.mem_cons_of_mem _ hk)).1,
          by rw [hs.1]; exact (hjs k (List.mem_cons_of_mem _ hk)).2⟩)
      have hf : js.filter (colocated sim1 i) = js.filter (colocated sim i) :=
        List.filter_congr (fun k _ => colocated_stable hs i k)
      rw [hf] at hrec
      exact BarrierSpec_seq hp hrec

theorem rows_reads_stable {s s1 : Simulation} (h : Stable s s1) (n : Nat) (is : List Nat) :
    rows_reads s1 n is = rows_reads s n is := by
  unfold rows_reads
  have : colocated s1 = colocated s := by
    funext i j
    exact colocated_stable h i j
  rw [this]

/-- The outer loop of `read_donefighting_messages` as a part of the barrier. -/
theorem read_rows_spec :
    ∀ (is : List Nat) (sim : Simulation) (endEarly : Bool),
      (∀ i ∈ is, i < sim.teams.length) →
      BarrierSpec sim endEarly (rows_reads sim sim.teams.length is)
        (Controller.read_rows is sim endEarly) := by
  intro is
  induction is with
  | nil =>
    intro sim endEarly _
    refine ⟨Stable_refl sim, fun _ => rfl, [], by simp [Controller.read_rows], rfl,
      fun _ => by simp [rows_reads], ?_, fun _ _ => rfl⟩
    intro x hx
    exact absurd hx (List.not_mem_nil _)
  | cons i is ih =>
    intro sim endEarly his
    have hi := his i (List.mem_cons_self _ _)
    have hp := read_pairs_spec i (List.range' (i + 1) (sim.teams.length - (i + 1))) sim endEarly
      hi (by
        intro j hj
        rw [List.mem_range'_1] at hj
        omega)
    have hteams : rows_reads sim sim.teams.length (i :: is) =
        ((List.range' (i + 1) (sim.teams.length - (i + 1))).filter (colocated sim i)).flatMap
            (fun j => [i, j]) ++ rows_reads sim sim.teams.length is := rfl
    rw [hteams, Controller.read_rows]
    rcases hrow : Controller.read_pairs i (List.range' (i + 1) (sim.teams.length - (i + 1)))
      sim endEarly with ⟨e | early1, sim1⟩
    · rw [hrow] at hp
      exact BarrierSpec_stop hp
    · rw [hrow] at hp
      simp only
      have hs : Stable sim sim1 := hp.1
      have hrec := ih sim1 early1 (fun k hk => by rw [hs.1]; exact his k (List.mem_cons_of_mem _ hk))
      rw [rows_reads_stable hs, hs.1] at hrec
      exact BarrierSpec_seq hp hrec

/-- What `send_gameoverman` changes. -/
theorem send_gameoverman_spec (sim : Simulation) :
    Stable sim (Controller.send_gameoverman sim) ∧
    (Controller.send_gameoverman sim).log = sim.log ∧
    (∀ k, ((Controller.send_gameoverman sim).teamAt k).read = (sim.teamAt k).read) ∧
    (∀ k, k < sim.teams.length → ((Controller.send_gameoverman sim).teamAt k).write =
      (sim.teamAt k).write ++ "gameoverman\n".toList) := by
  have e : Controller.send_gameoverman sim =
      Controller.write_lines sim
        ((List.range sim.teams.length).map (fun i => (i, "gameoverman\n".toList))) := by
    unfold Controller.send_gameoverman Controller.write_lines
    rw [List.foldl_map]
  obtain ⟨h1, h2, h3, h4⟩ := write_lines_spec
    ((List.range sim.teams.length).map (fun i => (i, "gameoverman\n".toList))) sim
  rw [e]
  refine ⟨h1, h2, h3, fun k hk => ?_⟩
  rw [h4 k hk, filter_key_unique _ k "gameoverman\n".toList
    (by
      rw [List.map_map]
      have : (Prod.fst ∘ fun i : Nat => (i, "gameoverman\n".toList)) = id := rfl
      rw [this, List.map_id]
      exact List.nodup_range _)
    (List.mem_map.mpr ⟨k, List.mem_range.mpr hk, rfl⟩)]
  simp

/-- The three ways in which `read_donefighting_messages` ends, by the outcome
of the reads that it adds to the log. -/
theorem read_donefighting_messages_spec (sim : Simulation) :
    ∃ log : List Controller.Received,
      (Controller.read_donefighting_messages sim).2.log = sim.log ++ log ∧
      Stable sim (Controller.read_donefighting_messages sim).2 ∧
      (∀ x ∈ log, ∃ u, u ≠ x.team ∧ u < sim.teams.length ∧ colocated sim x.team u = true) ∧
      (∀ k, (∀ x ∈ log, x.team ≠ k) →
        ((Controller.read_donefighting_messages sim).2.teamAt k).read = (sim.teamAt k).read) ∧
      ((Controller.read_donefighting_messages sim).1 = .ok () ∧
          Controller.barrier_outcome log false = .ok false ∧
          log.map Controller.Received.team = barrier_reads sim ∧
          (∀ k, ((Controller.read_donefighting_messages sim).2.teamAt k).write =
            (sim.teamAt k).write) ∨
        (Controller.read_donefighting_messages sim).1 = .error (.exit 0) ∧
          Controller.barrier_outcome log false = .ok true ∧
          log.map Controller.Received.team = barrier_reads sim ∧
          (∀ k, k < sim.teams.length →
            ((Controller.read_donefighting_messages sim).2.teamAt k).write =
              (sim.teamAt k).write ++ "gameoverman\n".toList) ∨
        (Controller.read_donefighting_messages sim).1 = .error (.exit_game EXIT_BAD_MESSAGE) ∧
          Controller.barrier_outcome log false = .error (.exit_game EXIT_BAD_MESSAGE) ∧
          (∀ k, ((Controller.read_donefighting_messages sim).2.teamAt k).write =
            (sim.teamAt k).write)) := by
  have hrows := read_rows_spec (List.range sim.teams.length) sim false
    (fun i hi => List.mem_range.mp hi)
  unfold Controller.read_donefighting_messages
  rcases hr : Controller.read_rows (List.range sim.teams.length) sim false with ⟨e | early, sim1⟩
  · rw [hr] at hrows
    obtain ⟨s1, w1, log, l1, o1, -, c1, r1⟩ := hrows
    simp only at o1 l1 w1 s1 r1 ⊢
    have he := barrier_outcome_error log.length log false e (Nat.le_refl _) o1.symm
    subst he
    exact ⟨log, l1, s1, c1, r1, Or.inr (Or.inr ⟨rfl, o1.symm, w1⟩)⟩
  · rw [hr] at hrows
    obtain ⟨s1, w1, log, l1, o1, t1, c1, r1⟩ := hrows
    simp only at o1 l1 w1 s1 t1 r1 ⊢
    have ht : log.map Controller.Received.team = barrier_reads sim := t1 ⟨early, rfl⟩
    cases early with
    | false =>
      simp only [Bool.false_eq_true, if_false]
      exact ⟨log, l1, s1, c1, r1, Or.inl ⟨by trivial, o1.symm, ht, w1⟩⟩
    | true =>
      simp only [if_true]
      obtain ⟨g1, g2, g3, g4⟩ := send_gameoverman_spec sim1
      refine ⟨log, g2.trans l1, Stable_trans s1 g1, c1,
        fun k hk => (g3 k).trans (r1 k hk), Or.inr (Or.inl ⟨by trivial, o1.symm, ht, ?_⟩)⟩
      intro k hk
      rw [g4 k (by rw [s1.1]; exact hk), w1 k]

/-! ## Counting the reads of the barrier -/

theorem count_pairs (i t : Nat) :
    ∀ js : List Nat, (js.flatMap (fun j => [i, j])).count t =
      (if i = t then js.length else 0) + js.count t := by
  intro js
  induction js with
  | nil => simp
  | cons j js ih =>
    rw [List.flatMap_cons, List.count_append, ih, List.count_cons, List.count_cons,
      List.count_nil, List.count_cons, List.length_cons]
    by_cases h1 : i = t
    · by_cases h2 : j = t
      · simp [h1, h2]
        omega
      · simp [h1, h2]
        omega
    · by_cases h2 : j = t
      · simp [h1, h2]
        omega
      · simp [h1, h2]

theorem count_filter_range' (p : Nat → Bool) (a m t : Nat) :
    ((List.range' a m).filter p).count t =
      if a ≤ t ∧ t < a + m ∧ p t = true then 1 else 0 := by
  by_cases h : a ≤ t ∧ t < a + m ∧ p t = true
  · rw [if_pos h]
    apply List.count_eq_one_of_mem ((List.nodup_range' a m).filter p)
    rw [List.mem_filter, List.mem_range'_1]
    exact ⟨⟨h.1, h.2.1⟩, h.2.2⟩
  · rw [if_neg h]
    apply List.count_eq_zero_of_not_mem
    rw [List.mem_filter, List.mem_range'_1]
    intro c
    exact h ⟨c.1.1, c.1.2, c.2⟩

/-- The number of reads from the team `t` in the rows `0` to `m - 1` of the
barrier. -/
theorem count_rows (sim : Simulation) (n t : Nat) (ht : t < n) :
    ∀ m : Nat, m ≤ n → (rows_reads sim n (List.range m)).count t =
      (if t < m then
          ((List.range' (t + 1) (n - (t + 1))).filter (colocated sim t)).length
        else 0) +
        ((List.range (min m t)).filter (fun u => colocated sim u t)).length := by
  intro m
  induction m with
  | zero =>
    intro _
    simp [rows_reads]
  | succ m ih =>
    intro hm
    have hsplit : rows_reads sim n (List.range (m + 1)) =
        rows_reads sim n (List.range m) ++
          ((List.range' (m + 1) (n - (m + 1))).filter (colocated sim m)).flatMap
            (fun j => [m, j]) := by
      unfold rows_reads
      rw [List.range_succ, List.flatMap_append, List.flatMap_singleton]
    rw [hsplit, List.count_append, ih (by omega), count_pairs, count_filter_range']
    have hbound : m + 1 + (n - (m + 1)) = n := by omega
    rw [hbound]
    rcases Nat.lt_trichotomy m t with h | h | h
    · have e1 : min m t = m := by omega
      have e2 : min (m + 1) t = m + 1 := by omega
      have n1 : ¬ t < m := by omega
      have n2 : ¬ t < m + 1 := by omega
      have n3 : ¬ m = t := by omega
      rw [e1, e2, List.range_succ, List.filter_append, List.length_append,
        if_neg n1, if_neg n2, if_neg n3]
      by_cases hc : colocated sim m t = true
      · have f1 : [m].filter (fun u => colocated sim u t) = [m] :=
          List.filter_cons_of_pos hc
        rw [if_pos ⟨by omega, ht, hc⟩, f1]
        simp
      · have f1 : [m].filter (fun u => colocated sim u t) = [] :=
          List.filter_cons_of_neg hc
        rw [if_neg (fun c => hc c.2.2), f1]
        simp
    · subst h
      have e1 : min m m = m := by omega
      have e2 : min (m + 1) m = m := by omega
      have n1 : ¬ m < m := by omega
      have n2 : m < m + 1 := by omega
      have n3 : ¬ (m + 1 ≤ m ∧ m < n ∧ colocated sim m m = true) := fun c => by omega
      rw [e1, e2, if_neg n1, if_pos n2, if_pos rfl, if_neg n3]
      omega
    · have e1 : min m t = t := by omega
      have e2 : min (m + 1) t = t := by omega
      have n2 : t < m + 1 := by omega
      have n3 : ¬ m = t := by omega
      have n4 : ¬ (m + 1 ≤ t ∧ t < n ∧ colocated sim m t = true) := fun c => by omega
      rw [e1, e2, if_pos h, if_pos n2, if_neg n3, if_neg n4]
      omega

/-- The teams of a roster of `n` that are in the grid square of the team
`t`: those before it, the team, and those after it. -/
theorem zone_size_split (sim : Simulation) (t : Nat) (ht : t < sim.teams.length) :
    zone_size sim t =
      ((List.range t).filter (fun u => colocated sim u t)).length + 1 +
        ((List.range' (t + 1) (sim.teams.length - (t + 1))).filter (colocated sim t)).length := by
  have hr : List.range sim.teams.length =
      List.range t ++ ([t] ++ List.range' (t + 1) (sim.teams.length - (t + 1))) := by
    have e1 : [t] ++ List.range' (t + 1) (sim.teams.length - (t + 1)) =
        List.range' (0 + t) (sim.teams.length - (t + 1) + 1) := by
      rw [Nat.zero_add]
      exact (List.range'_append_1 t 1 (sim.teams.length - (t + 1)))
    rw [List.range_eq_range', List.range_eq_range', e1, List.range'_append_1]
    congr 1
    omega
  have htt : colocated sim t t = true := by
    rw [colocated_iff]
  have hf : (List.range' (t + 1) (sim.teams.length - (t + 1))).filter
      (fun u => colocated sim u t) =
      (List.range' (t + 1) (sim.teams.length - (t + 1))).filter (colocated sim t) :=
    List.filter_congr (fun u _ => colocated_comm sim u t)
  unfold zone_size
  have f1 : [t].filter (fun u => colocated sim u t) = [t] := List.filter_cons_of_pos htt
  rw [hr, List.filter_append, List.filter_append, List.length_append, List.length_append,
    f1, hf]
  simp
  omega

/-- The number of reads of a barrier from a team is the number of the other
teams in its grid square. -/
theorem barrier_reads_count (sim : Simulation) (t : Nat) (ht : t < sim.teams.length) :
    (barrier_reads sim).count t = zone_size sim t - 1 := by
  have h := count_rows sim sim.teams.length t ht sim.teams.length (Nat.le_refl _)
  have e : min sim.teams.length t = t := by omega
  rw [e, if_pos ht] at h
  have h2 : barrier_reads sim = rows_reads sim sim.teams.length (List.range sim.teams.length) :=
    rfl
  rw [h2, h, zone_size_split sim t ht]
  omega

theorem pair_outcome_false {a b : Option (List Char)}
    (h : Controller.pair_outcome a b = .ok false) :
    Controller.type_of a = .ok .DONEFIGHTING ∧ Controller.type_of b = .ok .DONEFIGHTING := by
  unfold Controller.pair_outcome at h
  cases ha : Controller.type_of a with
  | error x =>
    rw [ha] at h
    exact absurd h (by simp)
  | ok typeA =>
    rw [ha] at h
    simp only at h
    cases hb : Controller.type_of b with
    | error x =>
      rw [hb] at h
      exact absurd h (by simp)
    | ok typeB =>
      rw [hb] at h
      simp only at h
      by_cases h1 : typeA = .DONEFIGHTING ∧ typeB = .DONEFIGHTING
      · rw [h1.1, h1.2]
        exact ⟨rfl, rfl⟩
      · rw [if_neg h1] at h
        by_cases h2 : (typeA = .DISCO ∧ typeB = .END) ∨ (typeA = .END ∧ typeB = .DISCO)
        · rw [if_pos h2] at h
          exact absurd h (by simp)
        · rw [if_neg h2] at h
          exact absurd h (by simp)

/-- Once a pair has ended early, `endEarly` stays true. -/
theorem barrier_outcome_true_stays :
    ∀ (n : Nat) (log : List Controller.Received) (endEarly : Bool), endEarly = true →
      log.length ≤ n → Controller.barrier_outcome log endEarly ≠ .ok false := by
  intro n
  induction n using Nat.strong_induction_on with
  | _ n ih =>
    intro log endEarly he hn
    match log, hn with
    | [], _ =>
      rw [he]
      simp [Controller.barrier_outcome]
    | [a], _ => simp [Controller.barrier_outcome]
    | a :: b :: rest, hn =>
      rw [Controller.barrier_outcome]
      cases hp : Controller.pair_outcome a.message b.message with
      | error e => simp
      | ok early =>
        simp only
        simp only [List.length_cons] at hn
        exact ih (n - 2) (by omega) rest _ (by rw [he]; rfl) (by omega)

/-- The reads of a barrier that no pair has ended early are all of
`donefighting` messages. -/
theorem barrier_outcome_false :
    ∀ (n : Nat) (log : List Controller.Received) (endEarly : Bool),
      log.length ≤ n → Controller.barrier_outcome log endEarly = .ok false →
      ∀ x ∈ log, Controller.type_of x.message = .ok .DONEFIGHTING := by
  intro n
  induction n using Nat.strong_induction_on with
  | _ n ih =>
    intro log endEarly hn h
    match log, hn, h with
    | [], _, _ =>
      intro x hx
      exact absurd hx (List.not_mem_nil _)
    | [a], _, h => exact absurd h (by simp [Controller.barrier_outcome])
    | a :: b :: rest, hn, h =>
      rw [Controller.barrier_outcome] at h
      cases hp : Controller.pair_outcome a.message b.message with
      | error e =>
        rw [hp] at h
        exact absurd h (by simp)
      | ok early =>
        rw [hp] at h
        simp only at h
        simp only [List.length_cons] at hn
        have hrest := ih (n - 2) (by omega) rest _ (by omega) h
        cases early with
        | true =>
          have hx := barrier_outcome_true_stays (n - 2) rest (endEarly || true) (by simp)
            (by omega)
          rw [h] at hx
          exact absurd hx (by simp)
        | false =>
          obtain ⟨ha, hb⟩ := pair_outcome_false hp
          intro x hx
          rcases List.mem_cons.mp hx with hx | hx
          · rw [hx]
            exact ha
          rcases List.mem_cons.mp hx with hx | hx
          · rw [hx]
            exact hb
          · exact hrest x hx

/-! ## Claims on the battle messages and the barrier -/

/-- Claim C22: `send_battle_messages` writes one `battle <x> <y> <port>*` line
to each team of a zone; the ports of the line are not those of all the other
teams of the zone: the last team of the zone is told the ports of all the
teams before it, and another team the ports of the teams after it but for the
last. -/
theorem send_battle_messages_ports (sim : Simulation) (zones : List (List Nat))
    (numZones : Nat) (hz : Controller.get_grouped_teams sim 0 = .ok (zones, numZones))
    (z : List Nat) (hzm : z ∈ zones) (j : Nat) (hj : j < z.length) :
    ((Controller.send_battle_messages sim).teamAt (z.getD j 0)).write =
      (sim.teamAt (z.getD j 0)).write ++
        Controller.battle_line (sim.teamAt (z.getD j 0))
          ((if j + 1 = z.length then z.dropLast else (z.drop (j + 1)).dropLast).map
            (fun t => (sim.teamAt t).port)) :=
  send_battle_messages_line sim zones numZones hz z hzm j hj

/-- Claim C22, witness: in the zone of the teams `A`, `B` and `C` of
`sampleSim`, the line of `A` lists the port of `B` only. -/
theorem send_battle_messages_ports_witness :
    ((Controller.send_battle_messages sampleSim).teamAt 0).write =
      (sampleSim.teamAt 0).write ++ Controller.battle_line (sampleSim.teamAt 0) [5002] :=
  send_battle_messages_ports sampleSim [[0, 1, 2], [3]] 2 (by rfl) [0, 1, 2] (by decide) 0
    (by decide)

/-- Claim C22, counterexample: with the two teams `A` and `B` at (0, 0), `A`
is sent `battle 0 0` without the port of `B`; `B` is sent the port of `A`. -/
theorem send_battle_messages_ports_counterexample :
    ((Controller.send_battle_messages pairSim).teamAt 0).write = "battle 0 0\n".toList ∧
    ((Controller.send_battle_messages pairSim).teamAt 0).write ≠ "battle 0 0 5002\n".toList ∧
    ((Controller.send_battle_messages pairSim).teamAt 1).write = "battle 0 0 5001\n".toList := by
  decide

/-- A zone whose teams are all one team is that team alone. -/
theorem zone_singleton {z : List Nat} {t : Nat} (hne : z ≠ []) (hpw : z.Pairwise (· < ·))
    (hall : ∀ u ∈ z, u = t) : z = [t] := by
  cases z with
  | nil => exact absurd rfl hne
  | cons a rest =>
    cases rest with
    | nil => rw [hall a (List.mem_cons_self _ _)]
    | cons b rest2 =>
      have h1 := hall a (List.mem_cons_self _ _)
      have h2 := hall b (List.mem_cons_of_mem _ (List.mem_cons_self _ _))
      have h3 : a < b := (List.pairwise_cons.mp hpw).1 b (List.mem_cons_self _ _)
      omega

/-- Claim C23: a team that is alone in its grid square is sent a `battle`
message by `send_battle_messages` all the same, the line `battle <x> <y>`
without a port; `read_donefighting_messages` reads no message from it. -/
theorem singleton_zone_round (sim : Simulation) (t : Nat) (ht : t < sim.teams.length)
    (halone : ∀ u, u < sim.teams.length → u ≠ t → (sim.teamAt u).pos ≠ (sim.teamAt t).pos) :
    ((Controller.send_battle_messages sim).teamAt t).write =
      (sim.teamAt t).write ++ Controller.battle_line (sim.teamAt t) [] ∧
    ∃ log : List Controller.Received,
      (Controller.read_donefighting_messages (Controller.send_battle_messages sim)).2.log =
        sim.log ++ log ∧
      (∀ x ∈ log, x.team ≠ t) ∧ reads_from log t = 0 ∧
      ((Controller.read_donefighting_messages (Controller.send_battle_messages sim)).2.teamAt
        t).read = (sim.teamAt t).read := by
  constructor
  · obtain ⟨zones, h1, hg⟩ := get_grouped_teams_grouped sim
    have hmem : t ∈ zones.flatten := hg.2.1.mem_iff.mpr (List.mem_range.mpr ht)
    obtain ⟨z, hz, htz⟩ := List.mem_flatten.mp hmem
    have hzt : z = [t] := by
      apply zone_singleton (hg.1 z hz) (hg.2.2.1 z hz)
      intro u hu
      by_contra hne
      exact halone u (Grouped_lt hg hz hu) hne (Grouped_colocated hg hz hu htz)
    have := send_battle_messages_line sim zones zones.length h1 z hz 0
      (by rw [hzt]; exact Nat.zero_lt_one)
    rw [hzt] at this
    exact this
  · obtain ⟨b1, b2, b3⟩ := send_battle_messages_stable sim
    obtain ⟨log, l1, -, c1, r1, -⟩ :=
      read_donefighting_messages_spec (Controller.send_battle_messages sim)
    have hno : ∀ x ∈ log, x.team ≠ t := by
      intro x hx hxt
      obtain ⟨u, u1, u2, u3⟩ := c1 x hx
      rw [colocated_stable b1, colocated_iff, hxt] at u3
      rw [b1.1] at u2
      rw [hxt] at u1
      exact halone u u2 u1 u3.symm
    refine ⟨log, by rw [l1, b2], hno, ?_, (r1 t hno).trans (b3 t)⟩
    unfold reads_from
    apply List.count_eq_zero_of_not_mem
    intro hm
    obtain ⟨x, hx, hxt⟩ := List.mem_map.mp hm
    exact hno x hx hxt

/-- Claim C23, witness: the team `D` of `sampleSim` is alone in (1, 2). -/
theorem singleton_zone_round_witness :
    ((Controller.send_battle_messages sampleSim).teamAt 3).write =
      (sampleSim.teamAt 3).write ++ Controller.battle_line (sampleSim.teamAt 3) [] ∧
    ∃ log : List Controller.Received,
      (Controller.read_donefighting_messages (Controller.send_battle_messages sampleSim)).2.log =
        sampleSim.log ++ log ∧
      (∀ x ∈ log, x.team ≠ 3) ∧ reads_from log 3 = 0 ∧
      ((Controller.read_donefighting_messages
        (Controller.send_battle_messages sampleSim)).2.teamAt 3).read =
        (sampleSim.teamAt 3).read :=
  singleton_zone_round sampleSim 3 (by decide) (by decide)

/-- Claim C23, counterexample: the team `D` of `sampleSim`, alone in (1, 2),
is sent the message `battle 1 2`. -/
theorem singleton_zone_round_counterexample :
    (∀ u, u < sampleSim.teams.length → u ≠ 3 →
      (sampleSim.teamAt u).pos ≠ (sampleSim.teamAt 3).pos) ∧
    (sampleSim.teamAt 3).write = [] ∧
    ((Controller.send_battle_messages sampleSim).teamAt 3).write = "battle 1 2\n".toList := by
  decide

/-- Claim C24: in a barrier that does not end with the protocol error,
`read_donefighting_messages` reads from each team one message for every other
team in its grid square: two messages, not three, from each team of a zone of
three; when the barrier lets the round go on, all the messages read are
`donefighting` messages. -/
theorem read_donefighting_messages_reads (sim : Simulation)
    (hdone : (Controller.read_donefighting_messages sim).1 = .ok () ∨
      (Controller.read_donefighting_messages sim).1 = .error (.exit 0)) :
    ∃ log : List Controller.Received,
      (Controller.read_donefighting_messages sim).2.log = sim.log ++ log ∧
      (∀ t, t < sim.teams.length →
        reads_from log t = zone_size sim t - 1 ∧ (zone_size sim t = 3 → reads_from log t = 2)) ∧
      ((Controller.read_donefighting_messages sim).1 = .ok () →
        ∀ x ∈ log, Controller.type_of x.message = .ok .DONEFIGHTING) := by
  obtain ⟨log, l1, -, -, -, h⟩ := read_donefighting_messages_spec sim
  have hteams : log.map Controller.Received.team = barrier_reads sim := by
    rcases h with ⟨-, -, h3, -⟩ | ⟨-, -, h3, -⟩ | ⟨h1, -, -⟩
    · exact h3
    · exact h3
    · rcases hdone with hd | hd
      · rw [hd] at h1
        exact absurd h1 (by simp)
      · rw [hd] at h1
        exact absurd h1 (by simp [EXIT_BAD_MESSAGE])
  refine ⟨log, l1, fun t ht => ?_, fun hok => ?_⟩
  · have hc : reads_from log t = zone_size sim t - 1 := by
      unfold reads_from
      rw [hteams]
      exact barrier_reads_count sim t ht
    refine ⟨hc, fun h3 => ?_⟩
    rw [hc, h3]
  · rcases h with ⟨-, h2, -, -⟩ | ⟨h1, -, -, -⟩ | ⟨h1, -, -⟩
    · exact barrier_outcome_false log.length log false (Nat.le_refl _) h2
    · rw [hok] at h1
      exact absurd h1 (by simp)
    · rw [hok] at h1
      exact absurd h1 (by simp)

/-- Claim C24, witness: the barrier of `sampleSim` lets the round go on. -/
theorem read_donefighting_messages_reads_witness :
    ∃ log : List Controller.Received,
      (Controller.read_donefighting_messages sampleSim).2.log = sampleSim.log ++ log ∧
      (∀ t, t < sampleSim.teams.length →
        reads_from log t = zone_size sampleSim t - 1 ∧
          (zone_size sampleSim t = 3 → reads_from log t = 2)) ∧
      ((Controller.read_donefighting_messages sampleSim).1 = .ok () →
        ∀ x ∈ log, Controller.type_of x.message = .ok .DONEFIGHTING) :=
  read_donefighting_messages_reads sampleSim (Or.inl (by rfl))

/-- Claim C24, counterexample: the teams `A`, `B` and `C` of `sampleSim` are a
zone of three and each has three `donefighting` messages to be read; the
barrier lets the round go on after it has read two messages from `A`, and one
message of each of the three teams is left unread. -/
theorem read_donefighting_messages_reads_counterexample :
    zone_size sampleSim 0 = 3 ∧
    (Controller.read_donefighting_messages sampleSim).1 = .ok () ∧
    reads_from (Controller.read_donefighting_messages sampleSim).2.log 0 = 2 ∧
    (Controller.read_donefighting_messages sampleSim).2.log.length = 6 ∧
    ((Controller.read_donefighting_messages sampleSim).2.teamAt 0).read =
      "donefighting\n".toList ∧
    ((Controller.read_donefighting_messages sampleSim).2.teamAt 1).read =
      "donefighting\n".toList ∧
    ((Controller.read_donefighting_messages sampleSim).2.teamAt 2).read =
      "donefighting\n".toList := by
  decide

theorem pair_outcome_ok {a b : Option (List Char)} {typeA typeB : Controller.Messages}
    (ha : Controller.type_of a = .ok typeA) (hb : Controller.type_of b = .ok typeB) :
    Controller.pair_outcome a b =
      if typeA = .DONEFIGHTING ∧ typeB = .DONEFIGHTING then .ok false
      else if (typeA = .DISCO ∧ typeB = .END) ∨ (typeA = .END ∧ typeB = .DISCO) then .ok true
      else .error (.exit_game EXIT_BAD_MESSAGE) := by
  unfold Controller.pair_outcome
  rw [ha, hb]

theorem pair_outcome_second_error {a b : Option (List Char)} {typeA : Controller.Messages}
    {e : Stop} (ha : Controller.type_of a = .ok typeA) (hb : Controller.type_of b = .error e) :
    Controller.pair_outcome a b = .error (.exit_game EXIT_BAD_MESSAGE) := by
  unfold Controller.pair_outcome
  rw [ha, hb, type_of_error hb]

/-- Claim C25: for the teams number `i < j` of the roster in the same grid
square, the body of the loops of `read_donefighting_messages` reads the next
message of `i` and then the next message of `j`, one of each, unless the
line of `i` has no known tag: then the protocol error ends the controller in
the first read, and no message of `j` is read.  The pair is accepted when both
messages are `donefighting` (`endEarly` is left as it is) or when one is
`disco` and the other the end of the stream (`endEarly` becomes true); every
other pair of messages ends the controller with the protocol error. -/
theorem read_pair_outcome (sim : Simulation) (i j : Nat) (endEarly : Bool) (hij : i < j)
    (hco : (sim.teamAt i).pos = (sim.teamAt j).pos) :
    ((∃ typeA, Controller.type_of (Controller.next_message (sim.teamAt i).read) = .ok typeA) →
      (Controller.read_pair i j sim endEarly).2.log =
        sim.log ++ [⟨i, Controller.next_message (sim.teamAt i).read⟩,
          ⟨j, Controller.next_message (sim.teamAt j).read⟩]) ∧
    (∀ e, Controller.type_of (Controller.next_message (sim.teamAt i).read) = .error e →
      (Controller.read_pair i j sim endEarly).1 = .error (.exit_game EXIT_BAD_MESSAGE) ∧
      (Controller.read_pair i j sim endEarly).2.log =
        sim.log ++ [⟨i, Controller.next_message (sim.teamAt i).read⟩]) ∧
    (Controller.type_of (Controller.next_message (sim.teamAt i).read) = .ok .DONEFIGHTING ∧
      Controller.type_of (Controller.next_message (sim.teamAt j).read) = .ok .DONEFIGHTING →
      (Controller.read_pair i j sim endEarly).1 = .ok endEarly) ∧
    ((Controller.type_of (Controller.next_message (sim.teamAt i).read) = .ok .DISCO ∧
        Controller.type_of (Controller.next_message (sim.teamAt j).read) = .ok .END) ∨
      (Controller.type_of (Controller.next_message (sim.teamAt i).read) = .ok .END ∧
        Controller.type_of (Controller.next_message (sim.teamAt j).read) = .ok .DISCO) →
      (Controller.read_pair i j sim endEarly).1 = .ok true) ∧
    (¬ (Controller.type_of (Controller.next_message (sim.teamAt i).read) = .ok .DONEFIGHTING ∧
        Controller.type_of (Controller.next_message (sim.teamAt j).read) = .ok .DONEFIGHTING) →
      ¬ ((Controller.type_of (Controller.next_message (sim.teamAt i).read) = .ok .DISCO ∧
          Controller.type_of (Controller.next_message (sim.teamAt j).read) = .ok .END) ∨
        (Controller.type_of (Controller.next_message (sim.teamAt i).read) = .ok .END ∧
          Controller.type_of (Controller.next_message (sim.teamAt j).read) = .ok .DISCO)) →
      (Controller.read_pair i j sim endEarly).1 = .error (.exit_game EXIT_BAD_MESSAGE)) := by
  have hne : i ≠ j := Nat.ne_of_lt hij
  have hcol : colocated sim i j = true := (colocated_iff sim i j).mpr hco
  obtain ⟨-, a2, -, a4, -⟩ := read_from_spec sim i
  obtain ⟨-, b2, -, -, -⟩ := read_from_spec (Controller.read_from sim i).2.2 j
  rw [a2, a4 j (Ne.symm hne)] at b2
  rcases read_pair_cases i j sim endEarly hne with ⟨hc, -⟩ | ⟨-, e, he, h⟩ | ⟨-, ⟨tA, hA⟩, h⟩
  · rw [hcol] at hc
    exact absurd hc (by simp)
  · rw [h, he]
    refine ⟨?_, ?_, ?_, ?_, ?_⟩
    · rintro ⟨typeA, hA⟩
      exact absurd hA (by simp)
    · intro e1 _
      rw [type_of_error he]
      exact ⟨rfl, a2⟩
    · rintro ⟨h1, -⟩
      exact absurd h1 (by simp)
    · rintro (⟨h1, -⟩ | ⟨h1, -⟩)
      · exact absurd h1 (by simp)
      · exact absurd h1 (by simp)
    · intro _ _
      rw [type_of_error he]
  · rw [h, hA]
    refine ⟨fun _ => ?_, ?_, ?_, ?_, ?_⟩
    · simp only
      rw [b2]
      simp
    · intro e1 he1
      exact absurd he1 (by simp)
    · rintro ⟨h1, h2⟩
      simp only [Except.ok.injEq] at h1
      rw [pair_outcome_ok hA h2, if_pos ⟨h1, rfl⟩]
      simp
    · intro h1
      have hv : ∃ typeB, Controller.type_of (Controller.next_message (sim.teamAt j).read) =
          .ok typeB ∧ ((tA = .DISCO ∧ typeB = .END) ∨ (tA = .END ∧ typeB = .DISCO)) := by
        rcases h1 with ⟨h1, h2⟩ | ⟨h1, h2⟩
        · simp only [Except.ok.injEq] at h1
          exact ⟨_, h2, Or.inl ⟨h1, rfl⟩⟩
        · simp only [Except.ok.injEq] at h1
          exact ⟨_, h2, Or.inr ⟨h1, rfl⟩⟩
      obtain ⟨typeB, hB, hv2⟩ := hv
      have hnd : ¬ (tA = .DONEFIGHTING ∧ typeB = .DONEFIGHTING) := by
        rintro ⟨d1, d2⟩
        rcases hv2 with ⟨v1, -⟩ | ⟨v1, -⟩
        · rw [d1] at v1
          exact absurd v1 (by decide)
        · rw [d1] at v1
          exact absurd v1 (by decide)
      rw [pair_outcome_ok hA hB, if_neg hnd, if_pos hv2]
      simp
    · intro n1 n2
      cases hB : Controller.type_of (Controller.next_message (sim.teamAt j).read) with
      | error e => rw [pair_outcome_second_error hA hB]
      | ok typeB =>
        rw [hB] at n1 n2
        simp only [Except.ok.injEq] at n1 n2
        rw [pair_outcome_ok hA hB, if_neg n1, if_neg n2]

/-- Claim C25, witness: the teams `A` and `B` of `pairSim`. -/
theorem read_pair_outcome_witness :
    (Controller.type_of (Controller.next_message (pairSim.teamAt 0).read) = .ok .DONEFIGHTING ∧
      Controller.type_of (Controller.next_message (pairSim.teamAt 1).read) = .ok .DONEFIGHTING) ∧
    (Controller.read_pair 0 1 pairSim false).1 = .ok false :=
  ⟨by decide, (read_pair_outcome pairSim 0 1 false (by decide) (by decide)).2.2.1 (by decide)⟩

/-- Claim C25, counterexample: the teams `A` and `B` of `helloSim` are in the
same grid square and the next line of `A` is `hello`: the protocol error ends
the controller after the read from `A`, and no message of `B` is read. -/
theorem read_pair_outcome_counterexample :
    (helloSim.teamAt 0).pos = (helloSim.teamAt 1).pos ∧
    (Controller.read_pair 0 1 helloSim false).1 = .error (.exit_game EXIT_BAD_MESSAGE) ∧
    (Controller.read_pair 0 1 helloSim false).2.log = [⟨0, some "hello".toList⟩] ∧
    ((Controller.read_pair 0 1 helloSim false).2.teamAt 1).read = (helloSim.teamAt 1).read := by
  decide

/-- Claim C26: `read_donefighting_messages` ends in one of three ways.  When
every pair of messages read in the barrier is accepted and one of them is
`disco` with the end of the stream, `gameoverman` is sent to every team and
the controller ends with status 0.  A pair that is not accepted ends the
controller with the protocol error and nothing is sent, also when another
pair of the round is `disco` with the end of the stream.  Else the round goes
on and nothing is sent. -/
theorem read_donefighting_messages_early (sim : Simulation) :
    ∃ log : List Controller.Received,
      (Controller.read_donefighting_messages sim).2.log = sim.log ++ log ∧
      (Controller.barrier_outcome log false = .ok true →
        (Controller.read_donefighting_messages sim).1 = .error (.exit 0) ∧
        ∀ k, k < sim.teams.length →
          ((Controller.read_donefighting_messages sim).2.teamAt k).write =
            (sim.teamAt k).write ++ "gameoverman\n".toList) ∧
      (Controller.barrier_outcome log false = .ok false →
        (Controller.read_donefighting_messages sim).1 = .ok () ∧
        ∀ k, ((Controller.read_donefighting_messages sim).2.teamAt k).write =
          (sim.teamAt k).write) ∧
      (∀ e, Controller.barrier_outcome log false = .error e →
        (Controller.read_donefighting_messages sim).1 = .error (.exit_game EXIT_BAD_MESSAGE) ∧
        ∀ k, ((Controller.read_donefighting_messages sim).2.teamAt k).write =
          (sim.teamAt k).write) := by
  obtain ⟨log, l1, -, -, -, h⟩ := read_donefighting_messages_spec sim
  refine ⟨log, l1, ?_, ?_, ?_⟩
  · intro hb
    rcases h with ⟨-, h2, -, -⟩ | ⟨h1, -, -, h4⟩ | ⟨-, h2, -⟩
    · rw [hb] at h2
      exact absurd h2 (by simp)
    · exact ⟨h1, h4⟩
    · rw [hb] at h2
      exact absurd h2 (by simp)
  · intro hb
    rcases h with ⟨h1, -, -, h4⟩ | ⟨-, h2, -, -⟩ | ⟨-, h2, -⟩
    · exact ⟨h1, h4⟩
    · rw [hb] at h2
      exact absurd h2 (by simp)
    · rw [hb] at h2
      exact absurd h2 (by simp)
  · intro e hb
    rcases h with ⟨-, h2, -, -⟩ | ⟨-, h2, -, -⟩ | ⟨h1, -, h3⟩
    · rw [hb] at h2
      exact absurd h2 (by simp)
    · rw [hb] at h2
      exact absurd h2 (by simp)
    · exact ⟨h1, h3⟩

/-- Claim C26, witness: in `earlySim` the pair of `A` and `B` is `disco` with
the end of the stream and the pair of `C` and `D` is accepted: every team is
sent `gameoverman` and the controller ends with status 0. -/
theorem read_donefighting_messages_early_witness :
    (Controller.read_donefighting_messages earlySim).1 = .error (.exit 0) ∧
    ∀ k, k < earlySim.teams.length →
      ((Controller.read_donefighting_messages earlySim).2.teamAt k).write =
        (earlySim.teamAt k).write ++ "gameoverman\n".toList := by
  obtain ⟨log, l1, h1, -, -⟩ := read_donefighting_messages_early earlySim
  have e : (Controller.read_donefighting_messages earlySim).2.log =
      [⟨0, some "disco".toList⟩, ⟨1, none⟩, ⟨2, some "donefighting".toList⟩,
        ⟨3, some "donefighting".toList⟩] := by decide
  have e0 : earlySim.log = [] := rfl
  rw [e, e0, List.nil_append] at l1
  rw [← l1] at h1
  exact h1 (by decide)

/-- Claim C26, counterexample: in `mixedSim` the pair of `A` and `B` is `disco`
with the end of the stream, and the pair of `C` and `D` is `travel N` with
`donefighting`: the controller ends with the protocol error and no team is
sent `gameoverman`. -/
theorem read_donefighting_messages_early_counterexample :
    Controller.pair_outcome (Controller.next_message (mixedSim.teamAt 0).read)
      (Controller.next_message (mixedSim.teamAt 1).read) = .ok true ∧
    (mixedSim.teamAt 0).pos = (mixedSim.teamAt 1).pos ∧
    (Controller.read_donefighting_messages mixedSim).1 = .error (.exit_game EXIT_BAD_MESSAGE) ∧
    (Controller.read_donefighting_messages mixedSim).2.teams.map Controller.Team.write =
      [[], [], [], []] := by
  decide

/-! ## Positions on the grid -/

theorem emod_pred (w : Int) : (0 - 1) % w = (w - 1) % w := by
  have h : (0 - 1 : Int) = (w - 1) + (-1) * w := by ring
  rw [h, Int.add_mul_emod_self]

/-- The movement update for `N` from a position inside the grid. -/
theorem travel_north (sim : Simulation) (pos : Coords) (hw : 1 ≤ sim.width)
    (hh : 1 ≤ sim.height) (hin : InGrid sim pos) :
    Controller.travel sim 'N' pos = .ok ⟨pos.x, (pos.y + 1) % sim.height⟩ := by
  obtain ⟨h1, h2, h3, h4⟩ := hin
  unfold Controller.travel
  simp only [if_true]
  rw [if_neg (by omega), if_neg (by omega)]
  simp only
  rw [Int.tmod_eq_emod h1 (by omega), Int.tmod_eq_emod (by omega) (by omega),
    Int.emod_eq_of_lt h1 h2]

/-- The movement update for `E` from a position inside the grid. -/
theorem travel_east (sim : Simulation) (pos : Coords) (hw : 1 ≤ sim.width)
    (hh : 1 ≤ sim.height) (hin : InGrid sim pos) :
    Controller.travel sim 'E' pos = .ok ⟨(pos.x + 1) % sim.width, pos.y⟩ := by
  obtain ⟨h1, h2, h3, h4⟩ := hin
  unfold Controller.travel
  rw [if_neg (by decide), if_pos rfl]
  simp only
  rw [if_neg (by omega), if_neg (by omega)]
  simp only
  rw [Int.tmod_eq_emod (by omega) (by omega), Int.tmod_eq_emod h3 (by omega),
    Int.emod_eq_of_lt h3 h4]

/-- The movement update for `S` from a position inside the grid. -/
theorem travel_south (sim : Simulation) (pos : Coords) (hw : 1 ≤ sim.width)
    (hh : 1 ≤ sim.height) (hin : InGrid sim pos) :
    Controller.travel sim 'S' pos = .ok ⟨pos.x, (pos.y - 1) % sim.height⟩ := by
  obtain ⟨h1, h2, h3, h4⟩ := hin
  unfold Controller.travel
  rw [if_neg (by decide), if_neg (by decide), if_pos rfl]
  simp only
  rw [if_neg (by omega)]
  by_cases hy : pos.y - 1 < 0
  · rw [if_pos hy]
    simp only
    have hy0 : pos.y = 0 := by omega
    rw [Int.tmod_eq_emod h1 (by omega), Int.tmod_eq_emod (by omega) (by omega),
      Int.emod_eq_of_lt h1 h2, hy0, emod_pred]
  · rw [if_neg hy]
    simp only
    rw [Int.tmod_eq_emod h1 (by omega), Int.tmod_eq_emod (by omega) (by omega),
      Int.emod_eq_of_lt h1 h2]

/-- The movement update for `W` from a position inside the grid. -/
theorem travel_west (sim : Simulation) (pos : Coords) (hw : 1 ≤ sim.width)
    (hh : 1 ≤ sim.height) (hin : InGrid sim pos) :
    Controller.travel sim 'W' pos = .ok ⟨(pos.x - 1) % sim.width, pos.y⟩ := by
  obtain ⟨h1, h2, h3, h4⟩ := hin
  unfold Controller.travel
  rw [if_neg (by decide), if_neg (by decide), if_neg (by decide), if_pos rfl]
  simp only
  by_cases hx : pos.x - 1 < 0
  · rw [if_pos hx]
    simp only
    have hx0 : pos.x = 0 := by omega
    rw [Int.tmod_eq_emod (by omega) (by omega), Int.tmod_eq_emod h3 (by omega),
      Int.emod_eq_of_lt h3 h4, hx0, emod_pred]
  · rw [if_neg hx, if_neg (by omega)]
    simp only
    rw [Int.tmod_eq_emod (by omega) (by omega), Int.tmod_eq_emod h3 (by omega),
      Int.emod_eq_of_lt h3 h4]

/-- A letter that is not a direction ends the controller with the protocol
error. -/
theorem travel_other (sim : Simulation) (d : Char) (pos : Coords) (hn : d ≠ 'N') (he : d ≠ 'E')
    (hs : d ≠ 'S') (hw : d ≠ 'W') :
    Controller.travel sim d pos = .error (.exit_game EXIT_BAD_MESSAGE) := by
  unfold Controller.travel
  rw [if_neg hn, if_neg he, if_neg hs, if_neg hw]

/-- The movement update keeps a position inside the grid. -/
theorem travel_in_grid (sim : Simulation) (d : Char) (pos p : Coords) (hw : 1 ≤ sim.width)
    (hh : 1 ≤ sim.height) (hin : InGrid sim pos) (h : Controller.travel sim d pos = .ok p) :
    InGrid sim p := by
  have hw0 : sim.width ≠ 0 := by omega
  have hh0 : sim.height ≠ 0 := by omega
  obtain ⟨h1, h2, h3, h4⟩ := hin
  by_cases hn : d = 'N'
  · rw [hn, travel_north sim pos hw hh ⟨h1, h2, h3, h4⟩] at h
    simp only [Except.ok.injEq] at h
    rw [← h]
    exact ⟨h1, h2, Int.emod_nonneg _ hh0, Int.emod_lt_of_pos _ (by omega)⟩
  by_cases he : d = 'E'
  · rw [he, travel_east sim pos hw hh ⟨h1, h2, h3, h4⟩] at h
    simp only [Except.ok.injEq] at h
    rw [← h]
    exact ⟨Int.emod_nonneg _ hw0, Int.emod_lt_of_pos _ (by omega), h3, h4⟩
  by_cases hs : d = 'S'
  · rw [hs, travel_south sim pos hw hh ⟨h1, h2, h3, h4⟩] at h
    simp only [Except.ok.injEq] at h
    rw [← h]
    exact ⟨h1, h2, Int.emod_nonneg _ hh0, Int.emod_lt_of_pos _ (by omega)⟩
  by_cases hwd : d = 'W'
  · rw [hwd, travel_west sim pos hw hh ⟨h1, h2, h3, h4⟩] at h
    simp only [Except.ok.injEq] at h
    rw [← h]
    exact ⟨Int.emod_nonneg _ hw0, Int.emod_lt_of_pos _ (by omega), h3, h4⟩
  rw [travel_other sim d pos hn he hs hwd] at h
  exact absurd h (by simp)

theorem read_msg_line {file line : List Char}
    (h : Controller.next_message file = some line) : (Controller.read_msg file).2.1 = line := by
  unfold Controller.next_message at h
  unfold Controller.read_msg
  by_cases hf : file = []
  · rw [if_pos hf] at h
    exact absurd h (by simp)
  · rw [if_neg hf] at h
    rw [if_neg hf]
    simpa using h

/-- What the body of the loop of `process_wherenow_messages` changes: the
streams and the log, and the position of the team number `j`, which is left
as it is or follows the movement update. -/
theorem process_wherenow_cases (sim : Simulation) (j : Nat) :
    (Controller.process_wherenow sim j).2.teams.length = sim.teams.length ∧
    (Controller.process_wherenow sim j).2.width = sim.width ∧
    (Controller.process_wherenow sim j).2.height = sim.height ∧
    (∀ k, k ≠ j →
      ((Controller.process_wherenow sim j).2.teamAt k).pos = (sim.teamAt k).pos) ∧
    (((Controller.process_wherenow sim j).2.teamAt j).pos = (sim.teamAt j).pos ∨
      ∃ d, Controller.travel sim d (sim.teamAt j).pos =
        .ok ((Controller.process_wherenow sim j).2.teamAt j).pos) := by
  obtain ⟨w1, -, -, -⟩ := write_to_spec sim j "wherenow?\n".toList
  obtain ⟨r1, -, -, -, -⟩ :=
    read_from_spec (Controller.write_to sim j "wherenow?\n".toList) j
  have hs : Stable sim (Controller.read_from
      (Controller.write_to sim j "wherenow?\n".toList) j).2.2 := Stable_trans w1 r1
  have hstable : ∀ s1 : Simulation, Stable sim s1 →
      s1.teams.length = sim.teams.length ∧ s1.width = sim.width ∧ s1.height = sim.height ∧
      (∀ k, k ≠ j → (s1.teamAt k).pos = (sim.teamAt k).pos) ∧
      ((s1.teamAt j).pos = (sim.teamAt j).pos ∨
        ∃ d, Controller.travel sim d (sim.teamAt j).pos = .ok (s1.teamAt j).pos) :=
    fun s1 h => ⟨h.1, h.2.2.1, h.2.2.2.1, fun k _ => (h.2.2.2.2 k).2.2, Or.inl (h.2.2.2.2 j).2.2⟩
  unfold Controller.process_wherenow
  simp only
  cases hr : (Controller.read_from (Controller.write_to sim j "wherenow?\n".toList) j).1 with
  | error e => exact hstable _ hs
  | ok type =>
    simp only
    by_cases hc : type ≠ .TRAVEL ∨
        (Controller.read_from (Controller.write_to sim j "wherenow?\n".toList) j).2.1.length ≠
          "travel d".toList.length
    · rw [if_pos hc]
      exact hstable _ hs
    · rw [if_neg hc]
      cases ht : Controller.travel sim
        ((Controller.read_from (Controller.write_to sim j "wherenow?\n".toList) j).2.1.getD
          "travel ".toList.length '\x00')
        ((Controller.read_from (Controller.write_to sim j "wherenow?\n".toList) j).2.2.teamAt
          j).pos with
      | error e => exact hstable _ hs
      | ok pos =>
        simp only
        have key : ∀ k, Simulation.teamAt
            { (Controller.read_from (Controller.write_to sim j "wherenow?\n".toList) j).2.2 with
              teams := (Controller.read_from
                (Controller.write_to sim j "wherenow?\n".toList) j).2.2.teams.set j
                { (Controller.read_from
                    (Controller.write_to sim j "wherenow?\n".toList) j).2.2.teamAt j with
                  pos := pos } } k =
            if k = j ∧ j < (Controller.read_from
                (Controller.write_to sim j "wherenow?\n".toList) j).2.2.teams.length then
              { (Controller.read_from
                  (Controller.write_to sim j "wherenow?\n".toList) j).2.2.teamAt j with
                pos := pos }
            else (Controller.read_from
                (Controller.write_to sim j "wherenow?\n".toList) j).2.2.teamAt k :=
          fun k => teamAt_set _ j k _ _
        refine ⟨by simp only [List.length_set]; exact hs.1, hs.2.2.1, hs.2.2.2.1,
          fun k hk => ?_, ?_⟩
        · rw [key k, if_neg (fun c => hk c.1)]
          exact (hs.2.2.2.2 k).2.2
        · rw [key j]
          rw [(hs.2.2.2.2 j).2.2] at ht
          by_cases hj : j < (Controller.read_from
              (Controller.write_to sim j "wherenow?\n".toList) j).2.2.teams.length
          · rw [if_pos ⟨rfl, hj⟩]
            exact Or.inr ⟨_, ht⟩
          · rw [if_neg (fun c => hj c.2)]
            exact Or.inl (hs.2.2.2.2 j).2.2

/-- The body of the loop of `process_wherenow_messages` keeps the teams inside
the grid. -/
theorem process_wherenow_in_grid (sim : Simulation) (j : Nat) (hw : 1 ≤ sim.width)
    (hh : 1 ≤ sim.height) (hin : AllInGrid sim) :
    AllInGrid (Controller.process_wherenow sim j).2 := by
  obtain ⟨c1, c2, c3, c4, c5⟩ := process_wherenow_cases sim j
  intro k hk
  rw [c1] at hk
  have hgrid : ∀ p, InGrid sim p → InGrid (Controller.process_wherenow sim j).2 p := by
    intro p hp
    unfold InGrid
    rw [c2, c3]
    exact hp
  by_cases hkj : k = j
  · subst hkj
    rcases c5 with c5 | ⟨d, c5⟩
    · rw [c5]
      exact hgrid _ (hin k hk)
    · exact hgrid _ (travel_in_grid sim d _ _ hw hh (hin k hk) c5)
  · rw [c4 k hkj]
    exact hgrid _ (hin k hk)

/-- The loop of `process_wherenow_messages` keeps the grid and keeps the teams
inside it. -/
theorem process_wherenow_loop_in_grid :
    ∀ (js : List Nat) (sim : Simulation), 1 ≤ sim.width → 1 ≤ sim.height → AllInGrid sim →
      (Controller.process_wherenow_loop js sim).2.width = sim.width ∧
      (Controller.process_wherenow_loop js sim).2.height = sim.height ∧
      AllInGrid (Controller.process_wherenow_loop js sim).2 := by
  intro js
  induction js with
  | nil =>
    intro sim _ _ hin
    exact ⟨rfl, rfl, hin⟩
  | cons j js ih =>
    intro sim hw hh hin
    obtain ⟨-, c2, c3, -, -⟩ := process_wherenow_cases sim j
    have hstep := process_wherenow_in_grid sim j hw hh hin
    rw [Controller.process_wherenow_loop]
    rcases hp : Controller.process_wherenow sim j with ⟨e | u, sim1⟩
    · rw [hp] at hstep c2 c3
      exact ⟨c2, c3, hstep⟩
    · rw [hp] at hstep c2 c3
      simp only at hstep c2 c3 ⊢
      obtain ⟨i1, i2, i3⟩ := ih sim1 (by rw [c2]; exact hw) (by rw [c3]; exact hh) hstep
      exact ⟨i1.trans c2, i2.trans c3, i3⟩

/-- A simulation that differs only in the streams and the log keeps its teams
inside the grid. -/
theorem AllInGrid_stable {s s1 : Simulation} (h : Stable s s1) (hin : AllInGrid s) :
    AllInGrid s1 := by
  intro k hk
  rw [h.1] at hk
  unfold InGrid
  rw [(h.2.2.2.2 k).2.2, h.2.2.1, h.2.2.2.1]
  exact hin k hk

/-! ## Joining the simulation and moving on the grid -/

/-- What a team that `connect_team` returns is made of: its position is that
of coordinates that are not negative, reduced to the grid. -/
theorem connect_team_ok {sim : Simulation} {sinister read : List Char} {team : Controller.Team}
    (h : Controller.connect_team sim sinister read = .ok team) :
    ∃ x y : Int, 0 ≤ x ∧ 0 ≤ y ∧ team.pos = ⟨x.tmod sim.width, y.tmod sim.height⟩ ∧
      valid_port team.port = true ∧ team.read = (Controller.read_msg read).2.2 := by
  unfold Controller.connect_team at h
  cases hcopy : Controller.copy_file sinister.length sinister with
  | error e =>
    rw [hcopy] at h
    exact absurd h (by simp)
  | ok text =>
    rw [hcopy] at h
    simp only at h
    cases hr : (Controller.read_msg read).1 with
    | error e =>
      rw [hr] at h
      exact absurd h (by simp)
    | ok type =>
      rw [hr] at h
      simp only at h
      by_cases ht : type ≠ .IWANNAPLAY
      · rw [if_pos ht] at h
        exact absurd h (by simp)
      rw [if_neg ht] at h
      cases hc : get_coords (Controller.read_msg read).2.1 ' ' "iwannaplay ".toList.length with
      | error e =>
        rw [hc] at h
        exact absurd h (by simp)
      | ok coords =>
        rw [hc] at h
        simp only at h
        by_cases hb : coords.1.x < 0 ∨ coords.1.y < 0 ∨
            coords.2 ≥ (Controller.read_msg read).2.1.length
        · rw [if_pos hb] at h
          exact absurd h (by simp)
        rw [if_neg hb] at h
        by_cases hn : (get_token_update_pos (Controller.read_msg read).2.1 ' ' coords.2).2 ≥
            (Controller.read_msg read).2.1.length
        · rw [if_pos hn] at h
          exact absurd h (by simp)
        rw [if_neg hn] at h
        cases hp : number (get_token_update_pos (Controller.read_msg read).2.1 '\x00'
            (get_token_update_pos (Controller.read_msg read).2.1 ' ' coords.2).2).1 with
        | error e =>
          rw [hp] at h
          exact absurd h (by simp)
        | ok port =>
          rw [hp] at h
          simp only at h
          by_cases hv : valid_port port = false
          · rw [if_pos hv] at h
            exact absurd h (by simp)
          rw [if_neg hv] at h
          simp only [Except.ok.injEq] at h
          rw [← h]
          refine ⟨coords.1.x, coords.1.y, by omega, by omega, rfl, ?_, rfl⟩
          simpa using hv

/-- A team that `connect_team` returns is inside the grid. -/
theorem connect_team_in_grid {sim : Simulation} {sinister read : List Char}
    {team : Controller.Team} (hw : 1 ≤ sim.width) (hh : 1 ≤ sim.height)
    (h : Controller.connect_team sim sinister read = .ok team) : InGrid sim team.pos := by
  obtain ⟨x, y, hx, hy, hpos, -, -⟩ := connect_team_ok h
  rw [hpos]
  unfold InGrid
  simp only
  rw [Int.tmod_eq_emod hx (by omega), Int.tmod_eq_emod hy (by omega)]
  exact ⟨Int.emod_nonneg _ (by omega), Int.emod_lt_of_pos _ (by omega),
    Int.emod_nonneg _ (by omega), Int.emod_lt_of_pos _ (by omega)⟩

/-- In every state that the controller goes through, the grid has a square
and every team is inside the grid. -/
theorem Reachable_grid {sim : Simulation} (h : Controller.Reachable sim) :
    1 ≤ sim.width ∧ 1 ≤ sim.height ∧ AllInGrid sim := by
  induction h with
  | start rounds width height hw hh =>
    refine ⟨hw, hh, ?_⟩
    intro k hk
    exact absurd hk (Nat.not_lt_zero _)
  | connect sim sinister read team _ hc ih =>
    obtain ⟨hw, hh, hin⟩ := ih
    refine ⟨hw, hh, ?_⟩
    intro k hk
    have hk1 : k < sim.teams.length + 1 := by simpa using hk
    have hgrid := connect_team_in_grid hw hh hc
    by_cases hlt : k < sim.teams.length
    · have e : Simulation.teamAt { sim with teams := sim.teams ++ [team] } k = sim.teamAt k := by
        unfold Simulation.teamAt
        exact List.getD_append _ _ _ _ hlt
      rw [e]
      exact hin k hlt
    · have e : Simulation.teamAt { sim with teams := sim.teams ++ [team] } k = team := by
        unfold Simulation.teamAt
        simp only
        rw [List.getD_append_right _ _ _ _ (by omega)]
        have : k - sim.teams.length = 0 := by omega
        rw [this]
        rfl
      rw [e]
      exact hgrid
  | qsort sim teams _ hp ih =>
    obtain ⟨hw, hh, hin⟩ := ih
    refine ⟨hw, hh, ?_⟩
    intro k hk
    have hk1 : k < teams.length := hk
    have e : Simulation.teamAt { sim with teams := teams } k = teams[k] := by
      unfold Simulation.teamAt
      exact List.getD_eq_getElem teams default hk1
    have hm : teams[k] ∈ sim.teams := hp.mem_iff.mp (List.getElem_mem hk1)
    obtain ⟨m, hm1, hm2⟩ := List.mem_iff_getElem.mp hm
    have e2 : sim.teamAt m = teams[k] := by
      unfold Simulation.teamAt
      rw [List.getD_eq_getElem sim.teams default hm1]
      exact hm2
    rw [e, ← e2]
    exact hin m hm1
  | battle sim _ ih =>
    obtain ⟨hw, hh, hin⟩ := ih
    obtain ⟨hs, -, -⟩ := send_battle_messages_stable sim
    exact ⟨by rw [hs.2.2.1]; exact hw, by rw [hs.2.2.2.1]; exact hh, AllInGrid_stable hs hin⟩
  | barrier sim _ ih =>
    obtain ⟨hw, hh, hin⟩ := ih
    obtain ⟨log, -, hs, -⟩ := read_donefighting_messages_spec sim
    exact ⟨by rw [hs.2.2.1]; exact hw, by rw [hs.2.2.2.1]; exact hh, AllInGrid_stable hs hin⟩
  | gameover sim _ ih =>
    obtain ⟨hw, hh, hin⟩ := ih
    obtain ⟨hs, -, -, -⟩ := send_gameoverman_spec sim
    exact ⟨by rw [hs.2.2.1]; exact hw, by rw [hs.2.2.2.1]; exact hh, AllInGrid_stable hs hin⟩
  | wherenow sim _ ih =>
    obtain ⟨hw, hh, hin⟩ := ih
    obtain ⟨l1, l2, l3⟩ :=
      process_wherenow_loop_in_grid (List.range sim.teams.length) sim hw hh hin
    exact ⟨by rw [Controller.process_wherenow_messages, l1]; exact hw,
      by rw [Controller.process_wherenow_messages, l2]; exact hh, l3⟩

/-- The loop of `process_wherenow_messages` keeps the number of teams. -/
theorem process_wherenow_loop_length :
    ∀ (js : List Nat) (sim : Simulation),
      (Controller.process_wherenow_loop js sim).2.teams.length = sim.teams.length := by
  intro js
  induction js with
  | nil =>
    intro sim
    rfl
  | cons j js ih =>
    intro sim
    obtain ⟨c1, -, -, -, -⟩ := process_wherenow_cases sim j
    rw [Controller.process_wherenow_loop]
    rcases hp : Controller.process_wherenow sim j with ⟨e | u, sim1⟩
    · rw [hp] at c1
      exact c1
    · rw [hp] at c1
      simp only at c1 ⊢
      exact (ih sim1).trans c1

/-- Claim C27: in every state that the controller goes through, with a grid of
width and height at least 1, every team of the roster has
`0 <= x < width` and `0 <= y < height`: a team that `connect_team` returns has
coordinates that are not negative, reduced modulo the grid, and
`process_wherenow_messages` keeps every team inside the grid. -/
theorem reachable_in_grid (sim : Simulation) (h : Controller.Reachable sim) :
    1 ≤ sim.width ∧ 1 ≤ sim.height ∧
    (∀ k, k < sim.teams.length →
      0 ≤ (sim.teamAt k).pos.x ∧ (sim.teamAt k).pos.x < sim.width ∧
      0 ≤ (sim.teamAt k).pos.y ∧ (sim.teamAt k).pos.y < sim.height) ∧
    (∀ sinister read team, Controller.connect_team sim sinister read = .ok team →
      (∃ x y : Int, 0 ≤ x ∧ 0 ≤ y ∧ team.pos = ⟨x % sim.width, y % sim.height⟩) ∧
      0 ≤ team.pos.x ∧ team.pos.x < sim.width ∧ 0 ≤ team.pos.y ∧ team.pos.y < sim.height) ∧
    (Controller.process_wherenow_messages sim).2.width = sim.width ∧
    (Controller.process_wherenow_messages sim).2.height = sim.height ∧
    (Controller.process_wherenow_messages sim).2.teams.length = sim.teams.length ∧
    (∀ k, k < sim.teams.length →
      0 ≤ ((Controller.process_wherenow_messages sim).2.teamAt k).pos.x ∧
      ((Controller.process_wherenow_messages sim).2.teamAt k).pos.x < sim.width ∧
      0 ≤ ((Controller.process_wherenow_messages sim).2.teamAt k).pos.y ∧
      ((Controller.process_wherenow_messages sim).2.teamAt k).pos.y < sim.height) := by
  obtain ⟨hw, hh, hin⟩ := Reachable_grid h
  obtain ⟨l1, l2, l3⟩ :=
    process_wherenow_loop_in_grid (List.range sim.teams.length) sim hw hh hin
  have hlen := process_wherenow_loop_length (List.range sim.teams.length) sim
  refine ⟨hw, hh, hin, ?_, l1, l2, hlen, ?_⟩
  · intro sinister read team hc
    refine ⟨?_, connect_team_in_grid hw hh hc⟩
    obtain ⟨x, y, hx, hy, hpos, -, -⟩ := connect_team_ok hc
    refine ⟨x, y, hx, hy, ?_⟩
    rw [hpos, Int.tmod_eq_emod hx (by omega), Int.tmod_eq_emod hy (by omega)]
  · intro k hk
    have := l3 k (by rw [← hlen] at hk; exact hk)
    have m1 : (Controller.process_wherenow_messages sim).2.width = sim.width := l1
    have m2 : (Controller.process_wherenow_messages sim).2.height = sim.height := l2
    unfold InGrid at this
    rw [← Controller.process_wherenow_messages, m1, m2] at this
    exact this

/-- Claim C27, witness: the state of a simulation on a 3 by 3 grid after the
team `Alpha` has joined with the coordinates (4, 5). -/
theorem reachable_in_grid_witness :
    0 ≤ (Simulation.teamAt ⟨[⟨"Alpha".toList, 5001, ⟨1, 2⟩, [], "sinister\nfire\n.\n".toList⟩],
      1, 3, 3, []⟩ 0).pos.x ∧
    (Simulation.teamAt ⟨[⟨"Alpha".toList, 5001, ⟨1, 2⟩, [], "sinister\nfire\n.\n".toList⟩],
      1, 3, 3, []⟩ 0).pos.x < 3 ∧
    0 ≤ (Simulation.teamAt ⟨[⟨"Alpha".toList, 5001, ⟨1, 2⟩, [], "sinister\nfire\n.\n".toList⟩],
      1, 3, 3, []⟩ 0).pos.y ∧
    (Simulation.teamAt ⟨[⟨"Alpha".toList, 5001, ⟨1, 2⟩, [], "sinister\nfire\n.\n".toList⟩],
      1, 3, 3, []⟩ 0).pos.y < 3 :=
  (reachable_in_grid
    ⟨[⟨"Alpha".toList, 5001, ⟨1, 2⟩, [], "sinister\nfire\n.\n".toList⟩], 1, 3, 3, []⟩
    (Controller.Reachable.connect ⟨[], 1, 3, 3, []⟩ "fire\n.\n".toList
      "iwannaplay 4 5 Alpha 5001\n".toList
      ⟨"Alpha".toList, 5001, ⟨1, 2⟩, [], "sinister\nfire\n.\n".toList⟩
      (Controller.Reachable.start 1 3 3 (by decide) (by decide)) (by rfl))).2.2.1 0 (by decide)

/-- The body of the loop of `process_wherenow_messages` for a team whose reply
is `travel d`: the team moves by the movement update for `d`, when that does
not end the controller. -/
theorem process_wherenow_ok (sim : Simulation) (j : Nat) (d : Char) (p : Coords)
    (hj : j < sim.teams.length)
    (hmsg : Controller.next_message (sim.teamAt j).read = some ("travel ".toList ++ [d]))
    (ht : Controller.travel sim d (sim.teamAt j).pos = .ok p) :
    (Controller.process_wherenow sim j).1 = .ok () ∧
    ((Controller.process_wherenow sim j).2.teamAt j).pos = p := by
  obtain ⟨w1, -, w3, -⟩ := write_to_spec sim j "wherenow?\n".toList
  obtain ⟨r1, -, -, -, r5⟩ :=
    read_from_spec (Controller.write_to sim j "wherenow?\n".toList) j
  have hs : Stable sim (Controller.read_from
      (Controller.write_to sim j "wherenow?\n".toList) j).2.2 := Stable_trans w1 r1
  rw [w3 j, hmsg] at r5
  have htype : (Controller.read_from (Controller.write_to sim j "wherenow?\n".toList) j).1 =
      .ok .TRAVEL := r5
  have hline : (Controller.read_from (Controller.write_to sim j "wherenow?\n".toList) j).2.1 =
      "travel ".toList ++ [d] := by
    have e : (Controller.read_from (Controller.write_to sim j "wherenow?\n".toList) j).2.1 =
        (Controller.read_msg
          ((Controller.write_to sim j "wherenow?\n".toList).teamAt j).read).2.1 := rfl
    rw [e, w3 j]
    exact read_msg_line hmsg
  have hpos : ((Controller.read_from (Controller.write_to sim j "wherenow?\n".toList)
      j).2.2.teamAt j).pos = (sim.teamAt j).pos := (hs.2.2.2.2 j).2.2
  have hlen : j < (Controller.read_from (Controller.write_to sim j "wherenow?\n".toList)
      j).2.2.teams.length := by
    rw [hs.1]
    exact hj
  unfold Controller.process_wherenow
  simp only
  rw [htype]
  simp only
  rw [hline, if_neg (by
    intro c
    rcases c with c | c
    · exact c rfl
    · exact c rfl)]
  have hd : ("travel ".toList ++ [d]).getD "travel ".toList.length '\x00' = d := rfl
  rw [hd, hpos, ht]
  simp only
  refine ⟨trivial, ?_⟩
  rw [teamAt_set _ j j _ _, if_pos ⟨rfl, hlen⟩]

/-- Claim C28: for a team of the roster at a position (x, y) inside the grid
whose reply to `wherenow?` is `travel d`, the body of the loop of
`process_wherenow_messages` moves the team to (x, (y + 1) mod height) for `N`,
(x, (y - 1) mod height) for `S`, ((x + 1) mod width, y) for `E` and
((x - 1) mod width, y) for `W`, where `mod` is the remainder that is never
negative; the other teams stay where they are. -/
theorem process_wherenow_travel (sim : Simulation) (j : Nat) (d : Char)
    (hj : j < sim.teams.length) (hw : 1 ≤ sim.width) (hh : 1 ≤ sim.height)
    (hin : InGrid sim (sim.teamAt j).pos)
    (hmsg : Controller.next_message (sim.teamAt j).read = some ("travel ".toList ++ [d])) :
    (d = 'N' → (Controller.process_wherenow sim j).1 = .ok () ∧
      ((Controller.process_wherenow sim j).2.teamAt j).pos =
        ⟨(sim.teamAt j).pos.x, ((sim.teamAt j).pos.y + 1) % sim.height⟩) ∧
    (d = 'S' → (Controller.process_wherenow sim j).1 = .ok () ∧
      ((Controller.process_wherenow sim j).2.teamAt j).pos =
        ⟨(sim.teamAt j).pos.x, ((sim.teamAt j).pos.y - 1) % sim.height⟩) ∧
    (d = 'E' → (Controller.process_wherenow sim j).1 = .ok () ∧
      ((Controller.process_wherenow sim j).2.teamAt j).pos =
        ⟨((sim.teamAt j).pos.x + 1) % sim.width, (sim.teamAt j).pos.y⟩) ∧
    (d = 'W' → (Controller.process_wherenow sim j).1 = .ok () ∧
      ((Controller.process_wherenow sim j).2.teamAt j).pos =
        ⟨((sim.teamAt j).pos.x - 1) % sim.width, (sim.teamAt j).pos.y⟩) ∧
    (∀ k, k ≠ j →
      ((Controller.process_wherenow sim j).2.teamAt k).pos = (sim.teamAt k).pos) := by
  refine ⟨fun hd => ?_, fun hd => ?_, fun hd => ?_, fun hd => ?_,
    (process_wherenow_cases sim j).2.2.2.1⟩
  · exact process_wherenow_ok sim j d _ hj hmsg (by rw [hd]; exact travel_north sim _ hw hh hin)
  · exact process_wherenow_ok sim j d _ hj hmsg (by rw [hd]; exact travel_south sim _ hw hh hin)
  · exact process_wherenow_ok sim j d _ hj hmsg (by rw [hd]; exact travel_east sim _ hw hh hin)
  · exact process_wherenow_ok sim j d _ hj hmsg (by rw [hd]; exact travel_west sim _ hw hh hin)

/-- Claim C28, witness: on a 3 by 3 grid the team of `westSim`, at (0, 0) with
the replies `travel W`, is at (2, 0) after one step, and at (1, 0) after two
calls of `process_wherenow_messages`. -/
theorem process_wherenow_travel_witness :
    ((Controller.process_wherenow westSim 0).1 = .ok () ∧
      ((Controller.process_wherenow westSim 0).2.teamAt 0).pos = ⟨(0 - 1) % 3, 0⟩) ∧
    ((Controller.process_wherenow_messages westSim).2.teamAt 0).pos = ⟨2, 0⟩ ∧
    ((Controller.process_wherenow_messages
      (Controller.process_wherenow_messages westSim).2).2.teamAt 0).pos = ⟨1, 0⟩ :=
  ⟨(process_wherenow_travel westSim 0 'W' (by decide) (by decide) (by decide) (by decide)
      (by rfl)).2.2.2.1 rfl, by rfl, by rfl⟩

theorem coords_eta (pos : Coords) : (⟨pos.x, pos.y⟩ : Coords) = pos := by
  cases pos
  rfl

/-- The movement update for `N`, `n` times in a row. -/
theorem travel_times_north (sim : Simulation) (hw : 1 ≤ sim.width) (hh : 1 ≤ sim.height) :
    ∀ (n : Nat) (pos : Coords), InGrid sim pos →
      Controller.travel_times sim 'N' n pos = .ok ⟨pos.x, (pos.y + n) % sim.height⟩ := by
  intro n
  induction n with
  | zero =>
    intro pos hin
    rw [Controller.travel_times]
    simp only [Nat.cast_zero, add_zero]
    rw [Int.emod_eq_of_lt hin.2.2.1 hin.2.2.2, coords_eta]
  | succ n ih =>
    intro pos hin
    have hstep := travel_in_grid sim 'N' pos _ hw hh hin (travel_north sim pos hw hh hin)
    rw [Controller.travel_times, travel_north sim pos hw hh hin]
    simp only
    rw [ih _ hstep]
    simp only [Nat.cast_add, Nat.cast_one]
    rw [Int.emod_add_emod]
    congr 3
    ring

/-- The movement update for `E`, `n` times in a row. -/
theorem travel_times_east (sim : Simulation) (hw : 1 ≤ sim.width) (hh : 1 ≤ sim.height) :
    ∀ (n : Nat) (pos : Coords), InGrid sim pos →
      Controller.travel_times sim 'E' n pos = .ok ⟨(pos.x + n) % sim.width, pos.y⟩ := by
  intro n
  induction n with
  | zero =>
    intro pos hin
    rw [Controller.travel_times]
    simp only [Nat.cast_zero, add_zero]
    rw [Int.emod_eq_of_lt hin.1 hin.2.1, coords_eta]
  | succ n ih =>
    intro pos hin
    have hstep := travel_in_grid sim 'E' pos _ hw hh hin (travel_east sim pos hw hh hin)
    rw [Controller.travel_times, travel_east sim pos hw hh hin]
    simp only
    rw [ih _ hstep]
    simp only [Nat.cast_add, Nat.cast_one]
    rw [Int.emod_add_emod]
    congr 3
    ring

/-- The movement update for `S`, `n` times in a row. -/
theorem travel_times_south (sim : Simulation) (hw : 1 ≤ sim.width) (hh : 1 ≤ sim.height) :
    ∀ (n : Nat) (pos : Coords), InGrid sim pos →
      Controller.travel_times sim 'S' n pos = .ok ⟨pos.x, (pos.y + -(n : Int)) % sim.height⟩ := by
  intro n
  induction n with
  | zero =>
    intro pos hin
    rw [Controller.travel_times]
    simp only [Nat.cast_zero, neg_zero, add_zero]
    rw [Int.emod_eq_of_lt hin.2.2.1 hin.2.2.2, coords_eta]
  | succ n ih =>
    intro pos hin
    have hstep := travel_in_grid sim 'S' pos _ hw hh hin (travel_south sim pos hw hh hin)
    rw [Controller.travel_times, travel_south sim pos hw hh hin]
    simp only
    rw [ih _ hstep]
    simp only [Nat.cast_add, Nat.cast_one]
    rw [Int.emod_add_emod]
    congr 3
    ring

/-- The movement update for `W`, `n` times in a row. -/
theorem travel_times_west (sim : Simulation) (hw : 1 ≤ sim.width) (hh : 1 ≤ sim.height) :
    ∀ (n : Nat) (pos : Coords), InGrid sim pos →
      Controller.travel_times sim 'W' n pos = .ok ⟨(pos.x + -(n : Int)) % sim.width, pos.y⟩ := by
  intro n
  induction n with
  | zero =>
    intro pos hin
    rw [Controller.travel_times]
    simp only [Nat.cast_zero, neg_zero, add_zero]
    rw [Int.emod_eq_of_lt hin.1 hin.2.1, coords_eta]
  | succ n ih =>
    intro pos hin
    have hstep := travel_in_grid sim 'W' pos _ hw hh hin (travel_west sim pos hw hh hin)
    rw [Controller.travel_times, travel_west sim pos hw hh hin]
    simp only
    rw [ih _ hstep]
    simp only [Nat.cast_add, Nat.cast_one]
    rw [Int.emod_add_emod]
    congr 3
    ring

/-- A coordinate inside a dimension is itself after a multiple of the
dimension is added to it. -/
theorem emod_add_multiple (a h m : Int) (h0 : 0 ≤ a) (h1 : a < h) (hd : h ∣ m) :
    (a + m) % h = a := by
  obtain ⟨c, hc⟩ := hd
  rw [hc, mul_comm, Int.add_mul_emod_self, Int.emod_eq_of_lt h0 h1]

/-- Claim C29: for a grid of width and height at least 1, a direction of `N`,
`E`, `S` and `W` and a position inside the grid, the movement update of the
controller for that direction, `k * lcm(width, height)` times in a row, gives
the position back. -/
theorem travel_times_lcm (sim : Simulation) (d : Char) (pos : Coords) (k : Nat)
    (hw : 1 ≤ sim.width) (hh : 1 ≤ sim.height)
    (hd : d = 'N' ∨ d = 'E' ∨ d = 'S' ∨ d = 'W') (hin : InGrid sim pos) :
    Controller.travel_times sim d (k * Int.lcm sim.width sim.height) pos = .ok pos := by
  have dw : sim.width ∣ ((k * Int.lcm sim.width sim.height : Nat) : Int) := by
    rw [Nat.cast_mul]
    exact Dvd.dvd.mul_left Int.dvd_lcm_left _
  have dh : sim.height ∣ ((k * Int.lcm sim.width sim.height : Nat) : Int) := by
    rw [Nat.cast_mul]
    exact Dvd.dvd.mul_left Int.dvd_lcm_right _
  obtain ⟨h1, h2, h3, h4⟩ := hin
  rcases hd with hd | hd | hd | hd
  · rw [hd, travel_times_north sim hw hh _ pos ⟨h1, h2, h3, h4⟩,
      emod_add_multiple _ _ _ h3 h4 dh, coords_eta]
  · rw [hd, travel_times_east sim hw hh _ pos ⟨h1, h2, h3, h4⟩,
      emod_add_multiple _ _ _ h1 h2 dw, coords_eta]
  · rw [hd, travel_times_south sim hw hh _ pos ⟨h1, h2, h3, h4⟩,
      emod_add_multiple _ _ _ h3 h4 ((Int.dvd_neg).mpr dh), coords_eta]
  · rw [hd, travel_times_west sim hw hh _ pos ⟨h1, h2, h3, h4⟩,
      emod_add_multiple _ _ _ h1 h2 ((Int.dvd_neg).mpr dw), coords_eta]

/-- Claim C29, witness: on the 3 by 3 grid of `westSim`, 2 * 3 steps to the
west from (1, 2). -/
theorem travel_times_lcm_witness :
    Controller.travel_times westSim 'W' (2 * Int.lcm westSim.width westSim.height) ⟨1, 2⟩ =
      .ok ⟨1, 2⟩ :=
  travel_times_lcm westSim 'W' ⟨1, 2⟩ 2 (by decide) (by decide) (Or.inr (Or.inr (Or.inr rfl)))
    (by decide)

/-! ## The `iwannaplay` message -/

/-- Claim C38: when the name of the type of the target is the name of a type
in the `lower` list of the type of the attack and also of one in its `higher`
list, `get_effectiveness` returns `LOW`: the `lower` list is looked at
first. -/
theorem get_effectiveness_lower_first (game : Game) (attack : Attack) (opponent : Agent)
    (hlow : ∃ i ∈ (game.typeAt attack.type).lower,
      (game.typeAt i).name = (game.typeAt opponent.type).name)
    (hhigh : ∃ i ∈ (game.typeAt attack.type).higher,
      (game.typeAt i).name = (game.typeAt opponent.type).name) :
    get_effectiveness game attack opponent = .LOW ∧
    ((game.typeAt attack.type).higher.any
      (fun i => decide ((game.typeAt i).name = (game.typeAt opponent.type).name))) = true := by
  obtain ⟨i, hi, hn⟩ := hlow
  obtain ⟨k, hk, hm⟩ := hhigh
  constructor
  · unfold get_effectiveness
    simp only
    rw [if_pos (List.any_eq_true.mpr ⟨i, hi, decide_eq_true hn⟩)]
  · exact List.any_eq_true.mpr ⟨k, hk, decide_eq_true hm⟩

/-- Claim C38, witness: after the relation line `a +b -b` the type `b` is in
the `higher` and in the `lower` list of the type `a`, and an attack of type
`a` on an agent of type `b` has the effectiveness `LOW`. -/
theorem get_effectiveness_lower_first_witness :
    (read_relation_strings relGame "a +b -b".toList).1 = 0 ∧
    ((read_relation_strings relGame "a +b -b".toList).2.typeAt 0).lower = [1] ∧
    ((read_relation_strings relGame "a +b -b".toList).2.typeAt 0).higher = [1] ∧
    get_effectiveness (read_relation_strings relGame "a +b -b".toList).2 ⟨"hit".toList, 0⟩
      ⟨"B".toList, 1, []⟩ = .LOW :=
  ⟨by decide, by decide, by decide,
    (get_effectiveness_lower_first (read_relation_strings relGame "a +b -b".toList).2
      ⟨"hit".toList, 0⟩ ⟨"B".toList, 1, []⟩ ⟨1, by decide, by decide⟩
      ⟨1, by decide, by decide⟩).1⟩

/-! ## The end of a stream and a blank line -/

theorem read_line_blank (rest : List Char) : read_line ('\n' :: rest) = ([], rest) := rfl

/-- Claim C31: the controller's `read_msg` tells the end of the stream (`END`)
from a blank line (the protocol error), but the two readers of the team do
not: `read_controller_msg` and `read_team_msg` take a blank line for the end
of the stream and report the loss of the controller, or of the opposing team,
for it.  A line that is not empty and has no known tag is the protocol error
for all three. -/
theorem blank_line_outcomes (rest : List Char) (simulation : Bool) :
    (Controller.read_msg []).1 = .ok .END ∧
    (Controller.read_msg ('\n' :: rest)).1 = .error (.exit_game EXIT_BAD_MESSAGE) ∧
    read_controller_msg [] = .error (.exit_game EXIT_CONTROLLER_DISCO) ∧
    read_controller_msg ('\n' :: rest) = .error (.exit_game EXIT_CONTROLLER_DISCO) ∧
    read_team_msg simulation [] =
      .error (if simulation = true then .disco else .exit_game EXIT_TEAM_DISCO) ∧
    read_team_msg simulation ('\n' :: rest) =
      .error (if simulation = true then .disco else .exit_game EXIT_TEAM_DISCO) ∧
    (∀ file, (read_line file).1 ≠ [] →
      get_token (read_line file).1 ' ' ≠ "sinister".toList →
      get_token (read_line file).1 ' ' ≠ "battle".toList →
      get_token (read_line file).1 ' ' ≠ "gameoverman".toList →
      get_token (read_line file).1 ' ' ≠ "wherenow?".toList →
      read_controller_msg file = .error (.exit_game EXIT_BAD_MESSAGE)) ∧
    (∀ file, (read_line file).1 ≠ [] →
      get_token (read_line file).1 ' ' ≠ "fightmeirl".toList →
      get_token (read_line file).1 ' ' ≠ "haveatyou".toList →
      get_token (read_line file).1 ' ' ≠ "iselectyou".toList →
      get_token (read_line file).1 ' ' ≠ "attack".toList →
      read_team_msg simulation file = .error (.exit_game EXIT_BAD_MESSAGE)) := by
  refine ⟨rfl, rfl, rfl, rfl, ?_, ?_, ?_, ?_⟩
  · cases simulation <;> rfl
  · cases simulation <;> rfl
  · intro file hne h1 h2 h3 h4
    unfold read_controller_msg
    simp only
    rw [if_neg (by simpa using hne), if_neg h1, if_neg h2, if_neg h3, if_neg h4]
  · intro file hne h1 h2 h3 h4
    unfold read_team_msg
    simp only
    rw [if_neg (by simpa using hne), if_neg h1, if_neg h2, if_neg h3, if_neg h4]

/-- Claim C31, the failing input: a blank line from the controller, with more
lines after it, ends the team with `Unexpected loss of controller`, status 9,
as the end of the stream does, and not with the protocol error; a blank line
from the opposing team makes a thread in simulation mode report `disco`. -/
theorem blank_line_disconnect :
    read_controller_msg "\nwherenow?\n".toList = .error (.exit_game 9) ∧
    read_controller_msg "\nwherenow?\n".toList = read_controller_msg [] ∧
    exit_message 9 = "Unexpected loss of controller".toList ∧
    read_team_msg true "\nattack A splash\n".toList = .error .disco ∧
    read_team_msg false "\nattack A splash\n".toList = .error (.exit_game 10) ∧
    (Controller.read_msg "\ndonefighting\n".toList).1 = .error (.exit_game 19) := by
  decide

/-! ## The order of the printed narratives -/

theorem char_toNat_inj {a b : Char} (h : a.toNat = b.toNat) : a = b := by
  apply Char.ext
  apply UInt32.ext
  exact h

theorem char_toNat_zero {a : Char} (h : a.toNat = 0) : a = '\x00' :=
  char_toNat_inj h

theorem strcmp_cons_cons (a b : Char) (as bs : List Char) :
    strcmp (a :: as) (b :: bs) =
      if a ≠ b then (a.toNat : Int) - (b.toNat : Int)
      else if a = '\x00' then 0
      else strcmp as bs := by
  simp [strcmp]

theorem strcmp_nil_left (b : List Char) : strcmp [] b ≤ 0 := by
  cases b with
  | nil => simp [strcmp]
  | cons b bs => simp [strcmp]

theorem strcmp_total (a b : List Char) : strcmp a b ≤ 0 ∨ strcmp b a ≤ 0 := by
  induction a generalizing b with
  | nil => exact Or.inl (strcmp_nil_left b)
  | cons x as ih =>
    cases b with
    | nil => exact Or.inr (strcmp_nil_left _)
    | cons y bs =>
      rw [strcmp_cons_cons, strcmp_cons_cons]
      by_cases hxy : x = y
      · subst hxy
        have hnn : ¬ (x ≠ x) := by simp
        rw [if_neg hnn, if_neg hnn]
        by_cases h0 : x = '\x00'
        · rw [if_pos h0]; exact Or.inl (le_refl _)
        · rw [if_neg h0, if_neg h0]; exact ih bs
      · rw [if_pos hxy, if_pos (fun h => hxy h.symm)]
        omega

theorem strcmp_trans (a b c : List Char) (hab : strcmp a b ≤ 0) (hbc : strcmp b c ≤ 0) :
    strcmp a c ≤ 0 := by
  induction a generalizing b c with
  | nil => exact strcmp_nil_left c
  | cons x as ih =>
    cases b with
    | nil =>
      have hx : x.toNat = 0 := by
        have : ((x.toNat : Nat) : Int) ≤ 0 := by simpa [strcmp] using hab
        omega
      have hx0 : x = '\x00' := char_toNat_zero hx
      cases c with
      | nil => exact hab
      | cons z cs =>
        rw [strcmp_cons_cons]
        by_cases hxz : x = z
        · have hnn : ¬ (x ≠ z) := by simpa using hxz
          rw [if_neg hnn, if_pos hx0]
        · rw [if_pos hxz]; omega
    | cons y bs =>
      cases c with
      | nil =>
        have hy : ((y.toNat : Nat) : Int) ≤ 0 := by simpa [strcmp] using hbc
        have goal : strcmp (x :: as) [] = (x.toNat : Int) := by simp [strcmp]
        rw [goal]
        rw [strcmp_cons_cons] at hab
        by_cases hxy : x = y
        · subst hxy; exact hy
        · rw [if_pos hxy] at hab; omega
      | cons z cs =>
        rw [strcmp_cons_cons] at hab hbc ⊢
        by_cases hxy : x = y
        · subst hxy
          have hnn : ¬ (x ≠ x) := by simp
          rw [if_neg hnn] at hab
          by_cases hxz : x = z
          · subst hxz
            rw [if_neg hnn] at hbc ⊢
            by_cases h0 : x = '\x00'
            · rw [if_pos h0]
            · rw [if_neg h0] at hab hbc ⊢
              exact ih bs cs hab hbc
          · rw [if_pos hxz] at hbc ⊢; exact hbc
        · rw [if_pos hxy] at hab
          have hne : x.toNat ≠ y.toNat := fun h => hxy (char_toNat_inj h)
          by_cases hyz : y = z
          · subst hyz
            rw [if_pos hxy]; exact hab
          · rw [if_pos hyz] at hbc
            have hxz : x ≠ z := by
              intro h; subst h; omega
            rw [if_pos hxz]; omega

theorem strcmp_antisymm (a b : List Char) (ha : '\x00' ∉ a) (hb : '\x00' ∉ b)
    (hab : strcmp a b ≤ 0) (hba : strcmp b a ≤ 0) : a = b := by
  induction a generalizing b with
  | nil =>
    cases b with
    | nil => rfl
    | cons y bs =>
      exfalso
      have hy : ((y.toNat : Nat) : Int) ≤ 0 := by simpa [strcmp] using hba
      have : y = '\x00' := char_toNat_zero (by omega)
      exact hb (by simp [this])
  | cons x as ih =>
    cases b with
    | nil =>
      exfalso
      have hx : ((x.toNat : Nat) : Int) ≤ 0 := by simpa [strcmp] using hab
      have : x = '\x00' := char_toNat_zero (by omega)
      exact ha (by simp [this])
    | cons y bs =>
      rw [strcmp_cons_cons] at hab hba
      by_cases hxy : x = y
      · subst hxy
        have h0 : x ≠ '\x00' := fun h => ha (by simp [h])
        have hnn : ¬ (x ≠ x) := by simp
        rw [if_neg hnn, if_neg h0] at hab hba
        rw [ih bs (fun h => ha (List.mem_cons_of_mem _ h))
          (fun h => hb (List.mem_cons_of_mem _ h)) hab hba]
      · exfalso
        rw [if_pos hxy] at hab
        rw [if_pos (fun h => hxy h.symm)] at hba
        exact hxy (char_toNat_inj (by omega))

theorem sorted_perm_unique {α : Type} (r : α → α → Prop) (l1 l2 : List α)
    (hanti : ∀ a ∈ l1, ∀ b ∈ l1, r a b → r b a → a = b)
    (hp : l1.Perm l2) (s1 : l1.Sorted r) (s2 : l2.Sorted r) : l1 = l2 := by
  induction l1 generalizing l2 with
  | nil => exact (List.Perm.nil_eq hp)
  | cons a t1 ih =>
    cases l2 with
    | nil => exact absurd hp.symm (by simp)
    | cons b t2 =>
      have hab : a = b := by
        by_cases h : a = b
        · exact h
        · have ha2 : a ∈ t2 := by
            have : a ∈ b :: t2 := hp.subset (List.mem_cons_self _ _)
            rcases List.mem_cons.1 this with h1 | h1
            · exact absurd h1 h
            · exact h1
          have hb1 : b ∈ t1 := by
            have : b ∈ a :: t1 := hp.symm.subset (List.mem_cons_self _ _)
            rcases List.mem_cons.1 this with h1 | h1
            · exact absurd h1.symm h
            · exact h1
          exact hanti a (List.mem_cons_self _ _) b (List.mem_cons_of_mem _ hb1)
            (List.rel_of_sorted_cons s1 b hb1) (List.rel_of_sorted_cons s2 a ha2)
      subst hab
      rw [ih t2 (fun x hx y hy => hanti x (List.mem_cons_of_mem _ hx) y
        (List.mem_cons_of_mem _ hy)) (List.Perm.cons_inv hp) s1.of_cons s2.of_cons]

theorem char_lt_iff (a b : Char) : a < b ↔ a.toNat < b.toNat := Iff.rfl

theorem strcmp_lt_iff (a b : List Char) (ha : '\x00' ∉ a) (hb : '\x00' ∉ b) :
    strcmp a b < 0 ↔ a < b := by
  induction a generalizing b with
  | nil =>
    cases b with
    | nil => simp [strcmp]
    | cons y bs =>
      have hy : y.toNat ≠ 0 := fun h => hb (by simp [char_toNat_zero h])
      constructor
      · intro _; exact List.Lex.nil
      · intro _
        have : strcmp [] (y :: bs) = 0 - (y.toNat : Int) := by simp [strcmp]
        rw [this]; omega
  | cons x as ih =>
    cases b with
    | nil =>
      constructor
      · intro h
        have : strcmp (x :: as) [] = (x.toNat : Int) := by simp [strcmp]
        rw [this] at h; omega
      · intro h; cases h
    | cons y bs =>
      rw [strcmp_cons_cons]
      by_cases hxy : x = y
      · subst hxy
        have h0 : x ≠ '\x00' := fun h => ha (by simp [h])
        have hnn : ¬ (x ≠ x) := by simp
        rw [if_neg hnn, if_neg h0,
          ih bs (fun h => ha (List.mem_cons_of_mem _ h)) (fun h => hb (List.mem_cons_of_mem _ h))]
        constructor
        · intro h; exact List.Lex.cons h
        · intro h
          cases h with
          | cons h1 => exact h1
          | rel h1 => exact absurd h1 (lt_irrefl x)
      · rw [if_pos hxy]
        have hne : x.toNat ≠ y.toNat := fun h => hxy (char_toNat_inj h)
        constructor
        · intro h
          have hlt : x.toNat < y.toNat := by omega
          exact List.Lex.rel ((char_lt_iff x y).2 hlt)
        · intro h
          cases h with
          | cons h1 => exact absurd rfl hxy
          | rel h1 => have := (char_lt_iff x y).1 h1; omega

theorem strcmp_swap (a b : List Char) : strcmp b a = 0 - strcmp a b := by
  induction a generalizing b with
  | nil =>
    cases b with
    | nil => simp [strcmp]
    | cons y bs => simp [strcmp]
  | cons x as ih =>
    cases b with
    | nil => simp [strcmp]
    | cons y bs =>
      rw [strcmp_cons_cons, strcmp_cons_cons]
      by_cases hxy : x = y
      · subst hxy
        have hnn : ¬ (x ≠ x) := by simp
        rw [if_neg hnn, if_neg hnn]
        by_cases h0 : x = '\x00'
        · rw [if_pos h0, if_pos h0]; rfl
        · rw [if_neg h0, if_neg h0]; exact ih bs
      · rw [if_pos hxy, if_pos (fun h => hxy h.symm)]
        omega

theorem strcmp_le_iff (a b : List Char) (ha : '\x00' ∉ a) (hb : '\x00' ∉ b) :
    strcmp a b ≤ 0 ↔ a ≤ b := by
  have hlt := strcmp_lt_iff b a hb ha
  have hsw := strcmp_swap a b
  constructor
  · intro h
    apply not_lt.1
    intro h2
    have := hlt.2 h2
    omega
  · intro h
    by_cases h2 : strcmp b a < 0
    · exact absurd (hlt.1 h2) (not_lt.2 h)
    · omega

/-- Claim C33: `print_and_free_narratives` prints a permutation of the
narratives of the list, each one whole, in non-decreasing order of `strcmp`,
and leaves the count at 0.  For narratives that are C strings (no NUL inside)
the order of `strcmp` is the lexicographic order of the characters, and the
printed sequence is the only sorted arrangement of the list. -/
theorem print_and_free_narratives_sorted (narratives : List (List Char)) :
    (print_and_free_narratives narratives).1.Perm narratives ∧
    List.Sorted (fun a b => sort_strings a b ≤ 0) (print_and_free_narratives narratives).1 ∧
    (print_and_free_narratives narratives).2 = 0 ∧
    ((∀ n ∈ narratives, '\x00' ∉ n) →
      List.Sorted (fun a b : List Char => a ≤ b) (print_and_free_narratives narratives).1 ∧
      ∀ printed : List (List Char), printed.Perm narratives →
        List.Sorted (fun a b => sort_strings a b ≤ 0) printed →
        printed = (print_and_free_narratives narratives).1) := by
  have hperm : (print_and_free_narratives narratives).1.Perm narratives :=
    List.perm_insertionSort _ narratives
  have hsorted : List.Sorted (fun a b => sort_strings a b ≤ 0)
      (print_and_free_narratives narratives).1 := by
    haveI : IsTotal (List Char) (fun a b => strcmp a b ≤ 0) := ⟨strcmp_total⟩
    haveI : IsTrans (List Char) (fun a b => strcmp a b ≤ 0) := ⟨strcmp_trans⟩
    exact List.sorted_insertionSort (fun a b => strcmp a b ≤ 0) narratives
  refine ⟨hperm, hsorted, rfl, ?_⟩
  intro hnul
  have hnul1 : ∀ n ∈ (print_and_free_narratives narratives).1, '\x00' ∉ n :=
    fun n hn => hnul n (hperm.subset hn)
  constructor
  · have h1 : List.Pairwise (fun a b => sort_strings a b ≤ 0)
        (print_and_free_narratives narratives).1 := hsorted
    exact List.Pairwise.imp_of_mem
      (fun {a b} ha hb h => (strcmp_le_iff a b (hnul1 a ha) (hnul1 b hb)).1 h) h1
  · intro printed hp hs
    exact sorted_perm_unique _ printed _
      (fun a ha b hb h1 h2 =>
        strcmp_antisymm a b (hnul a (hp.subset ha)) (hnul b (hp.subset hb)) h1 h2)
      (hp.trans hperm.symm) hs hsorted

/-- Claim C33, an instance: three narratives added in the order of the end of
their battles are printed in the order of `strcmp`, each with all its lines. -/
theorem print_and_free_narratives_sorted_witness :
    print_and_free_narratives
      (add_narrative (add_narrative (add_narrative []
        "Cee has a difference of opinion\nTeam Cee was eliminated.\n".toList)
        "Bee has a difference of opinion\nTeam Ay was eliminated.\n".toList)
        "Bee has a difference of opinion\nTeam Ay chooses A\n".toList) =
      (["Bee has a difference of opinion\nTeam Ay chooses A\n".toList,
        "Bee has a difference of opinion\nTeam Ay was eliminated.\n".toList,
        "Cee has a difference of opinion\nTeam Cee was eliminated.\n".toList], 0) ∧
    (print_and_free_narratives ["b".toList, "a".toList, "ab".toList, "B".toList]).1 =
      ["B".toList, "a".toList, "ab".toList, "b".toList] ∧
    ((print_and_free_narratives ["b".toList, "a".toList]).1.Perm ["b".toList, "a".toList] ∧
      (print_and_free_narratives ["b".toList, "a".toList]).2 = 0) :=
  ⟨by decide, by decide,
    (print_and_free_narratives_sorted ["b".toList, "a".toList]).1,
    (print_and_free_narratives_sorted ["b".toList, "a".toList]).2.2.1⟩

/-! ## The battles of a zone -/

theorem challenged_nodup (numTeams j : Nat) : (challenged numTeams j).Nodup := by
  unfold challenged
  by_cases h : j + 1 = numTeams
  · rw [if_pos h]; exact List.nodup_range _
  · rw [if_neg h]; exact List.nodup_range' _ _

theorem mem_challenged (numTeams j k : Nat) :
    k ∈ challenged numTeams j ↔
      (j + 1 = numTeams ∧ k < j) ∨ (j < k ∧ k + 1 < numTeams) := by
  unfold challenged
  by_cases h : j + 1 = numTeams
  · rw [if_pos h, List.mem_range]
    omega
  · rw [if_neg h, List.mem_range'_1]
    omega

/-- Of two teams of a zone, one is listed in the line of the other, once, and
not the other way round. -/
theorem challenged_count (numTeams j k : Nat) (hj : j < numTeams) (hk : k < numTeams)
    (hjk : j ≠ k) :
    (challenged numTeams j).count k + (challenged numTeams k).count j = 1 := by
  by_cases h : k ∈ challenged numTeams j
  · have h2 : j ∉ challenged numTeams k := by
      rw [mem_challenged] at h ⊢
      omega
    rw [List.count_eq_one_of_mem (challenged_nodup _ _) h, List.count_eq_zero_of_not_mem h2]
  · have h2 : j ∈ challenged numTeams k := by
      rw [mem_challenged] at h ⊢
      omega
    rw [List.count_eq_one_of_mem (challenged_nodup _ _) h2, List.count_eq_zero_of_not_mem h]

theorem zone_ports_challenged (sim : Simulation) (z : List Nat) (j : Nat) (hj : j < z.length) :
    zone_ports sim z j =
      (challenged z.length j).map (fun k => (sim.teamAt (z.getD k 0)).port) := by
  unfold zone_ports challenged
  by_cases hlast : j + 1 = z.length
  · rw [if_pos hlast, if_pos hlast, List.range_eq_range',
      map_getD_range' z (fun t => (sim.teamAt t).port) (z.length - 1) 0 (by omega),
      List.drop_zero, List.dropLast_eq_take]
  · rw [if_neg hlast, if_neg hlast,
      map_getD_range' z (fun t => (sim.teamAt t).port) _ (j + 1) (by omega),
      List.dropLast_eq_take, List.length_drop]
    congr 2
    omega

theorem filter_range_lt (n j : Nat) (hj : j ≤ n) (p : Nat → Bool)
    (hp : ∀ k, k < n → (p k = true ↔ k < j)) :
    ((List.range n).filter p).length = j := by
  induction n with
  | zero =>
    have : j = 0 := by omega
    simp [this]
  | succ n ih =>
    rw [List.range_succ, List.filter_append, List.length_append]
    by_cases hjn : j ≤ n
    · have hpn : p n = false := by
        have := hp n (by omega)
        cases hq : p n with
        | false => rfl
        | true => have := this.1 hq; omega
      rw [ih hjn (fun k hk => hp k (by omega))]
      simp [hpn]
    · have hjn1 : j = n + 1 := by omega
      have hall : (List.range n).filter p = List.range n := by
        rw [List.filter_eq_self]
        intro k hk
        exact (hp k (by have := List.mem_range.mp hk; omega)).2
          (by have := List.mem_range.mp hk; omega)
      have hpn : p n = true := (hp n (by omega)).2 (by omega)
      rw [hall]
      simp [hpn, hjn1]

/-- The battles of the team at the position `j` of a zone: those in which it
challenges and those in which it waits are as many as the other teams. -/
theorem battles_count (numTeams j : Nat) (hj : j < numTeams) :
    (challenged numTeams j).length + (challengers numTeams j).length = numTeams - 1 := by
  by_cases hlast : j + 1 = numTeams
  · have h1 : (challenged numTeams j).length = numTeams - 1 := by
      unfold challenged
      rw [if_pos hlast, List.length_range]
    have h2 : challengers numTeams j = [] := by
      unfold challengers
      rw [List.filter_eq_nil_iff]
      intro k _
      rw [decide_eq_true_iff, mem_challenged]
      omega
    rw [h1, h2]
    rfl
  · have h1 : (challenged numTeams j).length = numTeams - 1 - (j + 1) := by
      unfold challenged
      rw [if_neg hlast, List.length_range']
    have h2 : (challengers numTeams j).length = j + 1 := by
      unfold challengers
      have hn : numTeams = (numTeams - 1) + 1 := by omega
      rw [hn, List.range_succ, List.filter_append, List.length_append, ← hn,
        filter_range_lt (numTeams - 1) j (by omega) _ (fun k hk => by
          rw [decide_eq_true_iff, mem_challenged]
          omega)]
      have hl : decide (j ∈ challenged numTeams (numTeams - 1)) = true := by
        rw [decide_eq_true_iff, mem_challenged]
        omega
      have hf : List.filter (fun k => decide (j ∈ challenged numTeams k)) [numTeams - 1] =
          [numTeams - 1] := by
        rw [List.filter_eq_self]
        intro a ha
        rw [List.mem_singleton.mp ha]
        exact hl
      rw [hf]
      rfl
    rw [h1, h2]
    omega

/-- The teams of a zone are the teams of the roster in the grid square of
one of them. -/
theorem zone_size_eq_length {sim : Simulation} {zones : List (List Nat)}
    (hg : Grouped sim sim.teams.length zones) {z : List Nat} (hz : z ∈ zones) {t : Nat}
    (ht : t ∈ z) : zone_size sim t = z.length := by
  unfold zone_size
  apply List.Perm.length_eq
  rw [List.perm_ext_iff_of_nodup ((List.nodup_range _).filter _)
    ((hg.2.2.1 z hz).imp (fun h => Nat.ne_of_lt h))]
  intro a
  rw [List.mem_filter, List.mem_range, colocated_iff]
  constructor
  · rintro ⟨ha, hp⟩
    exact Grouped_same_zone hg hz ht ha hp.symm
  · intro ha
    exact ⟨Grouped_lt hg hz ha, Grouped_colocated hg hz ha ht⟩

theorem getD_index_of_mem (z : List Nat) (t : Nat) (ht : t ∈ z) :
    ∃ j, j < z.length ∧ z.getD j 0 = t := by
  obtain ⟨j, hj, e⟩ := List.mem_iff_getElem.mp ht
  exact ⟨j, hj, by rw [List.getD_eq_getElem z 0 hj]; exact e⟩

theorem toDigitsCore_digits :
    ∀ (fuel n : Nat) (ds : List Char), (∀ c ∈ ds, c.isDigit = true) →
      ∀ c ∈ Nat.toDigitsCore 10 fuel n ds, c.isDigit = true := by
  intro fuel
  induction fuel with
  | zero =>
    intro n ds h c hc
    exact h c hc
  | succ fuel ih =>
    intro n ds h c hc
    have hd : (Nat.digitChar (n % 10)).isDigit = true := by
      have hlt : n % 10 < 10 := Nat.mod_lt _ (by decide)
      have hall : ∀ m, m < 10 → (Nat.digitChar m).isDigit = true := by decide
      exact hall _ hlt
    have hds : ∀ c ∈ Nat.digitChar (n % 10) :: ds, c.isDigit = true := by
      intro c hc
      rcases List.mem_cons.mp hc with h1 | h1
      · rw [h1]; exact hd
      · exact h c h1
    rw [Nat.toDigitsCore] at hc
    by_cases h0 : n / 10 = 0
    · rw [if_pos h0] at hc
      exact hds c hc
    · rw [if_neg h0] at hc
      exact ih _ _ hds c hc

theorem decimal_no_newline (n : Int) : '\n' ∉ decimal n := by
  intro h
  cases n with
  | ofNat n =>
    have := toDigitsCore_digits _ _ [] (by simp) _ h
    exact absurd this (by decide)
  | negSucc n =>
    rcases List.mem_cons.mp h with h1 | h1
    · exact absurd h1 (by decide)
    · have := toDigitsCore_digits _ _ [] (by simp) _ h1
      exact absurd this (by decide)

/-- A `battle` message is one line. -/
theorem battle_line_one_line (a : Controller.Team) (ports : List Int) :
    (Controller.battle_line a ports).count '\n' = 1 := by
  have hports : ∀ ps : List Int,
      ((ps.map (fun port => ' ' :: decimal port)).flatten).count '\n' = 0 := by
    intro ps
    induction ps with
    | nil => rfl
    | cons p ps ih =>
      rw [List.map_cons, List.flatten_cons, List.count_append, ih, List.count_cons,
        List.count_eq_zero_of_not_mem (decimal_no_newline p)]
      rfl
  unfold Controller.battle_line
  rw [List.count_append, List.count_append, List.count_append, List.count_append,
    List.count_append, hports, List.count_eq_zero_of_not_mem (decimal_no_newline a.pos.x),
    List.count_eq_zero_of_not_mem (decimal_no_newline a.pos.y)]
  rfl

theorem zone_nodup {sim : Simulation} {k : Nat} {zones : List (List Nat)}
    (hg : Grouped sim k zones) {z : List Nat} (hz : z ∈ zones) : z.Nodup :=
  (hg.2.2.1 z hz).imp (fun h => Nat.ne_of_lt h)

theorem getD_inj_of_nodup {z : List Nat} (hnd : z.Nodup) {i j : Nat} (hi : i < z.length)
    (hj : j < z.length) (h : z.getD i 0 = z.getD j 0) : i = j := by
  rw [List.getD_eq_getElem z 0 hi, List.getD_eq_getElem z 0 hj] at h
  exact (List.Nodup.getElem_inj_iff hnd).mp h

theorem challenged_lt {numTeams j k : Nat} (h : k ∈ challenged numTeams j) :
    k < numTeams := by
  rw [mem_challenged] at h
  omega

/-- With distinct ports in a zone, the port of the team at the position `k`
is in the line of the team at the position `j` when `k` is a position that
the team at `j` challenges, and then once. -/
theorem zone_ports_count (sim : Simulation) (z : List Nat) (hnd : z.Nodup)
    (hports : ∀ a ∈ z, ∀ b ∈ z, (sim.teamAt a).port = (sim.teamAt b).port → a = b)
    (j k : Nat) (hj : j < z.length) (hk : k < z.length) :
    (zone_ports sim z j).count (sim.teamAt (z.getD k 0)).port = (challenged z.length j).count k := by
  have hinj : ∀ i ∈ challenged z.length j, ∀ i2, i2 < z.length →
      (sim.teamAt (z.getD i 0)).port = (sim.teamAt (z.getD i2 0)).port → i = i2 := by
    intro i hi i2 hi2 h
    have hil := challenged_lt hi
    exact getD_inj_of_nodup hnd hil hi2
      (hports _ (getD_mem_nat z i hil) _ (getD_mem_nat z i2 hi2) h)
  have hnd2 : (zone_ports sim z j).Nodup := by
    rw [zone_ports_challenged sim z j hj]
    exact List.Nodup.map_on
      (fun i hi i2 hi2 h => hinj i hi i2 (challenged_lt hi2) h) (challenged_nodup _ _)
  by_cases h : k ∈ challenged z.length j
  · have hm : (sim.teamAt (z.getD k 0)).port ∈ zone_ports sim z j := by
      rw [zone_ports_challenged sim z j hj]
      exact List.mem_map.mpr ⟨k, h, rfl⟩
    rw [List.count_eq_one_of_mem hnd2 hm, List.count_eq_one_of_mem (challenged_nodup _ _) h]
  · have hm : (sim.teamAt (z.getD k 0)).port ∉ zone_ports sim z j := by
      rw [zone_ports_challenged sim z j hj]
      intro hm
      obtain ⟨i, hi, e⟩ := List.mem_map.mp hm
      exact h (by rw [← hinj i hi k hk e]; exact hi)
    rw [List.count_eq_zero_of_not_mem hm, List.count_eq_zero_of_not_mem h]

/-- Claim C34: two distinct teams `s` and `t` of the roster in the same grid
square are in the same zone of `send_battle_messages`, and of the two
`battle` lines that the teams are sent, one lists the other team, once, and
not the other way round: the position of `t` is among those listed for `s`,
or that of `s` among those listed for `t`, never both; with distinct ports in
the zone the same holds of the ports of the two lines.  The team that is
listed is challenged by the other, so the pair has one battle. -/
theorem send_battle_messages_pairs (sim : Simulation) (s t : Nat)
    (hs : s < sim.teams.length) (ht : t < sim.teams.length) (hst : s ≠ t)
    (hpos : (sim.teamAt s).pos = (sim.teamAt t).pos) :
    ∃ zones z j k, Controller.get_grouped_teams sim 0 = .ok (zones, zones.length) ∧
      z ∈ zones ∧ j < z.length ∧ k < z.length ∧ z.getD j 0 = s ∧ z.getD k 0 = t ∧
      ((Controller.send_battle_messages sim).teamAt s).write =
        (sim.teamAt s).write ++ Controller.battle_line (sim.teamAt s) (zone_ports sim z j) ∧
      ((Controller.send_battle_messages sim).teamAt t).write =
        (sim.teamAt t).write ++ Controller.battle_line (sim.teamAt t) (zone_ports sim z k) ∧
      zone_ports sim z j =
        (challenged z.length j).map (fun i => (sim.teamAt (z.getD i 0)).port) ∧
      zone_ports sim z k =
        (challenged z.length k).map (fun i => (sim.teamAt (z.getD i 0)).port) ∧
      (challenged z.length j).count k + (challenged z.length k).count j = 1 ∧
      (k ∈ challenged z.length j ↔ j ∉ challenged z.length k) ∧
      ((∀ a ∈ z, ∀ b ∈ z, (sim.teamAt a).port = (sim.teamAt b).port → a = b) →
        (zone_ports sim z j).count (sim.teamAt t).port +
          (zone_ports sim z k).count (sim.teamAt s).port = 1) := by
  obtain ⟨zones, h1, hg⟩ := get_grouped_teams_grouped sim
  have hmem : s ∈ zones.flatten := hg.2.1.mem_iff.mpr (List.mem_range.mpr hs)
  obtain ⟨z, hz, hsz⟩ := List.mem_flatten.mp hmem
  have htz : t ∈ z := Grouped_same_zone hg hz hsz ht hpos
  obtain ⟨j, hj, ej⟩ := getD_index_of_mem z s hsz
  obtain ⟨k, hk, ek⟩ := getD_index_of_mem z t htz
  have hjk : j ≠ k := by
    intro e
    rw [e, ek] at ej
    exact hst ej.symm
  have hnd := zone_nodup hg hz
  have l1 := send_battle_messages_line sim zones zones.length h1 z hz j hj
  have l2 := send_battle_messages_line sim zones zones.length h1 z hz k hk
  rw [ej] at l1
  rw [ek] at l2
  have hc := challenged_count z.length j k hj hk hjk
  refine ⟨zones, z, j, k, h1, hz, hj, hk, ej, ek, l1, l2, zone_ports_challenged sim z j hj,
    zone_ports_challenged sim z k hk, hc, ?_, ?_⟩
  · rw [mem_challenged, mem_challenged]
    omega
  · intro hports
    have c1 := zone_ports_count sim z hnd hports j k hj hk
    have c2 := zone_ports_count sim z hnd hports k j hk hj
    rw [ek] at c1
    rw [ej] at c2
    rw [c1, c2]
    exact hc

/-- Claim C34, witness: the teams `A` and `C` of `sampleSim`, both in the zone
(0, 0). -/
theorem send_battle_messages_pairs_witness :
    ∃ zones z j k, Controller.get_grouped_teams sampleSim 0 = .ok (zones, zones.length) ∧
      z ∈ zones ∧ j < z.length ∧ k < z.length ∧ z.getD j 0 = 0 ∧ z.getD k 0 = 2 ∧
      ((Controller.send_battle_messages sampleSim).teamAt 0).write =
        (sampleSim.teamAt 0).write ++
          Controller.battle_line (sampleSim.teamAt 0) (zone_ports sampleSim z j) ∧
      ((Controller.send_battle_messages sampleSim).teamAt 2).write =
        (sampleSim.teamAt 2).write ++
          Controller.battle_line (sampleSim.teamAt 2) (zone_ports sampleSim z k) ∧
      zone_ports sampleSim z j =
        (challenged z.length j).map (fun i => (sampleSim.teamAt (z.getD i 0)).port) ∧
      zone_ports sampleSim z k =
        (challenged z.length k).map (fun i => (sampleSim.teamAt (z.getD i 0)).port) ∧
      (challenged z.length j).count k + (challenged z.length k).count j = 1 ∧
      (k ∈ challenged z.length j ↔ j ∉ challenged z.length k) ∧
      ((∀ a ∈ z, ∀ b ∈ z, (sampleSim.teamAt a).port = (sampleSim.teamAt b).port → a = b) →
        (zone_ports sampleSim z j).count (sampleSim.teamAt 2).port +
          (zone_ports sampleSim z k).count (sampleSim.teamAt 0).port = 1) :=
  send_battle_messages_pairs sampleSim 0 2 (by decide) (by decide) (by decide) (by decide)

/-- Claim C35: `send_battle_messages` adds to the stream of every team of the
roster one line, `battle <x> <y>` with the coordinates of that team followed
by ports; for a team that is alone in its grid square no port follows. -/
theorem send_battle_messages_every_team (sim : Simulation) (t : Nat)
    (ht : t < sim.teams.length) :
    ∃ ports : List Int,
      ((Controller.send_battle_messages sim).teamAt t).write =
        (sim.teamAt t).write ++ Controller.battle_line (sim.teamAt t) ports ∧
      Controller.battle_line (sim.teamAt t) ports =
        "battle ".toList ++ decimal (sim.teamAt t).pos.x ++ [' '] ++
          decimal (sim.teamAt t).pos.y ++
          (ports.map (fun port => ' ' :: decimal port)).flatten ++ ['\n'] ∧
      (Controller.battle_line (sim.teamAt t) ports).count '\n' = 1 ∧
      ((Controller.send_battle_messages sim).teamAt t).pos = (sim.teamAt t).pos ∧
      ((∀ u, u < sim.teams.length → u ≠ t → (sim.teamAt u).pos ≠ (sim.teamAt t).pos) →
        ports = [] ∧
        ((Controller.send_battle_messages sim).teamAt t).write =
          (sim.teamAt t).write ++ ("battle ".toList ++ decimal (sim.teamAt t).pos.x ++ [' '] ++
            decimal (sim.teamAt t).pos.y ++ ['\n'])) := by
  obtain ⟨zones, h1, hg⟩ := get_grouped_teams_grouped sim
  have hmem : t ∈ zones.flatten := hg.2.1.mem_iff.mpr (List.mem_range.mpr ht)
  obtain ⟨z, hz, htz⟩ := List.mem_flatten.mp hmem
  obtain ⟨j, hj, ej⟩ := getD_index_of_mem z t htz
  have l1 := send_battle_messages_line sim zones zones.length h1 z hz j hj
  rw [ej] at l1
  have hst := (send_battle_messages_stable sim).1
  refine ⟨zone_ports sim z j, l1, rfl, battle_line_one_line _ _, (hst.2.2.2.2 t).2.2, ?_⟩
  intro halone
  have hlen : z.length = 1 := by
    have hall : ∀ u ∈ z, u = t := by
      intro u hu
      by_contra hne
      exact halone u (Grouped_lt hg hz hu) hne (Grouped_colocated hg hz hu htz)
    have hnd := zone_nodup hg hz
    cases z with
    | nil => exact absurd htz (by simp)
    | cons a rest =>
      cases rest with
      | nil => rfl
      | cons b rest2 =>
        have e1 := hall a (List.mem_cons_self _ _)
        have e2 := hall b (List.mem_cons_of_mem _ (List.mem_cons_self _ _))
        rw [e1, e2] at hnd
        exact absurd hnd (by simp)
  have hp : zone_ports sim z j = [] := by
    rw [zone_ports_challenged sim z j hj, hlen]
    have hj0 : j = 0 := by omega
    rw [hj0]
    rfl
  refine ⟨hp, ?_⟩
  rw [l1, hp]
  simp [Controller.battle_line]

/-- Claim C35, witness: the teams `B` and `D` of `sampleSim`: `B` is sent the
line `battle 0 0` (the last team of its zone, `C`, is told its port), and `D`,
alone in its zone, the line `battle 1 2`; a team that reads that line prints
the zone (1, 2) and starts no challenge. -/
theorem send_battle_messages_every_team_witness :
    (∃ ports : List Int,
      ((Controller.send_battle_messages sampleSim).teamAt 1).write =
        (sampleSim.teamAt 1).write ++ Controller.battle_line (sampleSim.teamAt 1) ports ∧
      Controller.battle_line (sampleSim.teamAt 1) ports =
        "battle ".toList ++ decimal (sampleSim.teamAt 1).pos.x ++ [' '] ++
          decimal (sampleSim.teamAt 1).pos.y ++
          (ports.map (fun port => ' ' :: decimal port)).flatten ++ ['\n'] ∧
      (Controller.battle_line (sampleSim.teamAt 1) ports).count '\n' = 1 ∧
      ((Controller.send_battle_messages sampleSim).teamAt 1).pos = (sampleSim.teamAt 1).pos ∧
      ((∀ u, u < sampleSim.teams.length → u ≠ 1 →
          (sampleSim.teamAt u).pos ≠ (sampleSim.teamAt 1).pos) →
        ports = [] ∧
        ((Controller.send_battle_messages sampleSim).teamAt 1).write =
          (sampleSim.teamAt 1).write ++ ("battle ".toList ++
            decimal (sampleSim.teamAt 1).pos.x ++ [' '] ++
            decimal (sampleSim.teamAt 1).pos.y ++ ['\n']))) ∧
    ((Controller.send_battle_messages sampleSim).teams.map Controller.Team.write =
      ["battle 0 0 5002\n".toList, "battle 0 0\n".toList, "battle 0 0 5001 5002\n".toList,
        "battle 1 2\n".toList]) ∧
    run_simulation 2 alphaTeam
        (((Controller.send_battle_messages sampleSim).teamAt 3).write ++ "gameoverman\n".toList) =
      ([.read "battle 1 2".toList, .zone 1 2, .read "gameoverman".toList, .narratives],
        .exit 0) :=
  ⟨send_battle_messages_every_team sampleSim 1 (by decide), by decide, by decide⟩

/-- A thread that waits for a challenge, in a simulation: it writes
`donefighting` to the controller when its battle is over, `disco` when the
other team is lost, and nothing when it ends the team. -/
theorem wait_wrapper_controller (game : Game) (team : Team) (read : List Char)
    (narratives : List (List Char)) :
    ((wait_wrapper game team true read narratives).result = .ok () ∧
      (wait_wrapper game team true read narratives).controller = "donefighting\n".toList) ∨
    ∃ e, (wait_wrapper game team true read narratives).result = .error e ∧
      (wait_wrapper game team true read narratives).controller = stop_message e := by
  unfold wait_wrapper
  rcases h : be_challenged game team true read [] with ⟨e | r, st⟩
  · exact Or.inr ⟨e, rfl, rfl⟩
  · exact Or.inl ⟨rfl, rfl⟩

/-- A thread that challenges: it writes `donefighting` to the controller when
its battle is over, `disco` when the other team is lost, and nothing when it
ends the team. -/
theorem spawn_challenge_thread_controller (game : Game) (team : Team) (simulation : Bool)
    (port : Int) (connection : Option (List Char)) (narratives : List (List Char)) :
    ((spawn_challenge_thread game team simulation port connection narratives).result = .ok () ∧
      (spawn_challenge_thread game team simulation port connection narratives).controller =
        "donefighting\n".toList) ∨
    ∃ e, (spawn_challenge_thread game team simulation port connection narratives).result =
        .error e ∧
      (spawn_challenge_thread game team simulation port connection narratives).controller =
        stop_message e := by
  unfold spawn_challenge_thread
  rcases h : enter_challenge_mode game team simulation port connection with ⟨e | r, st⟩
  · exact Or.inr ⟨e, rfl, rfl⟩
  · exact Or.inl ⟨rfl, rfl⟩

/-- Claim C36: in a round whose barrier lets the simulation go on, all the
messages that `read_donefighting_messages` reads are `donefighting` messages,
and the number of them that it reads from a team is the number of the teams of
its zone less one; that is the number of the battles of the team under
`send_battle_messages`, those of the teams listed in its line, which it
challenges, and those of the teams whose lines list it, for which it waits;
and a thread of either kind whose battle is over writes one `donefighting`
line to the controller. -/
theorem barrier_reads_battles (sim : Simulation)
    (hok : (Controller.read_donefighting_messages (Controller.send_battle_messages sim)).1 =
      .ok ()) :
    ∃ zones log, Controller.get_grouped_teams sim 0 = .ok (zones, zones.length) ∧
      (Controller.read_donefighting_messages (Controller.send_battle_messages sim)).2.log =
        sim.log ++ log ∧
      (∀ x ∈ log, Controller.type_of x.message = .ok .DONEFIGHTING) ∧
      (∀ t, t < sim.teams.length → ∃ z j, z ∈ zones ∧ j < z.length ∧ z.getD j 0 = t ∧
        z.length = zone_size sim t ∧
        reads_from log t = zone_size sim t - 1 ∧
        (challenged z.length j).length + (challengers z.length j).length = zone_size sim t - 1 ∧
        ((Controller.send_battle_messages sim).teamAt t).write =
          (sim.teamAt t).write ++ Controller.battle_line (sim.teamAt t)
            ((challenged z.length j).map (fun k => (sim.teamAt (z.getD k 0)).port)) ∧
        ∀ k, k ∈ challengers z.length j ↔ k < z.length ∧ j ∈ challenged z.length k) ∧
      (∀ game team read narratives,
        (wait_wrapper game team true read narratives).result = .ok () →
        (wait_wrapper game team true read narratives).controller = "donefighting\n".toList) ∧
      (∀ game team simulation port connection narratives,
        (spawn_challenge_thread game team simulation port connection narratives).result =
          .ok () →
        (spawn_challenge_thread game team simulation port connection narratives).controller =
          "donefighting\n".toList) := by
  obtain ⟨zones, h1, hg⟩ := get_grouped_teams_grouped sim
  obtain ⟨b1, b2, b3⟩ := send_battle_messages_stable sim
  obtain ⟨log, l1, -, -, -, h⟩ :=
    read_donefighting_messages_spec (Controller.send_battle_messages sim)
  have hcase : Controller.barrier_outcome log false = .ok false ∧
      log.map Controller.Received.team = barrier_reads (Controller.send_battle_messages sim) := by
    rcases h with ⟨-, h2, h3, -⟩ | ⟨q, -, -, -⟩ | ⟨q, -, -⟩
    · exact ⟨h2, h3⟩
    · rw [hok] at q
      exact absurd q (by simp)
    · rw [hok] at q
      exact absurd q (by simp)
  refine ⟨zones, log, h1, by rw [l1, b2],
    barrier_outcome_false log.length log false (Nat.le_refl _) hcase.1, ?_, ?_, ?_⟩
  · intro t ht
    have hmem : t ∈ zones.flatten := hg.2.1.mem_iff.mpr (List.mem_range.mpr ht)
    obtain ⟨z, hz, htz⟩ := List.mem_flatten.mp hmem
    obtain ⟨j, hj, ej⟩ := getD_index_of_mem z t htz
    have hsize : zone_size sim t = z.length := zone_size_eq_length hg hz htz
    have hzs : zone_size (Controller.send_battle_messages sim) t = zone_size sim t := by
      unfold zone_size
      rw [b1.1]
      exact congrArg List.length (List.filter_congr (fun u _ => colocated_stable b1 u t))
    have hreads : reads_from log t = zone_size sim t - 1 := by
      unfold reads_from
      rw [hcase.2, barrier_reads_count _ t (by rw [b1.1]; exact ht), hzs]
    have l2 := send_battle_messages_line sim zones zones.length h1 z hz j hj
    rw [ej, zone_ports_challenged sim z j hj] at l2
    refine ⟨z, j, hz, hj, ej, hsize.symm, hreads, ?_, l2, ?_⟩
    · rw [hsize]
      exact battles_count z.length j hj
    · intro k
      unfold challengers
      rw [List.mem_filter, List.mem_range, decide_eq_true_iff]
  · intro game team read narratives hr
    rcases wait_wrapper_controller game team read narratives with ⟨-, q⟩ | ⟨e, q, -⟩
    · exact q
    · rw [hr] at q
      exact absurd q (by simp)
  · intro game team simulation port connection narratives hr
    rcases spawn_challenge_thread_controller game team simulation port connection narratives
      with ⟨-, q⟩ | ⟨e, q, -⟩
    · exact q
    · rw [hr] at q
      exact absurd q (by simp)

/-- Claim C36, witness: the round of `sampleSim`, whose zone (0, 0) has three
teams: two messages are read from each of them and none from `D`. -/
theorem barrier_reads_battles_witness :
    ∃ zones log, Controller.get_grouped_teams sampleSim 0 = .ok (zones, zones.length) ∧
      (Controller.read_donefighting_messages
        (Controller.send_battle_messages sampleSim)).2.log = sampleSim.log ++ log ∧
      (∀ x ∈ log, Controller.type_of x.message = .ok .DONEFIGHTING) ∧
      (∀ t, t < sampleSim.teams.length → ∃ z j, z ∈ zones ∧ j < z.length ∧ z.getD j 0 = t ∧
        z.length = zone_size sampleSim t ∧
        reads_from log t = zone_size sampleSim t - 1 ∧
        (challenged z.length j).length + (challengers z.length j).length =
          zone_size sampleSim t - 1 ∧
        ((Controller.send_battle_messages sampleSim).teamAt t).write =
          (sampleSim.teamAt t).write ++ Controller.battle_line (sampleSim.teamAt t)
            ((challenged z.length j).map (fun k => (sampleSim.teamAt (z.getD k 0)).port)) ∧
        ∀ k, k ∈ challengers z.length j ↔ k < z.length ∧ j ∈ challenged z.length k) ∧
      (∀ game team read narratives,
        (wait_wrapper game team true read narratives).result = .ok () →
        (wait_wrapper game team true read narratives).controller = "donefighting\n".toList) ∧
      (∀ game team simulation port connection narratives,
        (spawn_challenge_thread game team simulation port connection narratives).result =
          .ok () →
        (spawn_challenge_thread game team simulation port connection narratives).controller =
          "donefighting\n".toList) :=
  barrier_reads_battles sampleSim (by rfl)

/-- The two threads of the golden battle, in a simulation: Beta waits and
Alpha challenges; each ends with one `donefighting` line for the controller
and one narrative more. -/
theorem golden_threads :
    (wait_wrapper goldenGame betaTeam true ("fightmeirl Alpha\n".toList ++ alphaSends) []) =
      ⟨.ok (), ⟨"Alpha".toList, [], "haveatyou Beta\n".toList ++ betaSends,
        "Alpha has a difference of opinion\n".toList ++ goldenNarrative⟩,
        "donefighting\n".toList,
        ["Alpha has a difference of opinion\n".toList ++ goldenNarrative], []⟩ ∧
    (spawn_challenge_thread goldenGame alphaTeam true 5002
        (some ("haveatyou Beta\n".toList ++ betaSends)) []) =
      ⟨.ok (), ⟨"Beta".toList, [], "fightmeirl Alpha\n".toList ++ alphaSends,
        "Beta has a difference of opinion\n".toList ++ goldenNarrative⟩,
        "donefighting\n".toList,
        ["Beta has a difference of opinion\n".toList ++ goldenNarrative], []⟩ ∧
    (spawn_challenge_thread goldenGame alphaTeam true 0 none []).result =
      .error (.exit_game EXIT_INVALID_PORT) ∧
    (spawn_challenge_thread goldenGame alphaTeam true 5002 none []).result =
      .error (.exit_game EXIT_CONNECT_TEAM) := by
  refine ⟨by rfl, by rfl, by rfl, by rfl⟩

/-! ## The lines that the team rejects -/

theorem replace_underscores_clean (segment : List Char) :
    '_' ∉ replace_underscores segment := by
  unfold replace_underscores
  intro h
  obtain ⟨c, -, hc⟩ := List.mem_map.mp h
  by_cases h1 : c = '_'
  · rw [if_pos h1] at hc
    exact absurd hc (by decide)
  · rw [if_neg h1] at hc
    exact h1 hc

theorem append_string_clean {narrative : List Char} (h : '_' ∉ narrative)
    (segment : List Char) : '_' ∉ append_string narrative segment := by
  unfold append_string
  intro hm
  rcases List.mem_append.mp hm with h1 | h1
  · exact h h1
  · exact replace_underscores_clean segment h1

theorem narrate_attack_clean (game : Game) {narrative : List Char} (h : '_' ∉ narrative)
    (attacker : Agent) (attack : Attack) (effectiveness : Nat) (target : Member) :
    '_' ∉ narrate_attack game narrative attacker attack effectiveness target := by
  unfold narrate_attack
  simp only
  apply append_string_clean
  by_cases hh : target.health ≤ 0
  · rw [if_pos hh]
    exact append_string_clean (append_string_clean h _) _
  · rw [if_neg hh]
    exact append_string_clean h _

theorem get_selected_opponent_clean (game : Game) (simulation : Bool) (st : BattleState)
    (h : '_' ∉ st.narrative) :
    '_' ∉ (get_selected_opponent game simulation st).2.narrative := by
  unfold get_selected_opponent
  simp only
  cases hm : read_team_msg simulation st.read with
  | error e => exact h
  | ok msg =>
    simp only
    by_cases h1 : msg.1 ≠ .ISELECTYOU
    · rw [if_pos h1]
      exact h
    · rw [if_neg h1]
      cases hg : get_agent game
          (get_token (msg.2.drop "iselectyou ".toList.length) '\x00') with
      | none => exact h
      | some agent => exact append_string_clean h _

theorem select_member_clean (game : Game) (teamName : List Char) (member : Member)
    (st : BattleState) (h : '_' ∉ st.narrative) :
    '_' ∉ (select_member game teamName member st).2.narrative := by
  unfold select_member
  exact append_string_clean h _

theorem attack_clean (game : Game) (member opponent : Member) (st : BattleState)
    (h : '_' ∉ st.narrative) : '_' ∉ (attack game member opponent st).2.narrative := by
  unfold attack
  by_cases h1 : member.attacks = []
  · rw [if_pos h1]
    exact h
  · rw [if_neg h1]
    exact narrate_attack_clean game h _ _ _ _

theorem get_attacked_clean (game : Game) (simulation : Bool) (member opponent : Member)
    (st : BattleState) (h : '_' ∉ st.narrative) :
    '_' ∉ (get_attacked game simulation member opponent st).2.narrative := by
  unfold get_attacked
  simp only
  cases hm : read_team_msg simulation st.read with
  | error e => exact h
  | ok msg =>
    simp only
    by_cases h1 : msg.1 ≠ .ATTACK
    · rw [if_pos h1]
      exact h
    · rw [if_neg h1]
      cases hg : get_attack game
          (msg.2.drop ("attack  ".toList.length + (game.agentAt opponent.agent).name.length)) with
      | none => exact h
      | some a =>
        simp only
        by_cases h2 : legal_attack game (game.agentAt opponent.agent) (game.attackAt a) = false ∨
            get_token (msg.2.drop "attack ".toList.length) ' ' ≠
              (game.agentAt opponent.agent).name
        · rw [if_pos h2]
          exact h
        · rw [if_neg h2]
          exact narrate_attack_clean game h _ _ _ _

theorem fight_clean (game : Game) (simulation : Bool) :
    ∀ (fuel j : Nat) (loser : Bool) (member opponent : Member) (st : BattleState),
      '_' ∉ st.narrative →
      '_' ∉ (fight game simulation fuel j loser member opponent st).2.narrative := by
  intro fuel
  induction fuel with
  | zero =>
    intro j loser member opponent st h
    rw [fight]
    by_cases hh : member.health > 0
    · rw [if_pos hh]
      exact h
    · rw [if_neg hh]
      exact h
  | succ fuel ih =>
    intro j loser member opponent st h
    rw [fight]
    by_cases hh : member.health > 0
    · rw [if_pos hh]
      have ha := attack_clean game member opponent st h
      rcases hat : attack game member opponent st with ⟨e | ⟨member1, opponent1⟩, st1⟩
      · rw [hat] at ha
        exact ha
      · rw [hat] at ha
        simp only
        by_cases ho : opponent1.health ≤ 0
        · rw [if_pos ho]
          by_cases hj : j + 1 = MAX_TEAM_PLAYERS
          · rw [if_pos hj]
            exact ha
          · rw [if_neg hj]
            have hs := get_selected_opponent_clean game simulation st1 ha
            rcases hsel : get_selected_opponent game simulation st1 with ⟨e | opponent2, st2⟩
            · rw [hsel] at hs
              exact hs
            · rw [hsel] at hs
              simp only
              have hg := get_attacked_clean game simulation member1 opponent2 st2 hs
              rcases hga : get_attacked game simulation member1 opponent2 st2 with
                ⟨e | member2, st3⟩
              · rw [hga] at hg
                exact hg
              · rw [hga] at hg
                exact ih _ _ _ _ _ hg
        · rw [if_neg ho]
          have hg := get_attacked_clean game simulation member1 opponent1 st1 ha
          rcases hga : get_attacked game simulation member1 opponent1 st1 with
            ⟨e | member2, st3⟩
          · rw [hga] at hg
            exact hg
          · rw [hga] at hg
            exact ih _ _ _ _ _ hg
    · rw [if_neg hh]
      exact h

theorem first_round_clean (game : Game) (simulation goFirst : Bool) (i : Nat)
    (member opponent : Member) (st : BattleState) (h : '_' ∉ st.narrative) :
    '_' ∉ (first_round game simulation goFirst i member opponent st).2.narrative := by
  unfold first_round
  by_cases hi : i = 0
  · rw [if_pos hi]
    by_cases hg : goFirst = false
    · rw [if_pos hg]
      have hc := get_attacked_clean game simulation member opponent st h
      rcases hga : get_attacked game simulation member opponent st with ⟨e | member1, st2⟩
      · rw [hga] at hc
        exact hc
      · rw [hga] at hc
        exact hc
    · rw [if_neg hg]
      have hc := get_selected_opponent_clean game simulation st h
      rcases hsel : get_selected_opponent game simulation st with ⟨e | opponent1, st2⟩
      · rw [hsel] at hc
        exact hc
      · rw [hsel] at hc
        exact hc
  · rw [if_neg hi]
    exact h

theorem battle_loop_clean (game : Game) (team : Team) (simulation goFirst : Bool) :
    ∀ (fuel i j : Nat) (loser : Bool) (opponent : Member) (freed : List Member)
      (st : BattleState), '_' ∉ st.narrative →
      '_' ∉ (battle_loop game team simulation goFirst fuel i j loser opponent freed
        st).2.narrative := by
  intro fuel
  induction fuel with
  | zero =>
    intro i j loser opponent freed st h
    rw [battle_loop]
    by_cases hc : i < MAX_TEAM_PLAYERS ∧ j < MAX_TEAM_PLAYERS
    · rw [if_pos hc]
      exact h
    · rw [if_neg hc]
      exact h
  | succ fuel ih =>
    intro i j loser opponent freed st h
    rw [battle_loop]
    by_cases hc : i < MAX_TEAM_PLAYERS ∧ j < MAX_TEAM_PLAYERS
    · rw [if_pos hc]
      simp only
      have hs := select_member_clean game team.name (team.members.getD i default) st h
      have hf := first_round_clean game simulation goFirst i
        (select_member game team.name (team.members.getD i default) st).1 opponent _ hs
      rcases hfr : first_round game simulation goFirst i
          (select_member game team.name (team.members.getD i default) st).1 opponent
          (select_member game team.name (team.members.getD i default) st).2 with
        ⟨e | ⟨member, opponent1⟩, st2⟩
      · rw [hfr] at hf
        exact hf
      · rw [hfr] at hf
        simp only
        have hfi := fight_clean game simulation MAX_HEALTH.toNat j loser member opponent1 st2 hf
        rcases hfg : fight game simulation MAX_HEALTH.toNat j loser member opponent1 st2 with
          ⟨e | ⟨j1, loser1, member1, opponent2⟩, st3⟩
        · rw [hfg] at hfi
          exact hfi
        · rw [hfg] at hfi
          exact ih _ _ _ _ _ _ hfi
    · rw [if_neg hc]
      exact h

theorem battle_clean (game : Game) (team : Team) (simulation goFirst : Bool)
    (st : BattleState) (h : '_' ∉ st.narrative) :
    '_' ∉ (battle game team simulation goFirst st).2.narrative := by
  unfold battle
  simp only
  have hstart : '_' ∉ (if goFirst = false then get_selected_opponent game simulation st
      else (.ok default, st)).2.narrative := by
    by_cases hg : goFirst = false
    · rw [if_pos hg]
      exact get_selected_opponent_clean game simulation st h
    · rw [if_neg hg]
      exact h
  rcases hs : (if goFirst = false then get_selected_opponent game simulation st
      else (.ok default, st)) with ⟨e | opponent, st1⟩
  · rw [hs] at hstart
    exact hstart
  · rw [hs] at hstart
    simp only
    have hl := battle_loop_clean game team simulation goFirst MAX_TEAM_PLAYERS 0 0 false
      opponent [] st1 hstart
    rcases hb : battle_loop game team simulation goFirst MAX_TEAM_PLAYERS 0 0 false
        opponent [] st1 with ⟨e | res, st2⟩
    · rw [hb] at hl
      exact hl
    · rw [hb] at hl
      exact append_string_clean hl _

theorem be_challenged_clean (game : Game) (team : Team) (simulation : Bool)
    (read write : List Char) :
    '_' ∉ (be_challenged game team simulation read write).2.narrative := by
  unfold be_challenged
  cases hm : read_team_msg simulation read with
  | error e => simp
  | ok msg =>
    simp only
    by_cases h1 : msg.1 ≠ .FIGHTMEIRL
    · rw [if_pos h1]
      simp
    · rw [if_neg h1]
      exact battle_clean game team simulation false _ (append_string_clean (by simp) _)

theorem challenge_clean (game : Game) (team : Team) (simulation : Bool)
    (read write : List Char) :
    '_' ∉ (challenge game team simulation read write).2.narrative := by
  unfold challenge
  cases hm : read_team_msg simulation read with
  | error e => simp
  | ok msg =>
    simp only
    by_cases h1 : msg.1 ≠ .HAVEATYOU
    · rw [if_pos h1]
      simp
    · rw [if_neg h1]
      exact battle_clean game team simulation true _ (append_string_clean (by simp) _)

/-- Claim C39: `append_string` replaces every underscore of the segment that
it appends, whatever its parts are, so the narrative of `be_challenged`, of
`challenge` and of `battle` (from a narrative without an underscore) has no
underscore, whether the battle is over or has ended the thread, and neither
has a narrative that a battle thread adds to the list of the game. -/
theorem narrative_no_underscore (game : Game) (team : Team) (simulation : Bool)
    (read write : List Char) :
    (∀ narrative segment : List Char,
      append_string narrative segment =
        narrative ++ segment.map (fun c => if c = '_' then ' ' else c)) ∧
    '_' ∉ (be_challenged game team simulation read write).2.narrative ∧
    '_' ∉ (challenge game team simulation read write).2.narrative ∧
    (∀ (goFirst : Bool) (st : BattleState), '_' ∉ st.narrative →
      '_' ∉ (battle game team simulation goFirst st).2.narrative) ∧
    (∀ (narratives : List (List Char)),
      ∀ n ∈ (wait_wrapper game team simulation read narratives).narratives ++
          (wait_wrapper game team simulation read narratives).stdout,
        n ∈ narratives ∨ '_' ∉ n) ∧
    (∀ (port : Int) (connection : Option (List Char)) (narratives : List (List Char)),
      ∀ n ∈ (spawn_challenge_thread game team simulation port connection narratives).narratives,
        n ∈ narratives ∨ '_' ∉ n) := by
  refine ⟨fun _ _ => rfl, be_challenged_clean game team simulation read write,
    challenge_clean game team simulation read write,
    fun goFirst st h => battle_clean game team simulation goFirst st h, ?_, ?_⟩
  · intro narratives n hn
    have hc := be_challenged_clean game team simulation read []
    unfold wait_wrapper at hn
    rcases hb : be_challenged game team simulation read [] with ⟨e | r, st⟩
    · rw [hb] at hn
      simp only [List.append_nil] at hn
      exact Or.inl hn
    · rw [hb] at hn hc
      simp only at hn
      by_cases hs : simulation = true
      · rw [if_pos hs] at hn
        simp only [List.append_nil, add_narrative, List.mem_append, List.mem_singleton] at hn
        rcases hn with h1 | h1
        · exact Or.inl h1
        · rw [h1]
          exact Or.inr hc
      · rw [if_neg hs] at hn
        simp only [List.nil_append] at hn
        have hp := (List.perm_insertionSort (fun a b => strcmp a b ≤ 0)
          (add_narrative narratives st.narrative)).subset hn
        simp only [add_narrative, List.mem_append, List.mem_singleton] at hp
        rcases hp with h1 | h1
        · exact Or.inl h1
        · rw [h1]
          exact Or.inr hc
  · intro port connection narratives n hn
    unfold spawn_challenge_thread at hn
    rcases hb : enter_challenge_mode game team simulation port connection with ⟨e | r, st⟩
    · rw [hb] at hn
      exact Or.inl hn
    · rw [hb] at hn
      simp only [add_narrative, List.mem_append, List.mem_singleton] at hn
      rcases hn with h1 | h1
      · exact Or.inl h1
      · rw [h1]
        have hc : '_' ∉ (enter_challenge_mode game team simulation port connection).2.narrative := by
          unfold enter_challenge_mode
          by_cases hv : valid_port port = false
          · rw [if_pos hv]
            simp
          · rw [if_neg hv]
            cases connection with
            | none => simp
            | some r => exact challenge_clean game team simulation r []
        rw [hb] at hc
        exact Or.inr hc

/-- Claim C39, an instance: Beta is challenged, under the rulebook with
underscores, by a team that calls itself `Al_pha`; the names of the team, of
the agent `Mr_A` and of the attack `tail_whip` are in the narrative with
spaces. -/
theorem narrative_no_underscore_witness :
    (be_challenged underscoreGame betaTeam false
        ("fightmeirl Al_pha\niselectyou Mr_A\nattack Mr_A tail_whip\n".toList) []).2.narrative =
      ("Al pha has a difference of opinion\nAl pha chooses Mr A\nBeta chooses Mr A\n" ++
        "Mr A uses tail whip: weak ish\nMr A uses tail whip: weak ish\n").toList ∧
    '_' ∉ (be_challenged underscoreGame betaTeam false
        ("fightmeirl Al_pha\niselectyou Mr_A\nattack Mr_A tail_whip\n".toList) []).2.narrative :=
  ⟨by rfl, (narrative_no_underscore underscoreGame betaTeam false
    ("fightmeirl Al_pha\niselectyou Mr_A\nattack Mr_A tail_whip\n".toList) []).2.1⟩

/-! ## The lines that a battle reads and writes -/

theorem Stop.ended_ne_out_of_fuel {e : Stop} (h : e.ended) : e ≠ .out_of_fuel := by
  rcases h with rfl | rfl | rfl <;> simp

theorem get_token_subset (s : List Char) (d : Char) : ∀ c ∈ get_token s d, c ∈ s := by
  intro c hc
  unfold get_token at hc
  exact (List.takeWhile_prefix _).subset hc

theorem read_line_clean (f : List Char) :
    '\n' ∉ (read_line f).1 ∧ '\x00' ∉ (read_line f).1 := by
  unfold read_line
  constructor
  · intro h
    exact not_mem_get_token f '\n' (get_token_subset _ _ _ h)
  · exact not_mem_get_token _ '\x00'

theorem NamesClean_new_game : NamesClean new_game :=
  ⟨fun a h => absurd h (by simp [new_game]), fun o h => absurd h (by simp [new_game])⟩

theorem NamesClean_of_eq {g g1 : Game} (h : NamesClean g) (ha : g1.attacks = g.attacks)
    (ho : g1.agents = g.agents) : NamesClean g1 := by
  unfold NamesClean
  rw [ha, ho]
  exact h

theorem clean_section (p : Game → List Char → Int × Game)
    (hp : ∀ g l, NamesClean g → '\n' ∉ l → '\x00' ∉ l → (p g l).1 = 0 → NamesClean (p g l).2) :
    ∀ g f, NamesClean g → (read_section g f p).1 = 0 → NamesClean (read_section g f p).2.1 := by
  refine read_section_induction p
    (fun g _ res => NamesClean g → res.1 = 0 → NamesClean res.2.1) ?_ ?_ ?_ ?_ ?_
  · intro g f _ _ h; simp at h
  · intro g f _ hP _; exact hP
  · intro g f _ _ _ ih hP h; exact ih hP h
  · intro g f _ _ _ hne _ h; exact absurd h hne
  · intro g f _ _ _ h0 ih hP h
    exact ih (hp g _ hP (read_line_clean f).1 (read_line_clean f).2 h0) h

theorem read_type_name_clean (g : Game) (l : List Char) (h : NamesClean g)
    (h0 : (read_type_name g l).1 = 0) : NamesClean (read_type_name g l).2 := by
  rw [(read_type_name_accepted h0).2.2]
  exact NamesClean_of_eq h rfl rfl

theorem read_effectiveness_strings_clean (g : Game) (l : List Char) (h : NamesClean g)
    (h0 : (read_effectiveness_strings g l).1 = 0) :
    NamesClean (read_effectiveness_strings g l).2 := by
  obtain ⟨T, s1, s2, s3, i, rfl, ⟨hT, c1, c2, c3⟩, ⟨n1, n2, n3⟩, hty, hfree⟩ :=
    read_effectiveness_strings_accepted h0
  rw [read_effectiveness_strings_accepts g hT c1 c2 c3 n1 n2 n3 hty hfree]
  exact NamesClean_of_eq h rfl rfl

theorem read_relation_strings_clean (g : Game) (l : List Char) (h : NamesClean g)
    (h0 : (read_relation_strings g l).1 = 0) : NamesClean (read_relation_strings g l).2 := by
  obtain ⟨i, u, -, -, -, -, -, e⟩ := read_relation_strings_accepted h0
  rw [e]
  exact NamesClean_of_eq h rfl rfl

theorem read_attack_clean (g : Game) (l : List Char) (h : NamesClean g) (hn : '\n' ∉ l)
    (hz : '\x00' ∉ l) (h0 : (read_attack g l).1 = 0) : NamesClean (read_attack g l).2 := by
  unfold read_attack at h0 ⊢
  simp only at h0 ⊢
  by_cases c : (get_attack g (get_token l ' ')).isSome = true ∨ (get_token l ' ').length = 0 ∨
      (get_token (List.drop ((get_token l ' ').length + 1) l) '\x00').length = 0
  · rw [if_pos c] at h0
    simp at h0
  · rw [if_neg c] at h0 ⊢
    cases hty : get_type g (get_token (List.drop ((get_token l ' ').length + 1) l) '\x00') with
    | none =>
      rw [hty] at h0
      simp at h0
    | some ty =>
      simp only
      refine ⟨?_, h.2⟩
      intro a ha
      rcases List.mem_append.mp ha with h1 | h1
      · exact h.1 a h1
      · rw [List.mem_singleton] at h1
        rw [h1]
        exact ⟨fun hc => hn (get_token_subset _ _ _ hc),
          fun hc => hz (get_token_subset _ _ _ hc)⟩

theorem read_agent_clean (g : Game) (l : List Char) (h : NamesClean g) (hn : '\n' ∉ l)
    (hz : '\x00' ∉ l) (h0 : (read_agent g l).1 = 0) : NamesClean (read_agent g l).2 := by
  obtain ⟨name, typeName, a1, a2, a3, type, x1, x2, x3, rfl, hs, hne, hne3, hag, hty,
    hx1, hx2, hx3⟩ := read_agent_accepted h0
  rw [read_agent_accepts g hs.1 hs.2.1 hs.2.2.1 hs.2.2.2.1 hs.2.2.2.2 hne hne3 hag hty
    hx1 hx2 hx3]
  refine ⟨h.1, ?_⟩
  intro o ho
  rcases List.mem_append.mp ho with h1 | h1
  · exact h.2 o h1
  · rw [List.mem_singleton] at h1
    rw [h1]
    exact ⟨fun hc => hn (List.mem_append_left _ hc), fun hc => hz (List.mem_append_left _ hc)⟩

/-- The names of the attacks and of the agents of the game that a successful
`read_sinister_file` returns hold no newline and no NUL. -/
theorem read_sinister_file_clean {f : List Char} (h : (read_sinister_file new_game f).1 = 0) :
    NamesClean (read_sinister_file new_game f).2.1 := by
  obtain ⟨g1, f1, g2, f2, g3, f3, g4, f4, g5, f5, h1, h2, h3, h4, h5, -, -, hr⟩ :=
    read_sinister_file_ok h
  rw [hr]
  have w1 := clean_section read_type_name
    (fun g l hc _ _ h0 => read_type_name_clean g l hc h0) new_game f NamesClean_new_game
    (by rw [h1])
  rw [h1] at w1
  have w2 := clean_section read_effectiveness_strings
    (fun g l hc _ _ h0 => read_effectiveness_strings_clean g l hc h0) g1 f1 w1 (by rw [h2])
  rw [h2] at w2
  have w3 := clean_section read_relation_strings
    (fun g l hc _ _ h0 => read_relation_strings_clean g l hc h0) g2 f2 w2 (by rw [h3])
  rw [h3] at w3
  have w4 := clean_section read_attack read_attack_clean g3 f3 w3 (by rw [h4])
  rw [h4] at w4
  have w5 := clean_section read_agent read_agent_clean g4 f4 w4 (by rw [h5])
  rw [h5] at w5
  exact w5

/-- The members of a loaded team are members as `read_agents` accepts them,
with the cursor on the first attack. -/
theorem loaded_team_ok {game : Game} (hwf : WellFormed game) {file : List Char}
    {team : Team} (h : read_team_file game file = .ok team) :
    team.members.length = MAX_TEAM_PLAYERS ∧ ∀ m ∈ team.members, MemberOK game m := by
  obtain ⟨rest, hr⟩ := read_team_file_ok_members h
  obtain ⟨new, e, hl, hp⟩ := read_agents_loop_ok hwf MAX_TEAM_PLAYERS _ [] _ rest hr
  rw [List.nil_append] at e
  rw [e]
  exact ⟨hl, fun m hm => ⟨(hp m hm).1, (hp m hm).2.2.1, (hp m hm).2.2.2⟩⟩

theorem find_name_self {names : List (List Char)} (hn : names.Nodup) {i : Nat}
    (hi : i < names.length) : find_name names (names.getD i []) = some i := by
  have hmem : names.getD i [] ∈ names := by
    rw [List.getD_eq_getElem _ _ hi]
    exact List.getElem_mem hi
  cases hf : find_name names (names.getD i []) with
  | none => exact absurd hmem (find_name_eq_none.mp hf)
  | some k =>
    obtain ⟨hk, hk2, -⟩ := find_name_eq_some hf
    rw [List.getElem?_eq_getElem hk, List.getD_eq_getElem _ _ hi] at hk2
    simp only [Option.some.injEq] at hk2
    rw [(List.Nodup.getElem_inj_iff hn).mp hk2]

theorem get_agent_self {game : Game} (hwf : WellFormed game) {k : Nat}
    (hk : k < game.agents.length) : get_agent game (game.agentAt k).name = some k := by
  have h := find_name_self hwf.2.2.2 (i := k) (by simpa using hk)
  unfold get_agent
  have e : (game.agents.map (·.name)).getD k [] = (game.agentAt k).name := by
    unfold Game.agentAt
    rw [List.getD_eq_getElem _ _ (by simpa using hk), List.getD_eq_getElem _ _ hk]
    simp
  rw [← e]
  exact h

theorem get_attack_self {game : Game} (hwf : WellFormed game) {k : Nat}
    (hk : k < game.attacks.length) : get_attack game (game.attackAt k).name = some k := by
  have h := find_name_self hwf.2.1.2 (i := k) (by simpa using hk)
  unfold get_attack
  have e : (game.attacks.map (·.name)).getD k [] = (game.attackAt k).name := by
    unfold Game.attackAt
    rw [List.getD_eq_getElem _ _ (by simpa using hk), List.getD_eq_getElem _ _ hk]
    simp
  rw [← e]
  exact h

/-! ## The two sides of an exchange -/

theorem append_string_eq (narrative segment : List Char) :
    append_string narrative segment = narrative ++ replace_underscores segment := rfl

theorem narrate_attack_append (game : Game) (narrative : List Char) (attacker : Agent)
    (attack : Attack) (effectiveness : Nat) (target : Member) :
    narrate_attack game narrative attacker attack effectiveness target =
      narrative ++ narrate_attack game [] attacker attack effectiveness target := by
  unfold narrate_attack
  simp only [append_string_eq]
  by_cases h : target.health ≤ 0
  · rw [if_pos h, if_pos h]
    simp only [List.nil_append, List.append_assoc]
  · rw [if_neg h, if_neg h]
    simp only [List.nil_append, List.append_assoc]

theorem narrate_attack_congr (game : Game) (narrative : List Char) (attacker : Agent)
    (attack : Attack) (effectiveness : Nat) {t1 t2 : Member} (ha : t1.agent = t2.agent)
    (hh : t1.health = t2.health) :
    narrate_attack game narrative attacker attack effectiveness t1 =
      narrate_attack game narrative attacker attack effectiveness t2 := by
  unfold narrate_attack
  rw [ha, hh]

theorem read_team_msg_iselectyou (simulation : Bool) (file : List Char) (x : List Char)
    (h : (read_line file).1 = "iselectyou ".toList ++ x) :
    read_team_msg simulation file = .ok (.ISELECTYOU, "iselectyou ".toList ++ x) := by
  have htok : get_token (read_line file).1 ' ' = "iselectyou".toList := by
    rw [h]
    exact @get_token_append_sep "iselectyou".toList ' ' (by decide) x
  unfold read_team_msg
  simp only
  rw [htok, if_neg (by rw [h]; simp), if_neg (by decide), if_neg (by decide), if_pos rfl, h]

theorem read_team_msg_attack (simulation : Bool) (file : List Char) (x : List Char)
    (h : (read_line file).1 = "attack ".toList ++ x) :
    read_team_msg simulation file = .ok (.ATTACK, "attack ".toList ++ x) := by
  have htok : get_token (read_line file).1 ' ' = "attack".toList := by
    rw [h]
    exact @get_token_append_sep "attack".toList ' ' (by decide) x
  unfold read_team_msg
  simp only
  rw [htok, if_neg (by rw [h]; simp), if_neg (by decide), if_neg (by decide),
    if_neg (by decide), if_pos rfl, h]

theorem read_line_of_clean {l : List Char} (hn : '\n' ∉ l) (hz : '\x00' ∉ l)
    (rest : List Char) : read_line (l ++ '\n' :: rest) = (l, rest) := by
  rw [read_line_append hn, get_token_eq_self hz]

/-- What `get_selected_opponent` does with the line that `select_member` has
written for the agent number `k`. -/
theorem get_selected_opponent_eval {game : Game} (hwf : WellFormed game)
    (hclean : NamesClean game) (simulation : Bool) (st : BattleState) {k : Nat}
    (hk : k < game.agents.length) (rest : List Char)
    (hread : st.read = "iselectyou ".toList ++ (game.agentAt k).name ++ ['\n'] ++ rest) :
    get_selected_opponent game simulation st =
      (.ok ⟨k, [], 0, MAX_HEALTH⟩,
        { st with read := rest, narrative := (st.narrative ++ replace_underscores
          (st.name ++ " chooses ".toList ++ (game.agentAt k).name ++ ['\n'])) }) := by
  obtain ⟨hcn, hcz⟩ := hclean.2 _ (agentAt_mem hk)
  have hl : read_line st.read = ("iselectyou ".toList ++ (game.agentAt k).name, rest) := by
    rw [hread, List.append_assoc, List.singleton_append]
    apply read_line_of_clean
    · intro h
      rcases List.mem_append.mp h with h1 | h1
      · exact absurd h1 (by decide)
      · exact hcn h1
    · intro h
      rcases List.mem_append.mp h with h1 | h1
      · exact absurd h1 (by decide)
      · exact hcz h1
  have hm := read_team_msg_iselectyou simulation st.read (game.agentAt k).name
    (by rw [hl])
  unfold get_selected_opponent
  simp only
  rw [hm]
  simp only
  rw [if_neg (by simp), List.drop_left, get_token_eq_self hcz, get_agent_self hwf hk, hl]
  rfl

/-- What `get_attacked` does with the line that `attack` has written for a
member whose next attack is legal for its agent: the attack is found, and the
damage is its effectiveness against the agent of the member that is
attacked. -/
theorem get_attacked_eval {game : Game} (hwf : WellFormed game) (hclean : NamesClean game)
    (simulation : Bool) (member opponent : Member) (st : BattleState) (att : Member)
    (hatt : MemberOK game att) (hcur : att.nextAttack < att.attacks.length)
    (hopp : opponent.agent = att.agent) (rest : List Char)
    (hread : st.read = attack_line game att ++ rest) :
    get_attacked game simulation member opponent st =
      (.ok { member with health := member.health -
          (get_effectiveness game (game.attackAt (att.attacks.getD att.nextAttack 0))
            (game.agentAt member.agent)).val },
        { st with read := rest, narrative := (st.narrative ++ narrate_attack game []
          (game.agentAt att.agent) (game.attackAt (att.attacks.getD att.nextAttack 0))
          (get_effectiveness game (game.attackAt (att.attacks.getD att.nextAttack 0))
            (game.agentAt member.agent)).val
          { member with health := member.health -
            (get_effectiveness game (game.attackAt (att.attacks.getD att.nextAttack 0))
              (game.agentAt member.agent)).val }) }) := by
  obtain ⟨hag, hne, hall⟩ := hatt
  have hidx : att.attacks.getD att.nextAttack 0 ∈ att.attacks := by
    rw [List.getD_eq_getElem _ _ hcur]
    exact List.getElem_mem hcur
  obtain ⟨hlt, hlegal⟩ := hall _ hidx
  generalize hx : att.attacks.getD att.nextAttack 0 = x at hlt hlegal ⊢
  obtain ⟨han, haz⟩ := hclean.2 _ (agentAt_mem hag)
  obtain ⟨hkn, hkz⟩ := hclean.1 _ (attackAt_mem hlt)
  have hsp : ' ' ∉ (game.agentAt att.agent).name := (hwf.2.2.1 _ (agentAt_mem hag)).2.1
  have hline : attack_line game att = ("attack ".toList ++ ((game.agentAt att.agent).name ++
      ' ' :: (game.attackAt x).name)) ++ '\n' :: [] := by
    unfold attack_line
    rw [hx]
    simp only [List.append_assoc, List.singleton_append]
  have hl : read_line st.read = ("attack ".toList ++ ((game.agentAt att.agent).name ++
      ' ' :: (game.attackAt x).name), rest) := by
    rw [hread, hline, List.append_assoc, List.singleton_append]
    apply read_line_of_clean
    · intro h
      rcases List.mem_append.mp h with h1 | h1
      · exact absurd h1 (by decide)
      · rcases List.mem_append.mp h1 with h2 | h2
        · exact han h2
        · rcases List.mem_cons.mp h2 with h3 | h3
          · exact absurd h3 (by decide)
          · exact hkn h3
    · intro h
      rcases List.mem_append.mp h with h1 | h1
      · exact absurd h1 (by decide)
      · rcases List.mem_append.mp h1 with h2 | h2
        · exact haz h2
        · rcases List.mem_cons.mp h2 with h3 | h3
          · exact absurd h3 (by decide)
          · exact hkz h3
  have hm := read_team_msg_attack simulation st.read
    ((game.agentAt att.agent).name ++ ' ' :: (game.attackAt x).name) (by rw [hl])
  have hdrop1 : ("attack ".toList ++ ((game.agentAt att.agent).name ++
      ' ' :: (game.attackAt x).name)).drop "attack ".toList.length =
      (game.agentAt att.agent).name ++ ' ' :: (game.attackAt x).name := List.drop_left _ _
  have hdrop2 : ("attack ".toList ++ ((game.agentAt att.agent).name ++
      ' ' :: (game.attackAt x).name)).drop
        ("attack  ".toList.length + (game.agentAt att.agent).name.length) =
      (game.attackAt x).name := by
    have e : "attack ".toList ++ ((game.agentAt att.agent).name ++
        ' ' :: (game.attackAt x).name) =
        ("attack ".toList ++ (game.agentAt att.agent).name ++ [' ']) ++
          (game.attackAt x).name := by
      simp only [List.append_assoc, List.singleton_append]
    have e2 : "attack  ".toList.length + (game.agentAt att.agent).name.length =
        ("attack ".toList ++ (game.agentAt att.agent).name ++ [' ']).length := by
      simp only [List.length_append, List.length_singleton]
      have : "attack  ".toList.length = "attack ".toList.length + 1 := by decide
      omega
    rw [e, e2, List.drop_left]
  have hleg : legal_attack game (game.agentAt att.agent) (game.attackAt x) = true :=
    (legal_attack_iff_mem hwf hag hlt).mpr hlegal
  unfold get_attacked
  simp only
  rw [hm]
  simp only
  rw [if_neg (by simp), hopp, hdrop2, get_attack_self hwf hlt]
  simp only
  rw [hdrop1, get_token_append_sep hsp, if_neg (by simp [hleg]), hl,
    narrate_attack_append]

/-- What `attack` does for a member with attacks. -/
theorem attack_eval (game : Game) (member opponent : Member) (st : BattleState)
    (h : member.attacks ≠ []) :
    attack game member opponent st =
      (.ok ({ member with nextAttack := (member.nextAttack + 1) % member.attacks.length },
          { opponent with health := opponent.health -
            (get_effectiveness game (game.attackAt (member.attacks.getD member.nextAttack 0))
              (game.agentAt opponent.agent)).val }),
        { st with
          write := st.write ++ attack_line game member,
          narrative := (st.narrative ++ narrate_attack game [] (game.agentAt member.agent)
            (game.attackAt (member.attacks.getD member.nextAttack 0))
            (get_effectiveness game (game.attackAt (member.attacks.getD member.nextAttack 0))
              (game.agentAt opponent.agent)).val
            { opponent with health := opponent.health -
              (get_effectiveness game (game.attackAt (member.attacks.getD member.nextAttack 0))
                (game.agentAt opponent.agent)).val }) }) := by
  unfold attack
  rw [if_neg h]
  simp only
  rw [narrate_attack_append]
  rfl

/-- What `select_member` does. -/
theorem select_member_eval (game : Game) (teamName : List Char) (member : Member)
    (st : BattleState) :
    select_member game teamName member st =
      (⟨member.agent, member.attacks, 0, MAX_HEALTH⟩,
        { st with
          write := st.write ++ select_line game member,
          narrative := (st.narrative ++ replace_underscores
            (teamName ++ " chooses ".toList ++ (game.agentAt member.agent).name ++ ['\n'])) }) :=
  rfl

/-! ## The buffer of `read_line` -/

/-- The buffer that `read_line` leaves holds the line, a NUL, and further
bytes. -/
theorem read_line_buffer_shape {stale : List Char} {buffer : Nat} {file memory : List Char}
    (h : read_line_buffer stale buffer file = some memory) :
    ∃ rest, memory = (read_line file).1 ++ '\x00' :: rest := by
  unfold read_line_buffer at h
  simp only at h
  by_cases hl : (get_token file '\n').length < buffer - 1
  · rw [if_pos hl] at h
    simp only [Option.some.injEq] at h
    subst h
    have e : (read_line file).1 = get_token (get_token file '\n') '\x00' := rfl
    rw [e]
    rcases get_token_split (get_token file '\n') '\x00' with h1 | h1
    · rw [← h1]
      exact ⟨_, rfl⟩
    · generalize get_token (get_token file '\n') '\x00' = tok at h1
      generalize (List.take (buffer - ((get_token file '\n').length + 1))
        (List.drop ((get_token file '\n').length + 1) stale)) = tl
      generalize List.drop (tok.length + 1) (get_token file '\n') = r at h1
      rw [h1]
      exact ⟨r ++ '\x00' :: tl, by simp⟩
  · rw [if_neg hl] at h
    exact absurd h (by simp)

theorem read_line_buffer_fits (stale : List Char) {buffer : Nat} {file : List Char}
    (h : (get_token file '\n').length < buffer - 1) :
    ∃ memory, read_line_buffer stale buffer file = some memory := by
  unfold read_line_buffer
  simp only
  rw [if_pos h]
  exact ⟨_, rfl⟩

/-- A string that starts inside the line, or at its NUL, is the rest of the
line whatever the buffer held before. -/
theorem string_at_inside {line : List Char} (h0 : '\x00' ∉ line) (rest : List Char)
    {pos : Nat} (hp : pos ≤ line.length) :
    string_at (line ++ '\x00' :: rest) pos = some (line.drop pos) := by
  unfold string_at
  rw [List.drop_append_of_le_length hp]
  have hd : '\x00' ∉ line.drop pos := fun hm => h0 (List.mem_of_mem_drop hm)
  rw [if_pos (by simp), get_token_append_sep hd]

theorem read_line_no_nul (file : List Char) : '\x00' ∉ (read_line file).1 :=
  not_mem_get_token _ _

/-! ## `get_attacked` on its buffer -/

/-- On a line that fits the buffer and that is either no `attack` line or long
enough to hold the index of the attack name, `get_attacked` does not read
behind the NUL of the line: the old bytes of the buffer play no role. -/
theorem get_attacked_buffer_eq (stale : List Char) (game : Game) (simulation : Bool)
    (member opponent : Member) (st : BattleState)
    (hline : (read_line st.read).1 ≠ [])
    (hfit : (get_token st.read '\n').length < BUFFER - 1)
    (hin : get_token (read_line st.read).1 ' ' ≠ "attack".toList ∨
      "attack  ".toList.length + (game.agentAt opponent.agent).name.length ≤
        (read_line st.read).1.length) :
    get_attacked_buffer stale game simulation member opponent st =
      get_attacked game simulation member opponent st := by
  obtain ⟨memory, hmem⟩ := read_line_buffer_fits stale hfit
  obtain ⟨rest, hshape⟩ := read_line_buffer_shape hmem
  unfold get_attacked_buffer get_attacked
  simp only
  rw [hmem]
  simp only
  rcases read_team_msg_of_ne_nil simulation hline with ⟨htag, hm⟩ | ⟨htag, hm | ⟨t, ht, hm⟩⟩
  · rw [hm]
    simp only
    have hnn : ¬ (TeamMsgs.ATTACK ≠ TeamMsgs.ATTACK) := by simp
    rw [if_neg hnn, if_neg hnn]
    have hlen : "attack  ".toList.length + (game.agentAt opponent.agent).name.length ≤
        (read_line st.read).1.length := by
      rcases hin with h | h
      · exact absurd htag h
      · exact h
    have h7 : "attack ".toList.length ≤ (read_line st.read).1.length := by
      have e1 : "attack ".toList.length = 7 := rfl
      have e2 : "attack  ".toList.length = 8 := rfl
      omega
    rw [hshape, string_at_inside (read_line_no_nul _) rest h7,
      string_at_inside (read_line_no_nul _) rest hlen]
  · rw [hm]
  · rw [hm]
    simp only
    rw [if_pos ht, if_pos ht]

/-- Claim C17: `get_attacked` on a line that is not empty and fits its buffer,
whatever bytes the buffer held before.  The line
`attack <agentName> <attackName>` with the name of the agent of the selected
opposing member and the name of a declared attack that is legal for that agent
is accepted.  On a line with another tag, and on an `attack` line that is long
enough to hold the index `strlen("attack  ") + strlen(agentName)` at which the
attack name is read, the old bytes of the buffer play no role: the line is
accepted only when it has that form, and every other such line ends in the
protocol error, exit status 19 with the message `Protocol error`. -/
theorem get_attacked_buffer_accepts (game : Game) (hwf : WellFormed game) (stale : List Char)
    (simulation : Bool) (member opponent : Member) (st : BattleState)
    (hopp : opponent.agent < game.agents.length) (hline : (read_line st.read).1 ≠ [])
    (hfit : (get_token st.read '\n').length < BUFFER - 1) :
    ((∃ attackName a,
        (read_line st.read).1 =
          "attack ".toList ++ (game.agentAt opponent.agent).name ++ ' ' :: attackName ∧
        get_attack game attackName = some a ∧
        a ∈ (game.agentAt opponent.agent).legalAttacks) →
      ∃ m1 st1, get_attacked_buffer stale game simulation member opponent st = (.ok m1, st1)) ∧
    ((get_token (read_line st.read).1 ' ' ≠ "attack".toList ∨
        "attack  ".toList.length + (game.agentAt opponent.agent).name.length ≤
          (read_line st.read).1.length) →
      get_attacked_buffer stale game simulation member opponent st =
        get_attacked game simulation member opponent st ∧
      ((∃ m1 st1, get_attacked_buffer stale game simulation member opponent st = (.ok m1, st1)) →
        ∃ attackName a,
          (read_line st.read).1 =
            "attack ".toList ++ (game.agentAt opponent.agent).name ++ ' ' :: attackName ∧
          get_attack game attackName = some a ∧
          a ∈ (game.agentAt opponent.agent).legalAttacks) ∧
      ((¬ ∃ m1 st1,
          get_attacked_buffer stale game simulation member opponent st = (.ok m1, st1)) →
        (get_attacked_buffer stale game simulation member opponent st).1 =
          .error (.exit_game EXIT_BAD_MESSAGE))) ∧
    (get_token (read_line st.read).1 ' ' ≠ "attack".toList →
      (get_attacked_buffer stale game simulation member opponent st).1 =
        .error (.exit_game EXIT_BAD_MESSAGE)) ∧
    EXIT_BAD_MESSAGE = 19 ∧ exit_message EXIT_BAD_MESSAGE = "Protocol error".toList := by
  obtain ⟨hiff, hno, -, -⟩ :=
    get_attacked_accepts game hwf simulation member opponent st hopp hline
  have hform : ∀ attackName : List Char,
      (read_line st.read).1 =
        "attack ".toList ++ (game.agentAt opponent.agent).name ++ ' ' :: attackName →
      "attack  ".toList.length + (game.agentAt opponent.agent).name.length ≤
        (read_line st.read).1.length := by
    intro attackName h
    rw [h]
    simp only [List.length_append, List.length_cons]
    have e1 : "attack ".toList.length = 7 := rfl
    have e2 : "attack  ".toList.length = 8 := rfl
    omega
  have hin : (get_token (read_line st.read).1 ' ' ≠ "attack".toList ∨
        "attack  ".toList.length + (game.agentAt opponent.agent).name.length ≤
          (read_line st.read).1.length) →
      get_attacked_buffer stale game simulation member opponent st =
        get_attacked game simulation member opponent st ∧
      ((∃ m1 st1, get_attacked_buffer stale game simulation member opponent st = (.ok m1, st1)) →
        ∃ attackName a,
          (read_line st.read).1 =
            "attack ".toList ++ (game.agentAt opponent.agent).name ++ ' ' :: attackName ∧
          get_attack game attackName = some a ∧
          a ∈ (game.agentAt opponent.agent).legalAttacks) ∧
      ((¬ ∃ m1 st1,
          get_attacked_buffer stale game simulation member opponent st = (.ok m1, st1)) →
        (get_attacked_buffer stale game simulation member opponent st).1 =
          .error (.exit_game EXIT_BAD_MESSAGE)) := by
    intro h
    have e := get_attacked_buffer_eq stale game simulation member opponent st hline hfit h
    rw [e]
    exact ⟨rfl, hiff.mp, hno⟩
  refine ⟨?_, hin, ?_, rfl, by decide⟩
  · rintro ⟨attackName, a, h1, h2, h3⟩
    rw [get_attacked_buffer_eq stale game simulation member opponent st hline hfit
      (Or.inr (hform attackName h1))]
    exact hiff.mpr ⟨attackName, a, h1, h2, h3⟩
  · intro htag
    obtain ⟨-, hacc, hrej⟩ := hin (Or.inl htag)
    apply hrej
    intro hex
    obtain ⟨attackName, a, h1, -, -⟩ := hacc hex
    apply htag
    rw [h1]
    have e : "attack ".toList ++ (game.agentAt opponent.agent).name ++ ' ' :: attackName =
        "attack".toList ++ ' ' :: ((game.agentAt opponent.agent).name ++ ' ' :: attackName) := by
      simp
    rw [e]
    exact get_token_append_sep (by decide) _

/-- Claim C17, witness: in the golden game, with the bytes of an earlier
message in the buffer, the line `attack A splash` is accepted from the
opposing member `A`, and the lines `attack B ember` and `iselectyou A` end in
the protocol error. -/
theorem get_attacked_buffer_accepts_witness :
    WellFormed goldenGame ∧
    (∃ m1 st1, get_attacked_buffer "attack A splash\x00".toList goldenGame false
      ⟨0, [0], 0, 10⟩ ⟨0, [], 0, 10⟩ ⟨[], "attack A splash\n".toList, [], []⟩ = (.ok m1, st1)) ∧
    (get_attacked_buffer "attack A splash\x00".toList goldenGame false ⟨0, [0], 0, 10⟩
      ⟨0, [], 0, 10⟩ ⟨[], "attack B ember\n".toList, [], []⟩).1 =
        .error (.exit_game EXIT_BAD_MESSAGE) ∧
    (get_attacked_buffer "attack A splash\x00".toList goldenGame false ⟨0, [0], 0, 10⟩
      ⟨0, [], 0, 10⟩ ⟨[], "iselectyou A\n".toList, [], []⟩).1 =
        .error (.exit_game EXIT_BAD_MESSAGE) :=
  ⟨goldenGame_wf,
    (get_attacked_buffer_accepts goldenGame goldenGame_wf "attack A splash\x00".toList false
      ⟨0, [0], 0, 10⟩ ⟨0, [], 0, 10⟩ ⟨[], "attack A splash\n".toList, [], []⟩ (by decide)
      (by decide) (by decide)).1 ⟨"splash".toList, 0, by decide, by decide, by decide⟩,
    ((get_attacked_buffer_accepts goldenGame goldenGame_wf "attack A splash\x00".toList false
      ⟨0, [0], 0, 10⟩ ⟨0, [], 0, 10⟩ ⟨[], "attack B ember\n".toList, [], []⟩ (by decide)
      (by decide) (by decide)).2.1 (Or.inr (by decide))).2.2 (by
        rintro ⟨m1, st1, h⟩
        have e : get_attacked_buffer "attack A splash\x00".toList goldenGame false
            ⟨0, [0], 0, 10⟩ ⟨0, [], 0, 10⟩ ⟨[], "attack B ember\n".toList, [], []⟩ =
            (.error (.exit_game EXIT_BAD_MESSAGE), ⟨[], [], [], []⟩) := by rfl
        rw [e] at h
        exact absurd h (by simp)),
    (get_attacked_buffer_accepts goldenGame goldenGame_wf "attack A splash\x00".toList false
      ⟨0, [0], 0, 10⟩ ⟨0, [], 0, 10⟩ ⟨[], "iselectyou A\n".toList, [], []⟩ (by decide)
      (by decide) (by decide)).2.2.1 (by decide)⟩

/-! ## `read_agents` on its buffers -/

theorem string_at_zero (line rest : List Char) (h0 : '\x00' ∉ line) :
    string_at (line ++ '\x00' :: rest) 0 = some line := by
  rw [string_at_inside h0 rest (Nat.zero_le _)]
  rfl

theorem get_token_length_lt_of_mem {line : List Char} {d : Char} (h : d ∈ line) :
    (get_token line d).length + 1 ≤ line.length := by
  rcases get_token_split line d with e | e
  · have hn := not_mem_get_token line d
    rw [← e] at hn
    exact absurd h hn
  · have hl := congrArg List.length e
    simp only [List.length_append, List.length_cons] at hl
    omega

/-- A member that the loop body accepts has a declared agent and a ring of
declared attacks that are legal for the agent, whatever the buffer held. -/
theorem read_member_line_buffer_ok {game : Game} (hwf : WellFormed game) {memory : List Char}
    {m : Member} (h : read_member_line_buffer game memory = .ok m) :
    m.agent < game.agents.length ∧ m.nextAttack = 0 ∧ m.attacks ≠ [] ∧
      ∀ a ∈ m.attacks, a < game.attacks.length ∧ a ∈ (game.agentAt m.agent).legalAttacks := by
  unfold read_member_line_buffer at h
  cases hs : string_at memory 0 with
  | none =>
    rw [hs] at h
    exact absurd h (by simp)
  | some line =>
    rw [hs] at h
    simp only at h
    by_cases h0 : line.length = 0
    · rw [if_pos h0] at h
      exact absurd h (by simp)
    · rw [if_neg h0] at h
      cases hg : get_agent game (get_token line ' ') with
      | none =>
        rw [hg] at h
        exact absurd h (by simp)
      | some agent =>
        rw [hg] at h
        simp only at h
        cases hs2 : string_at memory ((game.agentAt agent).name.length + 1) with
        | none =>
          rw [hs2] at h
          exact absurd h (by simp)
        | some attacks =>
          rw [hs2] at h
          simp only at h
          obtain ⟨h1, h2, h3, h4⟩ := read_team_attacks_ok rfl h
          simp only at h1 h4
          have hi := get_agent_lt hg
          rw [h1]
          refine ⟨hi, h2, h3, fun a ha => ⟨(h4 a ha).1, ?_⟩⟩
          exact (legal_attack_iff_mem hwf hi (h4 a ha).1).mp (h4 a ha).2

/-- On a line that holds a space, or whose first token is no agent, the loop
body does not read behind the NUL of the line. -/
theorem read_member_line_buffer_eq (game : Game) {line : List Char} (rest : List Char)
    (h0 : '\x00' ∉ line)
    (hin : ' ' ∈ line ∨ get_agent game (get_token line ' ') = none) :
    read_member_line_buffer game (line ++ '\x00' :: rest) = read_member_line game line := by
  unfold read_member_line_buffer read_member_line
  rw [string_at_zero line rest h0]
  simp only
  by_cases hl : line.length = 0
  · rw [if_pos hl, if_pos hl]
  rw [if_neg hl, if_neg hl]
  cases hg : get_agent game (get_token line ' ') with
  | none => rfl
  | some agent =>
    simp only
    have hsp : ' ' ∈ line := by
      rcases hin with h | h
      · exact h
      · rw [hg] at h
        exact absurd h (by simp)
    have hlen : (game.agentAt agent).name.length + 1 ≤ line.length := by
      rw [agentAt_name_of_get_agent hg]
      exact get_token_length_lt_of_mem hsp
    rw [string_at_inside h0 rest hlen]

theorem read_agents_loop_buffer_succ (stale : Nat → List Char) (game : Game) (n : Nat)
    (file : List Char) (members : List Member) :
    read_agents_loop_buffer stale game (n + 1) file members =
      match read_line_buffer (stale members.length) BUFFER file with
      | none => .error .undefined
      | some memory =>
        match read_member_line_buffer game memory with
        | .error e => .error e
        | .ok member =>
          read_agents_loop_buffer stale game n (read_line file).2 (members ++ [member]) := by
  rfl

/-- The members that `read_agents` returns, whatever its buffers held. -/
theorem read_agents_loop_buffer_ok {game : Game} (hwf : WellFormed game)
    (stale : Nat → List Char) :
    ∀ (n : Nat) (file : List Char) (members ms : List Member) (rest : List Char),
      read_agents_loop_buffer stale game n file members = .ok (ms, rest) →
      ∃ new, ms = members ++ new ∧ new.length = n ∧
        ∀ m ∈ new, m.agent < game.agents.length ∧ m.nextAttack = 0 ∧ m.attacks ≠ [] ∧
          ∀ a ∈ m.attacks, a < game.attacks.length ∧
            a ∈ (game.agentAt m.agent).legalAttacks := by
  intro n
  induction n with
  | zero =>
    intro file members ms rest h
    simp only [read_agents_loop_buffer, Except.ok.injEq, Prod.mk.injEq] at h
    exact ⟨[], by simp [h.1], rfl, by simp⟩
  | succ n ih =>
    intro file members ms rest h
    rw [read_agents_loop_buffer_succ] at h
    cases hb : read_line_buffer (stale members.length) BUFFER file with
    | none =>
      rw [hb] at h
      exact absurd h (by simp)
    | some memory =>
      rw [hb] at h
      simp only at h
      cases hm : read_member_line_buffer game memory with
      | error e =>
        rw [hm] at h
        exact absurd h (by simp)
      | ok m =>
        rw [hm] at h
        simp only at h
        obtain ⟨new, h1, h2, h3⟩ := ih _ _ _ _ h
        refine ⟨m :: new, by simp [h1], by simp [h2], ?_⟩
        intro x hx
        rcases List.mem_cons.mp hx with rfl | hx
        · exact read_member_line_buffer_ok hwf hm
        · exact h3 x hx

theorem raw_lines_zero (f : List Char) : (f.splitOn '\n')[0]? = some (get_token f '\n') := by
  rw [splitOn_newline]
  simp

theorem raw_lines_succ {f : List Char} {k : Nat} {l : List Char}
    (h : (f.splitOn '\n')[k + 1]? = some l) : ((read_line f).2.splitOn '\n')[k]? = some l := by
  rw [splitOn_newline] at h
  by_cases hn : '\n' ∈ f
  · simpa [hn, read_line] using h
  · simp [hn] at h

/-- A member line that the loop body does not accept makes `read_agents` end
with the team-file-contents error, when the lines up to it fit the buffer and
the member lines before it hold a space. -/
theorem read_agents_loop_buffer_reject (stale : Nat → List Char) (game : Game)
    {line : List Char} (hbad : ∀ m, read_member_line game line ≠ .ok m)
    (hin : ' ' ∈ line ∨ get_agent game (get_token line ' ') = none) :
    ∀ (k n : Nat) (file : List Char) (members : List Member), k < n →
      (∀ i l, i ≤ k → (file.splitOn '\n')[i]? = some l → l.length < BUFFER - 1) →
      (∀ j l, j < k → (file_lines file)[j]? = some l → ' ' ∈ l) →
      (file_lines file)[k]? = some line →
      read_agents_loop_buffer stale game n file members =
        .error (.exit_game EXIT_TEAM_FILE_CONTENTS) := by
  intro k
  induction k with
  | zero =>
    intro n file members hk hshort _ hl
    obtain ⟨n, rfl⟩ : ∃ m, n = m + 1 := ⟨n - 1, by omega⟩
    have hl' : (read_line file).1 = line := by
      have := file_lines_zero file
      rw [hl] at this
      exact (Option.some.inj this).symm
    obtain ⟨memory, hmem⟩ := read_line_buffer_fits (stale members.length)
      (hshort 0 _ (Nat.le_refl _) (raw_lines_zero file))
    obtain ⟨rest, hshape⟩ := read_line_buffer_shape hmem
    rw [read_agents_loop_buffer_succ, hmem]
    simp only
    rw [hshape, hl', read_member_line_buffer_eq game rest (hl' ▸ read_line_no_nul file) hin]
    cases hm : read_member_line game line with
    | error e => rw [read_member_line_error hm]
    | ok m => exact absurd hm (hbad m)
  | succ k ih =>
    intro n file members hk hshort hprev hl
    obtain ⟨n, rfl⟩ : ∃ m, n = m + 1 := ⟨n - 1, by omega⟩
    have hn : '\n' ∈ file := by
      by_contra hn
      rw [file_lines_eq, if_neg hn] at hl
      simp at hl
    have hraw : ∀ i, ((read_line file).2.splitOn '\n')[i]? = (file.splitOn '\n')[i + 1]? := by
      intro i
      rw [splitOn_newline file, if_pos hn]
      simp [read_line]
    have hfl : ∀ i, (file_lines (read_line file).2)[i]? = (file_lines file)[i + 1]? := by
      intro i
      rw [file_lines_eq file, if_pos hn]
      simp
    obtain ⟨memory, hmem⟩ := read_line_buffer_fits (stale members.length)
      (hshort 0 _ (Nat.zero_le _) (raw_lines_zero file))
    obtain ⟨rest, hshape⟩ := read_line_buffer_shape hmem
    rw [read_agents_loop_buffer_succ, hmem]
    simp only
    rw [hshape, read_member_line_buffer_eq game rest (read_line_no_nul file)
      (Or.inl (hprev 0 _ (Nat.succ_pos _) (file_lines_zero file)))]
    cases hm : read_member_line game (read_line file).1 with
    | error e => rw [read_member_line_error hm]
    | ok m =>
      exact ih n _ _ (by omega)
        (fun i l hi h => hshort (i + 1) l (by omega) (by rw [← hraw]; exact h))
        (fun j l hj h => hprev (j + 1) l (by omega) (by rw [← hfl]; exact h))
        (file_lines_succ hl)

/-- The members of a team that `read_team_file` returns are those that
`read_agents` read. -/
theorem read_team_file_buffer_ok_members {stale : Nat → List Char} {game : Game}
    {file : List Char} {team : Team} (h : read_team_file_buffer stale game file = .ok team) :
    ∃ rest, read_agents_buffer stale (read_line file).2 game = .ok (team.members, rest) := by
  unfold read_team_file_buffer at h
  cases hb : read_line_buffer [] BUFFER file with
  | none =>
    rw [hb] at h
    exact absurd h (by simp)
  | some memory =>
  rw [hb] at h
  simp only at h
  by_cases h0 : (read_line file).1.length = 0
  · rw [if_pos h0] at h
    exact absurd h (by simp)
  rw [if_neg h0] at h
  cases ha : read_agents_buffer stale (read_line file).2 game with
  | error e =>
    rw [ha] at h
    exact absurd h (by simp)
  | ok r =>
    obtain ⟨members, f1⟩ := r
    rw [ha] at h
    simp only at h
    rcases hf : fgets BUFFER f1 with ⟨_ | coords, f2⟩
    · rw [hf] at h
      exact absurd h (by simp)
    rw [hf] at h
    simp only at h
    cases hc : get_coords coords '\n' 0 with
    | error e =>
      rw [hc] at h
      exact absurd h (by simp)
    | ok r2 =>
      obtain ⟨pos, p2⟩ := r2
      rw [hc] at h
      simp only at h
      by_cases hneg : pos.x < 0 ∨ pos.y < 0
      · rw [if_pos hneg] at h
        exact absurd h (by simp)
      rw [if_neg hneg] at h
      cases hd : read_directions f2 [] with
      | error e =>
        rw [hd] at h
        exact absurd h (by simp)
      | ok r3 =>
        obtain ⟨directions, f3⟩ := r3
        rw [hd] at h
        simp only at h
        by_cases h3 : f3 ≠ []
        · rw [if_pos h3] at h
          exact absurd h (by simp)
        rw [if_neg h3] at h
        simp only [Except.ok.injEq] at h
        subst h
        exact ⟨f1, rfl⟩

theorem read_team_file_buffer_reject (stale : Nat → List Char) (game : Game)
    {file line : List Char} {k : Nat} (hk : k < MAX_TEAM_PLAYERS)
    (hshort : ∀ i l, i ≤ k + 1 → (file.splitOn '\n')[i]? = some l → l.length < BUFFER - 1)
    (hprev : ∀ j l, j < k → (file_lines file)[j + 1]? = some l → ' ' ∈ l)
    (hl : (file_lines file)[k + 1]? = some line)
    (hbad : ∀ m, read_member_line game line ≠ .ok m)
    (hin : ' ' ∈ line ∨ get_agent game (get_token line ' ') = none) :
    read_team_file_buffer stale game file = .error (.exit_game EXIT_TEAM_FILE_CONTENTS) := by
  have hn : '\n' ∈ file := by
    by_contra hn
    rw [file_lines_eq, if_neg hn] at hl
    simp at hl
  have hraw : ∀ i, ((read_line file).2.splitOn '\n')[i]? = (file.splitOn '\n')[i + 1]? := by
    intro i
    rw [splitOn_newline file, if_pos hn]
    simp [read_line]
  have hfl : ∀ i, (file_lines (read_line file).2)[i]? = (file_lines file)[i + 1]? := by
    intro i
    rw [file_lines_eq file, if_pos hn]
    simp
  obtain ⟨memory, hmem⟩ := read_line_buffer_fits []
    (hshort 0 _ (Nat.zero_le _) (raw_lines_zero file))
  unfold read_team_file_buffer
  rw [hmem]
  simp only
  by_cases h0 : (read_line file).1.length = 0
  · rw [if_pos h0]
  rw [if_neg h0, read_agents_buffer,
    read_agents_loop_buffer_reject stale game hbad hin k MAX_TEAM_PLAYERS _ [] hk
      (fun i l hi h => hshort (i + 1) l (by omega) (by rw [← hraw]; exact h))
      (fun j l hj h => hprev j l hj (by rw [← hfl]; exact h))
      (file_lines_succ hl)]

theorem mem_take_of_getElem? {α : Type} {xs : List α} {i n : Nat} {l : α} (hi : i < n)
    (h : xs[i]? = some l) : l ∈ xs.take n := by
  rw [List.mem_iff_getElem?]
  exact ⟨i, by rw [List.getElem?_take_of_lt hi]; exact h⟩

theorem mem_take_drop_of_getElem? {α : Type} {xs : List α} {j k : Nat} {l : α} (hj : j < k)
    (h : xs[j + 1]? = some l) : l ∈ (xs.drop 1).take k := by
  apply mem_take_of_getElem? hj
  rw [List.getElem?_drop, Nat.add_comm]
  exact h

theorem mem_spaced_cons_cons (name t : List Char) (ts : List (List Char)) :
    ' ' ∈ spaced (name :: t :: ts) := by
  rw [spaced_cons_cons]
  simp

/-- Claim C11: for Definitions satisfying the invariant of the parser and
whatever bytes the buffers of `read_agents` held, a team that `read_team_file`
returns has exactly four members, each with a declared agent (which has three
legal attacks) and a non-empty attack list of declared attacks that are among
the legal attacks of the agent; and a team file is rejected with the
team-file-contents error (exit 5) when, after member lines that hold a space
and with every line so far shorter than `BUFFER - 1`, a member line made of
space-free items names an unknown agent, lists an attack that is unknown or
not among the legal attacks of the agent, or ends in a space right after the
name of the agent. -/
theorem read_team_file_buffer_members (game : Game) (hwf : WellFormed game)
    (stale : Nat → List Char) (file : List Char) :
    (∀ team, read_team_file_buffer stale game file = .ok team →
      team.members.length = 4 ∧
      ∀ m ∈ team.members, m.agent < game.agents.length ∧
        (game.agentAt m.agent).legalAttacks.length = 3 ∧ m.attacks ≠ [] ∧
        ∀ a ∈ m.attacks, a < game.attacks.length ∧
          a ∈ (game.agentAt m.agent).legalAttacks) ∧
    (∀ (k : Nat) (name : List Char) (toks : List (List Char)), k < 4 →
      (∀ l ∈ (file.splitOn '\n').take (k + 2), l.length < BUFFER - 1) →
      (∀ l ∈ ((file_lines file).drop 1).take k, ' ' ∈ l) →
      (file_lines file)[k + 1]? = some (spaced (name :: toks)) →
      (∀ x ∈ name :: toks, ' ' ∉ x) → (∀ x ∈ toks, x ≠ []) →
      (get_agent game name = none ∨
        ∃ x ∈ toks, get_attack game x = none ∨
          ∀ i a, get_agent game name = some i → get_attack game x = some a →
            a ∉ (game.agentAt i).legalAttacks) →
      read_team_file_buffer stale game file = .error (.exit_game EXIT_TEAM_FILE_CONTENTS)) ∧
    (∀ (k : Nat) (name : List Char), k < 4 →
      (∀ l ∈ (file.splitOn '\n').take (k + 2), l.length < BUFFER - 1) →
      (∀ l ∈ ((file_lines file).drop 1).take k, ' ' ∈ l) →
      ' ' ∉ name → (file_lines file)[k + 1]? = some (name ++ [' ']) →
      read_team_file_buffer stale game file = .error (.exit_game EXIT_TEAM_FILE_CONTENTS)) := by
  refine ⟨?_, ?_, ?_⟩
  · intro team h
    obtain ⟨rest, hr⟩ := read_team_file_buffer_ok_members h
    obtain ⟨new, h1, h2, h3⟩ := read_agents_loop_buffer_ok hwf stale _ _ _ _ _ hr
    rw [h1]
    refine ⟨by simpa [MAX_TEAM_PLAYERS] using h2, ?_⟩
    intro m hm
    have hm2 : m ∈ new := by simpa using hm
    obtain ⟨q1, -, q3, q4⟩ := h3 m hm2
    exact ⟨q1, (hwf.2.2.1 _ (agentAt_mem q1)).2.2.2.1, q3, q4⟩
  · intro k name toks hk hshort hprev hl hs hne hbad
    refine read_team_file_buffer_reject stale game hk
      (fun i l hi h => hshort l (mem_take_of_getElem? (by omega) h))
      (fun j l hj h => hprev l (mem_take_drop_of_getElem? hj h)) hl ?_ ?_
    · intro m hm
      obtain ⟨i, hi, -, hall⟩ := read_member_line_spaced hwf hs hne hm
      rcases hbad with hb | ⟨x, hx, hb⟩
      · rw [hb] at hi
        exact absurd hi (by simp)
      · obtain ⟨a, ha, hleg⟩ := hall x hx
        rcases hb with hb | hb
        · rw [hb] at ha
          exact absurd ha (by simp)
        · exact hb i a hi ha hleg
    · rcases hbad with hb | ⟨x, hx, -⟩
      · right
        rw [get_token_spaced (hs name (List.mem_cons_self _ _))]
        exact hb
      · left
        cases toks with
        | nil => exact absurd hx (by simp)
        | cons t ts => exact mem_spaced_cons_cons name t ts
  · intro k name hk hshort hprev hs hl
    exact read_team_file_buffer_reject stale game hk
      (fun i l hi h => hshort l (mem_take_of_getElem? (by omega) h))
      (fun j l hj h => hprev l (mem_take_drop_of_getElem? hj h)) hl
      (read_member_line_name_space game name hs) (Or.inl (by simp))

/-- Claim C11, witness: the team file of the golden scenario is accepted with
four members whatever the buffers held, and a file whose second member line
is `A splash ember` is rejected. -/
theorem read_team_file_buffer_members_witness :
    WellFormed goldenGame ∧
    (∃ team, read_team_file_buffer (fun _ => List.replicate 80 'x') goldenGame goldenTeamText =
      .ok team ∧ team.members.length = 4) ∧
    read_team_file_buffer (fun _ => List.replicate 80 'x') goldenGame illegalAttackTeamText =
      .error (.exit_game EXIT_TEAM_FILE_CONTENTS) :=
  ⟨goldenGame_wf,
    ⟨_, (by decide : read_team_file_buffer (fun _ => List.replicate 80 'x') goldenGame
        goldenTeamText =
        .ok ⟨"Alpha".toList, [⟨0, [0], 0, 0⟩, ⟨0, [0, 0], 0, 0⟩, ⟨0, [0], 0, 0⟩, ⟨0, [0], 0, 0⟩],
          0, ⟨3, 4⟩, ['N', 'E', 'S'], 0⟩),
      ((read_team_file_buffer_members goldenGame goldenGame_wf (fun _ => List.replicate 80 'x')
        goldenTeamText).1 _ (by decide)).1⟩,
    (read_team_file_buffer_members goldenGame goldenGame_wf (fun _ => List.replicate 80 'x')
      illegalAttackTeamText).2.1 1
      "A".toList ["splash".toList, "ember".toList] (by decide) (by decide) (by decide)
      (by decide) (by decide) (by decide)
      (Or.inr ⟨"ember".toList, by decide, Or.inr (by
        intro i a hi ha
        have h1 : get_agent goldenGame "A".toList = some 0 := by decide
        have h2 : get_attack goldenGame "ember".toList = some 1 := by decide
        rw [h1] at hi
        rw [h2] at ha
        cases hi
        cases ha
        decide)⟩)⟩

/-- The original claim C11 fails on a member line with no attack: the line
`A` is accepted when the buffer still holds the bytes of an earlier line
`A splash`, and the member gets the attack of that line.  With a buffer of
NUL bytes the same file is rejected with exit status 5, and with a buffer
without a NUL the read leaves the buffer.  For an agent with a name of 68
characters the line with only the name is accepted on the bytes of the freed
buffer of the line before, also when the allocator has overwritten the first
16 bytes of it. -/
theorem read_team_file_buffer_stale :
    read_team_file_buffer (fun _ => "A splash".toList ++ List.replicate 72 '\x00') goldenGame
        noAttackTeamText =
      .ok ⟨"Alpha".toList, [⟨0, [0], 0, 0⟩, ⟨0, [0], 0, 0⟩, ⟨0, [0], 0, 0⟩, ⟨0, [0], 0, 0⟩],
        0, ⟨3, 4⟩, ['N', 'E', 'S'], 0⟩ ∧
    read_team_file_buffer (fun _ => List.replicate 80 '\x00') goldenGame noAttackTeamText =
      .error (.exit_game 5) ∧
    read_team_file_buffer (fun _ => List.replicate 80 'x') goldenGame noAttackTeamText =
      .error .undefined ∧
    read_line_buffer ("A splash".toList ++ List.replicate 72 '\x00') BUFFER "A\n".toList =
      some ("A\x00splash".toList ++ List.replicate 72 '\x00') ∧
    read_member_line_buffer goldenGame ("A\x00splash".toList ++ List.replicate 72 '\x00') =
      .ok ⟨0, [0], 0, 0⟩ ∧
    freedMemberLine.length = BUFFER ∧
    read_team_file_buffer (fun _ => freedMemberLine)
        (read_sinister_file new_game longNameText).2.1 longNameNoAttackTeamText =
      .ok ⟨"T".toList, [⟨0, [0], 0, 0⟩, ⟨0, [0], 0, 0⟩, ⟨0, [0], 0, 0⟩, ⟨0, [0], 0, 0⟩],
        0, ⟨3, 4⟩, ['N'], 0⟩ ∧
    read_team_file (read_sinister_file new_game longNameText).2.1 longNameNoAttackTeamText =
      .error (.exit_game 5) := by
  refine ⟨by decide, by decide, by decide, by decide, by decide, by decide, by decide,
    by decide⟩

/-- The original claim C17 fails on an `attack` line that stops before the
attack name: from the opposing member `A` the lines `attack A` and `attack`
are accepted as the attack `splash` when the buffer still holds the bytes of
an earlier message `attack A splash`.  With a buffer of NUL bytes the line
`attack A` ends in the protocol error, and a line of 79 characters leaves
`get_attacked` with a pointer that is no longer valid.  For an agent with a
name of 68 characters the line `attack <name>` is accepted on the bytes of the
freed buffer of the message `attack <name> a`, also when the allocator has
overwritten the first 16 bytes of it. -/
theorem get_attacked_buffer_stale :
    (get_attacked_buffer ("attack A splash".toList ++ List.replicate 65 '\x00') goldenGame false
      ⟨0, [0], 0, 10⟩ ⟨0, [], 0, 10⟩ ⟨[], "attack A\n".toList, [], []⟩) =
      (.ok ⟨0, [0], 0, 8⟩, ⟨[], [], [], "A uses splash: normal\n".toList⟩) ∧
    (get_attacked_buffer ("attack A splash".toList ++ List.replicate 65 '\x00') goldenGame false
      ⟨0, [0], 0, 10⟩ ⟨0, [], 0, 10⟩ ⟨[], "attack\n".toList, [], []⟩).1 =
      .ok ⟨0, [0], 0, 8⟩ ∧
    (get_attacked_buffer (List.replicate 80 '\x00') goldenGame false
      ⟨0, [0], 0, 10⟩ ⟨0, [], 0, 10⟩ ⟨[], "attack A\n".toList, [], []⟩).1 =
      .error (.exit_game 19) ∧
    read_line_buffer ("attack A splash".toList ++ List.replicate 65 '\x00') BUFFER
      "attack A\n".toList = some ("attack A\x00splash".toList ++ List.replicate 65 '\x00') ∧
    string_at ("attack A\x00splash".toList ++ List.replicate 65 '\x00')
      ("attack  ".toList.length + "A".toList.length) = some "splash".toList ∧
    (get_attacked_buffer (List.replicate 80 '\x00') goldenGame false
      ⟨0, [0], 0, 10⟩ ⟨0, [], 0, 10⟩
      ⟨[], "attack A ".toList ++ List.replicate 70 's' ++ ['\n'], [], []⟩).1 =
      .error .undefined ∧
    freedAttackLine.length = BUFFER ∧
    (get_attacked_buffer freedAttackLine (read_sinister_file new_game longNameText).2.1 false
      ⟨0, [0], 0, 10⟩ ⟨0, [], 0, 10⟩
      ⟨[], "attack ".toList ++ List.replicate 68 'x' ++ ['\n'], [], []⟩).1 =
      .ok ⟨0, [0], 0, 8⟩ ∧
    (get_attacked (read_sinister_file new_game longNameText).2.1 false
      ⟨0, [0], 0, 10⟩ ⟨0, [], 0, 10⟩
      ⟨[], "attack ".toList ++ List.replicate 68 'x' ++ ['\n'], [], []⟩).1 =
      .error (.exit_game 19) := by
  refine ⟨by decide, by decide, by decide, by decide, by decide, by decide, by decide,
    by decide, by decide⟩

/-! ## Comment lines and the buffer of `read_section` -/

theorem read_line_buffer_congr {f f' : List Char} (h : get_token f' '\n' = get_token f '\n')
    (stale : List Char) (buffer : Nat) :
    read_line_buffer stale buffer f' = read_line_buffer stale buffer f := by
  unfold read_line_buffer
  simp only
  rw [h]

/-- With enough fuel the loop of `read_section` does not depend on the fuel. -/
theorem read_section_loop_checked_fuel (p : Game → List Char → Option (Int × Game)) (n : Nat) :
    ∀ (m : Nat) (g : Game) (f : List Char), f.length < n → f.length < m →
      read_section_loop_checked p n g f = read_section_loop_checked p m g f := by
  induction n with
  | zero => intro m g f h; omega
  | succ n ih =>
    intro m g f hn hm
    cases m with
    | zero => omega
    | succ m =>
      rw [read_section_loop_checked, read_section_loop_checked]
      cases hb : read_line_buffer [] 80 f with
      | none => rfl
      | some memory =>
        simp only
        by_cases h0 : (read_line f).1.length = 0
        · rw [if_pos h0, if_pos h0]
        · have hne : f ≠ [] := read_line_ne_nil (fun e => h0 (by rw [e]; rfl))
          have hlt := read_line_length hne
          rw [if_neg h0, if_neg h0, ih m g (read_line f).2 (by omega) (by omega)]
          cases hp : p g (read_line f).1 with
          | none => rfl
          | some result =>
            simp only
            rw [ih m result.2 (read_line f).2 (by omega) (by omega)]

theorem read_section_checked_long (p : Game → List Char → Option (Int × Game)) (g : Game)
    {f : List Char} (hb : read_line_buffer [] 80 f = none) :
    read_section_checked g f p = none := by
  rw [read_section_checked, read_section_loop_checked, hb]

theorem read_section_checked_blank (p : Game → List Char → Option (Int × Game)) (g : Game)
    {f memory : List Char} (hb : read_line_buffer [] 80 f = some memory)
    (h0 : (read_line f).1 = []) :
    read_section_checked g f p = some (-1, g, (read_line f).2) := by
  rw [read_section_checked, read_section_loop_checked, hb]
  simp only [List.length_eq_zero]
  rw [if_pos h0]

theorem read_section_checked_stop (p : Game → List Char → Option (Int × Game)) (g : Game)
    {f memory : List Char} (hb : read_line_buffer [] 80 f = some memory)
    (h1 : (read_line f).1 = ['.']) :
    read_section_checked g f p = some (0, g, (read_line f).2) := by
  rw [read_section_checked, read_section_loop_checked, hb]
  simp only [List.length_eq_zero]
  rw [if_neg (by rw [h1]; simp), if_pos h1]

theorem read_section_checked_skip (p : Game → List Char → Option (Int × Game)) (g : Game)
    {f memory : List Char} (hb : read_line_buffer [] 80 f = some memory)
    (h0 : (read_line f).1 ≠ []) (h1 : (read_line f).1 ≠ ['.'])
    (h2 : (read_line f).1.head? = some '#') :
    read_section_checked g f p = read_section_checked g (read_line f).2 p := by
  have hlt := read_line_length (read_line_ne_nil h0)
  rw [read_section_checked, read_section_loop_checked, hb]
  simp only [List.length_eq_zero]
  rw [if_neg h0, if_neg h1, if_pos h2, read_section_checked,
    read_section_loop_checked_fuel p f.length ((read_line f).2.length + 1) g _ hlt (by omega)]

theorem read_section_checked_none (p : Game → List Char → Option (Int × Game)) (g : Game)
    {f memory : List Char} (hb : read_line_buffer [] 80 f = some memory)
    (h0 : (read_line f).1 ≠ []) (h1 : (read_line f).1 ≠ ['.'])
    (h2 : (read_line f).1.head? ≠ some '#') (h3 : p g (read_line f).1 = none) :
    read_section_checked g f p = none := by
  rw [read_section_checked, read_section_loop_checked, hb]
  simp only [List.length_eq_zero]
  rw [if_neg h0, if_neg h1, if_neg h2, h3]

theorem read_section_checked_fail (p : Game → List Char → Option (Int × Game)) (g : Game)
    {f memory : List Char} (hb : read_line_buffer [] 80 f = some memory)
    (h0 : (read_line f).1 ≠ []) (h1 : (read_line f).1 ≠ ['.'])
    (h2 : (read_line f).1.head? ≠ some '#') {result : Int × Game}
    (h3 : p g (read_line f).1 = some result) (h4 : result.1 ≠ 0) :
    read_section_checked g f p = some (result.1, result.2, (read_line f).2) := by
  rw [read_section_checked, read_section_loop_checked, hb]
  simp only [List.length_eq_zero]
  rw [if_neg h0, if_neg h1, if_neg h2, h3]
  simp only
  rw [if_pos h4]

theorem read_section_checked_step (p : Game → List Char → Option (Int × Game)) (g : Game)
    {f memory : List Char} (hb : read_line_buffer [] 80 f = some memory)
    (h0 : (read_line f).1 ≠ []) (h1 : (read_line f).1 ≠ ['.'])
    (h2 : (read_line f).1.head? ≠ some '#') {result : Int × Game}
    (h3 : p g (read_line f).1 = some result) (h4 : result.1 = 0) :
    read_section_checked g f p = read_section_checked result.2 (read_line f).2 p := by
  have hlt := read_line_length (read_line_ne_nil h0)
  rw [read_section_checked, read_section_loop_checked, hb]
  simp only [List.length_eq_zero]
  rw [if_neg h0, if_neg h1, if_neg h2, h3]
  simp only
  rw [if_neg (not_not.mpr h4), read_section_checked,
    read_section_loop_checked_fuel p f.length ((read_line f).2.length + 1) _ _ hlt (by omega)]

/-- A run of `read_section` that is determined by the text is the run of the
model without buffer. -/
theorem read_section_checked_sound (p' : Game → List Char → Option (Int × Game))
    (p : Game → List Char → Int × Game)
    (hp : ∀ g l x, p' g l = some x → x = p g l) :
    ∀ (n : Nat) (g : Game) (f : List Char) (r : Int × Game × List Char), f.length = n →
      read_section_checked g f p' = some r → r = read_section g f p := by
  intro n
  induction n using Nat.strong_induction_on with
  | _ n ih =>
    intro g f r hn h
    subst hn
    cases hb : read_line_buffer [] 80 f with
    | none =>
      rw [read_section_checked_long p' g hb] at h
      exact absurd h (by simp)
    | some memory =>
      by_cases h0 : (read_line f).1 = []
      · rw [read_section_checked_blank p' g hb h0] at h
        rw [read_section_blank p g h0]
        exact (Option.some.inj h).symm
      by_cases h1 : (read_line f).1 = ['.']
      · rw [read_section_checked_stop p' g hb h1] at h
        rw [read_section_stop p g h1]
        exact (Option.some.inj h).symm
      have hlt := read_line_length (read_line_ne_nil h0)
      by_cases h2 : (read_line f).1.head? = some '#'
      · rw [read_section_checked_skip p' g hb h0 h1 h2] at h
        rw [read_section_skip p g h0 h1 h2]
        exact ih _ hlt g _ r rfl h
      cases h3 : p' g (read_line f).1 with
      | none =>
        rw [read_section_checked_none p' g hb h0 h1 h2 h3] at h
        exact absurd h (by simp)
      | some result =>
        have hres := hp g _ _ h3
        by_cases h4 : result.1 ≠ 0
        · rw [read_section_checked_fail p' g hb h0 h1 h2 h3 h4] at h
          rw [read_section_fail p g h0 h1 h2 (hres ▸ h4)]
          rw [← hres]
          exact (Option.some.inj h).symm
        · have h4' : result.1 = 0 := not_not.mp h4
          rw [read_section_checked_step p' g hb h0 h1 h2 h3 h4'] at h
          rw [read_section_step p g h0 h1 h2 (hres ▸ h4'), ← hres]
          exact ih _ hlt _ _ r rfl h

theorem section_agree_refl (a : Option (Int × Game × List Char)) : section_agree a a := by
  cases a with
  | none => trivial
  | some r => exact ⟨rfl, rfl, Or.inl rfl⟩

/-- A short comment line at the head of the stream is skipped. -/
theorem read_section_checked_comment_head (p : Game → List Char → Option (Int × Game))
    (g : Game) {c : List Char} (hc : '\n' ∉ c) (hs : c.length + 1 < 80 - 1) (f : List Char) :
    read_section_checked g ('#' :: c ++ '\n' :: f) p = read_section_checked g f p := by
  have hl : read_line ('#' :: c ++ '\n' :: f) = (get_token ('#' :: c) '\x00', f) :=
    read_line_append (l := '#' :: c) (by simp [hc]) f
  have e : get_token ('#' :: c) '\x00' = '#' :: get_token c '\x00' := by
    rw [get_token_cons, if_neg (by decide)]
  have hraw : get_token ('#' :: c ++ '\n' :: f) '\n' = '#' :: c :=
    @get_token_append_sep ('#' :: c) '\n' (by simp [hc]) f
  have hfit : (get_token ('#' :: c ++ '\n' :: f) '\n').length < 80 - 1 := by
    rw [hraw]
    simpa using hs
  obtain ⟨memory, hb⟩ := read_line_buffer_fits [] hfit
  rw [read_section_checked_skip p g hb (by rw [hl, e]; simp) (by rw [hl, e]; simp)
    (by rw [hl, e]; rfl), hl]

theorem short_comment_inserted_step {f f' : List Char} (h : short_comment_inserted 80 f f') :
    (∃ c, '\n' ∉ c ∧ c.length + 1 < 80 - 1 ∧ f' = '#' :: c ++ '\n' :: f) ∨
      (get_token f' '\n' = get_token f '\n' ∧ (read_line f').1 = (read_line f).1 ∧
        short_comment_inserted 80 (read_line f).2 (read_line f').2) := by
  rcases h with rfl | ⟨pre, post, c, hpre, hc, hs, rfl, rfl⟩
  · exact Or.inr ⟨rfl, rfl, Or.inl rfl⟩
  · rcases hpre with rfl | hlast
    · exact Or.inl ⟨c, hc, hs, rfl⟩
    · right
      have hmem : '\n' ∈ pre := List.mem_of_getLast?_eq_some hlast
      rcases get_token_split pre '\n' with e | e
      · exact absurd (e ▸ hmem) (not_mem_get_token pre '\n')
      · generalize hl : get_token pre '\n' = l at e
        generalize hq : pre.drop (l.length + 1) = q at e
        have hnl : '\n' ∉ l := hl ▸ not_mem_get_token pre '\n'
        have hq' : q = [] ∨ q.getLast? = some '\n' := by
          by_cases hqe : q = []
          · exact Or.inl hqe
          · right
            rw [e, show l ++ '\n' :: q = (l ++ ['\n']) ++ q by simp,
              List.getLast?_append_of_ne_nil _ hqe] at hlast
            exact hlast
        subst e
        have e1 : l ++ '\n' :: q ++ post = l ++ '\n' :: (q ++ post) := by simp
        have e2 : l ++ '\n' :: q ++ ('#' :: c ++ '\n' :: post) =
            l ++ '\n' :: (q ++ ('#' :: c ++ '\n' :: post)) := by simp
        rw [e1, e2, read_line_append hnl, read_line_append hnl, get_token_append_sep hnl,
          get_token_append_sep hnl]
        exact ⟨rfl, rfl, Or.inr ⟨q, post, c, hq', hc, hs, rfl, rfl⟩⟩

/-- Inserting a short comment line does not change what a section does. -/
theorem read_section_checked_comment (p : Game → List Char → Option (Int × Game)) :
    ∀ (n : Nat) (g : Game) (f f' : List Char), f.length = n →
      short_comment_inserted 80 f f' →
      section_agree (read_section_checked g f' p) (read_section_checked g f p) := by
  intro n
  induction n using Nat.strong_induction_on with
  | _ n ih =>
    intro g f f' hn hR
    subst hn
    rcases short_comment_inserted_step hR with ⟨c, hc, hs, rfl⟩ | ⟨hraw, hl, hR'⟩
    · rw [read_section_checked_comment_head p g hc hs]
      exact section_agree_refl _
    · have hbb := read_line_buffer_congr hraw [] 80
      cases hb : read_line_buffer [] 80 f with
      | none =>
        rw [read_section_checked_long p g hb, read_section_checked_long p g (hbb.trans hb)]
        trivial
      | some memory =>
        have hb' := hbb.trans hb
        by_cases h0 : (read_line f).1 = []
        · rw [read_section_checked_blank p g hb h0,
            read_section_checked_blank p g hb' (hl.trans h0)]
          exact ⟨rfl, rfl, hR'⟩
        by_cases h1 : (read_line f).1 = ['.']
        · rw [read_section_checked_stop p g hb h1,
            read_section_checked_stop p g hb' (hl.trans h1)]
          exact ⟨rfl, rfl, hR'⟩
        have hlt := read_line_length (read_line_ne_nil h0)
        by_cases h2 : (read_line f).1.head? = some '#'
        · rw [read_section_checked_skip p g hb h0 h1 h2,
            read_section_checked_skip p g hb' (hl ▸ h0) (hl ▸ h1) (hl ▸ h2)]
          exact ih _ hlt g _ _ rfl hR'
        cases h3 : p g (read_line f).1 with
        | none =>
          rw [read_section_checked_none p g hb h0 h1 h2 h3,
            read_section_checked_none p g hb' (hl ▸ h0) (hl ▸ h1) (hl ▸ h2) (hl ▸ h3)]
          trivial
        | some result =>
          by_cases h4 : result.1 ≠ 0
          · rw [read_section_checked_fail p g hb h0 h1 h2 h3 h4,
              read_section_checked_fail p g hb' (hl ▸ h0) (hl ▸ h1) (hl ▸ h2) (hl ▸ h3) h4]
            exact ⟨rfl, rfl, hR'⟩
          · have h4' : result.1 = 0 := not_not.mp h4
            rw [read_section_checked_step p g hb h0 h1 h2 h3 h4',
              read_section_checked_step p g hb' (hl ▸ h0) (hl ▸ h1) (hl ▸ h2) (hl ▸ h3) h4']
            exact ih _ hlt _ _ _ rfl hR'

theorem read_attack_checked_sound (g : Game) (l : List Char) (x : Int × Game)
    (h : read_attack_checked g l = some x) : x = read_attack g l := by
  unfold read_attack_checked at h
  by_cases c : (get_token l ' ').length + 1 ≤ l.length
  · rw [if_pos c] at h
    exact (Option.some.inj h).symm
  · rw [if_neg c] at h
    exact absurd h (by simp)

/-- A run of `read_sinister_file` that is determined by the text is the run
of the model without buffer. -/
theorem read_sinister_file_checked_sound (g : Game) (f : List Char)
    (r : Int × Game × List Char) (h : read_sinister_file_checked g f = some r) :
    r = read_sinister_file g f := by
  have hsome : ∀ (p : Game → List Char → Int × Game) (g : Game) (l : List Char)
      (x : Int × Game), (fun g l => some (p g l)) g l = some x → x = p g l := by
    intro p g l x hx
    exact (Option.some.inj hx).symm
  unfold read_sinister_file_checked at h
  unfold read_sinister_file
  simp only
  cases h1 : read_section_checked g f (fun g l => some (read_type_name g l)) with
  | none =>
    rw [h1] at h
    exact absurd h (by simp)
  | some s1 =>
  rw [h1] at h
  simp only at h
  rw [← read_section_checked_sound _ read_type_name (hsome _) _ g f s1 rfl h1]
  by_cases c1 : s1.1 ≠ 0
  · rw [if_pos c1] at h
    rw [if_pos c1]
    exact (Option.some.inj h).symm
  rw [if_neg c1] at h
  rw [if_neg c1]
  cases h2 : read_section_checked s1.2.1 s1.2.2
      (fun g l => some (read_effectiveness_strings g l)) with
  | none =>
    rw [h2] at h
    exact absurd h (by simp)
  | some s2 =>
  rw [h2] at h
  simp only at h
  rw [← read_section_checked_sound _ read_effectiveness_strings (hsome _) _ _ _ s2 rfl h2]
  by_cases c2 : s2.1 ≠ 0
  · rw [if_pos c2] at h
    rw [if_pos c2]
    exact (Option.some.inj h).symm
  rw [if_neg c2] at h
  rw [if_neg c2]
  cases h3 : read_section_checked s2.2.1 s2.2.2
      (fun g l => some (read_relation_strings g l)) with
  | none =>
    rw [h3] at h
    exact absurd h (by simp)
  | some s3 =>
  rw [h3] at h
  simp only at h
  rw [← read_section_checked_sound _ read_relation_strings (hsome _) _ _ _ s3 rfl h3]
  by_cases c3 : s3.1 ≠ 0
  · rw [if_pos c3] at h
    rw [if_pos c3]
    exact (Option.some.inj h).symm
  rw [if_neg c3] at h
  rw [if_neg c3]
  cases h4 : read_section_checked s3.2.1 s3.2.2 read_attack_checked with
  | none =>
    rw [h4] at h
    exact absurd h (by simp)
  | some s4 =>
  rw [h4] at h
  simp only at h
  rw [← read_section_checked_sound _ read_attack read_attack_checked_sound _ _ _ s4 rfl h4]
  by_cases c4 : s4.1 ≠ 0
  · rw [if_pos c4] at h
    rw [if_pos c4]
    exact (Option.some.inj h).symm
  rw [if_neg c4] at h
  rw [if_neg c4]
  cases h5 : read_section_checked s4.2.1 s4.2.2 (fun g l => some (read_agent g l)) with
  | none =>
    rw [h5] at h
    exact absurd h (by simp)
  | some s5 =>
  rw [h5] at h
  simp only at h
  rw [← read_section_checked_sound _ read_agent (hsome _) _ _ _ s5 rfl h5]
  by_cases c5 : s5.1 ≠ 0
  · rw [if_pos c5] at h
    rw [if_pos c5]
    exact (Option.some.inj h).symm
  rw [if_neg c5] at h
  rw [if_neg c5]
  by_cases c6 : s5.2.1.types.length ≤ 0 ∨ s5.2.1.agents.length ≤ 0 ∨ s5.2.1.attacks.length ≤ 0
  · rw [if_pos c6] at h
    rw [if_pos c6]
    exact (Option.some.inj h).symm
  rw [if_neg c6] at h
  rw [if_neg c6]
  by_cases c7 : (s5.2.1.types.any fun type => (type.effectiveness.get 0).isNone) = true
  · rw [if_pos c7] at h
    rw [if_pos c7]
    exact (Option.some.inj h).symm
  rw [if_neg c7] at h
  rw [if_neg c7]
  exact (Option.some.inj h).symm

theorem read_sinister_file_checked_comment_inserted (g : Game) {f f' : List Char}
    (hR : short_comment_inserted 80 f f') :
    (read_sinister_file_checked g f').map (fun r => (r.1, r.2.1)) =
      (read_sinister_file_checked g f).map (fun r => (r.1, r.2.1)) := by
  unfold read_sinister_file_checked
  have A1 := read_section_checked_comment (fun g l => some (read_type_name g l)) _ g f f' rfl hR
  generalize read_section_checked g f' (fun g l => some (read_type_name g l)) = T1 at A1 ⊢
  generalize read_section_checked g f (fun g l => some (read_type_name g l)) = S1 at A1 ⊢
  rcases T1 with _ | t1 <;> rcases S1 with _ | s1
  · rfl
  · exact A1.elim
  · exact A1.elim
  obtain ⟨a1, b1, r1⟩ := A1
  simp only
  rw [a1, b1]
  by_cases c1 : s1.1 ≠ 0
  · rw [if_pos c1, if_pos c1]; rfl
  rw [if_neg c1, if_neg c1]
  have A2 := read_section_checked_comment (fun g l => some (read_effectiveness_strings g l)) _
    s1.2.1 s1.2.2 t1.2.2 rfl r1
  generalize read_section_checked s1.2.1 t1.2.2
    (fun g l => some (read_effectiveness_strings g l)) = T2 at A2 ⊢
  generalize read_section_checked s1.2.1 s1.2.2
    (fun g l => some (read_effectiveness_strings g l)) = S2 at A2 ⊢
  rcases T2 with _ | t2 <;> rcases S2 with _ | s2
  · rfl
  · exact A2.elim
  · exact A2.elim
  obtain ⟨a2, b2, r2⟩ := A2
  simp only
  rw [a2, b2]
  by_cases c2 : s2.1 ≠ 0
  · rw [if_pos c2, if_pos c2]; rfl
  rw [if_neg c2, if_neg c2]
  have A3 := read_section_checked_comment (fun g l => some (read_relation_strings g l)) _
    s2.2.1 s2.2.2 t2.2.2 rfl r2
  generalize read_section_checked s2.2.1 t2.2.2
    (fun g l => some (read_relation_strings g l)) = T3 at A3 ⊢
  generalize read_section_checked s2.2.1 s2.2.2
    (fun g l => some (read_relation_strings g l)) = S3 at A3 ⊢
  rcases T3 with _ | t3 <;> rcases S3 with _ | s3
  · rfl
  · exact A3.elim
  · exact A3.elim
  obtain ⟨a3, b3, r3⟩ := A3
  simp only
  rw [a3, b3]
  by_cases c3 : s3.1 ≠ 0
  · rw [if_pos c3, if_pos c3]; rfl
  rw [if_neg c3, if_neg c3]
  have A4 := read_section_checked_comment read_attack_checked _ s3.2.1 s3.2.2 t3.2.2 rfl r3
  generalize read_section_checked s3.2.1 t3.2.2 read_attack_checked = T4 at A4 ⊢
  generalize read_section_checked s3.2.1 s3.2.2 read_attack_checked = S4 at A4 ⊢
  rcases T4 with _ | t4 <;> rcases S4 with _ | s4
  · rfl
  · exact A4.elim
  · exact A4.elim
  obtain ⟨a4, b4, r4⟩ := A4
  simp only
  rw [a4, b4]
  by_cases c4 : s4.1 ≠ 0
  · rw [if_pos c4, if_pos c4]; rfl
  rw [if_neg c4, if_neg c4]
  have A5 := read_section_checked_comment (fun g l => some (read_agent g l)) _
    s4.2.1 s4.2.2 t4.2.2 rfl r4
  generalize read_section_checked s4.2.1 t4.2.2 (fun g l => some (read_agent g l)) = T5 at A5 ⊢
  generalize read_section_checked s4.2.1 s4.2.2 (fun g l => some (read_agent g l)) = S5 at A5 ⊢
  rcases T5 with _ | t5 <;> rcases S5 with _ | s5
  · rfl
  · exact A5.elim
  · exact A5.elim
  obtain ⟨a5, b5, r5⟩ := A5
  simp only
  rw [a5, b5]
  by_cases c5 : s5.1 ≠ 0
  · rw [if_pos c5, if_pos c5]; rfl
  rw [if_neg c5, if_neg c5]
  by_cases c6 : s5.2.1.types.length ≤ 0 ∨ s5.2.1.agents.length ≤ 0 ∨ s5.2.1.attacks.length ≤ 0
  · rw [if_pos c6, if_pos c6]; rfl
  rw [if_neg c6, if_neg c6]
  by_cases c7 : (s5.2.1.types.any fun type => (type.effectiveness.get 0).isNone) = true
  · rw [if_pos c7, if_pos c7]; rfl
  rw [if_neg c7, if_neg c7]
  rfl

/-- Claim C8: inserting a line that begins with `#` and has fewer than 79
characters at the start of any line of the text (so before any line of any of
the five sections, terminators included) does not change the outcome of
`read_sinister_file`: the run with the comment is determined by the text
exactly when the run without it is, and then the status is the same and the
resulting Definitions are equal.  A run that is determined by the text is the
run of `read_sinister_file` in the model without buffer. -/
theorem read_sinister_file_checked_comment (pre post c : List Char)
    (hpre : pre = [] ∨ pre.getLast? = some '\n') (hc : '\n' ∉ c)
    (hshort : c.length + 1 < 80 - 1) :
    (read_sinister_file_checked new_game (pre ++ ('#' :: c ++ '\n' :: post))).map
        (fun r => (r.1, r.2.1)) =
      (read_sinister_file_checked new_game (pre ++ post)).map (fun r => (r.1, r.2.1)) ∧
    (∀ r, read_sinister_file_checked new_game (pre ++ post) = some r →
      r = read_sinister_file new_game (pre ++ post)) ∧
    (∀ r, read_sinister_file_checked new_game (pre ++ ('#' :: c ++ '\n' :: post)) = some r →
      r = read_sinister_file new_game (pre ++ ('#' :: c ++ '\n' :: post))) :=
  ⟨read_sinister_file_checked_comment_inserted new_game
      (Or.inr ⟨pre, post, c, hpre, hc, hshort, rfl, rfl⟩),
    fun r h => read_sinister_file_checked_sound new_game _ r h,
    fun r h => read_sinister_file_checked_sound new_game _ r h⟩

/-- Claim C8, witness: a comment put before the terminator of the Types
section of a rulebook that is read with status 0. -/
theorem read_sinister_file_checked_comment_witness :
    ("fire\n".toList = [] ∨ "fire\n".toList.getLast? = some '\n') ∧
    '\n' ∉ " a comment".toList ∧
    " a comment".toList.length + 1 < 80 - 1 ∧
    (read_sinister_file_checked new_game ("fire\n".toList ++
      ".\nfire a b c\n.\nfire\n.\nember fire\n.\nA fire ember ember ember\n.\n".toList)).map
        (fun r => r.1) = some 0 ∧
    (read_sinister_file_checked new_game
      ("fire\n".toList ++ ('#' :: " a comment".toList ++
        '\n' :: ".\nfire a b c\n.\nfire\n.\nember fire\n.\nA fire ember ember ember\n.\n".toList))).map
        (fun r => (r.1, r.2.1))
      = (read_sinister_file_checked new_game ("fire\n".toList ++
        ".\nfire a b c\n.\nfire\n.\nember fire\n.\nA fire ember ember ember\n.\n".toList)).map
        (fun r => (r.1, r.2.1)) :=
  ⟨by decide, by decide, by decide, by decide,
    (read_sinister_file_checked_comment "fire\n".toList
      ".\nfire a b c\n.\nfire\n.\nember fire\n.\nA fire ember ember ember\n.\n".toList
      " a comment".toList (by decide) (by decide) (by decide)).1⟩

/-- The original claim C8 fails on a long comment: the golden rulebook is read
with status 0, and with a comment line of 79 characters before the terminator
of its Types section `read_line` moves the line to a new block while
`read_section` still tests the old pointer, so the outcome is not determined
by the text; the model without buffer does not see the difference.  The claim
also fails on an Attacks line without a type after a comment: the type name
is read behind the NUL of the line, where the buffer holds the old bytes, here
those of the comment `#xxxxxxxxxxxxxxxxx water`. -/
theorem read_sinister_file_checked_long_comment :
    (read_sinister_file_checked new_game goldenText).map (fun r => r.1) = some 0 ∧
    read_sinister_file_checked new_game longCommentText = none ∧
    (read_sinister_file new_game longCommentText).1 = 0 ∧
    read_line_buffer [] 80 (('#' :: List.replicate 78 'x') ++ "\n.\n".toList) = none ∧
    read_attack_checked goldenGame "hydro_cannon_blast".toList = none ∧
    (read_attack goldenGame "hydro_cannon_blast".toList).1 = -1 ∧
    read_line_buffer ("#xxxxxxxxxxxxxxxxx water".toList ++ List.replicate 56 '\x00') 80
        "hydro_cannon_blast\n".toList =
      some ("hydro_cannon_blast\x00water".toList ++ List.replicate 56 '\x00') ∧
    string_at ("hydro_cannon_blast\x00water".toList ++ List.replicate 56 '\x00')
      ("hydro_cannon_blast".toList.length + 1) = some "water".toList := by
  refine ⟨by decide, by decide, by decide, by decide, by decide, by decide, by decide,
    by decide⟩

/-! ## The two sides of a battle -/

/-- The loop of `battle` is left at once by a member without health. -/
theorem fight_dead (game : Game) (simulation : Bool) (fuel j : Nat) (loser : Bool)
    (member opponent : Member) (st : BattleState) (h : member.health ≤ 0) :
    fight game simulation fuel j loser member opponent st =
      (.ok (j, loser, member, opponent), st) := by
  have hn : ¬ member.health > 0 := by omega
  cases fuel with
  | zero => rw [fight, if_neg hn]
  | succ f => rw [fight, if_neg hn]

/-- After the last round, or once the opposing team has lost its last member,
the `for` loop of `battle` is left. -/
theorem battle_loop_done (game : Game) (team : Team) (simulation goFirst : Bool)
    (fuel i j : Nat) (loser : Bool) (opponent : Member) (freed : List Member)
    (st : BattleState) (h : ¬ (i < MAX_TEAM_PLAYERS ∧ j < MAX_TEAM_PLAYERS)) :
    battle_loop game team simulation goFirst fuel i j loser opponent freed st =
      (.ok (j, loser, freed), st) := by
  cases fuel with
  | zero => rw [battle_loop, if_neg h]
  | succ f => rw [battle_loop, if_neg h]

/-- A round after the first: the member is selected and the `while` loop
starts. -/
theorem battle_loop_next (game : Game) (team : Team) (simulation goFirst : Bool)
    (fuel i j : Nat) (loser : Bool) (opponent : Member) (freed : List Member)
    (st : BattleState) (hi : i + 1 < MAX_TEAM_PLAYERS) (hj : j < MAX_TEAM_PLAYERS) :
    battle_loop game team simulation goFirst (fuel + 1) (i + 1) j loser opponent freed st =
      battle_rest game team simulation goFirst MAX_HEALTH.toNat fuel (i + 1) j loser
        (select_member game team.name (team.members.getD (i + 1) default) st).1 opponent freed
        (select_member game team.name (team.members.getD (i + 1) default) st).2 := by
  rw [battle_loop, if_pos ⟨hi, hj⟩]
  simp only
  rw [first_round, if_neg (Nat.succ_ne_zero i)]
  rfl

theorem battle_rest_dead_last (game : Game) (team : Team) (simulation goFirst : Bool)
    (ffuel lfuel i j : Nat) (loser : Bool) (member opponent : Member) (freed : List Member)
    (st : BattleState) (h : member.health ≤ 0)
    (hl : ¬ (i + 1 < MAX_TEAM_PLAYERS ∧ j < MAX_TEAM_PLAYERS)) :
    battle_rest game team simulation goFirst ffuel lfuel i j loser member opponent freed st =
      (.ok (j, loser, freed ++ [member]), st) := by
  rw [battle_rest, fight_dead game simulation ffuel j loser member opponent st h]
  simp only
  rw [battle_loop_done game team simulation goFirst lfuel (i + 1) j loser opponent _ st hl]

theorem battle_rest_dead_next (game : Game) (team : Team) (simulation goFirst : Bool)
    (ffuel lfuel i j : Nat) (loser : Bool) (member opponent : Member) (freed : List Member)
    (st : BattleState) (h : member.health ≤ 0)
    (hi : i + 1 < MAX_TEAM_PLAYERS) (hj : j < MAX_TEAM_PLAYERS) :
    battle_rest game team simulation goFirst ffuel (lfuel + 1) i j loser member opponent freed
        st =
      battle_rest game team simulation goFirst MAX_HEALTH.toNat lfuel (i + 1) j loser
        (select_member game team.name (team.members.getD (i + 1) default) st).1 opponent
        (freed ++ [member])
        (select_member game team.name (team.members.getD (i + 1) default) st).2 := by
  rw [battle_rest, fight_dead game simulation ffuel j loser member opponent st h]
  simp only
  rw [battle_loop_next game team simulation goFirst lfuel i j loser opponent _ st hi hj]

/-- One iteration of the `while` loop of `battle` whose attack leaves the
opposing member alive: the attack of the opposing team is awaited. -/
theorem battle_rest_survive (game : Game) (team : Team) (simulation goFirst : Bool)
    (ffuel lfuel i j : Nat) (loser : Bool) (member opponent : Member) (freed : List Member)
    (st : BattleState) (h : 0 < member.health) {member1 opponent1 : Member}
    {st1 : BattleState} (ha : attack game member opponent st = (.ok (member1, opponent1), st1))
    (ho : 0 < opponent1.health) :
    battle_rest game team simulation goFirst (ffuel + 1) lfuel i j loser member opponent freed
        st =
      battle_await game team simulation goFirst ffuel lfuel i j loser member1 opponent1 freed
        st1 := by
  have hn : ¬ opponent1.health ≤ 0 := by omega
  unfold battle_rest battle_await
  rw [fight, if_pos h, ha]
  simp only
  rw [if_neg hn]
  rcases get_attacked game simulation member1 opponent1 st1 with ⟨_ | m2, st3⟩
  · rfl
  · rfl

/-- One iteration of the `while` loop of `battle` whose attack eliminates an
opposing member that is not the last: the next opposing member is read, and
its attack is awaited. -/
theorem battle_rest_kill_next (game : Game) (team : Team) (simulation goFirst : Bool)
    (ffuel lfuel i j : Nat) (loser : Bool) (member opponent : Member) (freed : List Member)
    (st : BattleState) (h : 0 < member.health) {member1 opponent1 opponent2 : Member}
    {st1 st2 : BattleState}
    (ha : attack game member opponent st = (.ok (member1, opponent1), st1))
    (ho : opponent1.health ≤ 0) (hj : j + 1 ≠ MAX_TEAM_PLAYERS)
    (hs : get_selected_opponent game simulation st1 = (.ok opponent2, st2)) :
    battle_rest game team simulation goFirst (ffuel + 1) lfuel i j loser member opponent freed
        st =
      battle_await game team simulation goFirst ffuel lfuel i (j + 1) loser member1 opponent2
        freed st2 := by
  unfold battle_rest battle_await
  rw [fight, if_pos h, ha]
  simp only
  rw [if_pos ho, if_neg hj, hs]
  simp only
  rcases get_attacked game simulation member1 opponent2 st2 with ⟨_ | m2, st3⟩
  · rfl
  · rfl

/-- One iteration of the `while` loop of `battle` whose attack eliminates the
last opposing member: the battle is over. -/
theorem battle_rest_kill_last (game : Game) (team : Team) (simulation goFirst : Bool)
    (ffuel lfuel i j : Nat) (loser : Bool) (member opponent : Member) (freed : List Member)
    (st : BattleState) (h : 0 < member.health) {member1 opponent1 : Member}
    {st1 : BattleState}
    (ha : attack game member opponent st = (.ok (member1, opponent1), st1))
    (ho : opponent1.health ≤ 0) (hj : j + 1 = MAX_TEAM_PLAYERS) :
    battle_rest game team simulation goFirst (ffuel + 1) lfuel i j loser member opponent freed
        st =
      (.ok (MAX_TEAM_PLAYERS, true, freed ++ [member1]), st1) := by
  rw [battle_rest, fight, if_pos h, ha]
  simp only
  rw [if_pos ho, if_pos hj]
  simp only
  rw [battle_loop_done game team simulation goFirst lfuel (i + 1) (j + 1) true opponent1 _ st1
    (by rw [hj]; omega), hj]

theorem ShortLines_nil : ShortLines [] := by
  intro l hl
  have : l = [] := by simpa [List.splitOn_nil] using hl
  rw [this]
  decide

theorem ShortLines_cons {l : List Char} (hn : '\n' ∉ l) (hs : l.length < BUFFER - 1)
    {rest : List Char} (hr : ShortLines rest) : ShortLines (l ++ '\n' :: rest) := by
  intro x hx
  rw [splitOn_newline, get_token_append_sep hn, dropWhile_append_sep hn,
    if_pos (by simp)] at hx
  rcases List.mem_cons.mp hx with rfl | hx
  · exact hs
  · exact hr x hx

theorem ShortLines_select {game : Game} (hclean : NamesClean game) (hshort : ShortNames game)
    (m : Member) (hm : m.agent < game.agents.length) {rest : List Char}
    (hr : ShortLines rest) : ShortLines (select_line game m ++ rest) := by
  have e : select_line game m ++ rest =
      ("iselectyou ".toList ++ (game.agentAt m.agent).name) ++ '\n' :: rest := by
    simp [select_line]
  rw [e]
  apply ShortLines_cons _ _ hr
  · intro h
    rcases List.mem_append.mp h with h1 | h1
    · exact absurd h1 (by decide)
    · exact (hclean.2 _ (agentAt_mem hm)).1 h1
  · rw [List.length_append]
    exact (hshort _ (agentAt_mem hm)).1

theorem ShortLines_attack {game : Game} (hclean : NamesClean game) (hshort : ShortNames game)
    (m : Member) (hm : MemberOK game m) (hc : m.nextAttack < m.attacks.length)
    {rest : List Char} (hr : ShortLines rest) : ShortLines (attack_line game m ++ rest) := by
  have hlt : m.attacks.getD m.nextAttack 0 < game.attacks.length :=
    (hm.2.2 _ (getD_mem_nat _ _ hc)).1
  have e : attack_line game m ++ rest =
      ("attack ".toList ++ (game.agentAt m.agent).name ++ [' '] ++
        (game.attackAt (m.attacks.getD m.nextAttack 0)).name) ++ '\n' :: rest := by
    simp [attack_line]
  rw [e]
  apply ShortLines_cons _ _ hr
  · intro h
    rcases List.mem_append.mp h with h1 | h1
    · rcases List.mem_append.mp h1 with h2 | h2
      · rcases List.mem_append.mp h2 with h3 | h3
        · exact absurd h3 (by decide)
        · exact (hclean.2 _ (agentAt_mem hm.1)).1 h3
      · exact absurd h2 (by decide)
    · exact (hclean.1 _ (attackAt_mem hlt)).1 h1
  · have := (hshort _ (agentAt_mem hm.1)).2 _ (attackAt_mem hlt)
    simp only [List.length_append, List.length_singleton]
    have e1 : "attack ".toList.length = 7 := rfl
    have e2 : "attack  ".toList.length = 8 := rfl
    omega

theorem members_getD_mem {ms : List Member} {i : Nat} (h : i < ms.length) :
    ms.getD i default ∈ ms := by
  rw [List.getD_eq_getElem _ _ h]
  exact List.getElem_mem h

/-- What the attacking side and the attacked side do with one attack: both
take the same damage off the health of the attacked member and add the same
line to their narratives. -/
theorem exchange_eval {game : Game} (hwf : WellFormed game) (hclean : NamesClean game)
    (simB : Bool) (aA : Nat) (tA : List Nat) (cA : Nat) (hA : Int)
    (aB : Nat) (tB : List Nat) (cB : Nat) (hB : Int)
    (hokA : MemberOK game ⟨aA, tA, cA, hA⟩) (hcA : cA < tA.length) :
    ∃ (e : Nat) (narr : List Char), (e = 1 ∨ e = 2 ∨ e = 3) ∧
      e = (get_effectiveness game (game.attackAt (tA.getD cA 0)) (game.agentAt aB)).val ∧
      (∀ (nm rd wr nar : List Char),
        attack game ⟨aA, tA, cA, hA⟩ ⟨aB, [], 0, hB⟩ ⟨nm, rd, wr, nar⟩ =
          (.ok (⟨aA, tA, (cA + 1) % tA.length, hA⟩, ⟨aB, [], 0, hB - e⟩),
            ⟨nm, rd, wr ++ attack_line game ⟨aA, tA, cA, hA⟩, nar ++ narr⟩)) ∧
      (∀ (nm rest wr nar : List Char),
        get_attacked game simB ⟨aB, tB, cB, hB⟩ ⟨aA, [], 0, hA⟩
            ⟨nm, attack_line game ⟨aA, tA, cA, hA⟩ ++ rest, wr, nar⟩ =
          (.ok ⟨aB, tB, cB, hB - e⟩, ⟨nm, rest, wr, nar ++ narr⟩)) := by
  refine ⟨(get_effectiveness game (game.attackAt (tA.getD cA 0)) (game.agentAt aB)).val,
    narrate_attack game [] (game.agentAt aA) (game.attackAt (tA.getD cA 0))
      (get_effectiveness game (game.attackAt (tA.getD cA 0)) (game.agentAt aB)).val
      ⟨aB, [], 0, hB -
        (get_effectiveness game (game.attackAt (tA.getD cA 0)) (game.agentAt aB)).val⟩,
    effectiveness_val _, rfl, ?_, ?_⟩
  · intro nm rd wr nar
    rw [attack_eval game _ _ _ hokA.2.1]
  · intro nm rest wr nar
    rw [get_attacked_eval hwf hclean simB ⟨aB, tB, cB, hB⟩ ⟨aA, [], 0, hA⟩
      ⟨nm, attack_line game ⟨aA, tA, cA, hA⟩ ++ rest, wr, nar⟩ ⟨aA, tA, cA, hA⟩ hokA hcA rfl
      rest rfl]
    simp only
    rw [@narrate_attack_congr game [] (game.agentAt aA) (game.attackAt (tA.getD cA 0))
      (get_effectiveness game (game.attackAt (tA.getD cA 0)) (game.agentAt aB)).val
      ⟨aB, tB, cB, hB -
        (get_effectiveness game (game.attackAt (tA.getD cA 0)) (game.agentAt aB)).val⟩
      ⟨aB, [], 0, hB -
        (get_effectiveness game (game.attackAt (tA.getD cA 0)) (game.agentAt aB)).val⟩
      rfl rfl]

/-- The two sides of a battle from a point at which one side is about to
attack and the other awaits the attack, each holding a record of the member
of the other side with the health that the other side has for it: there are
streams such that each side, reading what the other writes, runs to the end
of the battle; both add the same lines to their narratives, exactly one of
them finds that the opposing team has lost, and every line written is short.
`n` bounds the health that is left on both sides. -/
theorem duel (game : Game) (hwf : WellFormed game) (hclean : NamesClean game)
    (hshort : ShortNames game) :
    ∀ (n : Nat) (A B : Team) (simA simB goA goB : Bool)
      (fA lA iA aA : Nat) (tA : List Nat) (cA : Nat) (hA : Int) (frA : List Member)
      (wrA narA : List Char)
      (fB lB iB aB : Nat) (tB : List Nat) (cB : Nat) (hB : Int) (frB : List Member)
      (wrB narB : List Char),
      A.members.length = MAX_TEAM_PLAYERS → (∀ m ∈ A.members, MemberOK game m) →
      B.members.length = MAX_TEAM_PLAYERS → (∀ m ∈ B.members, MemberOK game m) →
      iA < MAX_TEAM_PLAYERS → iB < MAX_TEAM_PLAYERS → 3 ≤ iA + lA → 3 ≤ iB + lB →
      MemberOK game ⟨aA, tA, cA, hA⟩ → cA < tA.length → 0 < hA → hA ≤ (fA : Int) →
      MemberOK game ⟨aB, tB, cB, hB⟩ → cB < tB.length → 0 < hB → hB ≤ (fB : Int) + 1 →
      hA.toNat + hB.toNat + 10 * (3 - iA) + 10 * (3 - iB) ≤ n →
      ∃ (wA wB tail : List Char) (rA rB : Nat × Bool × List Member),
        battle_rest game A simA goA fA lA iA iB false ⟨aA, tA, cA, hA⟩ ⟨aB, [], 0, hB⟩ frA
            ⟨B.name, wB, wrA, narA⟩ =
          (.ok rA, ⟨B.name, [], wrA ++ wA, narA ++ tail⟩) ∧
        battle_await game B simB goB fB lB iB iA false ⟨aB, tB, cB, hB⟩ ⟨aA, [], 0, hA⟩ frB
            ⟨A.name, wA, wrB, narB⟩ =
          (.ok rB, ⟨A.name, [], wrB ++ wB, narB ++ tail⟩) ∧
        rA.2.1 = !rB.2.1 ∧ ShortLines wA ∧ ShortLines wB := by
  intro n
  induction n with
  | zero =>
    intro A B simA simB goA goB fA lA iA aA tA cA hA frA wrA narA fB lB iB aB tB cB hB frB
      wrB narB _ _ _ _ _ _ _ _ _ _ h0A _ _ _ _ _ hn
    omega
  | succ n ih =>
    intro A B simA simB goA goB fA lA iA aA tA cA hA frA wrA narA fB lB iB aB tB cB hB frB
      wrB narB hAl hAm hBl hBm hiA hiB hlA hlB hokA hcA h0A hfA hokB hcB h0B hfB hn
    obtain ⟨f, rfl⟩ : ∃ f, fA = f + 1 := ⟨fA - 1, by omega⟩
    obtain ⟨e, narr, he, -, hatk, hget⟩ :=
      exchange_eval hwf hclean simB aA tA cA hA aB tB cB hB hokA hcA
    have hc' : (cA + 1) % tA.length < tA.length := Nat.mod_lt _ (by omega)
    have hokA' : MemberOK game ⟨aA, tA, (cA + 1) % tA.length, hA⟩ := hokA
    have hokB' : MemberOK game ⟨aB, tB, cB, hB - e⟩ := hokB
    have hsl : ∀ rest, ShortLines rest →
        ShortLines (attack_line game ⟨aA, tA, cA, hA⟩ ++ rest) :=
      fun rest hr => ShortLines_attack hclean hshort _ hokA hcA hr
    by_cases hk : hB - (e : Int) ≤ 0
    · by_cases hlast : iB + 1 = MAX_TEAM_PLAYERS
      · -- the last member of the attacked side is eliminated
        refine ⟨attack_line game ⟨aA, tA, cA, hA⟩, [], narr,
          (MAX_TEAM_PLAYERS, true, frA ++ [⟨aA, tA, (cA + 1) % tA.length, hA⟩]),
          (iA, false, frB ++ [⟨aB, tB, cB, hB - e⟩]), ?_, ?_, rfl, ?_, ShortLines_nil⟩
        · rw [battle_rest_kill_last game A simA goA f lA iA iB false _ _ frA _ h0A
            (hatk B.name [] wrA narA) hk hlast]
        · have := hget A.name [] wrB narB
          rw [List.append_nil] at this
          rw [battle_await, this]
          simp only
          rw [battle_rest_dead_last game B simB goB fB lB iB iA false _ _ frB _ hk
            (by rw [hlast]; simp), List.append_nil]
        · have := hsl [] ShortLines_nil
          rw [List.append_nil] at this
          exact this
      · -- a member of the attacked side is eliminated and the next one comes
        have hi1 : iB + 1 < MAX_TEAM_PLAYERS := by omega
        obtain ⟨l', rfl⟩ : ∃ l', lB = l' + 1 := ⟨lB - 1, by
          have : MAX_TEAM_PLAYERS = 4 := rfl
          omega⟩
        have hmem : B.members.getD (iB + 1) default ∈ B.members :=
          members_getD_mem (by rw [hBl]; exact hi1)
        have hnb := hBm _ hmem
        obtain ⟨wB', wA', tail', rB, rA, h1, h2, h3, h4, h5⟩ :=
          ih B A simB simA goB goA MAX_HEALTH.toNat l' (iB + 1)
            (B.members.getD (iB + 1) default).agent (B.members.getD (iB + 1) default).attacks 0
            MAX_HEALTH (frB ++ [⟨aB, tB, cB, hB - e⟩])
            (wrB ++ select_line game (B.members.getD (iB + 1) default))
            (narB ++ narr ++ replace_underscores (B.name ++ " chooses ".toList ++
              (game.agentAt (B.members.getD (iB + 1) default).agent).name ++ ['\n']))
            f lA iA aA tA ((cA + 1) % tA.length) hA frA
            (wrA ++ attack_line game ⟨aA, tA, cA, hA⟩)
            (narA ++ narr ++ replace_underscores (B.name ++ " chooses ".toList ++
              (game.agentAt (B.members.getD (iB + 1) default).agent).name ++ ['\n']))
            hBl hBm hAl hAm hi1 hiA (by omega) hlA hnb
            (List.length_pos.mpr hnb.2.1) (by decide) (by decide) hokA' hc' h0A
            (by omega) (by
              have : MAX_HEALTH.toNat = 10 := rfl
              have : MAX_TEAM_PLAYERS = 4 := rfl
              omega)
        refine ⟨attack_line game ⟨aA, tA, cA, hA⟩ ++ wA',
          select_line game (B.members.getD (iB + 1) default) ++ wB',
          narr ++ replace_underscores (B.name ++ " chooses ".toList ++
              (game.agentAt (B.members.getD (iB + 1) default).agent).name ++ ['\n']) ++ tail',
          rA, rB, ?_, ?_, ?_, hsl _ h5, ShortLines_select hclean hshort _ hnb.1 h4⟩
        · have hs := get_selected_opponent_eval hwf hclean simA
            ⟨B.name, select_line game (B.members.getD (iB + 1) default) ++ wB',
              wrA ++ attack_line game ⟨aA, tA, cA, hA⟩, narA ++ narr⟩ hnb.1 wB' rfl
          rw [battle_rest_kill_next game A simA goA f lA iA iB false _ _ frA _ h0A
            (hatk B.name _ wrA narA) hk hlast hs]
          simp only
          rw [h2]
          simp only [List.append_assoc]
        · rw [battle_await, hget A.name _ wrB narB]
          simp only
          rw [battle_rest_dead_next game B simB goB fB l' iB iA false _ _ frB _ hk hi1 hiA,
            select_member_eval]
          simp only
          rw [h1]
          simp only [List.append_assoc]
        · rw [h3, Bool.not_not]
    · -- the attacked member stays alive and attacks in turn
      obtain ⟨wB', wA', tail', rB, rA, h1, h2, h3, h4, h5⟩ :=
        ih B A simB simA goB goA fB lB iB aB tB cB (hB - e) frB wrB (narB ++ narr)
          f lA iA aA tA ((cA + 1) % tA.length) hA frA
          (wrA ++ attack_line game ⟨aA, tA, cA, hA⟩) (narA ++ narr)
          hBl hBm hAl hAm hiB hiA hlB hlA hokB' hcB (by omega) (by omega) hokA' hc' h0A
          (by omega) (by omega)
      refine ⟨attack_line game ⟨aA, tA, cA, hA⟩ ++ wA', wB', narr ++ tail', rA, rB,
        ?_, ?_, ?_, hsl _ h5, h4⟩
      · rw [battle_rest_survive game A simA goA f lA iA iB false _ _ frA _ h0A
          (hatk B.name _ wrA narA) (by simp only; omega), h2]
        simp only [List.append_assoc]
      · rw [battle_await, hget A.name _ wrB narB]
        simp only
        rw [h1]
        simp only [List.append_assoc]
      · rw [h3, Bool.not_not]

/-- The first round of the team that goes first: its member is selected, the
selection of the opposing team is read, and the `while` loop starts. -/
theorem battle_loop_first_go (game : Game) (team : Team) (simulation : Bool)
    (fuel j : Nat) (loser : Bool) (opponent : Member) (freed : List Member)
    (st : BattleState) (hj : j < MAX_TEAM_PLAYERS) {opponent1 : Member} {st2 : BattleState}
    (hs : get_selected_opponent game simulation
      (select_member game team.name (team.members.getD 0 default) st).2 = (.ok opponent1, st2)) :
    battle_loop game team simulation true (fuel + 1) 0 j loser opponent freed st =
      battle_rest game team simulation true MAX_HEALTH.toNat fuel 0 j loser
        (select_member game team.name (team.members.getD 0 default) st).1 opponent1 freed
        st2 := by
  rw [battle_loop, if_pos ⟨by decide, hj⟩]
  simp only
  rw [first_round, if_pos rfl, if_neg (by decide), hs]
  rfl

/-- The first round of the team that does not go first: its member is
selected and the first attack of the opposing team is awaited. -/
theorem battle_loop_first_wait (game : Game) (team : Team) (simulation : Bool)
    (fuel j : Nat) (loser : Bool) (opponent : Member) (freed : List Member)
    (st : BattleState) (hj : j < MAX_TEAM_PLAYERS) :
    battle_loop game team simulation false (fuel + 1) 0 j loser opponent freed st =
      battle_await game team simulation false MAX_HEALTH.toNat fuel 0 j loser
        (select_member game team.name (team.members.getD 0 default) st).1 opponent freed
        (select_member game team.name (team.members.getD 0 default) st).2 := by
  rw [battle_loop, if_pos ⟨by decide, hj⟩]
  simp only
  rw [first_round, if_pos rfl, if_pos rfl]
  unfold battle_await battle_rest
  rcases get_attacked game simulation
    (select_member game team.name (team.members.getD 0 default) st).1 opponent
    (select_member game team.name (team.members.getD 0 default) st).2 with ⟨_ | m1, st2⟩
  · rfl
  · rfl

/-- Function `battle` of the team that goes first, from the `while` loop of
its first member on. -/
theorem battle_go_first (game : Game) (team : Team) (simulation : Bool) (st : BattleState)
    {opponent1 : Member} {st2 st3 : BattleState} {res : Nat × Bool × List Member}
    (hs : get_selected_opponent game simulation
      (select_member game team.name (team.members.getD 0 default) st).2 = (.ok opponent1, st2))
    (hr : battle_rest game team simulation true MAX_HEALTH.toNat 3 0 0 false
      (select_member game team.name (team.members.getD 0 default) st).1 opponent1 [] st2 =
        (.ok res, st3)) :
    battle game team simulation true st =
      (.ok res, { st3 with
        narrative := (append_string st3.narrative
          ("Team ".toList ++ (if res.2.1 then st3.name else team.name) ++
            " was eliminated.\n".toList)) }) := by
  have hl : battle_loop game team simulation true MAX_TEAM_PLAYERS 0 0 false default [] st =
      (.ok res, st3) := by
    rw [← hr]
    exact battle_loop_first_go game team simulation 3 0 false default [] st (by decide) hs
  unfold battle
  simp only
  rw [if_neg (by decide)]
  simp only
  rw [hl]

/-- Function `battle` of the team that does not go first, from the first
attack that it awaits on. -/
theorem battle_go_second (game : Game) (team : Team) (simulation : Bool) (st : BattleState)
    {opponent : Member} {st1 st3 : BattleState} {res : Nat × Bool × List Member}
    (hs : get_selected_opponent game simulation st = (.ok opponent, st1))
    (hr : battle_await game team simulation false MAX_HEALTH.toNat 3 0 0 false
      (select_member game team.name (team.members.getD 0 default) st1).1 opponent []
      (select_member game team.name (team.members.getD 0 default) st1).2 = (.ok res, st3)) :
    battle game team simulation false st =
      (.ok res, { st3 with
        narrative := (append_string st3.narrative
          ("Team ".toList ++ (if res.2.1 then st3.name else team.name) ++
            " was eliminated.\n".toList)) }) := by
  have hl : battle_loop game team simulation false MAX_TEAM_PLAYERS 0 0 false opponent [] st1 =
      (.ok res, st3) := by
    rw [← hr]
    exact battle_loop_first_wait game team simulation 3 0 false opponent [] st1 (by decide)
  unfold battle
  simp only
  rw [if_pos trivial, hs]
  simp only
  rw [hl]

/-- On the line `iselectyou <name>` of a short name `get_selected_opponent`
does not read behind the NUL of the line and keeps its pointer. -/
theorem get_selected_opponent_buffer_eq (stale : List Char) (game : Game) (simulation : Bool)
    (st : BattleState) (x : List Char)
    (hl : (read_line st.read).1 = "iselectyou ".toList ++ x)
    (hfit : (get_token st.read '\n').length < BUFFER - 1) :
    get_selected_opponent_buffer stale game simulation st =
      get_selected_opponent game simulation st := by
  obtain ⟨memory, hmem⟩ := read_line_buffer_fits stale hfit
  obtain ⟨rest, hshape⟩ := read_line_buffer_shape hmem
  have hm := read_team_msg_iselectyou simulation st.read x hl
  have h11 : "iselectyou ".toList.length ≤ (read_line st.read).1.length := by
    rw [hl, List.length_append]
    omega
  unfold get_selected_opponent_buffer get_selected_opponent
  simp only
  rw [hmem]
  simp only
  rw [hm]
  simp only
  have hnn : ¬ (TeamMsgs.ISELECTYOU ≠ TeamMsgs.ISELECTYOU) := by simp
  rw [if_neg hnn, if_neg hnn, hshape, string_at_inside (read_line_no_nul _) rest h11, ← hl]

/-- The line that `select_member` writes for a member, as the other side
reads it. -/
theorem select_line_read {game : Game} (hclean : NamesClean game) (m : Member)
    (hm : m.agent < game.agents.length) (rest : List Char) :
    read_line (select_line game m ++ rest) =
        ("iselectyou ".toList ++ (game.agentAt m.agent).name, rest) ∧
      get_token (select_line game m ++ rest) '\n' =
        "iselectyou ".toList ++ (game.agentAt m.agent).name := by
  obtain ⟨hcn, hcz⟩ := hclean.2 _ (agentAt_mem hm)
  have e : select_line game m ++ rest =
      ("iselectyou ".toList ++ (game.agentAt m.agent).name) ++ '\n' :: rest := by
    simp [select_line]
  have hn : '\n' ∉ "iselectyou ".toList ++ (game.agentAt m.agent).name := by
    intro h
    rcases List.mem_append.mp h with h1 | h1
    · exact absurd h1 (by decide)
    · exact hcn h1
  have hz : '\x00' ∉ "iselectyou ".toList ++ (game.agentAt m.agent).name := by
    intro h
    rcases List.mem_append.mp h with h1 | h1
    · exact absurd h1 (by decide)
    · exact hcz h1
  rw [e]
  exact ⟨read_line_of_clean hn hz rest, get_token_append_sep hn rest⟩

/-- The line that `attack` writes for a member, as the other side reads it. -/
theorem attack_line_read {game : Game} (hclean : NamesClean game) (m : Member)
    (hm : MemberOK game m) (hc : m.nextAttack < m.attacks.length) (rest : List Char) :
    read_line (attack_line game m ++ rest) =
        ("attack ".toList ++ (game.agentAt m.agent).name ++ [' '] ++
          (game.attackAt (m.attacks.getD m.nextAttack 0)).name, rest) ∧
      get_token (attack_line game m ++ rest) '\n' =
        "attack ".toList ++ (game.agentAt m.agent).name ++ [' '] ++
          (game.attackAt (m.attacks.getD m.nextAttack 0)).name := by
  have hlt : m.attacks.getD m.nextAttack 0 < game.attacks.length :=
    (hm.2.2 _ (getD_mem_nat _ _ hc)).1
  obtain ⟨hcn, hcz⟩ := hclean.2 _ (agentAt_mem hm.1)
  obtain ⟨han, haz⟩ := hclean.1 _ (attackAt_mem hlt)
  have e : attack_line game m ++ rest =
      ("attack ".toList ++ (game.agentAt m.agent).name ++ [' '] ++
        (game.attackAt (m.attacks.getD m.nextAttack 0)).name) ++ '\n' :: rest := by
    simp [attack_line]
  have hn : '\n' ∉ "attack ".toList ++ (game.agentAt m.agent).name ++ [' '] ++
      (game.attackAt (m.attacks.getD m.nextAttack 0)).name := by
    intro h
    rcases List.mem_append.mp h with h1 | h1
    · rcases List.mem_append.mp h1 with h2 | h2
      · rcases List.mem_append.mp h2 with h3 | h3
        · exact absurd h3 (by decide)
        · exact hcn h3
      · exact absurd h2 (by decide)
    · exact han h1
  have hz : '\x00' ∉ "attack ".toList ++ (game.agentAt m.agent).name ++ [' '] ++
      (game.attackAt (m.attacks.getD m.nextAttack 0)).name := by
    intro h
    rcases List.mem_append.mp h with h1 | h1
    · rcases List.mem_append.mp h1 with h2 | h2
      · rcases List.mem_append.mp h2 with h3 | h3
        · exact absurd h3 (by decide)
        · exact hcz h3
      · exact absurd h2 (by decide)
    · exact haz h1
  rw [e]
  exact ⟨read_line_of_clean hn hz rest, get_token_append_sep hn rest⟩

/-- With short names, the lines that a battle writes are read without a read
behind the line and without the loss of the pointer of the buffer. -/
theorem battle_lines_buffer {game : Game} (hclean : NamesClean game) (hshort : ShortNames game)
    (stale : List Char) (simulation : Bool) (nm rest wr nar : List Char) :
    (∀ m : Member, m.agent < game.agents.length →
      get_selected_opponent_buffer stale game simulation
          ⟨nm, select_line game m ++ rest, wr, nar⟩ =
        get_selected_opponent game simulation ⟨nm, select_line game m ++ rest, wr, nar⟩) ∧
    (∀ att tgt : Member, MemberOK game att → att.nextAttack < att.attacks.length →
      get_attacked_buffer stale game simulation tgt ⟨att.agent, [], 0, att.health⟩
          ⟨nm, attack_line game att ++ rest, wr, nar⟩ =
        get_attacked game simulation tgt ⟨att.agent, [], 0, att.health⟩
          ⟨nm, attack_line game att ++ rest, wr, nar⟩) := by
  constructor
  · intro m hm
    obtain ⟨h1, h2⟩ := select_line_read hclean m hm rest
    apply get_selected_opponent_buffer_eq stale game simulation _ (game.agentAt m.agent).name
    · simp only
      rw [h1]
    · simp only
      rw [h2, List.length_append]
      exact (hshort _ (agentAt_mem hm)).1
  · intro att tgt hatt hc
    obtain ⟨h1, h2⟩ := attack_line_read hclean att hatt hc rest
    have hlt : att.attacks.getD att.nextAttack 0 < game.attacks.length :=
      (hatt.2.2 _ (getD_mem_nat _ _ hc)).1
    have e1 : "attack ".toList.length = 7 := rfl
    have e2 : "attack  ".toList.length = 8 := rfl
    apply get_attacked_buffer_eq
    · simp only
      rw [h1]
      simp
    · simp only
      rw [h2]
      have := (hshort _ (agentAt_mem hatt.1)).2 _ (attackAt_mem hlt)
      simp only [List.length_append, List.length_singleton]
      omega
    · right
      simp only
      rw [h1]
      simp only [List.length_append, List.length_singleton]
      omega

/-- Claim C37: two teams loaded over the same Definitions, whose names are
short enough for the messages of a battle, one running `battle` with
`goFirst = true` and the other with `goFirst = false`.  There are streams
`wx` and `wy` such that the first team, reading `wy`, writes `wx`, and the
second team, reading `wx`, writes `wy`; both run to the end of the battle
without a protocol error and read their stream to its end; their narratives
are the same, from the first line to the last, which names the losing team,
and exactly one side finds that the opposing team has lost.  Every line of
`wx` and `wy` has fewer than `BUFFER - 1` characters.  For every attack the
side that sends it and the side that reads it take the same damage off the
health of the attacked member.  On the lines that `select_member` and
`attack` write, `get_selected_opponent` and `get_attacked` keep the pointer
of their buffer and read nothing behind the line, whatever the buffer held
before. -/
theorem battle_two_sides (f : List Char) (hf : (read_sinister_file new_game f).1 = 0)
    (hshort : ShortNames (read_sinister_file new_game f).2.1)
    (fileX fileY : List Char) (X Y : Team)
    (hX : read_team_file (read_sinister_file new_game f).2.1 fileX = .ok X)
    (hY : read_team_file (read_sinister_file new_game f).2.1 fileY = .ok Y)
    (simX simY : Bool) :
    (∃ (wx wy pre : List Char) (rx ry : Nat × Bool × List Member),
      battle (read_sinister_file new_game f).2.1 X simX true ⟨Y.name, wy, [], []⟩ =
        (.ok rx, ⟨Y.name, [], wx, pre ++ replace_underscores ("Team ".toList ++
          (if rx.2.1 then Y.name else X.name) ++ " was eliminated.\n".toList)⟩) ∧
      battle (read_sinister_file new_game f).2.1 Y simY false ⟨X.name, wx, [], []⟩ =
        (.ok ry, ⟨X.name, [], wy, pre ++ replace_underscores ("Team ".toList ++
          (if rx.2.1 then Y.name else X.name) ++ " was eliminated.\n".toList)⟩) ∧
      rx.2.1 = !ry.2.1 ∧ ShortLines wx ∧ ShortLines wy) ∧
    (∀ (att tgt : Member) (simulation : Bool) (nm nm' rd wr nar rest wr' nar' : List Char),
      MemberOK (read_sinister_file new_game f).2.1 att →
      att.nextAttack < att.attacks.length →
      ∃ (e : Nat) (narr : List Char), (e = 1 ∨ e = 2 ∨ e = 3) ∧
        attack (read_sinister_file new_game f).2.1 att ⟨tgt.agent, [], 0, tgt.health⟩
            ⟨nm, rd, wr, nar⟩ =
          (.ok (⟨att.agent, att.attacks, (att.nextAttack + 1) % att.attacks.length, att.health⟩,
              ⟨tgt.agent, [], 0, tgt.health - e⟩),
            ⟨nm, rd, wr ++ attack_line (read_sinister_file new_game f).2.1 att, nar ++ narr⟩) ∧
        get_attacked (read_sinister_file new_game f).2.1 simulation tgt
            ⟨att.agent, [], 0, att.health⟩
            ⟨nm', attack_line (read_sinister_file new_game f).2.1 att ++ rest, wr', nar'⟩ =
          (.ok ⟨tgt.agent, tgt.attacks, tgt.nextAttack, tgt.health - e⟩,
            ⟨nm', rest, wr', nar' ++ narr⟩)) ∧
    (∀ (stale : List Char) (simulation : Bool) (nm rest wr nar : List Char),
      (∀ m : Member, m.agent < (read_sinister_file new_game f).2.1.agents.length →
        get_selected_opponent_buffer stale (read_sinister_file new_game f).2.1 simulation
            ⟨nm, select_line (read_sinister_file new_game f).2.1 m ++ rest, wr, nar⟩ =
          get_selected_opponent (read_sinister_file new_game f).2.1 simulation
            ⟨nm, select_line (read_sinister_file new_game f).2.1 m ++ rest, wr, nar⟩) ∧
      (∀ att tgt : Member, MemberOK (read_sinister_file new_game f).2.1 att →
        att.nextAttack < att.attacks.length →
        get_attacked_buffer stale (read_sinister_file new_game f).2.1 simulation tgt
            ⟨att.agent, [], 0, att.health⟩
            ⟨nm, attack_line (read_sinister_file new_game f).2.1 att ++ rest, wr, nar⟩ =
          get_attacked (read_sinister_file new_game f).2.1 simulation tgt
            ⟨att.agent, [], 0, att.health⟩
            ⟨nm, attack_line (read_sinister_file new_game f).2.1 att ++ rest, wr, nar⟩)) := by
  have hwf := (read_sinister_file_wf hf).1
  have hclean := read_sinister_file_clean hf
  generalize (read_sinister_file new_game f).2.1 = game at hshort hX hY hwf hclean ⊢
  obtain ⟨hXl, hXm⟩ := loaded_team_ok hwf hX
  obtain ⟨hYl, hYm⟩ := loaded_team_ok hwf hY
  have hx0 := hXm _ (members_getD_mem (i := 0) (by rw [hXl]; decide))
  have hy0 := hYm _ (members_getD_mem (i := 0) (by rw [hYl]; decide))
  refine ⟨?_, ?_, fun stale simulation nm rest wr nar =>
    battle_lines_buffer hclean hshort stale simulation nm rest wr nar⟩
  · obtain ⟨wA, wB, tail, rA, rB, h1, h2, h3, h4, h5⟩ :=
      duel game hwf hclean hshort 80 X Y simX simY true false
        MAX_HEALTH.toNat 3 0 (X.members.getD 0 default).agent (X.members.getD 0 default).attacks
        0 MAX_HEALTH [] ([] ++ select_line game (X.members.getD 0 default))
        ([] ++ replace_underscores (X.name ++ " chooses ".toList ++
            (game.agentAt (X.members.getD 0 default).agent).name ++ ['\n']) ++
          replace_underscores (Y.name ++ " chooses ".toList ++
            (game.agentAt (Y.members.getD 0 default).agent).name ++ ['\n']))
        MAX_HEALTH.toNat 3 0 (Y.members.getD 0 default).agent (Y.members.getD 0 default).attacks
        0 MAX_HEALTH [] ([] ++ select_line game (Y.members.getD 0 default))
        ([] ++ replace_underscores (X.name ++ " chooses ".toList ++
            (game.agentAt (X.members.getD 0 default).agent).name ++ ['\n']) ++
          replace_underscores (Y.name ++ " chooses ".toList ++
            (game.agentAt (Y.members.getD 0 default).agent).name ++ ['\n']))
        hXl hXm hYl hYm (by decide) (by decide) (by decide) (by decide)
        hx0 (List.length_pos.mpr hx0.2.1) (by decide) (by decide)
        hy0 (List.length_pos.mpr hy0.2.1) (by decide) (by decide) (by decide)
    refine ⟨[] ++ select_line game (X.members.getD 0 default) ++ wA,
      [] ++ select_line game (Y.members.getD 0 default) ++ wB,
      [] ++ replace_underscores (X.name ++ " chooses ".toList ++
            (game.agentAt (X.members.getD 0 default).agent).name ++ ['\n']) ++
          replace_underscores (Y.name ++ " chooses ".toList ++
            (game.agentAt (Y.members.getD 0 default).agent).name ++ ['\n']) ++ tail,
      rA, rB, ?_, ?_, h3, ?_, ?_⟩
    · have hs := get_selected_opponent_eval hwf hclean simX
        (select_member game X.name (X.members.getD 0 default)
          ⟨Y.name, [] ++ select_line game (Y.members.getD 0 default) ++ wB, [], []⟩).2
        hy0.1 wB (by rw [select_member_eval]; simp [select_line])
      rw [battle_go_first game X simX _ hs h1]
      rfl
    · have hs := get_selected_opponent_eval hwf hclean simY
        ⟨X.name, [] ++ select_line game (X.members.getD 0 default) ++ wA, [], []⟩
        hx0.1 wA (by simp [select_line])
      rw [battle_go_second game Y simY _ hs h2, h3]
      cases rB.2.1 <;> rfl
    · rw [List.nil_append]
      exact ShortLines_select hclean hshort _ hx0.1 h4
    · rw [List.nil_append]
      exact ShortLines_select hclean hshort _ hy0.1 h5
  · intro att tgt simulation nm nm' rd wr nar rest wr' nar' hatt hcur
    obtain ⟨e, narr, he, -, hatk, hget⟩ :=
      exchange_eval hwf hclean simulation att.agent att.attacks att.nextAttack att.health
        tgt.agent tgt.attacks tgt.nextAttack tgt.health hatt hcur
    exact ⟨e, narr, he, hatk nm rd wr nar, hget nm' rest wr' nar'⟩

/-- Claim C37, witness: the teams Alpha and Beta of the golden battle. -/
theorem battle_two_sides_witness :
    (read_sinister_file new_game goldenText).1 = 0 ∧ ShortNames goldenGame ∧
    read_team_file goldenGame alphaTeamText = .ok alphaTeam ∧
    read_team_file goldenGame betaTeamText = .ok betaTeam ∧
    ∃ (wx wy pre : List Char) (rx ry : Nat × Bool × List Member),
      battle goldenGame alphaTeam false true ⟨betaTeam.name, wy, [], []⟩ =
        (.ok rx, ⟨betaTeam.name, [], wx, pre ++ replace_underscores ("Team ".toList ++
          (if rx.2.1 then betaTeam.name else alphaTeam.name) ++
            " was eliminated.\n".toList)⟩) ∧
      battle goldenGame betaTeam false false ⟨alphaTeam.name, wx, [], []⟩ =
        (.ok ry, ⟨alphaTeam.name, [], wy, pre ++ replace_underscores ("Team ".toList ++
          (if rx.2.1 then betaTeam.name else alphaTeam.name) ++
            " was eliminated.\n".toList)⟩) ∧
      rx.2.1 = !ry.2.1 ∧ ShortLines wx ∧ ShortLines wy :=
  ⟨by decide, by unfold ShortNames; decide, rfl, rfl,
    (battle_two_sides goldenText (by decide) (by unfold ShortNames; decide) alphaTeamText
      betaTeamText alphaTeam betaTeam rfl rfl false false).1⟩

/-- The original claim C37 fails for long names: a rulebook whose agent has a
name of 68 characters is read with status 0 and a team of that agent is
loaded, but the line `iselectyou <name>` that the team writes first has 79
characters, so that `read_line` reallocs its own copy of the pointer and
`get_selected_opponent` of the other side goes on with a pointer that is no
longer valid. -/
theorem battle_long_name :
    (read_sinister_file_checked new_game longNameText).map (fun r => r.1) = some 0 ∧
    read_team_file_buffer (fun _ => List.replicate 80 '\x00')
        (read_sinister_file new_game longNameText).2.1 longNameTeamText =
      .ok ⟨"T".toList, [⟨0, [0], 0, 0⟩, ⟨0, [0], 0, 0⟩, ⟨0, [0], 0, 0⟩, ⟨0, [0], 0, 0⟩],
        0, ⟨3, 4⟩, ['N'], 0⟩ ∧
    select_line (read_sinister_file new_game longNameText).2.1 ⟨0, [0], 0, 10⟩ =
      "iselectyou ".toList ++ List.replicate 68 'x' ++ ['\n'] ∧
    ("iselectyou ".toList ++ List.replicate 68 'x').length = 79 ∧
    read_line_buffer (List.replicate 80 '\x00') BUFFER
      (select_line (read_sinister_file new_game longNameText).2.1 ⟨0, [0], 0, 10⟩) = none ∧
    (get_selected_opponent_buffer (List.replicate 80 '\x00')
      (read_sinister_file new_game longNameText).2.1 false
      ⟨"T".toList, select_line (read_sinister_file new_game longNameText).2.1 ⟨0, [0], 0, 10⟩,
        [], []⟩).1 = .error .undefined ∧
    ¬ ShortNames (read_sinister_file new_game longNameText).2.1 := by
  refine ⟨by decide, by decide, by decide, by decide, by decide, by decide, ?_⟩
  unfold ShortNames
  decide

end Sinister
